import Mathlib

/-!
# Linear Domination (PA2/linear_domination.cc)

A shallow embedding of the board game engine of `src/PA2/linear_domination.cc`
and theorems about it.

Numbers.  The C++ code computes with `double` (Eigen `Vector2d`) and with
`unsigned int` / `int`.  Here

* a `double` is a rational (`ℚ`).  Cell coordinates, cell centres, direction
  vectors and midpoints of moves are (quarter-)integers far below `2^53`, so
  the C++ doubles hold exactly these rationals.  The dot product of
  `IsPerpendicular` multiplies two direction components, integers of up to 32
  bits, and is computed as the C++ code computes it, in `double` arithmetic:
  each product and their sum are rounded to the nearest `double`, without a
  fused multiply-add (`roundDouble`: 53 significant bits, ties to even; the
  products are below `2^64`, so the exponent range of a `double` plays no
  part and is left unbounded).  The traversal values of `PlotLine`, which
  involve a square root, are taken exactly (see `TValue`);
* an `unsigned int` is a `Nat` below `2^32`, its arithmetic is written with an
  explicit `% 2^32`; the conversion to `int` is written out in `toInt32`;
* the cell vectors `tail_cell_` / `head_cell_` are `Vector2d`s that only ever
  hold values of `unsigned int` expressions, they are kept as pairs of `Nat`.

The input file of the constructor of `Game` is taken as the stream of the
outcomes of the extractions `input_file >> value` (`Game.ReadPlays`,
`Game.Load`): how a token is converted to an `unsigned int` is left to the
stream library.

Two functions of the other assignments are embedded under exact
arithmetic: `MatProductCustom` and `MatProductEigen` of
`src/PA1/part_two_b/part_two_b.cc`, where the conversion of a `double` to `int`
is written out in `doubleToInt`, and `SolveHomogeneousSystem` of
`src/PA3/Homogeneous_Solver/homogeneous_solver.hpp`.
-/

namespace LinearDomination

/-! ## Constants -/

/-- The barycentric coordinate of the midpoint of a parametric line. -/
def kBarycentricMidpoint : ℚ := 1 / 2
/-- The x coordinate of the midpoint of a cell relative to the cell. -/
def kCellMidpointX : ℚ := 1 / 2
/-- The y coordinate of the midpoint of a cell relative to the cell. -/
def kCellMidpointY : ℚ := 1 / 2
/-- The tolerance `0.0000000000001` of the comparisons in `PlotLine`. -/
def kFloatErrorTolerance : ℚ := 1 / 10000000000000
/-- The char of an empty cell. -/
def kEmptyCell : Char := '.'
/-- The char of a black cell. -/
def kBlackCell : Char := 'X'
/-- The char of a white cell. -/
def kWhiteCell : Char := 'O'

/-! ## Machine integers -/

/-- The number of values of an `unsigned int`. -/
def kUIntSize : Nat := 4294967296

/-- The difference `a - b` of two `unsigned int`s, computed modulo `2^32`. -/
def usub32 (a b : Nat) : Nat := (a % kUIntSize + kUIntSize - b % kUIntSize) % kUIntSize

/-- The conversion of an `unsigned int` to `int` (two's complement). -/
def toInt32 (v : Nat) : Int :=
  if v % kUIntSize < 2147483648 then ((v % kUIntSize : Nat) : Int)
  else ((v % kUIntSize : Nat) : Int) - 4294967296

/-- The sum `x + step` of an `unsigned int` and an `int`, as an `unsigned int`. -/
def uaddInt32 (x : Nat) (step : Int) : Nat := (((x : Int) + step) % 4294967296).toNat

/-! ## Doubles -/

/-- The loop behind `binaryLog`: `fuel` bounds the number of halvings. -/
def binaryLogLoop : Nat → Nat → Nat
  | 0, _ => 0
  | fuel + 1, n => if n < 2 then 0 else binaryLogLoop fuel (n / 2) + 1

/-- The position of the leading binary digit of `n`: for `n ≥ 1`, the `l` with
`2^l ≤ n < 2^(l+1)`. -/
def binaryLog (n : Nat) : Nat := binaryLogLoop n n

/-- The binary exponent of a positive rational `x`: the integer `e` with
`2^e ≤ x < 2^(e+1)`.  The difference `k` of the binary logarithms of the
numerator and the denominator is `e` or `e + 1`. -/
def binaryExponent (x : ℚ) : Int :=
  let k : Int := (binaryLog x.num.natAbs : Int) - (binaryLog x.den : Int)
  if (2 : ℚ) ^ k ≤ x then k else k - 1

/-- Rounding to the nearest integer; a tie goes to the even one. -/
def roundHalfEven (x : ℚ) : Int :=
  let f : Int := ⌊x⌋
  if x - f < 1 / 2 then f
  else if 1 / 2 < x - f then f + 1
  else if f % 2 = 0 then f else f + 1

/-- The `double` nearest to a positive rational `x`: with `2^e ≤ x < 2^(e+1)`
the doubles around `x` are the multiples of `2^(e-52)` (53 significant bits);
a tie goes to the even multiple. -/
def roundMagnitude (x : ℚ) : ℚ :=
  let ulp : ℚ := 2 ^ (binaryExponent x - 52)
  roundHalfEven (x / ulp) * ulp

/-- The `double` nearest to a rational (round to nearest, ties to even), the
result of a `double` operation whose exact result is `x`. -/
def roundDouble (x : ℚ) : ℚ :=
  if x = 0 then 0
  else if 0 < x then roundMagnitude x
  else - roundMagnitude (- x)

/-! ## ParametricLine -/

/-- A point or vector of two doubles (`Eigen::Vector2d`), components `(0)` and `(1)`. -/
abbrev Point := ℚ × ℚ

/-- The method `dot` of a `Vector2d`, `a(0) * b(0) + a(1) * b(1)` in `double`
arithmetic: each product is rounded, and so is their sum. -/
def dot (a b : Point) : ℚ :=
  roundDouble (roundDouble (a.1 * b.1) + roundDouble (a.2 * b.2))

/-- The fields of the class `ParametricLine`.  The field `vector_normalized_`
is `vector_ / ‖vector_‖`; its norm is a square root, so it is not stored: the
only place that reads it, `PlotLine`, is written in terms of `vector_`. -/
structure ParametricLine where
  /-- The vector from the tail point to the head point. -/
  vector_ : Point
  /-- The cell containing the tail point. -/
  tail_cell_ : Nat × Nat
  /-- The cell containing the head point. -/
  head_cell_ : Nat × Nat
  /-- The coordinates of the tail point. -/
  tail_point_ : Point
  /-- The coordinates of the head point. -/
  head_point_ : Point
  /-- The coordinates of the midpoint of the line. -/
  midpoint_ : Point
  deriving DecidableEq

namespace ParametricLine

/-- The method `BarycentricCombination`: `(1 - t) * tail_point_ + t * head_point_`. -/
def BarycentricCombination (tail_point_ head_point_ : Point) (t : ℚ) : Point :=
  ((1 - t) * tail_point_.1 + t * head_point_.1, (1 - t) * tail_point_.2 + t * head_point_.2)

/-- The constructor `ParametricLine(tail_cell_x, tail_cell_y, head_cell_x, head_cell_y)`.
The cells are computed in `unsigned int` (`head_cell_x - 1`), the points in
`double` (`head_cell_x - 1.0 + kCellMidpointX`). -/
def construct (tail_cell_x tail_cell_y head_cell_x head_cell_y : Nat) : ParametricLine :=
  let head_cell_ : Nat × Nat := (usub32 head_cell_x 1, usub32 head_cell_y 1)
  let tail_cell_ : Nat × Nat := (usub32 tail_cell_x 1, usub32 tail_cell_y 1)
  let head_point_ : Point :=
    ((head_cell_x : ℚ) - 1 + kCellMidpointX, (head_cell_y : ℚ) - 1 + kCellMidpointY)
  let tail_point_ : Point :=
    ((tail_cell_x : ℚ) - 1 + kCellMidpointX, (tail_cell_y : ℚ) - 1 + kCellMidpointY)
  let vector_ : Point := (head_point_.1 - tail_point_.1, head_point_.2 - tail_point_.2)
  { vector_ := vector_
    tail_cell_ := tail_cell_
    head_cell_ := head_cell_
    tail_point_ := tail_point_
    head_point_ := head_point_
    midpoint_ := BarycentricCombination tail_point_ head_point_ kBarycentricMidpoint }

/-- The method `IsPerpendicular`: `vector_.dot(line.GetVector()) == 0`. -/
def IsPerpendicular (self line : ParametricLine) : Bool :=
  decide (dot self.vector_ line.vector_ = 0)

end ParametricLine

/-! ## Board -/

/-- The ways a run of the program stops early.  `out_of_range` is the
`std::out_of_range` exception of `std::vector::at`, which nothing catches;
`bad_index` is an access `plays_[i]` past the end of the vector; `no_fuel`
is not an event of the program: it marks a loop of the embedding that was cut
off by its fuel before the loop of the program ended. -/
inductive Fault where
  | out_of_range
  | bad_index
  | no_fuel
  deriving DecidableEq, Repr

deriving instance DecidableEq for Except

/-- The class `Board`: the 2D array `grid_` of chars. -/
structure Board where
  /-- The rows of the board, in order. -/
  grid_ : List (List Char)
  deriving DecidableEq

namespace Board

/-- The default constructor `Board()`: an empty `grid_`. -/
def empty : Board := { grid_ := [] }

/-- The method `CreateGrid`: pushes `width` rows of `width` empty cells to
`grid_` (the two loop counters are `int`s compared with the `unsigned int`
width). -/
def CreateGrid (self : Board) (width : Nat) : Board :=
  { grid_ := (List.range width).foldl
      (fun grid _ => grid ++ [(List.range width).foldl (fun row _ => row ++ [kEmptyCell]) []])
      self.grid_ }

/-- The method `GetCell`: `grid_.at(row).at(col)`. -/
def GetCell (self : Board) (row col : Nat) : Except Fault Char :=
  match self.grid_[row]? with
  | none => .error .out_of_range
  | some r =>
    match r[col]? with
    | none => .error .out_of_range
    | some cell => .ok cell

/-- The method `SetCell`: `grid_.at(row).at(col) = color`. -/
def SetCell (self : Board) (color : Char) (row col : Nat) : Except Fault Board :=
  match self.grid_[row]? with
  | none => .error .out_of_range
  | some r =>
    if col < r.length then .ok { grid_ := self.grid_.set row (r.set col color) }
    else .error .out_of_range

/-- The method `CountColor`: the `unsigned int` counter `count` is incremented
for every cell equal to `color`, row by row. -/
def CountColor (self : Board) (color : Char) : Nat :=
  self.grid_.foldl
    (fun count row => row.foldl
      (fun count cell => if cell = color then (count + 1) % kUIntSize else count) count)
    0

end Board

/-! ## The traversal values of `PlotLine`

`PlotLine` reads `vector_normalized_ = vector_ / ‖vector_‖`.  Every double
it computes from it (`t_delta_x`, `t_delta_y`, `t_max_x`, `t_max_y`) is, under
exact arithmetic, a rational multiple of the norm `‖vector_‖`, or `+inf`
(from `1 / 0.0`).  `TValue.finite q` stands for the number `q * ‖vector_‖`. -/

/-- A traversal value: `finite q` is `q * ‖vector_‖`, `infinity` is `+inf`. -/
inductive TValue where
  | finite (q : ℚ)
  | infinity
  deriving DecidableEq

namespace TValue

/-- The value `abs(1 / line_vector_norm(k))` for the component `v = line_vector(k)`:
`1 / (v / ‖vector_‖) = (1 / v) * ‖vector_‖`, and `1 / 0.0 = +inf`; `abs` is the
absolute value of a double. -/
def absInvNormalized (v : ℚ) : TValue :=
  if v = 0 then infinity else finite |1 / v|

/-- The product `c * t` of a positive double constant and a traversal value. -/
def scale (c : ℚ) : TValue → TValue
  | finite q => finite (c * q)
  | infinity => infinity

/-- The sum of two traversal values. -/
def add : TValue → TValue → TValue
  | finite p, finite q => finite (p + q)
  | _, _ => infinity

/-- The test `a < b - kFloatErrorTolerance`, where `norm_sq` is `‖vector_‖²`.
For finite values it reads `p * ‖v‖ < q * ‖v‖ - tol`, that is
`0 < q - p` and `tol² < (q - p)² * ‖v‖²`. -/
def ltMinusTol (norm_sq : ℚ) : TValue → TValue → Bool
  | finite p, finite q =>
    decide (0 < q - p ∧ kFloatErrorTolerance ^ 2 < (q - p) ^ 2 * norm_sq)
  | finite _, infinity => true
  | infinity, _ => false

/-- The test `a > b + kFloatErrorTolerance`, where `norm_sq` is `‖vector_‖²`. -/
def gtPlusTol (norm_sq : ℚ) : TValue → TValue → Bool
  | finite p, finite q =>
    decide (0 < p - q ∧ kFloatErrorTolerance ^ 2 < (p - q) ^ 2 * norm_sq)
  | infinity, finite _ => true
  | _, infinity => false

end TValue

/-! ## PlotLine -/

/-- The loop variables of `PlotLine`: the current cell and the two accumulators. -/
structure PlotState where
  /-- The row of the current cell (`unsigned int x`). -/
  x : Nat
  /-- The column of the current cell (`unsigned int y`). -/
  y : Nat
  /-- The accumulator `t_max_x`. -/
  t_max_x : TValue
  /-- The accumulator `t_max_y`. -/
  t_max_y : TValue
  deriving DecidableEq

/-- The three branches of the body of the `do ... while` loop of `PlotLine`,
up to the call of `SetCell` that ends each of them. -/
def PlotLineStep (norm_sq : ℚ) (x_step y_step : Int) (t_delta_x t_delta_y : TValue)
    (s : PlotState) : PlotState :=
  if TValue.ltMinusTol norm_sq s.t_max_x s.t_max_y then
    { s with t_max_x := s.t_max_x.add t_delta_x, x := uaddInt32 s.x x_step }
  else if TValue.gtPlusTol norm_sq s.t_max_x s.t_max_y then
    { s with t_max_y := s.t_max_y.add t_delta_y, y := uaddInt32 s.y y_step }
  else
    { t_max_x := s.t_max_x.add t_delta_x
      t_max_y := s.t_max_y.add t_delta_y
      x := uaddInt32 s.x x_step
      y := uaddInt32 s.y y_step }

/-- The `do ... while` loop of `PlotLine`, run for at most `fuel` iterations.
Each iteration takes one branch, calls `SetCell` on the new current cell and
goes on while that cell is not the head cell.  The result is the board and,
in order, the cells passed to `SetCell`. -/
def PlotLineLoop (color : Char) (line_head_cell : Nat × Nat) (norm_sq : ℚ)
    (x_step y_step : Int) (t_delta_x t_delta_y : TValue) :
    Nat → Board → PlotState → Except Fault (Board × List (Nat × Nat))
  | 0, _, _ => .error .no_fuel
  | fuel + 1, board, s =>
    let s1 := PlotLineStep norm_sq x_step y_step t_delta_x t_delta_y s
    match board.SetCell color s1.x s1.y with
    | .error e => .error e
    | .ok board1 =>
      if line_head_cell.1 ≠ s1.x ∨ line_head_cell.2 ≠ s1.y then
        match PlotLineLoop color line_head_cell norm_sq x_step y_step t_delta_x t_delta_y
            fuel board1 s1 with
        | .error e => .error e
        | .ok (board2, cells) => .ok (board2, (s1.x, s1.y) :: cells)
      else .ok (board1, [(s1.x, s1.y)])

/-- The method `Board::PlotLine`, its loop run for at most `fuel` iterations.
The result is the board and, in order, the cells passed to `SetCell`. -/
def Board.PlotLine (fuel : Nat) (self : Board) (line : ParametricLine) (color : Char) :
    Except Fault (Board × List (Nat × Nat)) :=
  let line_tail_cell := line.tail_cell_
  let line_head_cell := line.head_cell_
  let line_vector := line.vector_
  match self.SetCell color line_tail_cell.1 line_tail_cell.2 with
  | .error e => .error e
  | .ok board =>
    if line_vector.1 ≠ 0 ∨ line_vector.2 ≠ 0 then
      let x := line_tail_cell.1
      let y := line_tail_cell.2
      let x_step : Int := if line_vector.1 > 0 then 1 else if line_vector.1 < 0 then -1 else 0
      let y_step : Int := if line_vector.2 > 0 then 1 else if line_vector.2 < 0 then -1 else 0
      let t_delta_x := TValue.absInvNormalized line_vector.1
      let t_delta_y := TValue.absInvNormalized line_vector.2
      let t_max_x := TValue.scale kCellMidpointX t_delta_x
      let t_max_y := TValue.scale kCellMidpointX t_delta_y
      let norm_sq := line_vector.1 ^ 2 + line_vector.2 ^ 2
      match PlotLineLoop color line_head_cell norm_sq x_step y_step t_delta_x t_delta_y
          fuel board { x := x, y := y, t_max_x := t_max_x, t_max_y := t_max_y } with
      | .error e => .error e
      | .ok (board1, cells) => .ok (board1, (line_tail_cell.1, line_tail_cell.2) :: cells)
    else .ok (board, [(line_tail_cell.1, line_tail_cell.2)])

/-! ## Game -/

/-- The class `Game`: the board, the list of plays and the number of previous
plays checked for validity (the output path plays no part in the moves). -/
structure Game where
  /-- The board of the game. -/
  board_ : Board
  /-- The list of plays. -/
  plays_ : List ParametricLine
  /-- The number of previous plays checked for validity (`unsigned int`). -/
  prev_plays_checked_ : Nat
  deriving DecidableEq

namespace Game

/-- The `for` loop of `IsPlayValid`: `n` is the number of iterations left,
`play_num - curr_play_num`. -/
def IsPlayValidLoop (plays_ : List ParametricLine) (play : ParametricLine) :
    Nat → Nat → Option Bool
  | 0, _ => some true
  | n + 1, curr_play_num =>
    match plays_[curr_play_num]? with
    | none => none
    | some curr_play =>
      let endpoints_not_empty :=
        decide (play.tail_cell_ = curr_play.tail_cell_) ||
        decide (play.head_cell_ = curr_play.head_cell_)
      let same_midpoints := decide (play.midpoint_ = curr_play.midpoint_)
      let plays_perpendicular := play.IsPerpendicular curr_play
      if endpoints_not_empty || same_midpoints || plays_perpendicular then some false
      else IsPlayValidLoop plays_ play n (curr_play_num + 1)

/-- The index of the first play checked: `int first_play_checked = play_num -
prev_plays_checked_` (an `unsigned int` difference converted to `int`),
clamped at 0. -/
def FirstPlayChecked (prev_plays_checked_ play_num : Nat) : Nat :=
  let first_play_checked : Int := toInt32 (usub32 play_num prev_plays_checked_)
  if first_play_checked < 0 then 0 else first_play_checked.toNat

/-- The method `IsPlayValid`.  `none` is an access past the end of `plays_`. -/
def IsPlayValid (self : Game) (play_num : Nat) : Option Bool :=
  if self.prev_plays_checked_ > 0 then
    match self.plays_[play_num]? with
    | none => none
    | some play =>
      let first_play_checked := FirstPlayChecked self.prev_plays_checked_ play_num
      IsPlayValidLoop self.plays_ play (play_num - first_play_checked) first_play_checked
  else some true

/-- The colour of the play `play_num` in `Play`. -/
def CurrColor (play_num : Nat) : Char :=
  if play_num % 2 = 0 then kBlackCell else kWhiteCell

/-- One iteration of the `for` loop of `Play` (the displays apart): the play
`play_num` is drawn in its colour if it is valid. -/
def PlayIteration (fuel : Nat) (self : Game) (play_num : Nat) : Except Fault Game :=
  let curr_color := CurrColor play_num
  match self.IsPlayValid play_num with
  | none => .error .bad_index
  | some true =>
    match self.plays_[play_num]? with
    | none => .error .bad_index
    | some play =>
      match self.board_.PlotLine fuel play curr_color with
      | .error e => .error e
      | .ok (board, _) => .ok { self with board_ := board }
  | some false => .ok self

/-- The `for` loop of `Play`: `n` is the number of iterations left,
`plays_.size() - play_num`. -/
def PlayLoop (fuel : Nat) : Nat → Game → Nat → Except Fault Game
  | 0, self, _ => .ok self
  | n + 1, self, play_num =>
    match PlayIteration fuel self play_num with
    | .error e => .error e
    | .ok self1 => PlayLoop fuel n self1 (play_num + 1)

/-- The method `Play` (the displays and the final write apart): the game after
all plays; every `PlotLine` loop is run for at most `fuel` iterations.  The
loop counter `play_num` of the program is an `int`. -/
def Play (fuel : Nat) (self : Game) : Except Fault Game :=
  PlayLoop fuel self.plays_.length self 0

end Game

/-! ## Notions used in the statements -/

/-- The conditions under which a play is rejected because of an earlier play:
the two plays have the same tail cell, or the same head cell, or identical
midpoints, or directions with zero dot product. -/
def Conflicts (play curr_play : ParametricLine) : Prop :=
  play.tail_cell_ = curr_play.tail_cell_ ∨ play.head_cell_ = curr_play.head_cell_ ∨
  play.midpoint_ = curr_play.midpoint_ ∨
  play.vector_.1 * curr_play.vector_.1 + play.vector_.2 * curr_play.vector_.2 = 0

instance (play curr_play : ParametricLine) : Decidable (Conflicts play curr_play) := by
  unfold Conflicts
  infer_instance

/-- The test of the loop of `IsPlayValid` on a play and an earlier play:
`endpoints_not_empty || same_midpoints || plays_perpendicular`. -/
def Rejects (play curr_play : ParametricLine) : Prop :=
  play.tail_cell_ = curr_play.tail_cell_ ∨ play.head_cell_ = curr_play.head_cell_ ∨
  play.midpoint_ = curr_play.midpoint_ ∨ play.IsPerpendicular curr_play = true

/-- The direction of a line has whole components of magnitude at most `2^26`:
the products of two such components are whole numbers of magnitude at most
`2^52`, which `double` arithmetic multiplies and adds without rounding. -/
def SmallDirection (line : ParametricLine) : Prop :=
  ∃ a b : Int, line.vector_ = ((a : ℚ), (b : ℚ)) ∧ |a| ≤ 67108864 ∧ |b| ≤ 67108864

/-! ## Games of the examples -/

/-- The game of the input file `3 2`, `1 1 1 2`, `1 1 134217730 134217729`,
`2 134217730 134217729 2`: width 3, two previous plays checked.  The
directions of the plays 1 and 2 are `(2^27 + 1, 2^27)` and
`(2^27 - 1, -2^27)`. -/
def gameLargeCoordinates : Game :=
  { board_ := Board.empty.CreateGrid 3
    plays_ := [ParametricLine.construct 1 1 1 2,
      ParametricLine.construct 1 1 134217730 134217729,
      ParametricLine.construct 2 134217730 134217729 2]
    prev_plays_checked_ := 2 }

/-- The game of width 3 that checks 5 previous plays, with the plays
`1 1 1 2`, `1 1 2 1` and `3 3 2 1`. -/
def gameThreePlays : Game :=
  { board_ := Board.empty.CreateGrid 3
    plays_ := [ParametricLine.construct 1 1 1 2, ParametricLine.construct 1 1 2 1,
      ParametricLine.construct 3 3 2 1]
    prev_plays_checked_ := 5 }

/-- A game of width 3 that checks no previous play, with the plays `1 1 1 2`,
`1 1 1 2` again and `1 1 2 1`. -/
def gameNoHistory : Game :=
  { board_ := Board.empty.CreateGrid 3
    plays_ := [ParametricLine.construct 1 1 1 2, ParametricLine.construct 1 1 1 2,
      ParametricLine.construct 1 1 2 1]
    prev_plays_checked_ := 0 }

/-- The game of width 3 that checks 5 previous plays, with the plays
`1 1 1 2` and `1 1 2 1`. -/
def gameTwoPlays : Game :=
  { board_ := Board.empty.CreateGrid 3
    plays_ := [ParametricLine.construct 1 1 1 2, ParametricLine.construct 1 1 2 1]
    prev_plays_checked_ := 5 }

/-- The game of width 3 that checks 5 previous plays, with the plays
`1 1 1 2`, `1 1 2 1` and `3 1 2 3`. -/
def gameSkippedTurn : Game :=
  { board_ := Board.empty.CreateGrid 3
    plays_ := [ParametricLine.construct 1 1 1 2, ParametricLine.construct 1 1 2 1,
      ParametricLine.construct 3 1 2 3]
    prev_plays_checked_ := 5 }

/-! ## Boards and moves of the statements -/

/-- A board of `N` rows of `N` cells. -/
def Board.IsSquare (N : Nat) (b : Board) : Prop :=
  b.grid_.length = N ∧ ∀ row ∈ b.grid_, row.length = N

/-! ## The traversal of `PlotLine` in step counts

For a line whose row extent is `A` and whose column extent is `B` (the absolute
values of the two components of `vector_`), after `i` row steps and `j` column
steps the accumulators of `PlotLine` are `t_max_x = (2 i + 1) / (2 A) * ‖v‖`
and `t_max_y = (2 j + 1) / (2 B) * ‖v‖` (`+inf` for an extent 0).  The
definitions below follow the loop in the pairs `(i, j)`; the lemmas
`PlotLineStep_at` and `PlotLineLoop_at` prove that the loop of `PlotLine`
does just that. -/

/-- One iteration of the traversal from the step counts `p = (i, j)`: a row
step when `t_max_x` is the smaller, a column step when `t_max_y` is the
smaller, both when they are equal. -/
def gridStep (A B : Nat) (p : Nat × Nat) : Nat × Nat :=
  if (2 * p.1 + 1) * B < (2 * p.2 + 1) * A then (p.1 + 1, p.2)
  else if (2 * p.2 + 1) * A < (2 * p.1 + 1) * B then (p.1, p.2 + 1)
  else (p.1 + 1, p.2 + 1)

/-- The step counts `p = (i, j)` of a cell that the segment passes through:
the parameter intervals `((2 i - 1) / (2 A), (2 i + 1) / (2 A))` and
`((2 j - 1) / (2 B), (2 j + 1) / (2 B))` overlap. -/
def OnSegment (A B : Nat) (p : Nat × Nat) : Prop :=
  p.1 ≤ A ∧ p.2 ≤ B ∧ 2 * p.1 * B < (2 * p.2 + 1) * A + B ∧
    2 * p.2 * A < (2 * p.1 + 1) * B + A

/-- The step counts visited after `p`, for at most `fuel` iterations, up to and
including `(A, B)`. -/
def gridWalk (A B : Nat) : Nat → Nat × Nat → List (Nat × Nat)
  | 0, _ => []
  | fuel + 1, p =>
    if gridStep A B p = (A, B) then [gridStep A B p]
    else gridStep A B p :: gridWalk A B fuel (gridStep A B p)

/-- The cell reached from the cell `(a0, b0)` after `p.1` steps of `sx` along
the rows and `p.2` steps of `sy` along the columns. -/
def cellAt (a0 b0 : Nat) (sx sy : Int) (p : Nat × Nat) : Nat × Nat :=
  (((a0 : Int) + sx * (p.1 : Int)).toNat, ((b0 : Int) + sy * (p.2 : Int)).toNat)

/-- The accumulator `t_max` of an axis of extent `A` after `i` steps along it. -/
def tmaxAt (A i : Nat) : TValue :=
  if A = 0 then TValue.infinity else TValue.finite ((2 * (i : ℚ) + 1) / (2 * (A : ℚ)))

/-- The increment `t_delta` of an axis of extent `A`. -/
def tdeltaAt (A : Nat) : TValue :=
  if A = 0 then TValue.infinity else TValue.finite (1 / (A : ℚ))

/-- The loop variables of `PlotLine` after `p.1` row steps and `p.2` column steps. -/
def plotStateAt (a0 b0 : Nat) (sx sy : Int) (A B : Nat) (p : Nat × Nat) : PlotState :=
  { x := (cellAt a0 b0 sx sy p).1
    y := (cellAt a0 b0 sx sy p).2
    t_max_x := tmaxAt A p.1
    t_max_y := tmaxAt B p.2 }

/-- The step `s` of an axis whose extent is `A`: the sign of the direction. -/
def StepOf (s : Int) (A : Nat) : Prop :=
  (s = 0 ∧ A = 0) ∨ (s = 1 ∧ 0 < A) ∨ (s = -1 ∧ 0 < A)

/-- The facts about a traversal that the lemmas on the loop of `PlotLine`
share: the board width `N`, the tail cell `(a0, b0)`, the steps and the
extents of the two axes; the tail and head cells are on the board. -/
structure Traversal (N a0 b0 : Nat) (sx sy : Int) (A B : Nat) : Prop where
  hN : N ≤ 4294967296
  hsx : StepOf sx A
  hsy : StepOf sy B
  hAB : A ≠ 0 ∨ B ≠ 0
  ha0 : a0 < N
  hb0 : b0 < N
  hx0 : 0 ≤ (a0 : Int) + sx * A
  hx1 : (a0 : Int) + sx * A < N
  hy0 : 0 ≤ (b0 : Int) + sy * B
  hy1 : (b0 : Int) + sy * B < N

/-- The extent of an axis of a line: the distance between the tail and the
head coordinate. -/
def lineExtent (t h : Nat) : Nat := ((h : Int) - (t : Int)).natAbs

/-- The step of an axis of a line: the sign of head minus tail. -/
def lineStep (t h : Nat) : Int := if t < h then 1 else if h < t then -1 else 0

/-- The traversal in step counts, from the tail: the pairs (row steps, column
steps) of the cells that `PlotLine` colours when the extents are `A` and `B`. -/
def gridPath (A B : Nat) : List (Nat × Nat) :=
  (0, 0) :: (if A = 0 ∧ B = 0 then [] else gridWalk A B (A + B) (0, 0))

/-- The cells of the traversal of the line with the 1-indexed tail
`(tail_cell_x, tail_cell_y)` and head `(head_cell_x, head_cell_y)`. -/
def lineCells (tail_cell_x tail_cell_y head_cell_x head_cell_y : Nat) : List (Nat × Nat) :=
  (gridPath (lineExtent tail_cell_x head_cell_x) (lineExtent tail_cell_y head_cell_y)).map
    (cellAt (tail_cell_x - 1) (tail_cell_y - 1) (lineStep tail_cell_x head_cell_x)
      (lineStep tail_cell_y head_cell_y))

/-- The hypotheses on a move of the theorems on `PlotLine`: the four input
coordinates are `unsigned int`s and the tail and head cells of the constructed
line are cells of a board of width `N`. -/
structure OnBoard (N tail_cell_x tail_cell_y head_cell_x head_cell_y : Nat) : Prop where
  tail_x_uint : tail_cell_x < 4294967296
  tail_y_uint : tail_cell_y < 4294967296
  head_x_uint : head_cell_x < 4294967296
  head_y_uint : head_cell_y < 4294967296
  tail_row : (ParametricLine.construct tail_cell_x tail_cell_y head_cell_x head_cell_y).tail_cell_.1 < N
  tail_col : (ParametricLine.construct tail_cell_x tail_cell_y head_cell_x head_cell_y).tail_cell_.2 < N
  head_row : (ParametricLine.construct tail_cell_x tail_cell_y head_cell_x head_cell_y).head_cell_.1 < N
  head_col : (ParametricLine.construct tail_cell_x tail_cell_y head_cell_x head_cell_y).head_cell_.2 < N

/-- The segment from the centre of the cell `tail` to the centre of the cell
`head` passes through the interior of the unit square of the cell `(r, c)`. -/
def CrossesInterior (tail head : Nat × Nat) (r c : Nat) : Prop :=
  ∃ t : ℝ, 0 ≤ t ∧ t ≤ 1 ∧
    (r : ℝ) < (1 - t) * ((tail.1 : ℝ) + 1 / 2) + t * ((head.1 : ℝ) + 1 / 2) ∧
    (1 - t) * ((tail.1 : ℝ) + 1 / 2) + t * ((head.1 : ℝ) + 1 / 2) < (r : ℝ) + 1 ∧
    (c : ℝ) < (1 - t) * ((tail.2 : ℝ) + 1 / 2) + t * ((head.2 : ℝ) + 1 / 2) ∧
    (1 - t) * ((tail.2 : ℝ) + 1 / 2) + t * ((head.2 : ℝ) + 1 / 2) < (c : ℝ) + 1

/-! ## The outcome of `Play` -/

/-- The cells that `PlotLine` passes to `SetCell` for `line` on the board, in
order: the rasterised path of the line (empty when `PlotLine` stops on a
fault). -/
def Board.PlotLineCells (fuel : Nat) (self : Board) (line : ParametricLine) :
    List (Nat × Nat) :=
  match self.PlotLine fuel line kBlackCell with
  | .ok (_, cells) => cells
  | .error _ => []

/-- The play `i` is, among the first `k` plays, the valid play of highest index
whose rasterised path contains the cell `(r, c)`. -/
def Game.LastValidPlayBefore (self : Game) (fuel k r c i : Nat) : Prop :=
  i < k ∧ ∃ play, self.IsPlayValid i = some true ∧ self.plays_[i]? = some play ∧
    (r, c) ∈ self.board_.PlotLineCells fuel play ∧
    ∀ j q, i < j → j < k → self.IsPlayValid j = some true → self.plays_[j]? = some q →
      (r, c) ∉ self.board_.PlotLineCells fuel q

/-- The play `i` is the valid play of highest index whose rasterised path
contains the cell `(r, c)`. -/
def Game.LastValidPlay (self : Game) (fuel r c i : Nat) : Prop :=
  ∃ play, self.IsPlayValid i = some true ∧ self.plays_[i]? = some play ∧
    (r, c) ∈ self.board_.PlotLineCells fuel play ∧
    ∀ j q, i < j → self.IsPlayValid j = some true → self.plays_[j]? = some q →
      (r, c) ∉ self.board_.PlotLineCells fuel q

/-- No valid play among the first `k` plays has the cell `(r, c)` on its
rasterised path. -/
def Game.NoValidPlayBefore (self : Game) (fuel k r c : Nat) : Prop :=
  ∀ i play, i < k → self.IsPlayValid i = some true → self.plays_[i]? = some play →
    (r, c) ∉ self.board_.PlotLineCells fuel play

/-- The state of the board after the first `k` plays of the game `self`: each
cell holds the colour of the last valid play before `k` that contains it, or
what it held at the start. -/
def Game.PlayInvariant (self : Game) (fuel N k : Nat) (board : Board) : Prop :=
  board.IsSquare N ∧ ∀ r c,
    (∃ i, self.LastValidPlayBefore fuel k r c i ∧ board.GetCell r c = .ok (Game.CurrColor i)) ∨
    (self.NoValidPlayBefore fuel k r c ∧ board.GetCell r c = self.board_.GetCell r c)

/-- Every valid play of the game is built by the constructor from four
`unsigned int`s and its tail and head cells lie on a board of width `N`. -/
def Game.ValidPlaysOnBoard (self : Game) (N : Nat) : Prop :=
  ∀ i play, self.plays_[i]? = some play → self.IsPlayValid i = some true →
    ∃ tx ty hx hy, play = ParametricLine.construct tx ty hx hy ∧ OnBoard N tx ty hx hy

/-- The game of width 3 that checks no previous play, with the play `1 1 1 3`. -/
def gameOneRow : Game :=
  { board_ := Board.empty.CreateGrid 3
    plays_ := [ParametricLine.construct 1 1 1 3]
    prev_plays_checked_ := 0 }

/-- The play number `k` of `wideGame`: the row `(k + 1) / 2` of a board of
width 65536, from its first to its last cell. -/
def rowPlay (k : Nat) : ParametricLine :=
  ParametricLine.construct ((k + 1) / 2 + 1) 1 ((k + 1) / 2 + 1) 65536

/-- The `2 * 65536 - 1` plays of `wideGame`: the row 0, then every further row
twice. -/
def widePlays : List ParametricLine := (List.range 131071).map rowPlay

/-- The all-Empty board of width 65536. -/
def wideBoard : Board := Board.empty.CreateGrid 65536

/-- A game of width 65536 that checks no previous play, with the plays
`widePlays`. -/
def wideGame : Game :=
  { board_ := wideBoard
    plays_ := widePlays
    prev_plays_checked_ := 0 }

/-- The method `SetCell` as a step on the object: the outcome of the call and
the board after it.  `grid_.at(row).at(col)` throws before the assignment
takes place, so the board after a call that throws is the board before it. -/
def Board.SetCellEffect (self : Board) (color : Char) (row col : Nat) :
    Except Fault Unit × Board :=
  match self.grid_[row]? with
  | none => (.error .out_of_range, self)
  | some r =>
    if col < r.length then (.ok (), { grid_ := self.grid_.set row (r.set col color) })
    else (.error .out_of_range, self)

/-- The constructor `Game(input_file_path, output_file_path)` once the
`unsigned int`s of the input file are extracted: the board width, the number
of previous plays checked and the four coordinates of each play, in the order
of the file. -/
def Game.construct (board_width prev_plays_checked : Nat)
    (plays : List (Nat × Nat × Nat × Nat)) : Game :=
  { board_ := Board.empty.CreateGrid board_width
    plays_ := plays.map (fun p => ParametricLine.construct p.1 p.2.1 p.2.2.1 p.2.2.2)
    prev_plays_checked_ := prev_plays_checked }

/-! ## The text written by `Write` -/

/-- The method `Write`: the text written to the file.  Every cell of a row is
written followed by a space, every row is followed by a newline, and the line
of the scores prints the two `unsigned int` counts in decimal. -/
def Board.Write (self : Board) : List Char :=
  let grid_text := self.grid_.foldl
    (fun out row => row.foldl (fun out cell => out ++ [cell, ' ']) out ++ ['\n']) []
  grid_text ++ "Player ".toList ++ [kBlackCell] ++ ": ".toList ++
    Nat.toDigits 10 (self.CountColor kBlackCell) ++ " cells; Player ".toList ++ [kWhiteCell] ++
    ": ".toList ++ Nat.toDigits 10 (self.CountColor kWhiteCell) ++ " cells\n".toList

/-- The line of a row in the text of `Write`, without its newline: each cell
of the row followed by one space. -/
def rowLine (row : List Char) : List Char := row.flatMap (fun cell => [cell, ' '])

/-- The line of the scores in the text of `Write`, without its newline, for
the counts `black` and `white` printed in decimal. -/
def scoreLine (black white : Nat) : List Char :=
  "Player X: ".toList ++ Nat.toDigits 10 black ++ " cells; Player O: ".toList ++
    Nat.toDigits 10 white ++ " cells".toList

/-- The board of width 65536 whose cells are all black. -/
def blackBoard : Board := { grid_ := List.replicate 65536 (List.replicate 65536 kBlackCell) }

/-! ## The matrix products of PA1 (`src/PA1/part_two_b/part_two_b.cc`) -/

/-- A matrix of doubles (`Eigen::MatrixXd`): the numbers `rows()` and `cols()`
and the coefficient `(row, col)`. -/
structure MatrixXd where
  /-- The number of rows. -/
  rows : Nat
  /-- The number of columns. -/
  cols : Nat
  /-- The coefficient at a row and a column. -/
  coeff : Nat → Nat → ℚ

/-- The conversion of a `double` to `int`: the value is truncated toward
zero.  The conversion is not defined when the truncated value is not a value
of `int`: `none`. -/
def doubleToInt (x : ℚ) : Option Int :=
  let truncated : Int := x.num.tdiv (x.den : Int)
  if -2147483648 ≤ truncated ∧ truncated ≤ 2147483647 then some truncated else none

/-- The inner loop of `MatProductCustom` for the entry `(row, col)`: the `int`
variable `element_sum` after `element_sum += input_1(row, inner_index) *
input_2(inner_index, col)` for every `inner_index`; each `+=` adds in `double`
and converts the sum back to `int`. -/
def MatProductCustom.element_sum (input_1 input_2 : MatrixXd) (row col : Nat) : Option Int :=
  (List.range input_1.cols).foldlM
    (fun (element_sum : Int) inner_index =>
      doubleToInt ((element_sum : ℚ) + input_1.coeff row inner_index *
        input_2.coeff inner_index col))
    0

/-- The function `MatProductCustom` (PA1, `part_two_b.cc`): the matrix of
`input_1.rows()` rows and `input_2.cols()` columns whose entry `(row, col)` is
the final `element_sum`; `none` when a conversion to `int` is not defined. -/
def MatProductCustom (input_1 input_2 : MatrixXd) : Option MatrixXd :=
  if (List.range input_1.rows).all (fun row => (List.range input_2.cols).all (fun col =>
      (MatProductCustom.element_sum input_1 input_2 row col).isSome)) then
    some { rows := input_1.rows
           cols := input_2.cols
           coeff := fun row col =>
             (((MatProductCustom.element_sum input_1 input_2 row col).getD 0 : Int) : ℚ) }
  else none

/-- The function `MatProductEigen` (PA1, `part_two_b.cc`): `input_1 * input_2`,
the matrix product of Eigen. -/
def MatProductEigen (input_1 input_2 : MatrixXd) : MatrixXd :=
  { rows := input_1.rows
    cols := input_2.cols
    coeff := fun row col =>
      ((List.range input_1.cols).map
        (fun inner_index => input_1.coeff row inner_index * input_2.coeff inner_index col)).sum }

/-- The 1 x 1 matrix of the entry `0.5`. -/
def matHalf : MatrixXd := { rows := 1, cols := 1, coeff := fun _ _ => 1 / 2 }

/-- The 1 x 1 matrix of the entry `1`. -/
def matOne : MatrixXd := { rows := 1, cols := 1, coeff := fun _ _ => 1 }

/-! ## The homogeneous solver of PA3 (`homogeneous_solver.hpp`, `float_compare.hpp`) -/

/-- The tolerance `0.00000000000001` of `float_compare.hpp` (PA3). -/
def kTolerance : ℚ := 1 / 100000000000000

/-- The function `EqualsWithinTolerance` on two doubles (PA3,
`float_compare.hpp`): the positive difference is less than `kTolerance`. -/
def EqualsWithinTolerance (num_1 num_2 : ℚ) : Bool :=
  let difference := if num_1 > num_2 then num_1 - num_2 else num_2 - num_1
  decide (difference < kTolerance)

/-- A 2 x 2 matrix of doubles (`Eigen::Matrix2d`); `mij` is `mat(i, j)`. -/
structure Matrix2d where
  /-- The coefficient `mat(0, 0)`. -/
  m00 : ℚ
  /-- The coefficient `mat(0, 1)`. -/
  m01 : ℚ
  /-- The coefficient `mat(1, 0)`. -/
  m10 : ℚ
  /-- The coefficient `mat(1, 1)`. -/
  m11 : ℚ
  deriving DecidableEq

/-- The method `determinant` of a 2 x 2 matrix. -/
def Matrix2d.determinant (mat : Matrix2d) : ℚ := mat.m00 * mat.m11 - mat.m01 * mat.m10

/-- The function `SolveHomogeneousSystem` (PA3, `homogeneous_solver.hpp`).
The value `none` is the return value `false`; `some w` is the return value
`true`, where `w` is the value of `solution` when `solution.normalize()` is
called.  The norm is a square root, so the division by it is left to the
statements: the solution returned is `w / ‖w‖`. -/
def SolveHomogeneousSystem (mat : Matrix2d) : Option (ℚ × ℚ) :=
  if !EqualsWithinTolerance mat.determinant 0 then none
  else
    some
      (if mat.m00 = 0 ∧ mat.m01 = 0 then
        if mat.m10 = 0 ∧ mat.m11 = 0 then (3 / 5, 4 / 5)
        else (-mat.m11, mat.m10)
      else (-mat.m01, mat.m00))

/-- The matrix of the rows `(1, 0)` and `(0, 10^-15)`: its determinant
`10^-15` is within the tolerance of 0 and is not 0. -/
def matNearSingular : Matrix2d := { m00 := 1, m01 := 0, m10 := 0, m11 := 1 / 1000000000000000 }

/-- The matrix of the rows `(1, 2)` and `(2, 4)`, of determinant 0. -/
def matSingular : Matrix2d := { m00 := 1, m01 := 2, m10 := 2, m11 := 4 }

/-! ## Further games of the examples -/

/-- A game of width 3 whose number of previous plays checked is `2^32 - 1`,
with the play `1 1 1 2` twice. -/
def gameHugeWindow : Game :=
  { board_ := Board.empty.CreateGrid 3
    plays_ := [ParametricLine.construct 1 1 1 2, ParametricLine.construct 1 1 1 2]
    prev_plays_checked_ := 4294967295 }

/-- The game of width 3 that checks 1 previous play, with the plays `1 1 1 2`,
the degenerate play `2 2 2 2` and the play `3 1 2 3`. -/
def gameDegenerate : Game :=
  { board_ := Board.empty.CreateGrid 3
    plays_ := [ParametricLine.construct 1 1 1 2, ParametricLine.construct 2 2 2 2,
      ParametricLine.construct 3 1 2 3]
    prev_plays_checked_ := 1 }

/-! ## The steps and the number of cells of a traversal -/

/-- The test `t_max_x = t_max_y` at the step counts `p = (i, j)`, for the
extents `A` and `B`: `(2 i + 1) / (2 A) = (2 j + 1) / (2 B)`. -/
def tieAt (A B : Nat) (p : Nat × Nat) : Bool := decide ((2 * p.1 + 1) * B = (2 * p.2 + 1) * A)

/-- The number of steps of a list of cells that change both the row and the
column: the pairs of consecutive cells that differ in both coordinates. -/
def bothAxesSteps : List (Nat × Nat) → Nat
  | a :: b :: rest => (if a.1 ≠ b.1 ∧ a.2 ≠ b.2 then 1 else 0) + bothAxesSteps (b :: rest)
  | _ => 0

/-- A step of the traversal from the cell `c` to the cell `n`, toward the cell
`head`: the two cells differ, the row and the column change by at most one,
and `n` is between `c` and `head` in the rows and in the columns (no step away
from the head). -/
def StepsToward (head c n : Nat × Nat) : Prop :=
  c ≠ n ∧ Nat.dist c.1 n.1 ≤ 1 ∧ Nat.dist c.2 n.2 ≤ 1 ∧
  Nat.dist c.1 head.1 = Nat.dist c.1 n.1 + Nat.dist n.1 head.1 ∧
  Nat.dist c.2 head.2 = Nat.dist c.2 n.2 + Nat.dist n.2 head.2

/-! ## The boards reached by a game -/

/-- The number of cells of a colour on a board, as a natural number (the
method `CountColor` counts in an `unsigned int`). -/
def Board.CellCount (self : Board) (color : Char) : Nat :=
  (self.grid_.map (List.count color)).sum

/-- The board `board1` is the board `board` with some of its cells set to
`'X'` or to `'O'`: the shape is kept, every cell holds its value on `board` or
one of the two colours, and there are no more empty cells than on `board`. -/
def Board.ColouredFrom (board board1 : Board) : Prop :=
  (∀ N, board.IsSquare N → board1.IsSquare N) ∧
  (∀ r c, board1.GetCell r c = board.GetCell r c ∨ board1.GetCell r c = .ok kBlackCell ∨
    board1.GetCell r c = .ok kWhiteCell) ∧
  board1.CellCount kEmptyCell ≤ board.CellCount kEmptyCell

/-! ## The input of the constructor of `Game` -/

/-- The loop `while (input_file >> tail_row >> tail_col >> head_row >> head_col)`
of the constructor of `Game`, on the stream of the outcomes of the extractions
that follow the first two integers: `some n` is an extraction that gives the
`unsigned int` `n`, `none` is an extraction that fails on a token that is not
an `unsigned int`, and the end of the list is the end of the file.  After a
failed extraction the stream stays failed, so the loop ends at the first group
of four extractions that do not all succeed. -/
def Game.ReadPlays : List (Option Nat) → List (Nat × Nat × Nat × Nat)
  | some tail_row :: some tail_col :: some head_row :: some head_col :: rest =>
    (tail_row, tail_col, head_row, head_col) :: Game.ReadPlays rest
  | _ => []

/-- The constructor of `Game` on an input file whose first two integers are
`board_width` and `prev_plays_checked` and whose remaining text is `lines`,
each line a list of tokens.  The extraction operator `>>` skips whitespace,
line breaks included, so the loop reads the concatenation of the lines. -/
def Game.Load (board_width prev_plays_checked : Nat) (lines : List (List (Option Nat))) :
    Game :=
  Game.construct board_width prev_plays_checked (Game.ReadPlays lines.flatten)

/-- The three lines `1 1 1 2`, `3 1 2 3` and `x` of an input file. -/
def inputTwoPlays : List (List (Option Nat)) :=
  [[some 1, some 1, some 1, some 2], [some 3, some 1, some 2, some 3], [none]]

/-! ## The loop variables of `PlotLine` -/

/-- One iteration of the loop of `PlotLine` for the line `line`: the step
`PlotLineStep` with the values that `PlotLine` computes from the line. -/
def PlotLineStepOf (line : ParametricLine) (s : PlotState) : PlotState :=
  let line_vector := line.vector_
  let x_step : Int := if line_vector.1 > 0 then 1 else if line_vector.1 < 0 then -1 else 0
  let y_step : Int := if line_vector.2 > 0 then 1 else if line_vector.2 < 0 then -1 else 0
  let t_delta_x := TValue.absInvNormalized line_vector.1
  let t_delta_y := TValue.absInvNormalized line_vector.2
  let norm_sq := line_vector.1 ^ 2 + line_vector.2 ^ 2
  PlotLineStep norm_sq x_step y_step t_delta_x t_delta_y s

/-- The loop variables of `PlotLine` for the line `line` after `k` iterations
of its loop: the values before the loop, then `k` steps. -/
def PlotLineStateAt (line : ParametricLine) : Nat → PlotState
  | 0 =>
    { x := line.tail_cell_.1
      y := line.tail_cell_.2
      t_max_x := TValue.scale kCellMidpointX (TValue.absInvNormalized line.vector_.1)
      t_max_y := TValue.scale kCellMidpointX (TValue.absInvNormalized line.vector_.2) }
  | k + 1 => PlotLineStepOf line (PlotLineStateAt line k)

/-- The exact comparison `a < b` of two traversal values: `p * ‖v‖ < q * ‖v‖`
is `p < q`, every finite value is less than `+inf`, and `+inf` is less than
nothing. -/
def TValue.Less : TValue → TValue → Prop
  | TValue.finite p, TValue.finite q => p < q
  | TValue.finite _, TValue.infinity => True
  | TValue.infinity, _ => False

/-! ## Validity of a play -/

/-! ### The dot product in doubles -/

theorem binaryLogLoop_spec : ∀ (fuel n : Nat), n ≤ fuel → n ≠ 0 →
    2 ^ binaryLogLoop fuel n ≤ n ∧ n < 2 ^ (binaryLogLoop fuel n + 1) := by
  intro fuel
  induction fuel with
  | zero => intro n h1 h2; omega
  | succ fuel ih =>
    intro n h1 h2
    unfold binaryLogLoop
    by_cases h : n < 2
    · rw [if_pos h]
      constructor
      · simp only [pow_zero]; omega
      · simp only [zero_add, pow_one]; exact h
    · rw [if_neg h]
      obtain ⟨ih1, ih2⟩ := ih (n / 2) (by omega) (by omega)
      constructor
      · rw [pow_succ]; omega
      · rw [pow_succ]; omega

theorem binaryLog_spec (n : Nat) (hn : n ≠ 0) : 2 ^ binaryLog n ≤ n ∧ n < 2 ^ (binaryLog n + 1) :=
  binaryLogLoop_spec n n (le_refl n) hn

theorem binaryExponent_le (x : ℚ) (hx : 0 < x) : (2 : ℚ) ^ binaryExponent x ≤ x := by
  unfold binaryExponent
  simp only []
  split_ifs with h
  · exact h
  · have hnum : 0 < x.num := Rat.num_pos.2 hx
    have hn0 : x.num.natAbs ≠ 0 := by omega
    have hd0 : x.den ≠ 0 := x.den_nz
    obtain ⟨h1, _⟩ := binaryLog_spec x.num.natAbs hn0
    obtain ⟨_, h2⟩ := binaryLog_spec x.den hd0
    have hx' : x = (x.num.natAbs : ℚ) / (x.den : ℚ) := by
      have : ((x.num.natAbs : Int) : ℚ) = (x.num : ℚ) := by
        rw [Int.natAbs_of_nonneg hnum.le]
      rw [← Int.cast_natCast, this]
      exact (Rat.num_div_den x).symm
    have e : (2 : ℚ) ^ ((binaryLog x.num.natAbs : Int) - (binaryLog x.den : Int) - 1) =
        (2 : ℚ) ^ (binaryLog x.num.natAbs) / (2 : ℚ) ^ (binaryLog x.den + 1) := by
      rw [show ((binaryLog x.num.natAbs : Int) - (binaryLog x.den : Int) - 1) =
        (binaryLog x.num.natAbs : Int) - ((binaryLog x.den + 1 : Nat) : Int) by push_cast; ring]
      rw [zpow_sub₀ (by norm_num : (2 : ℚ) ≠ 0), zpow_natCast, zpow_natCast]
    rw [e]
    conv_rhs => rw [hx']
    have hdpos : (0 : ℚ) < (x.den : ℚ) := by exact_mod_cast Nat.pos_of_ne_zero hd0
    have h1q : (2 : ℚ) ^ (binaryLog x.num.natAbs) ≤ (x.num.natAbs : ℚ) := by exact_mod_cast h1
    have h2q : (x.den : ℚ) ≤ (2 : ℚ) ^ (binaryLog x.den + 1) := by exact_mod_cast h2.le
    exact div_le_div₀ (by positivity) h1q hdpos h2q

theorem binaryExponent_gt (x : ℚ) (hx : 0 < x) : x < (2 : ℚ) ^ (binaryExponent x + 1) := by
  unfold binaryExponent
  simp only []
  split_ifs with h
  · have hnum : 0 < x.num := Rat.num_pos.2 hx
    have hn0 : x.num.natAbs ≠ 0 := by omega
    have hd0 : x.den ≠ 0 := x.den_nz
    obtain ⟨_, h1⟩ := binaryLog_spec x.num.natAbs hn0
    obtain ⟨h2, _⟩ := binaryLog_spec x.den hd0
    have hx' : x = (x.num.natAbs : ℚ) / (x.den : ℚ) := by
      have : ((x.num.natAbs : Int) : ℚ) = (x.num : ℚ) := by
        rw [Int.natAbs_of_nonneg hnum.le]
      rw [← Int.cast_natCast, this]
      exact (Rat.num_div_den x).symm
    have e : (2 : ℚ) ^ ((binaryLog x.num.natAbs : Int) - (binaryLog x.den : Int) + 1) =
        (2 : ℚ) ^ (binaryLog x.num.natAbs + 1) / (2 : ℚ) ^ (binaryLog x.den) := by
      rw [show ((binaryLog x.num.natAbs : Int) - (binaryLog x.den : Int) + 1) =
        ((binaryLog x.num.natAbs + 1 : Nat) : Int) - (binaryLog x.den : Int) by push_cast; ring]
      rw [zpow_sub₀ (by norm_num : (2 : ℚ) ≠ 0), zpow_natCast, zpow_natCast]
    rw [e]
    conv_lhs => rw [hx']
    have hdpos : (0 : ℚ) < (x.den : ℚ) := by exact_mod_cast Nat.pos_of_ne_zero hd0
    have h1q : (x.num.natAbs : ℚ) < (2 : ℚ) ^ (binaryLog x.num.natAbs + 1) := by
      exact_mod_cast h1
    have h2q : (2 : ℚ) ^ (binaryLog x.den) ≤ (x.den : ℚ) := by exact_mod_cast h2
    have hp : (0 : ℚ) < (2 : ℚ) ^ (binaryLog x.den) := by positivity
    rw [div_lt_div_iff₀ hdpos hp]
    calc (x.num.natAbs : ℚ) * 2 ^ binaryLog x.den ≤ (x.num.natAbs : ℚ) * x.den :=
          mul_le_mul_of_nonneg_left h2q (by positivity)
      _ < 2 ^ (binaryLog x.num.natAbs + 1) * x.den := mul_lt_mul_of_pos_right h1q hdpos
  · rw [sub_add_cancel]
    exact not_le.1 h

theorem roundHalfEven_error (x : ℚ) : |(roundHalfEven x : ℚ) - x| ≤ 1 / 2 := by
  unfold roundHalfEven
  simp only []
  have h1 := Int.floor_le x
  have h2 := Int.lt_floor_add_one x
  rw [abs_le]
  split_ifs with ha hb hc
  · constructor <;> linarith
  · push_cast
    constructor <;> linarith
  · constructor <;> linarith
  · push_cast
    constructor <;> linarith

/-- The `double` nearest to a positive rational is within half a unit in the
last place of it. -/
theorem roundMagnitude_error (x : ℚ) :
    |roundMagnitude x - x| ≤ 2 ^ (binaryExponent x - 52) / 2 := by
  unfold roundMagnitude
  simp only []
  have hu : (0 : ℚ) < 2 ^ (binaryExponent x - 52) := by positivity
  have h := roundHalfEven_error (x / 2 ^ (binaryExponent x - 52))
  have e : (roundHalfEven (x / 2 ^ (binaryExponent x - 52)) : ℚ) * 2 ^ (binaryExponent x - 52) - x =
      ((roundHalfEven (x / 2 ^ (binaryExponent x - 52)) : ℚ) - x / 2 ^ (binaryExponent x - 52)) *
        2 ^ (binaryExponent x - 52) := by
    field_simp
  rw [e, abs_mul, abs_of_pos hu]
  calc |(roundHalfEven (x / 2 ^ (binaryExponent x - 52)) : ℚ) - x / 2 ^ (binaryExponent x - 52)| *
        2 ^ (binaryExponent x - 52) ≤ 1 / 2 * 2 ^ (binaryExponent x - 52) :=
        mul_le_mul_of_nonneg_right h hu.le
    _ = 2 ^ (binaryExponent x - 52) / 2 := by ring

/-- Values of `roundDouble`: `2^53 + 1` is a tie and goes to the even
significand `2^53`, `2^53 + 3` goes to `2^53 + 4`, `2^54 - 1` goes to `2^54`,
a whole number below `2^53` is kept, and `1/10` gives the double `0.1`,
`3602879701896397 / 2^55`. -/
theorem roundDouble_values :
    roundDouble 9007199254740993 = 9007199254740992 ∧
    roundDouble 9007199254740995 = 9007199254740996 ∧
    roundDouble 18014398509481983 = 18014398509481984 ∧
    roundDouble (-18014398509481983) = -18014398509481984 ∧
    roundDouble 9007199254740991 = 9007199254740991 ∧
    roundDouble (1 / 10) = 3602879701896397 / 36028797018963968 ∧
    binaryExponent (1 / 10) = -4 ∧ binaryExponent 1 = 0 ∧ binaryExponent (3 / 2) = 0 ∧
    binaryExponent 2 = 1 ∧ binaryExponent 18014398509481983 = 53 := by
  decide!

theorem roundHalfEven_intCast (z : Int) : roundHalfEven (z : ℚ) = z := by
  unfold roundHalfEven
  simp only [Int.floor_intCast, sub_self]
  rw [if_pos (by norm_num)]

theorem roundHalfEven_floor_le (x : ℚ) : ⌊x⌋ ≤ roundHalfEven x := by
  unfold roundHalfEven
  simp only []
  split_ifs <;> omega

theorem roundMagnitude_pos (x : ℚ) (hx : 0 < x) : 0 < roundMagnitude x := by
  unfold roundMagnitude
  simp only []
  have hu : (0 : ℚ) < 2 ^ (binaryExponent x - 52) := by positivity
  apply mul_pos _ hu
  have hle := binaryExponent_le x hx
  have h1 : (1 : ℚ) ≤ x / 2 ^ (binaryExponent x - 52) := by
    rw [le_div_iff₀ hu, one_mul]
    refine le_trans ?_ hle
    exact zpow_le_zpow_right₀ (by norm_num) (by omega)
  have h2 : (1 : Int) ≤ ⌊x / 2 ^ (binaryExponent x - 52)⌋ := by
    rw [Int.le_floor]
    exact_mod_cast h1
  have h3 := roundHalfEven_floor_le (x / 2 ^ (binaryExponent x - 52))
  have : (0 : Int) < roundHalfEven (x / 2 ^ (binaryExponent x - 52)) := by omega
  exact_mod_cast this

theorem roundDouble_zero : roundDouble 0 = 0 := by
  unfold roundDouble
  rw [if_pos rfl]

theorem roundDouble_eq_zero_iff (x : ℚ) : roundDouble x = 0 ↔ x = 0 := by
  constructor
  · intro h
    by_contra hx
    unfold roundDouble at h
    rw [if_neg hx] at h
    by_cases hpos : 0 < x
    · rw [if_pos hpos] at h
      have := roundMagnitude_pos x hpos
      linarith
    · rw [if_neg hpos] at h
      have hneg : 0 < -x := by
        rcases lt_trichotomy x 0 with h1 | h1 | h1
        · linarith
        · exact absurd h1 hx
        · exact absurd h1 hpos
      have := roundMagnitude_pos (-x) hneg
      linarith
  · intro h
    rw [h]
    exact roundDouble_zero

theorem roundDouble_neg (x : ℚ) : roundDouble (-x) = - roundDouble x := by
  unfold roundDouble
  rcases lt_trichotomy x 0 with h | h | h
  · have h1 : ¬ x = 0 := ne_of_lt h
    have h2 : ¬ -x = 0 := by intro h'; apply h1; linarith
    have h3 : ¬ 0 < x := not_lt.2 h.le
    have h4 : 0 < -x := by linarith
    rw [if_neg h2, if_pos h4, if_neg h1, if_neg h3, neg_neg]
  · subst h
    simp
  · have h1 : ¬ x = 0 := ne_of_gt h
    have h2 : ¬ -x = 0 := by intro h'; apply h1; linarith
    have h3 : ¬ 0 < -x := by linarith
    rw [if_neg h2, if_neg h3, if_neg h1, if_pos h, neg_neg]

theorem roundMagnitude_natCast (n : Nat) (h0 : 0 < n) (hn : n < 9007199254740992) :
    roundMagnitude (n : ℚ) = n := by
  have hx : (0 : ℚ) < n := by exact_mod_cast h0
  have hle := binaryExponent_le (n : ℚ) hx
  have he : binaryExponent (n : ℚ) ≤ 52 := by
    by_contra hcon
    have h53 : (53 : Int) ≤ binaryExponent (n : ℚ) := by omega
    have : (2 : ℚ) ^ (53 : Int) ≤ n :=
      le_trans (zpow_le_zpow_right₀ (by norm_num) h53) hle
    have h' : ((9007199254740992 : Nat) : ℚ) ≤ n := by
      refine le_trans ?_ this
      norm_num
    have : 9007199254740992 ≤ n := by exact_mod_cast h'
    omega
  unfold roundMagnitude
  simp only []
  obtain ⟨m, hm⟩ : ∃ m : Nat, binaryExponent (n : ℚ) - 52 = - (m : Int) :=
    ⟨(52 - binaryExponent (n : ℚ)).toNat, by omega⟩
  rw [hm, zpow_neg, zpow_natCast]
  have hp : (0 : ℚ) < 2 ^ m := by positivity
  have e : (n : ℚ) / ((2 : ℚ) ^ m)⁻¹ = ((n * 2 ^ m : Nat) : Int) := by
    push_cast
    field_simp
  rw [e, roundHalfEven_intCast]
  push_cast
  field_simp

theorem roundDouble_natCast (n : Nat) (hn : n < 9007199254740992) :
    roundDouble (n : ℚ) = n := by
  rcases Nat.eq_zero_or_pos n with h | h
  · subst h
    simp [roundDouble_zero]
  · unfold roundDouble
    have hpos : (0 : ℚ) < (n : ℚ) := by exact_mod_cast h
    rw [if_neg (ne_of_gt hpos), if_pos hpos]
    exact roundMagnitude_natCast n h hn

theorem roundDouble_intCast (z : Int) (hz : |z| < 9007199254740992) :
    roundDouble (z : ℚ) = z := by
  rw [abs_lt] at hz
  obtain ⟨n, hn | hn⟩ := Int.eq_nat_or_neg z
  · subst hn
    rw [Int.cast_natCast]
    exact roundDouble_natCast n (by omega)
  · subst hn
    rw [Int.cast_neg, Int.cast_natCast, roundDouble_neg]
    rw [roundDouble_natCast n (by omega)]

theorem dot_eq_zero_of_exact (a b : Point) (h : a.1 * b.1 + a.2 * b.2 = 0) : dot a b = 0 := by
  unfold dot
  have e : a.1 * b.1 = -(a.2 * b.2) := by linarith
  rw [e, roundDouble_neg, neg_add_cancel, roundDouble_zero]

theorem roundDouble_product (a b : Int) (ha : |a| ≤ 67108864) (hb : |b| ≤ 67108864) :
    roundDouble ((a : ℚ) * (b : ℚ)) = (a : ℚ) * (b : ℚ) := by
  have h : |a * b| < 9007199254740992 := by
    rw [abs_mul]
    have := mul_le_mul ha hb (abs_nonneg b) (by norm_num : (0 : Int) ≤ 67108864)
    omega
  have e := roundDouble_intCast (a * b) h
  rw [Int.cast_mul] at e
  exact e

theorem dot_small (a1 a2 b1 b2 : Int) (h1 : |a1| ≤ 67108864) (h2 : |a2| ≤ 67108864)
    (h3 : |b1| ≤ 67108864) (h4 : |b2| ≤ 67108864) :
    dot ((a1 : ℚ), (a2 : ℚ)) ((b1 : ℚ), (b2 : ℚ)) = 0 ↔
      (a1 : ℚ) * (b1 : ℚ) + (a2 : ℚ) * (b2 : ℚ) = 0 := by
  unfold dot
  rw [roundDouble_eq_zero_iff]
  simp only []
  rw [roundDouble_product a1 b1 h1 h3, roundDouble_product a2 b2 h2 h4]

/-! ### The loop of `IsPlayValid` -/

theorem conflicts_rejects (play curr_play : ParametricLine) (h : Conflicts play curr_play) :
    Rejects play curr_play := by
  rcases h with h | h | h | h
  · exact Or.inl h
  · exact Or.inr (Or.inl h)
  · exact Or.inr (Or.inr (Or.inl h))
  · refine Or.inr (Or.inr (Or.inr ?_))
    unfold ParametricLine.IsPerpendicular
    exact decide_eq_true (dot_eq_zero_of_exact _ _ h)

theorem rejects_iff_conflicts (play curr_play : ParametricLine) (hp : SmallDirection play)
    (hq : SmallDirection curr_play) : Rejects play curr_play ↔ Conflicts play curr_play := by
  obtain ⟨a1, a2, ha, h1, h2⟩ := hp
  obtain ⟨b1, b2, hb, h3, h4⟩ := hq
  unfold Rejects Conflicts ParametricLine.IsPerpendicular
  rw [decide_eq_true_eq, ha, hb, dot_small a1 a2 b1 b2 h1 h2 h3 h4]

theorem conflict_test_iff (play curr_play : ParametricLine) :
    ((decide (play.tail_cell_ = curr_play.tail_cell_) ||
        decide (play.head_cell_ = curr_play.head_cell_) ||
        decide (play.midpoint_ = curr_play.midpoint_) ||
        play.IsPerpendicular curr_play) = true) ↔ Rejects play curr_play := by
  simp [Rejects, or_assoc]

theorem IsPlayValidLoop_spec (plays_ : List ParametricLine) (play : ParametricLine) :
    ∀ (n curr : Nat), curr + n ≤ plays_.length →
      ∃ b, Game.IsPlayValidLoop plays_ play n curr = some b ∧
        (b = false ↔ ∃ j q, curr ≤ j ∧ j < curr + n ∧ plays_[j]? = some q ∧
          Rejects play q) := by
  intro n
  induction n with
  | zero =>
    intro curr _
    refine ⟨true, rfl, ?_⟩
    constructor
    · intro h; cases h
    · rintro ⟨j, q, h1, h2, _⟩; omega
  | succ n ih =>
    intro curr hlen
    have hc : curr < plays_.length := by omega
    have hget : plays_[curr]? = some plays_[curr] := List.getElem?_eq_getElem hc
    by_cases hconf : Rejects play plays_[curr]
    · refine ⟨false, ?_, ?_⟩
      · have := (conflict_test_iff play plays_[curr]).2 hconf
        simp only [Game.IsPlayValidLoop, hget, this, if_true]
      · constructor
        · intro _
          exact ⟨curr, plays_[curr], le_refl _, by omega, hget, hconf⟩
        · intro _; rfl
    · obtain ⟨b, hb, hiff⟩ := ih (curr + 1) (by omega)
      refine ⟨b, ?_, ?_⟩
      · have hn : ¬ ((decide (play.tail_cell_ = plays_[curr].tail_cell_) ||
            decide (play.head_cell_ = plays_[curr].head_cell_) ||
            decide (play.midpoint_ = plays_[curr].midpoint_) ||
            play.IsPerpendicular plays_[curr]) = true) :=
          fun h => hconf ((conflict_test_iff play plays_[curr]).1 h)
        simp only [Game.IsPlayValidLoop, hget, hn, if_false]
        exact hb
      · rw [hiff]
        constructor
        · rintro ⟨j, q, h1, h2, h3, h4⟩
          exact ⟨j, q, by omega, by omega, h3, h4⟩
        · rintro ⟨j, q, h1, h2, h3, h4⟩
          have hne : j ≠ curr := by
            rintro rfl
            rw [hget] at h3
            cases h3
            exact hconf h4
          exact ⟨j, q, by omega, by omega, h3, h4⟩

theorem FirstPlayChecked_le (w i : Nat) (hw0 : 0 < w) (hw : w < 2147483648) :
    Game.FirstPlayChecked w i ≤ i - w := by
  unfold Game.FirstPlayChecked toInt32 usub32 kUIntSize
  simp only []
  split_ifs <;> omega

theorem FirstPlayChecked_eq (w i : Nat) (hw0 : 0 < w) (hw : w < 2147483648)
    (hi : i < 2147483648 + w) : Game.FirstPlayChecked w i = i - w := by
  unfold Game.FirstPlayChecked toInt32 usub32 kUIntSize
  simp only []
  split_ifs <;> omega

theorem IsPlayValid_eq_loop (g : Game) (i : Nat) (play : ParametricLine)
    (hw0 : 0 < g.prev_plays_checked_) (hpi : g.plays_[i]? = some play) :
    g.IsPlayValid i = Game.IsPlayValidLoop g.plays_ play
      (i - Game.FirstPlayChecked g.prev_plays_checked_ i)
      (Game.FirstPlayChecked g.prev_plays_checked_ i) := by
  unfold Game.IsPlayValid
  rw [if_pos hw0]
  simp only [hpi]

theorem IsPlayValid_false_of_conflict (g : Game) (i j : Nat) (play curr_play : ParametricLine)
    (hw0 : 0 < g.prev_plays_checked_) (hw : g.prev_plays_checked_ < 2147483648)
    (hji : j < i) (hwin : i - g.prev_plays_checked_ ≤ j)
    (hpi : g.plays_[i]? = some play) (hpj : g.plays_[j]? = some curr_play)
    (hc : Conflicts play curr_play) : g.IsPlayValid i = some false := by
  have hlen : i < g.plays_.length := by
    by_contra hcon
    rw [List.getElem?_eq_none (by omega)] at hpi
    cases hpi
  have hfirst := FirstPlayChecked_le g.prev_plays_checked_ i hw0 hw
  rw [IsPlayValid_eq_loop g i play hw0 hpi]
  obtain ⟨b, hb, hiff⟩ := IsPlayValidLoop_spec g.plays_ play
    (i - Game.FirstPlayChecked g.prev_plays_checked_ i)
    (Game.FirstPlayChecked g.prev_plays_checked_ i) (by omega)
  have : b = false :=
    hiff.2 ⟨j, curr_play, by omega, by omega, hpj, conflicts_rejects play curr_play hc⟩
  rw [hb, this]

/-- For every move list, every history window `w` with `0 < w < 2^31` and
every index `i` of the list with `i < 2^31 + w` (every index that fits the
`int` counter of `Play` is such an index), `IsPlayValid(i)` returns false if
and only if the test of its loop holds of the move `i` and some move `j` with
`max(0, i - w) ≤ j < i`; otherwise it returns true. -/
theorem IsPlayValid_false_iff_rejected_in_window (g : Game) (i : Nat)
    (hw0 : 0 < g.prev_plays_checked_) (hw : g.prev_plays_checked_ < 2147483648)
    (hi : i < g.plays_.length) (hrange : i < 2147483648 + g.prev_plays_checked_) :
    (g.IsPlayValid i = some false ↔
      ∃ (j : Nat) (play curr_play : ParametricLine), max 0 ((i : Int) - g.prev_plays_checked_) ≤ (j : Int) ∧ j < i ∧
        g.plays_[i]? = some play ∧ g.plays_[j]? = some curr_play ∧
        Rejects play curr_play) ∧
    (g.IsPlayValid i = some true ↔
      ¬ ∃ (j : Nat) (play curr_play : ParametricLine), max 0 ((i : Int) - g.prev_plays_checked_) ≤ (j : Int) ∧ j < i ∧
        g.plays_[i]? = some play ∧ g.plays_[j]? = some curr_play ∧
        Rejects play curr_play) := by
  have hpi : g.plays_[i]? = some g.plays_[i] := List.getElem?_eq_getElem hi
  have hfirst := FirstPlayChecked_eq g.prev_plays_checked_ i hw0 hw hrange
  obtain ⟨b, hb, hiff⟩ := IsPlayValidLoop_spec g.plays_ g.plays_[i]
    (i - Game.FirstPlayChecked g.prev_plays_checked_ i)
    (Game.FirstPlayChecked g.prev_plays_checked_ i) (by omega)
  rw [← IsPlayValid_eq_loop g i g.plays_[i] hw0 hpi] at hb
  have hkey : b = false ↔
      ∃ (j : Nat) (play curr_play : ParametricLine), max 0 ((i : Int) - g.prev_plays_checked_) ≤ (j : Int) ∧ j < i ∧
        g.plays_[i]? = some play ∧ g.plays_[j]? = some curr_play ∧
        Rejects play curr_play := by
    rw [hiff]
    constructor
    · rintro ⟨j, q, h1, h2, h3, h4⟩
      refine ⟨j, g.plays_[i], q, ?_, by omega, hpi, h3, h4⟩
      rw [max_le_iff]
      constructor <;> omega
    · rintro ⟨j, play, q, h1, h2, h3, h4, h5⟩
      rw [max_le_iff] at h1
      rw [hpi] at h3
      cases h3
      exact ⟨j, q, by omega, by omega, h4, h5⟩
  rw [hb, ← hkey]
  cases b <;> simp

/-- The statement of C1 where the dot product is exact in doubles.  For every
move list whose directions have whole components of magnitude at most `2^26`,
every history window `w` with `0 < w < 2^31` and every index `i` of the list
with `i < 2^31 + w`, `IsPlayValid(i)` returns false if and only if some `j`
with `max(0, i - w) ≤ j < i` is such that the moves `i` and `j` have the same
tail cell, or the same head cell, or identical midpoints, or directions with
zero dot product; otherwise it returns true. -/
theorem IsPlayValid_false_iff_conflict_in_window (g : Game) (i : Nat)
    (hw0 : 0 < g.prev_plays_checked_) (hw : g.prev_plays_checked_ < 2147483648)
    (hi : i < g.plays_.length) (hrange : i < 2147483648 + g.prev_plays_checked_)
    (hsmall : ∀ play ∈ g.plays_, SmallDirection play) :
    (g.IsPlayValid i = some false ↔
      ∃ (j : Nat) (play curr_play : ParametricLine), max 0 ((i : Int) - g.prev_plays_checked_) ≤ (j : Int) ∧ j < i ∧
        g.plays_[i]? = some play ∧ g.plays_[j]? = some curr_play ∧
        Conflicts play curr_play) ∧
    (g.IsPlayValid i = some true ↔
      ¬ ∃ (j : Nat) (play curr_play : ParametricLine), max 0 ((i : Int) - g.prev_plays_checked_) ≤ (j : Int) ∧ j < i ∧
        g.plays_[i]? = some play ∧ g.plays_[j]? = some curr_play ∧
        Conflicts play curr_play) := by
  have hsame : (∃ (j : Nat) (play curr_play : ParametricLine),
        max 0 ((i : Int) - g.prev_plays_checked_) ≤ (j : Int) ∧ j < i ∧
        g.plays_[i]? = some play ∧ g.plays_[j]? = some curr_play ∧
        Rejects play curr_play) ↔
      ∃ (j : Nat) (play curr_play : ParametricLine),
        max 0 ((i : Int) - g.prev_plays_checked_) ≤ (j : Int) ∧ j < i ∧
        g.plays_[i]? = some play ∧ g.plays_[j]? = some curr_play ∧
        Conflicts play curr_play := by
    constructor
    · rintro ⟨j, play, curr_play, h1, h2, h3, h4, h5⟩
      exact ⟨j, play, curr_play, h1, h2, h3, h4,
        (rejects_iff_conflicts play curr_play (hsmall play (List.mem_iff_getElem?.2 ⟨i, h3⟩))
          (hsmall curr_play (List.mem_iff_getElem?.2 ⟨j, h4⟩))).1 h5⟩
    · rintro ⟨j, play, curr_play, h1, h2, h3, h4, h5⟩
      exact ⟨j, play, curr_play, h1, h2, h3, h4, conflicts_rejects play curr_play h5⟩
  rw [← hsame]
  exact IsPlayValid_false_iff_rejected_in_window g i hw0 hw hi hrange

theorem construct_smallDirection (tx ty hx hy : Nat) (htx : tx ≤ 67108864)
    (hty : ty ≤ 67108864) (hhx : hx ≤ 67108864) (hhy : hy ≤ 67108864) :
    SmallDirection (ParametricLine.construct tx ty hx hy) := by
  refine ⟨(hx : Int) - (tx : Int), (hy : Int) - (ty : Int), ?_, ?_, ?_⟩
  · unfold ParametricLine.construct
    simp only [Int.cast_sub, Int.cast_natCast]
    ext <;> simp only [] <;> ring
  · rw [abs_le]
    constructor <;> omega
  · rw [abs_le]
    constructor <;> omega

/-- C1.  The input file `3 2`, `1 1 1 2`, `1 1 134217730 134217729`,
`2 134217730 134217729 2` gives `gameLargeCoordinates`, with the window 2.
The move 2 shares no tail cell, head cell or midpoint with the moves 0 and 1
and its direction has a non-zero dot product with both (`-1` with the move
1), yet `IsPlayValid(2)` returns false: the products `2^54 - 1` and `-2^54` of
`IsPerpendicular` are rounded to the doubles `2^54` and `-2^54`, whose sum is
0.  `Play` runs to its end on this input and draws the move 0 only. -/
theorem IsPlayValid_rounded_dot_product :
    0 < gameLargeCoordinates.prev_plays_checked_ ∧
    gameLargeCoordinates.prev_plays_checked_ < 2147483648 ∧
    2 < gameLargeCoordinates.plays_.length ∧
    gameLargeCoordinates.IsPlayValid 2 = some false ∧
    (¬ ∃ (j : Nat) (play curr_play : ParametricLine),
        max 0 (((2 : Nat) : Int) - gameLargeCoordinates.prev_plays_checked_) ≤ (j : Int) ∧
        j < 2 ∧
        gameLargeCoordinates.plays_[2]? = some play ∧
        gameLargeCoordinates.plays_[j]? = some curr_play ∧
        Conflicts play curr_play) ∧
    (ParametricLine.construct 2 134217730 134217729 2).vector_ = (134217727, -134217728) ∧
    (ParametricLine.construct 1 1 134217730 134217729).vector_ = (134217729, 134217728) ∧
    (134217727 : ℚ) * 134217729 + (-134217728) * 134217728 = -1 ∧
    roundDouble ((134217727 : ℚ) * 134217729) = 18014398509481984 ∧
    roundDouble ((-134217728 : ℚ) * 134217728) = -18014398509481984 ∧
    dot (134217727, -134217728) (134217729, 134217728) = 0 ∧
    Game.Play 6 gameLargeCoordinates =
      .ok { gameLargeCoordinates with
        board_ := { grid_ := [['X', 'X', '.'], ['.', '.', '.'], ['.', '.', '.']] } } := by
  refine ⟨by decide, by decide, by decide, by decide!, ?_, by decide!, by decide!, by norm_num,
    by decide!, by decide!, by decide!, by decide!⟩
  rintro ⟨j, play, curr_play, _, h2, h3, h4, h5⟩
  have h3' : play = ParametricLine.construct 2 134217730 134217729 2 :=
    (Option.some.inj h3).symm
  subst h3'
  interval_cases j
  · have h4' : curr_play = ParametricLine.construct 1 1 1 2 := (Option.some.inj h4).symm
    subst h4'
    revert h5
    decide!
  · have h4' : curr_play = ParametricLine.construct 1 1 134217730 134217729 :=
      (Option.some.inj h4).symm
    subst h4'
    revert h5
    decide!

/-- C8.  For every history window `w` with `0 < w < 2^31` and every pair of
indices `j < i` with `j ≥ i - w`: if the moves `i` and `j` have equal tail
cells or equal head cells then `IsPlayValid(i)` is false. -/
theorem IsPlayValid_false_of_shared_endpoint (g : Game) (i j : Nat)
    (play curr_play : ParametricLine)
    (hw0 : 0 < g.prev_plays_checked_) (hw : g.prev_plays_checked_ < 2147483648)
    (hji : j < i) (hwin : (i : Int) - g.prev_plays_checked_ ≤ (j : Int))
    (hpi : g.plays_[i]? = some play) (hpj : g.plays_[j]? = some curr_play)
    (hcell : play.tail_cell_ = curr_play.tail_cell_ ∨ play.head_cell_ = curr_play.head_cell_) :
    g.IsPlayValid i = some false := by
  apply IsPlayValid_false_of_conflict g i j play curr_play hw0 hw hji (by omega) hpi hpj
  rcases hcell with h | h
  · exact Or.inl h
  · exact Or.inr (Or.inl h)

/-- C9.  For every history window `w` with `0 < w < 2^31` and every pair of
indices `j < i` with `j ≥ i - w`: if the move `i` has a non-zero direction
whose dot product with the direction of the move `j` is zero then
`IsPlayValid(i)` is false. -/
theorem IsPlayValid_false_of_perpendicular (g : Game) (i j : Nat)
    (play curr_play : ParametricLine)
    (hw0 : 0 < g.prev_plays_checked_) (hw : g.prev_plays_checked_ < 2147483648)
    (hji : j < i) (hwin : (i : Int) - g.prev_plays_checked_ ≤ (j : Int))
    (hpi : g.plays_[i]? = some play) (hpj : g.plays_[j]? = some curr_play)
    (_hdir : play.vector_ ≠ (0, 0))
    (hdot : play.vector_.1 * curr_play.vector_.1 + play.vector_.2 * curr_play.vector_.2 = 0) :
    g.IsPlayValid i = some false :=
  IsPlayValid_false_of_conflict g i j play curr_play hw0 hw hji (by omega) hpi hpj
    (Or.inr (Or.inr (Or.inr hdot)))

/-- C10.  When the history window is 0, `IsPlayValid(i)` returns true for
every move list and every index `i`, whatever the earlier moves are. -/
theorem IsPlayValid_true_of_no_history (g : Game) (i : Nat)
    (hw : g.prev_plays_checked_ = 0) : g.IsPlayValid i = some true := by
  unfold Game.IsPlayValid
  rw [hw]
  rfl

/-- C6.  The validity of a move is a function of the move list, the index
and the history window only: two games with the same plays and the same
window, whatever their boards, give every index the same validity; and a move
`j` of the window that is itself rejected still invalidates a move `i` that
conflicts with it. -/
theorem IsPlayValid_depends_only_on_plays (g1 g2 : Game)
    (hplays : g1.plays_ = g2.plays_)
    (hwindow : g1.prev_plays_checked_ = g2.prev_plays_checked_) :
    (∀ i, g1.IsPlayValid i = g2.IsPlayValid i) ∧
    (∀ (i j : Nat) (play curr_play : ParametricLine), 0 < g1.prev_plays_checked_ →
      g1.prev_plays_checked_ < 2147483648 → j < i →
      (i : Int) - g1.prev_plays_checked_ ≤ (j : Int) →
      g1.plays_[i]? = some play → g1.plays_[j]? = some curr_play →
      g1.IsPlayValid j = some false → Conflicts play curr_play →
      g2.IsPlayValid i = some false) := by
  have hsame : ∀ i, g1.IsPlayValid i = g2.IsPlayValid i := by
    intro i
    unfold Game.IsPlayValid
    rw [hplays, hwindow]
  refine ⟨hsame, ?_⟩
  intro i j play curr_play hw0 hw hji hwin hpi hpj _ hc
  rw [← hsame i]
  exact IsPlayValid_false_of_conflict g1 i j play curr_play hw0 hw hji (by omega) hpi hpj hc

/-- The statement of C1 at the game of width 3 with window 5 and the plays
`1 1 1 2`, `1 1 2 1`, `3 3 2 1`, for the index 2. -/
theorem IsPlayValid_false_iff_conflict_in_window_witness :
    (0 < gameThreePlays.prev_plays_checked_ ∧
      gameThreePlays.prev_plays_checked_ < 2147483648 ∧
      2 < gameThreePlays.plays_.length ∧
      2 < 2147483648 + gameThreePlays.prev_plays_checked_ ∧
      ∀ play ∈ gameThreePlays.plays_, SmallDirection play) ∧
    gameThreePlays.IsPlayValid 2 = some false ∧
    ((gameThreePlays.IsPlayValid 2 = some false ↔
      ∃ (j : Nat) (play curr_play : ParametricLine),
        max 0 (((2 : Nat) : Int) - gameThreePlays.prev_plays_checked_) ≤ (j : Int) ∧ j < 2 ∧
        gameThreePlays.plays_[2]? = some play ∧ gameThreePlays.plays_[j]? = some curr_play ∧
        Conflicts play curr_play) ∧
    (gameThreePlays.IsPlayValid 2 = some true ↔
      ¬ ∃ (j : Nat) (play curr_play : ParametricLine),
        max 0 (((2 : Nat) : Int) - gameThreePlays.prev_plays_checked_) ≤ (j : Int) ∧ j < 2 ∧
        gameThreePlays.plays_[2]? = some play ∧ gameThreePlays.plays_[j]? = some curr_play ∧
        Conflicts play curr_play)) :=
  have hsmall : ∀ play ∈ gameThreePlays.plays_, SmallDirection play := by
    intro play hplay
    simp only [gameThreePlays, List.mem_cons, List.mem_singleton, List.not_mem_nil,
      or_false] at hplay
    rcases hplay with h | h | h <;> rw [h] <;>
      exact construct_smallDirection _ _ _ _ (by decide) (by decide) (by decide) (by decide)
  ⟨⟨by decide, by decide, by decide, by decide, hsmall⟩, by decide!,
    IsPlayValid_false_iff_conflict_in_window gameThreePlays 2 (by decide) (by decide)
      (by decide) (by decide) hsmall⟩

/-- C8, at the game of width 3 with window 5 and the plays `1 1 1 2`,
`1 1 2 1`: the moves 1 and 0 have the same tail cell. -/
theorem IsPlayValid_false_of_shared_endpoint_witness :
    (ParametricLine.construct 1 1 2 1).tail_cell_ =
      (ParametricLine.construct 1 1 1 2).tail_cell_ ∧
    gameTwoPlays.IsPlayValid 1 = some false :=
  ⟨by decide,
    IsPlayValid_false_of_shared_endpoint gameTwoPlays 1 0
      (ParametricLine.construct 1 1 2 1) (ParametricLine.construct 1 1 1 2)
      (by decide) (by decide) (by decide) (by decide) rfl rfl (Or.inl (by decide))⟩

/-- C9, at the game of width 3 with window 5 and the plays `1 1 1 2`,
`1 1 2 1`: the direction `(1, 0)` of the move 1 is not zero and its dot
product with the direction `(0, 1)` of the move 0 is zero. -/
theorem IsPlayValid_false_of_perpendicular_witness :
    (ParametricLine.construct 1 1 2 1).vector_ = (1, 0) ∧
    (ParametricLine.construct 1 1 1 2).vector_ = (0, 1) ∧
    gameTwoPlays.IsPlayValid 1 = some false :=
  ⟨by decide!, by decide!,
    IsPlayValid_false_of_perpendicular gameTwoPlays 1 0
      (ParametricLine.construct 1 1 2 1) (ParametricLine.construct 1 1 1 2)
      (by decide) (by decide) (by decide) (by decide) rfl rfl (by decide!) (by decide!)⟩

/-- C10, at a game with window 0 whose move 1 repeats the move 0 and whose
move 2 is perpendicular to both and shares their tail cell. -/
theorem IsPlayValid_true_of_no_history_witness :
    gameNoHistory.prev_plays_checked_ = 0 ∧
    gameNoHistory.IsPlayValid 1 = some true ∧ gameNoHistory.IsPlayValid 2 = some true :=
  ⟨rfl, IsPlayValid_true_of_no_history gameNoHistory 1 rfl,
    IsPlayValid_true_of_no_history gameNoHistory 2 rfl⟩

/-- C6, at the game of width 3 with window 5 and the plays `1 1 1 2`,
`1 1 2 1`, `3 3 2 1`: the move 1 is rejected, the move 2 has no conflict with
the move 0 and conflicts with the move 1 (same head cell), and the move 2 is
invalid, on any board. -/
theorem IsPlayValid_depends_only_on_plays_witness :
    gameThreePlays.IsPlayValid 1 = some false ∧
    ¬ Conflicts (ParametricLine.construct 3 3 2 1) (ParametricLine.construct 1 1 1 2) ∧
    Conflicts (ParametricLine.construct 3 3 2 1) (ParametricLine.construct 1 1 2 1) ∧
    ∀ board : Board, Game.IsPlayValid { gameThreePlays with board_ := board } 2 = some false :=
  ⟨by decide!, by decide!, by decide!, fun board =>
    (IsPlayValid_depends_only_on_plays gameThreePlays { gameThreePlays with board_ := board }
      rfl rfl).2 2 1 (ParametricLine.construct 3 3 2 1) (ParametricLine.construct 1 1 2 1)
      (by decide) (by decide) (by decide) (by decide) rfl rfl (by decide!) (by decide!)⟩

/-! ## The loop of `Play` -/

theorem PlayIteration_plays (fuel : Nat) (g g1 : Game) (k : Nat)
    (h : Game.PlayIteration fuel g k = .ok g1) :
    g1.plays_ = g.plays_ ∧ g1.prev_plays_checked_ = g.prev_plays_checked_ := by
  unfold Game.PlayIteration at h
  simp only [] at h
  split at h
  · cases h
  · split at h
    · cases h
    · split at h
      · cases h
      · cases h
        exact ⟨rfl, rfl⟩
  · cases h
    exact ⟨rfl, rfl⟩

theorem PlayLoop_plays (fuel : Nat) : ∀ (n : Nat) (g g1 : Game) (k : Nat),
    Game.PlayLoop fuel n g k = .ok g1 →
    g1.plays_ = g.plays_ ∧ g1.prev_plays_checked_ = g.prev_plays_checked_ := by
  intro n
  induction n with
  | zero =>
    intro g g1 k h
    cases h
    exact ⟨rfl, rfl⟩
  | succ n ih =>
    intro g g1 k h
    unfold Game.PlayLoop at h
    split at h
    · cases h
    · rename_i g2 hg2
      obtain ⟨h1, h2⟩ := PlayIteration_plays fuel g g2 k hg2
      obtain ⟨h3, h4⟩ := ih g2 g1 (k + 1) h
      exact ⟨h3.trans h1, h4.trans h2⟩

theorem IsPlayValid_congr (g1 g2 : Game) (hplays : g1.plays_ = g2.plays_)
    (hwindow : g1.prev_plays_checked_ = g2.prev_plays_checked_) (i : Nat) :
    g1.IsPlayValid i = g2.IsPlayValid i := by
  unfold Game.IsPlayValid
  rw [hplays, hwindow]

theorem PlayLoop_succ (fuel n : Nat) (g : Game) (k : Nat) :
    Game.PlayLoop fuel (n + 1) g k =
      match Game.PlayIteration fuel g k with
      | .error e => .error e
      | .ok g1 => Game.PlayLoop fuel n g1 (k + 1) := rfl

theorem PlayLoop_add (fuel : Nat) : ∀ (a b : Nat) (g : Game) (k : Nat),
    Game.PlayLoop fuel (a + b) g k =
      match Game.PlayLoop fuel a g k with
      | .error e => .error e
      | .ok g1 => Game.PlayLoop fuel b g1 (k + a) := by
  intro a
  induction a with
  | zero =>
    intro b g k
    simp [Game.PlayLoop]
  | succ a ih =>
    intro b g k
    rw [show a + 1 + b = (a + b) + 1 by omega, PlayLoop_succ, PlayLoop_succ]
    cases hit : Game.PlayIteration fuel g k with
    | error e => rfl
    | ok g1 =>
      simp only []
      rw [ih b g1 (k + 1)]
      rw [show k + 1 + a = k + (a + 1) by omega]

theorem PlayLoop_succ_last (fuel : Nat) (i : Nat) (g g_i : Game)
    (hpre : Game.PlayLoop fuel i g 0 = .ok g_i) :
    Game.PlayLoop fuel (i + 1) g 0 = Game.PlayIteration fuel g_i i := by
  rw [PlayLoop_add fuel i 1 g 0, hpre]
  simp only [Game.PlayLoop, Nat.zero_add]
  cases Game.PlayIteration fuel g_i i <;> rfl

theorem Play_split (fuel : Nat) (i : Nat) (g : Game) (hi : i < g.plays_.length) :
    Game.Play fuel g =
      match Game.PlayLoop fuel (i + 1) g 0 with
      | .error e => .error e
      | .ok g1 => Game.PlayLoop fuel (g.plays_.length - (i + 1)) g1 (i + 1) := by
  unfold Game.Play
  have hlen : g.plays_.length = (i + 1) + (g.plays_.length - (i + 1)) := by omega
  conv_lhs => rw [hlen]
  rw [PlayLoop_add fuel (i + 1) (g.plays_.length - (i + 1)) g 0]
  simp only [Nat.zero_add]

/-- C4.  In `Play`, for every move index `i`, with `g_i` the game before the
move `i` is processed: if the move is invalid, the game after it is `g_i`
itself (the board is unchanged and no error is raised); if the move is valid,
the game after it is `g_i` with the board that `PlotLine` gives for the move
`i` and the colour of `i` on the board of `g_i`; in both cases the result of
`Play` is the result of processing the remaining moves from there. -/
theorem Play_move_effect (fuel : Nat) (g g_i : Game) (i : Nat)
    (hi : i < g.plays_.length) (hpre : Game.PlayLoop fuel i g 0 = .ok g_i) :
    (g.IsPlayValid i = some false →
      Game.PlayLoop fuel (i + 1) g 0 = .ok g_i ∧
      Game.Play fuel g = Game.PlayLoop fuel (g.plays_.length - (i + 1)) g_i (i + 1)) ∧
    (g.IsPlayValid i = some true →
      ∃ play, g.plays_[i]? = some play ∧
        Game.PlayLoop fuel (i + 1) g 0 =
          (match g_i.board_.PlotLine fuel play (Game.CurrColor i) with
            | .error e => .error e
            | .ok (board, _) => .ok { g_i with board_ := board })) ∧
    Game.Play fuel g =
      (match Game.PlayLoop fuel (i + 1) g 0 with
        | .error e => .error e
        | .ok g1 => Game.PlayLoop fuel (g.plays_.length - (i + 1)) g1 (i + 1)) := by
  obtain ⟨hp, hw⟩ := PlayLoop_plays fuel i g g_i 0 hpre
  have hvalid : g_i.IsPlayValid i = g.IsPlayValid i := IsPlayValid_congr g_i g hp hw i
  have hstep := PlayLoop_succ_last fuel i g g_i hpre
  have hsplit := Play_split fuel i g hi
  refine ⟨?_, ?_, hsplit⟩
  · intro hinv
    have h1 : Game.PlayLoop fuel (i + 1) g 0 = .ok g_i := by
      rw [hstep]
      unfold Game.PlayIteration
      simp only [hvalid, hinv]
    refine ⟨h1, ?_⟩
    rw [hsplit, h1]
  · intro hv
    refine ⟨g.plays_[i], List.getElem?_eq_getElem hi, ?_⟩
    rw [hstep]
    unfold Game.PlayIteration
    have hget : g_i.plays_[i]? = some g.plays_[i] := by
      rw [hp]
      exact List.getElem?_eq_getElem hi
    simp only [hvalid, hv, hget]

/-- C4, at the game of width 3 with window 5 and the plays `1 1 1 2`, `1 1 2 1`:
the move 1 is rejected, the board after it is the board before it, and the
final board has the two cells of the move 0 Black and no White cell. -/
theorem Play_move_effect_witness :
    Game.PlayLoop 10 1 gameTwoPlays 0 =
      .ok { gameTwoPlays with
        board_ := { grid_ := [['X', 'X', '.'], ['.', '.', '.'], ['.', '.', '.']] } } ∧
    gameTwoPlays.IsPlayValid 1 = some false ∧
    Game.PlayLoop 10 2 gameTwoPlays 0 =
      .ok { gameTwoPlays with
        board_ := { grid_ := [['X', 'X', '.'], ['.', '.', '.'], ['.', '.', '.']] } } ∧
    Game.Play 10 gameTwoPlays =
      .ok { gameTwoPlays with
        board_ := { grid_ := [['X', 'X', '.'], ['.', '.', '.'], ['.', '.', '.']] } } ∧
    Board.CountColor { grid_ := [['X', 'X', '.'], ['.', '.', '.'], ['.', '.', '.']] } 'X' = 2 ∧
    Board.CountColor { grid_ := [['X', 'X', '.'], ['.', '.', '.'], ['.', '.', '.']] } 'O' = 0 := by
  have hpre : Game.PlayLoop 10 1 gameTwoPlays 0 =
      .ok { gameTwoPlays with
        board_ := { grid_ := [['X', 'X', '.'], ['.', '.', '.'], ['.', '.', '.']] } } := by
    decide!
  have hinv : gameTwoPlays.IsPlayValid 1 = some false := by decide!
  have h := (Play_move_effect 10 gameTwoPlays _ 1 (by decide) hpre).1 hinv
  refine ⟨hpre, hinv, h.1, ?_, by decide, by decide⟩
  rw [h.2]
  rfl

/-- C5.  In `Play`, whatever the game and whatever the validity of the moves
before the index `i`, a valid move `i` is drawn on the board before it with the
colour Black (`X`) when `i` is even and White (`O`) when `i` is odd: the colour
is a function of the index alone. -/
theorem Play_colour_by_index_parity (fuel : Nat) (g g_i : Game) (i : Nat)
    (hi : i < g.plays_.length) (hpre : Game.PlayLoop fuel i g 0 = .ok g_i)
    (hvalid : g.IsPlayValid i = some true) :
    ∃ play, g.plays_[i]? = some play ∧
      Game.PlayLoop fuel (i + 1) g 0 =
        (match g_i.board_.PlotLine fuel play (if i % 2 = 0 then 'X' else 'O') with
          | .error e => .error e
          | .ok (board, _) => .ok { g_i with board_ := board }) := by
  obtain ⟨hp, hw⟩ := PlayLoop_plays fuel i g g_i 0 hpre
  have hv : g_i.IsPlayValid i = some true := by
    rw [IsPlayValid_congr g_i g hp hw i]
    exact hvalid
  refine ⟨g.plays_[i], List.getElem?_eq_getElem hi, ?_⟩
  rw [PlayLoop_succ_last fuel i g g_i hpre]
  unfold Game.PlayIteration
  have hget : g_i.plays_[i]? = some g.plays_[i] := by
    rw [hp]
    exact List.getElem?_eq_getElem hi
  simp only [hv, hget]
  rfl

/-- C5, at the game of width 3 with window 5 and the plays `1 1 1 2`,
`1 1 2 1`, `3 1 2 3`: the move 1 is rejected, and the move 2, the second move
that is drawn, is drawn in Black, the colour of the even index 2. -/
theorem Play_colour_by_index_parity_witness :
    gameSkippedTurn.IsPlayValid 1 = some false ∧
    gameSkippedTurn.IsPlayValid 2 = some true ∧
    Game.PlayLoop 10 3 gameSkippedTurn 0 =
      .ok { gameSkippedTurn with
        board_ := { grid_ := [['X', 'X', '.'], ['.', 'X', 'X'], ['X', 'X', '.']] } } := by
  have hpre : Game.PlayLoop 10 2 gameSkippedTurn 0 =
      .ok { gameSkippedTurn with
        board_ := { grid_ := [['X', 'X', '.'], ['.', '.', '.'], ['.', '.', '.']] } } := by
    decide!
  have hv : gameSkippedTurn.IsPlayValid 2 = some true := by decide!
  obtain ⟨play, hplay, h⟩ := Play_colour_by_index_parity 10 gameSkippedTurn _ 2 (by decide)
    hpre hv
  refine ⟨by decide!, hv, ?_⟩
  rw [h]
  cases hplay
  decide!

/-! ## Cells of a square board -/

/-- On a board of width `N`, `SetCell` on a cell of the board returns a board
of width `N` that differs in that cell only. -/
theorem SetCell_square (N : Nat) (b : Board) (color : Char) (r c : Nat)
    (hsq : b.IsSquare N) (hr : r < N) (hc : c < N) :
    ∃ b1, b.SetCell color r c = .ok b1 ∧ b1.IsSquare N ∧
      ∀ r1 c1, b1.GetCell r1 c1 =
        if (r1, c1) = (r, c) then .ok color else b.GetCell r1 c1 := by
  obtain ⟨hlen, hrows⟩ := hsq
  have hr2 : r < b.grid_.length := by omega
  have hget : b.grid_[r]? = some b.grid_[r] := List.getElem?_eq_getElem hr2
  have hrow : (b.grid_[r]).length = N := hrows _ (List.getElem_mem hr2)
  refine ⟨{ grid_ := b.grid_.set r ((b.grid_[r]).set c color) }, ?_, ?_, ?_⟩
  · unfold Board.SetCell
    simp only [hget]
    rw [if_pos (by omega)]
  · refine ⟨by simp only [List.length_set]; exact hlen, ?_⟩
    intro row hmem
    rcases List.mem_or_eq_of_mem_set hmem with h | h
    · exact hrows row h
    · rw [h, List.length_set]
      exact hrow
  · intro r1 c1
    unfold Board.GetCell
    simp only [List.getElem?_set]
    by_cases h1 : r = r1
    · subst h1
      simp only [if_true, if_pos hr2, hget, List.getElem?_set]
      by_cases h2 : c = c1
      · subst h2
        simp only [if_true, if_pos (show c < (b.grid_[r]).length by omega)]
      · have : ¬ ((r, c1) = (r, c)) := by
          intro h
          exact h2 (Prod.mk.inj h).2.symm
        simp only [if_neg h2, if_neg this]
    · have : ¬ ((r1, c1) = (r, c)) := by
        intro h
        exact h1 (Prod.mk.inj h).1.symm
      simp only [if_neg h1, if_neg this]

/-! ## The traversal in step counts -/

theorem gridStep_onSegment (A B : Nat) (p : Nat × Nat) (h : OnSegment A B p)
    (hne : p ≠ (A, B)) : OnSegment A B (gridStep A B p) := by
  obtain ⟨i, j⟩ := p
  obtain ⟨h1, h2, h3, h4⟩ := h
  simp only at h1 h2 h3 h4
  have hij : i < A ∨ j < B := by
    by_contra hcon
    push_neg at hcon
    exact hne (by rw [Prod.mk.injEq]; omega)
  unfold gridStep
  simp only
  split_ifs with c1 c2
  · refine ⟨?_, h2, ?_, ?_⟩
    · simp only
      by_contra hcon
      have hiA : i = A := by omega
      have hjB : j < B := by omega
      subst hiA
      have : (j + 1) * i ≤ B * i := Nat.mul_le_mul_right i hjB
      nlinarith
    · simp only; nlinarith
    · simp only; nlinarith
  · refine ⟨h1, ?_, ?_, ?_⟩
    · simp only
      by_contra hcon
      have hjB : j = B := by omega
      have hiA : i < A := by omega
      subst hjB
      have : (i + 1) * j ≤ A * j := Nat.mul_le_mul_right j hiA
      nlinarith
    · simp only; nlinarith
    · simp only; nlinarith
  · have heq : (2 * i + 1) * B = (2 * j + 1) * A := by omega
    refine ⟨?_, ?_, ?_, ?_⟩
    · simp only
      by_contra hcon
      have hiA : i = A := by omega
      have hjB : j < B := by omega
      subst hiA
      have : (j + 1) * i ≤ B * i := Nat.mul_le_mul_right i hjB
      nlinarith
    · simp only
      by_contra hcon
      have hjB : j = B := by omega
      have hiA : i < A := by omega
      subst hjB
      have : (i + 1) * j ≤ A * j := Nat.mul_le_mul_right j hiA
      nlinarith
    · simp only; nlinarith
    · simp only; nlinarith

theorem gridStep_ge (A B : Nat) (p : Nat × Nat) :
    p.1 ≤ (gridStep A B p).1 ∧ p.2 ≤ (gridStep A B p).2 ∧
    (gridStep A B p).1 ≤ p.1 + 1 ∧ (gridStep A B p).2 ≤ p.2 + 1 ∧
    p.1 + p.2 < (gridStep A B p).1 + (gridStep A B p).2 := by
  unfold gridStep
  split_ifs <;> simp only [] <;> omega

theorem gridStep_dominated (A B : Nat) (p q : Nat × Nat)
    (hq : OnSegment A B q) (h1 : p.1 ≤ q.1) (h2 : p.2 ≤ q.2) (hne : q ≠ p) :
    (gridStep A B p).1 ≤ q.1 ∧ (gridStep A B p).2 ≤ q.2 := by
  obtain ⟨i, j⟩ := p
  obtain ⟨k, l⟩ := q
  obtain ⟨_, _, h3, h4⟩ := hq
  simp only at h1 h2 h3 h4
  have hkl : i < k ∨ j < l := by
    by_contra hcon
    push_neg at hcon
    exact hne (by rw [Prod.mk.injEq]; omega)
  unfold gridStep
  simp only
  split_ifs with c1 c2
  · refine ⟨?_, h2⟩
    simp only
    by_contra hcon
    have hik : k = i := by omega
    have hjl : j + 1 ≤ l := by omega
    subst hik
    have : (j + 1) * A ≤ l * A := Nat.mul_le_mul_right A hjl
    nlinarith
  · refine ⟨h1, ?_⟩
    simp only
    by_contra hcon
    have hjl : l = j := by omega
    have hik : i + 1 ≤ k := by omega
    subst hjl
    have : (i + 1) * B ≤ k * B := Nat.mul_le_mul_right B hik
    nlinarith
  · have heq : (2 * i + 1) * B = (2 * j + 1) * A := by omega
    refine ⟨?_, ?_⟩
    · simp only
      by_contra hcon
      have hik : k = i := by omega
      have hjl : j + 1 ≤ l := by omega
      subst hik
      have : (j + 1) * A ≤ l * A := Nat.mul_le_mul_right A hjl
      nlinarith
    · simp only
      by_contra hcon
      have hjl : l = j := by omega
      have hik : i + 1 ≤ k := by omega
      subst hjl
      have : (i + 1) * B ≤ k * B := Nat.mul_le_mul_right B hik
      nlinarith

/-- The step counts visited after `p` are the step counts of the segment that
lie beyond `p`. -/
theorem mem_gridWalk (A B : Nat) : ∀ (fuel : Nat) (p : Nat × Nat), OnSegment A B p →
    p ≠ (A, B) → (A - p.1) + (B - p.2) ≤ fuel →
    ∀ q, q ∈ gridWalk A B fuel p ↔ (OnSegment A B q ∧ p.1 ≤ q.1 ∧ p.2 ≤ q.2 ∧ q ≠ p) := by
  intro fuel
  induction fuel with
  | zero =>
    intro p hp hne hfuel
    exfalso
    apply hne
    obtain ⟨h1, h2, _, _⟩ := hp
    ext <;> simp only <;> omega
  | succ fuel ih =>
    intro p hp hne hfuel q
    have hs := gridStep_onSegment A B p hp hne
    have hge := gridStep_ge A B p
    have hpne : gridStep A B p ≠ p := by
      intro h
      rw [h] at hge
      omega
    unfold gridWalk
    by_cases hend : gridStep A B p = (A, B)
    · rw [if_pos hend, List.mem_singleton]
      constructor
      · intro hq
        rw [hq]
        exact ⟨hs, hge.1, hge.2.1, hpne⟩
      · rintro ⟨hq, h1, h2, h3⟩
        have hd := gridStep_dominated A B p q hq h1 h2 h3
        rw [hend] at hd ⊢
        obtain ⟨h4, h5, _, _⟩ := hq
        simp only at hd
        ext <;> simp only <;> omega
    · rw [if_neg hend, List.mem_cons]
      have hm : (A - (gridStep A B p).1) + (B - (gridStep A B p).2) ≤ fuel := by
        obtain ⟨h1, h2, _, _⟩ := hs
        omega
      rw [ih (gridStep A B p) hs hend hm q]
      constructor
      · rintro (hq | ⟨hq, h1, h2, _⟩)
        · rw [hq]
          exact ⟨hs, hge.1, hge.2.1, hpne⟩
        · refine ⟨hq, by omega, by omega, ?_⟩
          intro h
          rw [h] at h1 h2
          omega
      · rintro ⟨hq, h1, h2, h3⟩
        have hd := gridStep_dominated A B p q hq h1 h2 h3
        by_cases hqs : q = gridStep A B p
        · exact Or.inl hqs
        · exact Or.inr ⟨hq, hd.1, hd.2, hqs⟩

theorem gridWalk_fuel (A B : Nat) : ∀ (fuel fuel2 : Nat) (p : Nat × Nat), OnSegment A B p →
    p ≠ (A, B) → (A - p.1) + (B - p.2) ≤ fuel → (A - p.1) + (B - p.2) ≤ fuel2 →
    gridWalk A B fuel p = gridWalk A B fuel2 p := by
  intro fuel
  induction fuel with
  | zero =>
    intro fuel2 p hp hne hfuel
    exfalso
    apply hne
    obtain ⟨h1, h2, _, _⟩ := hp
    ext <;> simp only <;> omega
  | succ fuel ih =>
    intro fuel2 p hp hne hfuel hfuel2
    have hs := gridStep_onSegment A B p hp hne
    have hge := gridStep_ge A B p
    cases fuel2 with
    | zero =>
      exfalso
      apply hne
      obtain ⟨h1, h2, _, _⟩ := hp
      ext <;> simp only <;> omega
    | succ fuel2 =>
      unfold gridWalk
      by_cases hend : gridStep A B p = (A, B)
      · rw [if_pos hend, if_pos hend]
      · rw [if_neg hend, if_neg hend]
        have hm : (A - (gridStep A B p).1) + (B - (gridStep A B p).2) ≤ fuel := by
          obtain ⟨h1, h2, _, _⟩ := hs
          omega
        have hm2 : (A - (gridStep A B p).1) + (B - (gridStep A B p).2) ≤ fuel2 := by
          obtain ⟨h1, h2, _, _⟩ := hs
          omega
        rw [ih fuel2 (gridStep A B p) hs hend hm hm2]

theorem gridWalk_last (A B : Nat) : ∀ (fuel : Nat) (p : Nat × Nat), OnSegment A B p →
    p ≠ (A, B) → (A - p.1) + (B - p.2) ≤ fuel →
    (gridWalk A B fuel p).getLast? = some (A, B) ∧ (A, B) ∉ (gridWalk A B fuel p).dropLast := by
  intro fuel
  induction fuel with
  | zero =>
    intro p hp hne hfuel
    exfalso
    apply hne
    obtain ⟨h1, h2, _, _⟩ := hp
    ext <;> simp only <;> omega
  | succ fuel ih =>
    intro p hp hne hfuel
    have hs := gridStep_onSegment A B p hp hne
    have hge := gridStep_ge A B p
    unfold gridWalk
    by_cases hend : gridStep A B p = (A, B)
    · rw [if_pos hend, hend]
      simp
    · rw [if_neg hend]
      have hm : (A - (gridStep A B p).1) + (B - (gridStep A B p).2) ≤ fuel := by
        obtain ⟨h1, h2, _, _⟩ := hs
        omega
      obtain ⟨h1, h2⟩ := ih (gridStep A B p) hs hend hm
      have hne2 : gridWalk A B fuel (gridStep A B p) ≠ [] := by
        intro h
        rw [h] at h1
        simp at h1
      constructor
      · rw [List.getLast?_cons, h1]
        rfl
      · rw [List.dropLast_cons_of_ne_nil hne2, List.mem_cons]
        rintro (h | h)
        · exact hend h.symm
        · exact h2 h

/-! ## The loop of `PlotLine` follows the step counts -/

theorem tmaxAt_add (A i : Nat) : (tmaxAt A i).add (tdeltaAt A) = tmaxAt A (i + 1) := by
  unfold tmaxAt tdeltaAt
  by_cases hA : A = 0
  · simp only [if_pos hA, TValue.add]
  · simp only [if_neg hA, TValue.add]
    congr 1
    have : (A : ℚ) ≠ 0 := by exact_mod_cast hA
    push_cast
    field_simp
    ring

/-- For extents below `2^32` the test with tolerance of two accumulators is
the exact comparison: two distinct accumulators differ by more than the
tolerance. -/
theorem tol_cmp (A B : Nat) (p q : Nat) (hA : 0 < A) (hB : 0 < B)
    (hA32 : A < 4294967296) :
    (0 < ((q : ℚ) / (2 * B)) - ((p : ℚ) / (2 * A)) ∧
      kFloatErrorTolerance ^ 2 <
        (((q : ℚ) / (2 * B)) - ((p : ℚ) / (2 * A))) ^ 2 * ((A : ℚ) ^ 2 + (B : ℚ) ^ 2)) ↔
      p * B < q * A := by
  have hAq : (0 : ℚ) < A := by exact_mod_cast hA
  have hBq : (0 : ℚ) < B := by exact_mod_cast hB
  have hqp : ((q : ℚ) / (2 * B)) - ((p : ℚ) / (2 * A)) =
      ((q : ℚ) * A - p * B) / (2 * A * B) := by
    field_simp
    ring
  rw [hqp]
  have hden : (0 : ℚ) < 2 * A * B := by positivity
  constructor
  · rintro ⟨h, _⟩
    have h2 : (0 : ℚ) < (q : ℚ) * A - p * B := by
      rcases div_pos_iff.1 h with ⟨h3, _⟩ | ⟨_, h3⟩
      · exact h3
      · linarith
    have h3 : ((p * B : Nat) : ℚ) < ((q * A : Nat) : ℚ) := by
      push_cast
      linarith
    exact_mod_cast h3
  · intro h
    have h1 : ((p * B : Nat) : ℚ) + 1 ≤ ((q * A : Nat) : ℚ) := by exact_mod_cast h
    push_cast at h1
    have hD : (1 : ℚ) ≤ (q : ℚ) * A - p * B := by linarith
    refine ⟨div_pos (by linarith) hden, ?_⟩
    have hA2 : (A : ℚ) ≤ 4294967295 := by
      have : A ≤ 4294967295 := by omega
      exact_mod_cast this
    have h4 : 4 * (A : ℚ) ^ 2 < 100000000000000000000000000 := by nlinarith
    have hD2 : (1 : ℚ) ≤ ((q : ℚ) * A - p * B) ^ 2 := by nlinarith
    rw [div_pow, div_mul_eq_mul_div, lt_div_iff₀ (by positivity)]
    unfold kFloatErrorTolerance
    have hB2 : (0 : ℚ) < (B : ℚ) ^ 2 := by positivity
    have hA2p : (0 : ℚ) ≤ (A : ℚ) ^ 2 := by positivity
    have e1 : ((1 : ℚ) / 10000000000000) ^ 2 * (2 * A * B) ^ 2 =
        (4 * (A : ℚ) ^ 2) * (B : ℚ) ^ 2 / 100000000000000000000000000 := by
      ring
    rw [e1]
    have e2 : (4 * (A : ℚ) ^ 2) * (B : ℚ) ^ 2 / 100000000000000000000000000 < (B : ℚ) ^ 2 := by
      rw [div_lt_iff₀ (by norm_num)]
      nlinarith
    have e3 : (B : ℚ) ^ 2 ≤ ((q : ℚ) * A - p * B) ^ 2 * ((A : ℚ) ^ 2 + (B : ℚ) ^ 2) := by
      nlinarith
    linarith

theorem ltMinusTol_at (A B i j : Nat) (hAB : A ≠ 0 ∨ B ≠ 0) (hA32 : A < 4294967296) :
    TValue.ltMinusTol ((A : ℚ) ^ 2 + (B : ℚ) ^ 2) (tmaxAt A i) (tmaxAt B j) =
      decide ((2 * i + 1) * B < (2 * j + 1) * A) := by
  unfold tmaxAt
  by_cases hA : A = 0
  · subst hA
    simp [TValue.ltMinusTol]
  · by_cases hB : B = 0
    · subst hB
      simp only [if_neg hA, if_true, TValue.ltMinusTol]
      symm
      rw [decide_eq_true_iff]
      have : 0 < (2 * j + 1) * A := Nat.mul_pos (by omega) (by omega)
      omega
    · simp only [if_neg hA, if_neg hB, TValue.ltMinusTol]
      rw [decide_eq_decide]
      have h := tol_cmp A B (2 * i + 1) (2 * j + 1) (by omega) (by omega) hA32
      push_cast at h
      exact h

theorem gtPlusTol_at (A B i j : Nat) (hAB : A ≠ 0 ∨ B ≠ 0) (hB32 : B < 4294967296) :
    TValue.gtPlusTol ((A : ℚ) ^ 2 + (B : ℚ) ^ 2) (tmaxAt A i) (tmaxAt B j) =
      decide ((2 * j + 1) * A < (2 * i + 1) * B) := by
  unfold tmaxAt
  by_cases hB : B = 0
  · subst hB
    by_cases hA : A = 0
    · simp [TValue.gtPlusTol]
    · simp [hA, TValue.gtPlusTol]
  · by_cases hA : A = 0
    · subst hA
      simp only [if_neg hB, if_true, TValue.gtPlusTol]
      symm
      rw [decide_eq_true_iff]
      have : 0 < (2 * i + 1) * B := Nat.mul_pos (by omega) (by omega)
      omega
    · simp only [if_neg hA, if_neg hB, TValue.gtPlusTol]
      rw [decide_eq_decide]
      have h := tol_cmp B A (2 * j + 1) (2 * i + 1) (by omega) (by omega) hB32
      push_cast at h
      rw [add_comm ((B : ℚ) ^ 2)] at h
      exact h

theorem uaddInt32_at (a0 N : Nat) (s : Int) (A i : Nat) (hs : StepOf s A)
    (ha0 : a0 < N) (h0 : 0 ≤ (a0 : Int) + s * A) (h1 : (a0 : Int) + s * A < N)
    (hN : N ≤ 4294967296) (hi : i + 1 ≤ A) :
    uaddInt32 ((a0 : Int) + s * (i : Int)).toNat s = ((a0 : Int) + s * ((i + 1 : Nat) : Int)).toNat := by
  unfold uaddInt32
  rcases hs with ⟨rfl, rfl⟩ | ⟨rfl, _⟩ | ⟨rfl, _⟩
  · omega
  · omega
  · omega

theorem cellAt_bounds (a0 N : Nat) (s : Int) (A i : Nat) (hs : StepOf s A)
    (ha0 : a0 < N) (h0 : 0 ≤ (a0 : Int) + s * A) (h1 : (a0 : Int) + s * A < N)
    (hi : i ≤ A) :
    ((a0 : Int) + s * (i : Int)).toNat < N ∧
    (((a0 : Int) + s * (i : Int)).toNat = ((a0 : Int) + s * (A : Int)).toNat ↔ i = A) := by
  rcases hs with ⟨rfl, rfl⟩ | ⟨rfl, _⟩ | ⟨rfl, _⟩
  · omega
  · omega
  · omega

theorem Traversal.extent_lt {N a0 b0 : Nat} {sx sy : Int} {A B : Nat}
    (T : Traversal N a0 b0 sx sy A B) : A < 4294967296 ∧ B < 4294967296 := by
  obtain ⟨hN, hsx, hsy, _, ha0, hb0, hx0, hx1, hy0, hy1⟩ := T
  constructor
  · rcases hsx with ⟨rfl, rfl⟩ | ⟨rfl, _⟩ | ⟨rfl, _⟩ <;> omega
  · rcases hsy with ⟨rfl, rfl⟩ | ⟨rfl, _⟩ | ⟨rfl, _⟩ <;> omega

/-- One iteration of the loop of `PlotLine` is one step of the traversal in
step counts. -/
theorem PlotLineStep_at {N a0 b0 : Nat} {sx sy : Int} {A B : Nat}
    (T : Traversal N a0 b0 sx sy A B) (p : Nat × Nat) (hp : OnSegment A B p)
    (hne : p ≠ (A, B)) :
    PlotLineStep ((A : ℚ) ^ 2 + (B : ℚ) ^ 2) sx sy (tdeltaAt A) (tdeltaAt B)
      (plotStateAt a0 b0 sx sy A B p) = plotStateAt a0 b0 sx sy A B (gridStep A B p) := by
  have hs := gridStep_onSegment A B p hp hne
  have h32 := T.extent_lt
  have hlt := ltMinusTol_at A B p.1 p.2 T.hAB h32.1
  have hgt := gtPlusTol_at A B p.1 p.2 T.hAB h32.2
  unfold PlotLineStep
  simp only [plotStateAt] at hlt hgt ⊢
  rw [hlt, hgt]
  unfold gridStep at hs ⊢
  by_cases c1 : (2 * p.1 + 1) * B < (2 * p.2 + 1) * A
  · rw [if_pos c1] at hs
    simp only [c1, decide_True, if_true, cellAt, tmaxAt_add]
    rw [uaddInt32_at a0 N sx A p.1 T.hsx T.ha0 T.hx0 T.hx1 T.hN hs.1]
  · by_cases c2 : (2 * p.2 + 1) * A < (2 * p.1 + 1) * B
    · rw [if_neg c1, if_pos c2] at hs
      simp only [c1, c2, decide_True, decide_False, if_true, if_false, cellAt, tmaxAt_add]
      rw [uaddInt32_at b0 N sy B p.2 T.hsy T.hb0 T.hy0 T.hy1 T.hN hs.2.1]
      simp
    · rw [if_neg c1, if_neg c2] at hs
      simp only [c1, c2, decide_False, if_false, cellAt, tmaxAt_add]
      rw [uaddInt32_at a0 N sx A p.1 T.hsx T.ha0 T.hx0 T.hx1 T.hN hs.1,
        uaddInt32_at b0 N sy B p.2 T.hsy T.hb0 T.hy0 T.hy1 T.hN hs.2.1]
      simp

theorem cellAt_lt {N a0 b0 : Nat} {sx sy : Int} {A B : Nat}
    (T : Traversal N a0 b0 sx sy A B) (p : Nat × Nat) (hp : OnSegment A B p) :
    (cellAt a0 b0 sx sy p).1 < N ∧ (cellAt a0 b0 sx sy p).2 < N :=
  ⟨(cellAt_bounds a0 N sx A p.1 T.hsx T.ha0 T.hx0 T.hx1 hp.1).1,
    (cellAt_bounds b0 N sy B p.2 T.hsy T.hb0 T.hy0 T.hy1 hp.2.1).1⟩

theorem cellAt_eq_head {N a0 b0 : Nat} {sx sy : Int} {A B : Nat}
    (T : Traversal N a0 b0 sx sy A B) (p : Nat × Nat) (hp : OnSegment A B p) :
    cellAt a0 b0 sx sy p = cellAt a0 b0 sx sy (A, B) ↔ p = (A, B) := by
  have h1 := (cellAt_bounds a0 N sx A p.1 T.hsx T.ha0 T.hx0 T.hx1 hp.1).2
  have h2 := (cellAt_bounds b0 N sy B p.2 T.hsy T.hb0 T.hy0 T.hy1 hp.2.1).2
  unfold cellAt
  rw [Prod.mk.injEq, h1, h2]
  constructor
  · rintro ⟨h3, h4⟩
    exact Prod.ext h3 h4
  · intro h
    rw [h]
    exact ⟨rfl, rfl⟩

/-- The loop of `PlotLine`, from the state after the step counts `p` and with
fuel for the steps that are left, returns; the cells it passes to `SetCell`
are the cells of `gridWalk`, and the board differs in these cells only. -/
theorem PlotLineLoop_at {N a0 b0 : Nat} {sx sy : Int} {A B : Nat}
    (T : Traversal N a0 b0 sx sy A B) (color : Char) :
    ∀ (fuel : Nat) (p : Nat × Nat) (board : Board), OnSegment A B p → p ≠ (A, B) →
      (A - p.1) + (B - p.2) ≤ fuel → board.IsSquare N →
      ∃ board1, PlotLineLoop color (cellAt a0 b0 sx sy (A, B)) ((A : ℚ) ^ 2 + (B : ℚ) ^ 2)
          sx sy (tdeltaAt A) (tdeltaAt B) fuel board (plotStateAt a0 b0 sx sy A B p) =
          .ok (board1, (gridWalk A B fuel p).map (cellAt a0 b0 sx sy)) ∧
        board1.IsSquare N ∧
        ∀ r c, board1.GetCell r c =
          if (r, c) ∈ (gridWalk A B fuel p).map (cellAt a0 b0 sx sy) then .ok color
          else board.GetCell r c := by
  intro fuel
  induction fuel with
  | zero =>
    intro p board hp hne hfuel
    exfalso
    apply hne
    obtain ⟨h1, h2, _, _⟩ := hp
    ext <;> simp only <;> omega
  | succ fuel ih =>
    intro p board hp hne hfuel hsq
    have hs := gridStep_onSegment A B p hp hne
    have hlt := cellAt_lt T (gridStep A B p) hs
    obtain ⟨b1, hset, hsq1, hget1⟩ := SetCell_square N board color
      (cellAt a0 b0 sx sy (gridStep A B p)).1 (cellAt a0 b0 sx sy (gridStep A B p)).2
      hsq hlt.1 hlt.2
    have hstep := PlotLineStep_at T p hp hne
    have hx : (plotStateAt a0 b0 sx sy A B (gridStep A B p)).x =
        (cellAt a0 b0 sx sy (gridStep A B p)).1 := rfl
    have hy : (plotStateAt a0 b0 sx sy A B (gridStep A B p)).y =
        (cellAt a0 b0 sx sy (gridStep A B p)).2 := rfl
    have hcond : ((cellAt a0 b0 sx sy (A, B)).1 ≠ (cellAt a0 b0 sx sy (gridStep A B p)).1 ∨
        (cellAt a0 b0 sx sy (A, B)).2 ≠ (cellAt a0 b0 sx sy (gridStep A B p)).2) ↔
        gridStep A B p ≠ (A, B) := by
      rw [← not_iff_not]
      push_neg
      rw [← cellAt_eq_head T (gridStep A B p) hs]
      constructor
      · rintro ⟨h1, h2⟩
        exact Prod.ext h1.symm h2.symm
      · intro h
        rw [h]
        exact ⟨rfl, rfl⟩
    unfold PlotLineLoop
    simp only [hstep, hx, hy, hset]
    unfold gridWalk
    by_cases hend : gridStep A B p = (A, B)
    · rw [if_neg (by rw [hcond]; exact not_not.2 hend), if_pos hend]
      refine ⟨b1, rfl, hsq1, ?_⟩
      intro r c
      rw [hget1 r c]
      simp only [List.map_cons, List.map_nil, List.mem_singleton]
    · rw [if_pos (hcond.2 hend), if_neg hend]
      have hm : (A - (gridStep A B p).1) + (B - (gridStep A B p).2) ≤ fuel := by
        have hge := gridStep_ge A B p
        obtain ⟨h1, h2, _, _⟩ := hs
        omega
      obtain ⟨b2, hloop, hsq2, hget2⟩ := ih (gridStep A B p) b1 hs hend hm hsq1
      refine ⟨b2, ?_, hsq2, ?_⟩
      · rw [hloop]
        rfl
      · intro r c
        rw [hget2 r c, hget1 r c]
        simp only [List.map_cons, List.mem_cons]
        by_cases h1 : (r, c) ∈ (gridWalk A B fuel (gridStep A B p)).map (cellAt a0 b0 sx sy)
        · rw [if_pos h1, if_pos (Or.inr h1)]
        · by_cases h2 : (r, c) = cellAt a0 b0 sx sy (gridStep A B p)
          · rw [if_neg h1, if_pos h2, if_pos (Or.inl h2)]
          · rw [if_neg h1, if_neg h2, if_neg (by rintro (h | h); exact h2 h; exact h1 h)]

/-! ## Lines built by the constructor -/

theorem usub32_one (t : Nat) (h1 : 1 ≤ t) (h2 : t < 4294967296) : usub32 t 1 = t - 1 := by
  unfold usub32 kUIntSize
  omega

theorem usub32_one_zero : usub32 0 1 = 4294967295 := by decide

theorem axis_step (t h : Nat) :
    (if (h : ℚ) - (t : ℚ) > 0 then (1 : Int) else if (h : ℚ) - (t : ℚ) < 0 then -1 else 0) =
      lineStep t h := by
  unfold lineStep
  by_cases h1 : t < h
  · have : (t : ℚ) < (h : ℚ) := by exact_mod_cast h1
    rw [if_pos h1, if_pos (by linarith)]
  · by_cases h2 : h < t
    · have : (h : ℚ) < (t : ℚ) := by exact_mod_cast h2
      rw [if_neg h1, if_pos h2, if_neg (by linarith), if_pos (by linarith)]
    · have : h = t := by omega
      subst this
      simp

theorem axis_abs (t h : Nat) : |(h : ℚ) - (t : ℚ)| = (lineExtent t h : ℚ) := by
  unfold lineExtent
  rw [Nat.cast_natAbs]
  push_cast
  rfl

theorem axis_zero_iff (t h : Nat) : (h : ℚ) - (t : ℚ) = 0 ↔ lineExtent t h = 0 := by
  rw [← abs_eq_zero, axis_abs]
  exact_mod_cast Iff.rfl

theorem axis_delta (t h : Nat) :
    TValue.absInvNormalized ((h : ℚ) - (t : ℚ)) = tdeltaAt (lineExtent t h) := by
  unfold TValue.absInvNormalized tdeltaAt
  by_cases h0 : (h : ℚ) - (t : ℚ) = 0
  · rw [if_pos h0, if_pos ((axis_zero_iff t h).1 h0)]
  · rw [if_neg h0, if_neg (fun hc => h0 ((axis_zero_iff t h).2 hc))]
    rw [abs_div, abs_one, axis_abs]

theorem axis_tmax (A : Nat) : TValue.scale kCellMidpointX (tdeltaAt A) = tmaxAt A 0 := by
  unfold tdeltaAt tmaxAt kCellMidpointX
  by_cases hA : A = 0
  · simp only [if_pos hA, TValue.scale]
  · simp only [if_neg hA, TValue.scale]
    congr 1
    have : (A : ℚ) ≠ 0 := by exact_mod_cast hA
    field_simp

theorem axis_sq (t h : Nat) : ((h : ℚ) - (t : ℚ)) ^ 2 = (lineExtent t h : ℚ) ^ 2 := by
  rw [← axis_abs, sq_abs]

theorem axis_stepOf (t h : Nat) : StepOf (lineStep t h) (lineExtent t h) := by
  unfold StepOf lineStep lineExtent
  by_cases h1 : t < h
  · rw [if_pos h1]
    right; left
    exact ⟨rfl, by omega⟩
  · by_cases h2 : h < t
    · rw [if_neg h1, if_pos h2]
      right; right
      exact ⟨rfl, by omega⟩
    · rw [if_neg h1, if_neg h2]
      left
      exact ⟨rfl, by omega⟩

theorem axis_head (t h : Nat) (ht : 1 ≤ t) (hh : 1 ≤ h) :
    ((t - 1 : Nat) : Int) + lineStep t h * (lineExtent t h : Int) = ((h - 1 : Nat) : Int) := by
  unfold lineStep lineExtent
  by_cases h1 : t < h
  · rw [if_pos h1]
    omega
  · by_cases h2 : h < t
    · rw [if_neg h1, if_pos h2]
      omega
    · rw [if_neg h1, if_neg h2]
      omega

theorem usub32_one_lt (t N : Nat) (hN : N < 4294967296) (ht : t < 4294967296)
    (h : usub32 t 1 < N) : 1 ≤ t ∧ t ≤ N := by
  unfold usub32 kUIntSize at h
  omega

theorem OnBoard.inputs {N tx ty hx hy : Nat} (hN : N < 4294967296)
    (h : OnBoard N tx ty hx hy) :
    (1 ≤ tx ∧ tx ≤ N) ∧ (1 ≤ ty ∧ ty ≤ N) ∧ (1 ≤ hx ∧ hx ≤ N) ∧ (1 ≤ hy ∧ hy ≤ N) :=
  ⟨usub32_one_lt tx N hN h.tail_x_uint h.tail_row, usub32_one_lt ty N hN h.tail_y_uint h.tail_col,
    usub32_one_lt hx N hN h.head_x_uint h.head_row, usub32_one_lt hy N hN h.head_y_uint h.head_col⟩

theorem construct_fields (tx ty hx hy : Nat) (h1 : 1 ≤ tx) (h2 : 1 ≤ ty) (h3 : 1 ≤ hx)
    (h4 : 1 ≤ hy) (h5 : tx < 4294967296) (h6 : ty < 4294967296) (h7 : hx < 4294967296)
    (h8 : hy < 4294967296) :
    (ParametricLine.construct tx ty hx hy).tail_cell_ = (tx - 1, ty - 1) ∧
    (ParametricLine.construct tx ty hx hy).head_cell_ = (hx - 1, hy - 1) ∧
    (ParametricLine.construct tx ty hx hy).vector_ = ((hx : ℚ) - (tx : ℚ), (hy : ℚ) - (ty : ℚ)) := by
  unfold ParametricLine.construct
  simp only [usub32_one tx h1 h5, usub32_one ty h2 h6, usub32_one hx h3 h7, usub32_one hy h4 h8]
  refine ⟨trivial, trivial, ?_⟩
  ext <;> simp only [kCellMidpointX, kCellMidpointY] <;> ring

theorem lineTraversal {N tx ty hx hy : Nat} (hN : N < 4294967296)
    (h : OnBoard N tx ty hx hy)
    (hAB : lineExtent tx hx ≠ 0 ∨ lineExtent ty hy ≠ 0) :
    Traversal N (tx - 1) (ty - 1) (lineStep tx hx) (lineStep ty hy)
      (lineExtent tx hx) (lineExtent ty hy) := by
  obtain ⟨⟨a1, a2⟩, ⟨b1, b2⟩, ⟨c1, c2⟩, ⟨d1, d2⟩⟩ := h.inputs hN
  refine ⟨by omega, axis_stepOf tx hx, axis_stepOf ty hy, hAB, by omega, by omega, ?_, ?_, ?_, ?_⟩
  · rw [axis_head tx hx a1 c1]; omega
  · rw [axis_head tx hx a1 c1]; omega
  · rw [axis_head ty hy b1 d1]; omega
  · rw [axis_head ty hy b1 d1]; omega

theorem onSegment_origin (A B : Nat) (hAB : A ≠ 0 ∨ B ≠ 0) : OnSegment A B (0, 0) := by
  refine ⟨Nat.zero_le _, Nat.zero_le _, ?_, ?_⟩ <;> simp only <;> omega

theorem cellAt_origin (a0 b0 : Nat) (sx sy : Int) : cellAt a0 b0 sx sy (0, 0) = (a0, b0) := by
  unfold cellAt
  simp

/-- `PlotLine` for a move on the board, with fuel for its steps: it returns,
the cells it passes to `SetCell` are `lineCells`, and the board differs in
these cells only. -/
theorem PlotLine_on_board {N tx ty hx hy : Nat} (hN : N < 4294967296)
    (h : OnBoard N tx ty hx hy) (board : Board) (hsq : board.IsSquare N) (color : Char)
    (fuel : Nat) (hfuel : lineExtent tx hx + lineExtent ty hy ≤ fuel) :
    ∃ board1, board.PlotLine fuel (ParametricLine.construct tx ty hx hy) color =
        .ok (board1, lineCells tx ty hx hy) ∧ board1.IsSquare N ∧
      ∀ r c, board1.GetCell r c =
        if (r, c) ∈ lineCells tx ty hx hy then .ok color else board.GetCell r c := by
  obtain ⟨⟨a1, a2⟩, ⟨b1, b2⟩, ⟨c1, c2⟩, ⟨d1, d2⟩⟩ := h.inputs hN
  obtain ⟨ftail, fhead, fvec⟩ := construct_fields tx ty hx hy a1 b1 c1 d1 h.tail_x_uint
    h.tail_y_uint h.head_x_uint h.head_y_uint
  obtain ⟨bd0, hset0, hsq0, hget0⟩ := SetCell_square N board color (tx - 1) (ty - 1) hsq
    (by omega) (by omega)
  unfold Board.PlotLine
  simp only [ftail, fhead, fvec, hset0]
  by_cases hAB : lineExtent tx hx ≠ 0 ∨ lineExtent ty hy ≠ 0
  · have hv : (hx : ℚ) - (tx : ℚ) ≠ 0 ∨ (hy : ℚ) - (ty : ℚ) ≠ 0 := by
      rcases hAB with h1 | h1
      · exact Or.inl (fun hc => h1 ((axis_zero_iff tx hx).1 hc))
      · exact Or.inr (fun hc => h1 ((axis_zero_iff ty hy).1 hc))
    have T := lineTraversal hN h hAB
    have hne : ((0 : Nat), (0 : Nat)) ≠ (lineExtent tx hx, lineExtent ty hy) := by
      intro hc
      rw [Prod.mk.injEq] at hc
      omega
    obtain ⟨bd1, hloop, hsq1, hget1⟩ := PlotLineLoop_at T color fuel (0, 0) bd0
      (onSegment_origin _ _ hAB) hne (by simp only; omega) hsq0
    have hhead : (hx - 1, hy - 1) = cellAt (tx - 1) (ty - 1) (lineStep tx hx) (lineStep ty hy)
        (lineExtent tx hx, lineExtent ty hy) := by
      unfold cellAt
      simp only
      rw [axis_head tx hx a1 c1, axis_head ty hy b1 d1]
      simp
    have hstate : PlotState.mk (tx - 1) (ty - 1)
        (TValue.scale kCellMidpointX (tdeltaAt (lineExtent tx hx)))
        (TValue.scale kCellMidpointX (tdeltaAt (lineExtent ty hy))) =
        plotStateAt (tx - 1) (ty - 1) (lineStep tx hx) (lineStep ty hy)
          (lineExtent tx hx) (lineExtent ty hy) (0, 0) := by
      unfold plotStateAt
      rw [cellAt_origin, axis_tmax, axis_tmax]
    have hwalk : gridWalk (lineExtent tx hx) (lineExtent ty hy) fuel (0, 0) =
        gridWalk (lineExtent tx hx) (lineExtent ty hy)
          (lineExtent tx hx + lineExtent ty hy) (0, 0) :=
      gridWalk_fuel _ _ fuel _ (0, 0) (onSegment_origin _ _ hAB) hne (by simp only; omega)
        (by simp only; omega)
    have hcells : lineCells tx ty hx hy = (tx - 1, ty - 1) ::
        (gridWalk (lineExtent tx hx) (lineExtent ty hy) fuel (0, 0)).map
          (cellAt (tx - 1) (ty - 1) (lineStep tx hx) (lineStep ty hy)) := by
      unfold lineCells gridPath
      rw [if_neg (by omega), List.map_cons, cellAt_origin, hwalk]
    rw [if_pos hv, axis_step, axis_step, axis_delta, axis_delta, axis_sq, axis_sq, hstate,
      hhead, hloop]
    refine ⟨bd1, ?_, hsq1, ?_⟩
    · simp only [hcells]
    · intro r c
      rw [hget1 r c, hget0 r c, hcells]
      by_cases m1 : (r, c) ∈ (gridWalk (lineExtent tx hx) (lineExtent ty hy) fuel (0, 0)).map
          (cellAt (tx - 1) (ty - 1) (lineStep tx hx) (lineStep ty hy))
      · rw [if_pos m1, if_pos (List.mem_cons_of_mem _ m1)]
      · by_cases m2 : (r, c) = (tx - 1, ty - 1)
        · rw [if_neg m1, if_pos m2, if_pos (by rw [m2]; exact List.mem_cons_self _ _)]
        · rw [if_neg m1, if_neg m2, if_neg (by
            rw [List.mem_cons]
            rintro (hc | hc)
            · exact m2 hc
            · exact m1 hc)]
  · have hv : ¬ ((hx : ℚ) - (tx : ℚ) ≠ 0 ∨ (hy : ℚ) - (ty : ℚ) ≠ 0) := by
      rintro (h1 | h1)
      · exact hAB (Or.inl (fun hc => h1 ((axis_zero_iff tx hx).2 hc)))
      · exact hAB (Or.inr (fun hc => h1 ((axis_zero_iff ty hy).2 hc)))
    have hcells : lineCells tx ty hx hy = [(tx - 1, ty - 1)] := by
      unfold lineCells gridPath
      rw [if_pos (by omega), List.map_cons, cellAt_origin, List.map_nil]
    rw [if_neg hv, hcells]
    refine ⟨bd0, rfl, hsq0, ?_⟩
    intro r c
    rw [hget0 r c]
    simp only [List.mem_singleton]

/-! ## The cells of the traversal and the segment -/

theorem Board.ext_of_getCell (N : Nat) (b1 b2 : Board) (h1 : b1.IsSquare N)
    (h2 : b2.IsSquare N) (h : ∀ r c, b1.GetCell r c = b2.GetCell r c) : b1 = b2 := by
  obtain ⟨g1⟩ := b1
  obtain ⟨g2⟩ := b2
  obtain ⟨hl1, hr1⟩ := h1
  obtain ⟨hl2, hr2⟩ := h2
  simp only at hl1 hr1 hl2 hr2
  congr 1
  apply List.ext_getElem (by omega)
  intro r hr hr'
  have hrow1 : (g1[r]).length = N := hr1 _ (List.getElem_mem hr)
  have hrow2 : (g2[r]).length = N := hr2 _ (List.getElem_mem hr')
  apply List.ext_getElem (by omega)
  intro c hc hc'
  have := h r c
  unfold Board.GetCell at this
  simp only [List.getElem?_eq_getElem hr, List.getElem?_eq_getElem hr',
    List.getElem?_eq_getElem hc, List.getElem?_eq_getElem hc'] at this
  exact Except.ok.inj this

theorem onSegment_nondegenerate (A B : Nat) (q : Nat × Nat) (h : OnSegment A B q) :
    A ≠ 0 ∨ B ≠ 0 := by
  obtain ⟨h1, h2, h3, h4⟩ := h
  by_contra hc
  push_neg at hc
  obtain ⟨rfl, rfl⟩ := hc
  simp at h3

theorem mem_gridPath (A B : Nat) (q : Nat × Nat) :
    q ∈ gridPath A B ↔ q = (0, 0) ∨ OnSegment A B q := by
  unfold gridPath
  by_cases hAB : A = 0 ∧ B = 0
  · rw [if_pos hAB, List.mem_singleton]
    constructor
    · exact Or.inl
    · rintro (h | h)
      · exact h
      · exfalso
        have := onSegment_nondegenerate A B q h
        omega
  · rw [if_neg hAB, List.mem_cons]
    have hAB2 : A ≠ 0 ∨ B ≠ 0 := by omega
    have hne : ((0 : Nat), (0 : Nat)) ≠ (A, B) := by
      intro hc
      rw [Prod.mk.injEq] at hc
      omega
    rw [mem_gridWalk A B (A + B) (0, 0) (onSegment_origin A B hAB2) hne (by simp only; omega) q]
    constructor
    · rintro (h | ⟨h, _⟩)
      · exact Or.inl h
      · exact Or.inr h
    · rintro (h | h)
      · exact Or.inl h
      · by_cases hq : q = (0, 0)
        · exact Or.inl hq
        · exact Or.inr ⟨h, Nat.zero_le _, Nat.zero_le _, hq⟩

theorem gridPath_head (A B : Nat) : (gridPath A B).head? = some (0, 0) := rfl

theorem gridPath_last (A B : Nat) :
    (gridPath A B).getLast? = some (A, B) ∧ (A, B) ∉ (gridPath A B).dropLast := by
  unfold gridPath
  by_cases hAB : A = 0 ∧ B = 0
  · obtain ⟨rfl, rfl⟩ := hAB
    simp
  · rw [if_neg hAB]
    have hAB2 : A ≠ 0 ∨ B ≠ 0 := by omega
    have hne : ((0 : Nat), (0 : Nat)) ≠ (A, B) := by
      intro hc
      rw [Prod.mk.injEq] at hc
      omega
    obtain ⟨h1, h2⟩ := gridWalk_last A B (A + B) (0, 0) (onSegment_origin A B hAB2) hne
      (by simp only; omega)
    have hne2 : gridWalk A B (A + B) (0, 0) ≠ [] := by
      intro h
      rw [h] at h1
      simp at h1
    constructor
    · rw [List.getLast?_cons, h1]
      rfl
    · rw [List.dropLast_cons_of_ne_nil hne2, List.mem_cons]
      rintro (h | h)
      · exact hne h.symm
      · exact h2 h

/-- The step counts of the segment are those of the cells whose open unit
square holds a point of the segment. -/
theorem segment_param (A B i j : Nat) (hAB : A ≠ 0 ∨ B ≠ 0) :
    OnSegment A B (i, j) ↔
      ∃ t : ℝ, 0 ≤ t ∧ t ≤ 1 ∧ (i : ℝ) - 1 / 2 < t * A ∧ t * A < i + 1 / 2 ∧
        (j : ℝ) - 1 / 2 < t * B ∧ t * B < j + 1 / 2 := by
  constructor
  · rintro ⟨h1, h2, h3, h4⟩
    simp only at h1 h2 h3 h4
    have h1r : (i : ℝ) ≤ A := by exact_mod_cast h1
    have h2r : (j : ℝ) ≤ B := by exact_mod_cast h2
    have h3r : 2 * (i : ℝ) * B < (2 * j + 1) * A + B := by exact_mod_cast h3
    have h4r : 2 * (j : ℝ) * A < (2 * i + 1) * B + A := by exact_mod_cast h4
    have hi0 : (0 : ℝ) ≤ i := Nat.cast_nonneg i
    have hj0 : (0 : ℝ) ≤ j := Nat.cast_nonneg j
    by_cases hA : A = 0
    · subst hA
      have hB : 0 < B := by omega
      have hBr : (0 : ℝ) < B := by exact_mod_cast hB
      have hi : i = 0 := by omega
      subst hi
      refine ⟨j / B, div_nonneg hj0 hBr.le, (div_le_one hBr).2 h2r, ?_, ?_, ?_, ?_⟩
      · simp
      · simp
      · rw [div_mul_cancel₀ _ hBr.ne']; linarith
      · rw [div_mul_cancel₀ _ hBr.ne']; linarith
    · by_cases hB : B = 0
      · subst hB
        have hA' : 0 < A := by omega
        have hAr : (0 : ℝ) < A := by exact_mod_cast hA'
        have hj : j = 0 := by omega
        subst hj
        refine ⟨i / A, div_nonneg hi0 hAr.le, (div_le_one hAr).2 h1r, ?_, ?_, ?_, ?_⟩
        · rw [div_mul_cancel₀ _ hAr.ne']; linarith
        · rw [div_mul_cancel₀ _ hAr.ne']; linarith
        · simp
        · simp
      · have hAr : (0 : ℝ) < A := by
          have : 0 < A := by omega
          exact_mod_cast this
        have hBr : (0 : ℝ) < B := by
          have : 0 < B := by omega
          exact_mod_cast this
        set L : ℝ := max (max ((2 * i - 1) / (2 * A)) ((2 * j - 1) / (2 * B))) 0 with hL
        set U : ℝ := min (min ((2 * i + 1) / (2 * A)) ((2 * j + 1) / (2 * B))) 1 with hU
        have hLU : L < U := by
          rw [hL, hU, max_lt_iff, max_lt_iff, lt_min_iff, lt_min_iff, lt_min_iff, lt_min_iff,
            lt_min_iff, lt_min_iff]
          refine ⟨⟨⟨⟨?_, ?_⟩, ?_⟩, ⟨⟨?_, ?_⟩, ?_⟩⟩, ⟨⟨?_, ?_⟩, ?_⟩⟩
          · rw [div_lt_div_iff₀ (by positivity) (by positivity)]; nlinarith
          · rw [div_lt_div_iff₀ (by positivity) (by positivity)]; nlinarith
          · rw [div_lt_one (by positivity)]; linarith
          · rw [div_lt_div_iff₀ (by positivity) (by positivity)]; nlinarith
          · rw [div_lt_div_iff₀ (by positivity) (by positivity)]; nlinarith
          · rw [div_lt_one (by positivity)]; linarith
          · positivity
          · positivity
          · norm_num
        have hL1 : (2 * (i : ℝ) - 1) / (2 * A) ≤ L := le_trans (le_max_left _ _) (le_max_left _ _)
        have hL2 : (2 * (j : ℝ) - 1) / (2 * B) ≤ L := le_trans (le_max_right _ _) (le_max_left _ _)
        have hL3 : (0 : ℝ) ≤ L := le_max_right _ _
        have hU1 : U ≤ (2 * (i : ℝ) + 1) / (2 * A) := le_trans (min_le_left _ _) (min_le_left _ _)
        have hU2 : U ≤ (2 * (j : ℝ) + 1) / (2 * B) := le_trans (min_le_left _ _) (min_le_right _ _)
        have hU3 : U ≤ 1 := min_le_right _ _
        have e1 : (2 * (i : ℝ) - 1) / (2 * A) * A = i - 1 / 2 := by
          field_simp
          ring
        have e2 : (2 * (i : ℝ) + 1) / (2 * A) * A = i + 1 / 2 := by
          field_simp
          ring
        have e3 : (2 * (j : ℝ) - 1) / (2 * B) * B = j - 1 / 2 := by
          field_simp
          ring
        have e4 : (2 * (j : ℝ) + 1) / (2 * B) * B = j + 1 / 2 := by
          field_simp
          ring
        refine ⟨(L + U) / 2, by linarith, by linarith, ?_, ?_, ?_, ?_⟩
        · rw [← e1]
          exact mul_lt_mul_of_pos_right (by linarith) hAr
        · rw [← e2]
          exact mul_lt_mul_of_pos_right (by linarith) hAr
        · rw [← e3]
          exact mul_lt_mul_of_pos_right (by linarith) hBr
        · rw [← e4]
          exact mul_lt_mul_of_pos_right (by linarith) hBr
  · rintro ⟨t, ht0, ht1, hx1, hx2, hy1, hy2⟩
    have hA0 : (0 : ℝ) ≤ A := Nat.cast_nonneg A
    have hB0 : (0 : ℝ) ≤ B := Nat.cast_nonneg B
    have htA : t * A ≤ A := by nlinarith
    have htB : t * B ≤ B := by nlinarith
    have htA0 : 0 ≤ t * A := mul_nonneg ht0 hA0
    have htB0 : 0 ≤ t * B := mul_nonneg ht0 hB0
    have h1 : i ≤ A := by
      have : (i : ℝ) < A + 1 := by linarith
      have : i < A + 1 := by exact_mod_cast this
      omega
    have h2 : j ≤ B := by
      have : (j : ℝ) < B + 1 := by linarith
      have : j < B + 1 := by exact_mod_cast this
      omega
    refine ⟨h1, h2, ?_, ?_⟩
    · simp only
      have : 2 * (i : ℝ) * B < (2 * j + 1) * A + B := by
        by_cases hB : B = 0
        · subst hB
          have hA' : 0 < A := by omega
          have hAr : (0 : ℝ) < A := by exact_mod_cast hA'
          have hj0 : (0 : ℝ) ≤ j := Nat.cast_nonneg j
          simp only [Nat.cast_zero, mul_zero, add_zero]
          positivity
        · have hBr : (0 : ℝ) < B := by
            have : 0 < B := by omega
            exact_mod_cast this
          have e1 : ((i : ℝ) - 1 / 2) * B < t * A * B := mul_lt_mul_of_pos_right hx1 hBr
          have e2 : t * B * A ≤ ((j : ℝ) + 1 / 2) * A := mul_le_mul_of_nonneg_right hy2.le hA0
          have e3 : t * A * B = t * B * A := by ring
          have e4 : ((i : ℝ) - 1 / 2) * B = i * B - B / 2 := by ring
          have e5 : ((j : ℝ) + 1 / 2) * A = j * A + A / 2 := by ring
          have e6 : (2 * (j : ℝ) + 1) * A = 2 * (j * A) + A := by ring
          have e7 : 2 * (i : ℝ) * B = 2 * (i * B) := by ring
          rw [e6, e7]
          rw [e4] at e1
          rw [e5] at e2
          linarith only [e1, e2, e3]
      exact_mod_cast this
    · simp only
      have : 2 * (j : ℝ) * A < (2 * i + 1) * B + A := by
        by_cases hA : A = 0
        · subst hA
          have hB' : 0 < B := by omega
          have hBr : (0 : ℝ) < B := by exact_mod_cast hB'
          have hi0 : (0 : ℝ) ≤ i := Nat.cast_nonneg i
          simp only [Nat.cast_zero, mul_zero, add_zero]
          positivity
        · have hAr : (0 : ℝ) < A := by
            have : 0 < A := by omega
            exact_mod_cast this
          have e1 : ((j : ℝ) - 1 / 2) * A < t * B * A := mul_lt_mul_of_pos_right hy1 hAr
          have e2 : t * A * B ≤ ((i : ℝ) + 1 / 2) * B := mul_le_mul_of_nonneg_right hx2.le hB0
          have e3 : t * A * B = t * B * A := by ring
          have e4 : ((j : ℝ) - 1 / 2) * A = j * A - A / 2 := by ring
          have e5 : ((i : ℝ) + 1 / 2) * B = i * B + B / 2 := by ring
          have e6 : (2 * (i : ℝ) + 1) * B = 2 * (i * B) + B := by ring
          have e7 : 2 * (j : ℝ) * A = 2 * (j * A) := by ring
          rw [e6, e7]
          rw [e4] at e1
          rw [e5] at e2
          linarith only [e1, e2, e3]
      exact_mod_cast this

theorem coord_forward (a0 e r : Nat) (s : Int) (A i : Nat) (hs : StepOf s A)
    (he : (a0 : Int) + s * (A : Int) = (e : Int)) (hi : i ≤ A)
    (hr : r = ((a0 : Int) + s * (i : Int)).toNat) (t : ℝ)
    (h1 : (i : ℝ) - 1 / 2 < t * A) (h2 : t * A < i + 1 / 2) :
    (r : ℝ) < (1 - t) * ((a0 : ℝ) + 1 / 2) + t * ((e : ℝ) + 1 / 2) ∧
    (1 - t) * ((a0 : ℝ) + 1 / 2) + t * ((e : ℝ) + 1 / 2) < (r : ℝ) + 1 := by
  rcases hs with ⟨rfl, rfl⟩ | ⟨rfl, _⟩ | ⟨rfl, _⟩
  · have hi0 : i = 0 := by omega
    subst hi0
    have hea : e = a0 := by omega
    have hra : r = a0 := by omega
    subst hea hra
    constructor <;> ring_nf <;> linarith
  · have hea : e = a0 + A := by omega
    have hra : r = a0 + i := by omega
    subst hea hra
    push_cast
    constructor <;> nlinarith
  · have hea : a0 = e + A := by omega
    have hra : e + A = r + i := by omega
    have hra2 : (e : ℝ) + A = r + i := by exact_mod_cast hra
    subst hea
    push_cast
    constructor <;> nlinarith

theorem coord_backward (a0 e r : Nat) (s : Int) (A : Nat) (hs : StepOf s A)
    (he : (a0 : Int) + s * (A : Int) = (e : Int)) (t : ℝ) (ht0 : 0 ≤ t) (ht1 : t ≤ 1)
    (h1 : (r : ℝ) < (1 - t) * ((a0 : ℝ) + 1 / 2) + t * ((e : ℝ) + 1 / 2))
    (h2 : (1 - t) * ((a0 : ℝ) + 1 / 2) + t * ((e : ℝ) + 1 / 2) < (r : ℝ) + 1) :
    ∃ i : Nat, i ≤ A ∧ r = ((a0 : Int) + s * (i : Int)).toNat ∧
      (i : ℝ) - 1 / 2 < t * A ∧ t * A < i + 1 / 2 := by
  have hA0 : (0 : ℝ) ≤ A := Nat.cast_nonneg A
  have htA : t * A ≤ A := by nlinarith
  have htA0 : 0 ≤ t * A := mul_nonneg ht0 hA0
  rcases hs with ⟨rfl, rfl⟩ | ⟨rfl, _⟩ | ⟨rfl, _⟩
  · have hea : e = a0 := by omega
    subst hea
    have e1 : (1 - t) * ((e : ℝ) + 1 / 2) + t * ((e : ℝ) + 1 / 2) = e + 1 / 2 := by ring
    rw [e1] at h1 h2
    have h3 : (r : ℝ) < e + 1 := by linarith
    have h4 : (e : ℝ) < r + 1 := by linarith
    have h5 : r < e + 1 := by exact_mod_cast h3
    have h6 : e < r + 1 := by exact_mod_cast h4
    refine ⟨0, le_refl _, by omega, ?_, ?_⟩ <;> simp
  · have hea : e = a0 + A := by omega
    subst hea
    push_cast at h1 h2
    have e1 : (1 - t) * ((a0 : ℝ) + 1 / 2) + t * ((a0 : ℝ) + A + 1 / 2) =
        a0 + 1 / 2 + t * A := by ring
    rw [e1] at h1 h2
    have h3 : (r : ℝ) < a0 + A + 1 := by linarith
    have h4 : (a0 : ℝ) < r + 1 := by linarith
    have h5 : r < a0 + A + 1 := by exact_mod_cast h3
    have h6 : a0 < r + 1 := by exact_mod_cast h4
    have h7 : ((r - a0 : Nat) : ℝ) = (r : ℝ) - a0 := by
      rw [Nat.cast_sub (by omega)]
    refine ⟨r - a0, by omega, by omega, ?_, ?_⟩
    · rw [h7]; linarith
    · rw [h7]; linarith
  · have hea : a0 = e + A := by omega
    subst hea
    push_cast at h1 h2
    have e1 : (1 - t) * ((e : ℝ) + A + 1 / 2) + t * ((e : ℝ) + 1 / 2) =
        e + A + 1 / 2 - t * A := by ring
    rw [e1] at h1 h2
    have h3 : (r : ℝ) < e + A + 1 := by linarith
    have h4 : (e : ℝ) < r + 1 := by linarith
    have h5 : r < e + A + 1 := by exact_mod_cast h3
    have h6 : e < r + 1 := by exact_mod_cast h4
    have h7 : ((e + A - r : Nat) : ℝ) = (e : ℝ) + A - r := by
      rw [Nat.cast_sub (by omega)]
      push_cast
      ring
    refine ⟨e + A - r, by omega, by omega, ?_, ?_⟩
    · rw [h7]; linarith
    · rw [h7]; linarith

/-- The cells of the traversal of a move on the board are the cells whose
interior the segment between the two cell centres passes through. -/
theorem mem_lineCells_iff {N tx ty hx hy : Nat} (hN : N < 4294967296)
    (h : OnBoard N tx ty hx hy) (r c : Nat) :
    (r, c) ∈ lineCells tx ty hx hy ↔ CrossesInterior (tx - 1, ty - 1) (hx - 1, hy - 1) r c := by
  obtain ⟨⟨a1, a2⟩, ⟨b1, b2⟩, ⟨c1, c2⟩, ⟨d1, d2⟩⟩ := h.inputs hN
  have hsx := axis_stepOf tx hx
  have hsy := axis_stepOf ty hy
  have hex := axis_head tx hx a1 c1
  have hey := axis_head ty hy b1 d1
  unfold lineCells CrossesInterior
  rw [List.mem_map]
  constructor
  · rintro ⟨⟨i, j⟩, hq, hcell⟩
    rw [mem_gridPath] at hq
    unfold cellAt at hcell
    rw [Prod.mk.injEq] at hcell
    obtain ⟨hr, hc⟩ := hcell
    simp only at hr hc
    rcases hq with hq | hq
    · rw [Prod.mk.injEq] at hq
      obtain ⟨rfl, rfl⟩ := hq
      have fx := coord_forward (tx - 1) (hx - 1) r _ _ 0 hsx hex (Nat.zero_le _) hr.symm 0
        (by simp) (by simp)
      have fy := coord_forward (ty - 1) (hy - 1) c _ _ 0 hsy hey (Nat.zero_le _) hc.symm 0
        (by simp) (by simp)
      exact ⟨0, le_refl _, zero_le_one, fx.1, fx.2, fy.1, fy.2⟩
    · obtain ⟨t, ht0, ht1, x1, x2, y1, y2⟩ :=
        (segment_param _ _ i j (onSegment_nondegenerate _ _ _ hq)).1 hq
      have fx := coord_forward (tx - 1) (hx - 1) r _ _ i hsx hex hq.1 hr.symm t x1 x2
      have fy := coord_forward (ty - 1) (hy - 1) c _ _ j hsy hey hq.2.1 hc.symm t y1 y2
      exact ⟨t, ht0, ht1, fx.1, fx.2, fy.1, fy.2⟩
  · rintro ⟨t, ht0, ht1, x1, x2, y1, y2⟩
    obtain ⟨i, hi, hr, xi1, xi2⟩ := coord_backward (tx - 1) (hx - 1) r _ _ hsx hex t ht0 ht1 x1 x2
    obtain ⟨j, hj, hc, yj1, yj2⟩ := coord_backward (ty - 1) (hy - 1) c _ _ hsy hey t ht0 ht1 y1 y2
    refine ⟨(i, j), ?_, ?_⟩
    · rw [mem_gridPath]
      by_cases hAB : lineExtent tx hx ≠ 0 ∨ lineExtent ty hy ≠ 0
      · exact Or.inr ((segment_param _ _ i j hAB).2 ⟨t, ht0, ht1, xi1, xi2, yj1, yj2⟩)
      · left
        rw [Prod.mk.injEq]
        omega
    · unfold cellAt
      rw [Prod.mk.injEq]
      exact ⟨hr.symm, hc.symm⟩

theorem cellAt_extent (tx ty hx hy : Nat) (a1 : 1 ≤ tx) (b1 : 1 ≤ ty) (c1 : 1 ≤ hx)
    (d1 : 1 ≤ hy) :
    cellAt (tx - 1) (ty - 1) (lineStep tx hx) (lineStep ty hy)
      (lineExtent tx hx, lineExtent ty hy) = (hx - 1, hy - 1) := by
  unfold cellAt
  simp only
  rw [axis_head tx hx a1 c1, axis_head ty hy b1 d1]
  simp

theorem lineExtent_lt (t h N : Nat) (h1 : 1 ≤ t) (h2 : t ≤ N) (h3 : 1 ≤ h) (h4 : h ≤ N) :
    lineExtent t h < N := by
  unfold lineExtent
  omega

theorem OnBoard.fuel_bound {N tx ty hx hy : Nat} (hN : N < 4294967296)
    (h : OnBoard N tx ty hx hy) (fuel : Nat) (hfuel : 2 * N ≤ fuel) :
    lineExtent tx hx + lineExtent ty hy ≤ fuel := by
  obtain ⟨⟨a1, a2⟩, ⟨b1, b2⟩, ⟨c1, c2⟩, ⟨d1, d2⟩⟩ := h.inputs hN
  have := lineExtent_lt tx hx N a1 a2 c1 c2
  have := lineExtent_lt ty hy N b1 b2 d1 d2
  omega

theorem lineCells_ends {N tx ty hx hy : Nat} (hN : N < 4294967296)
    (h : OnBoard N tx ty hx hy) :
    (lineCells tx ty hx hy).head? = some (tx - 1, ty - 1) ∧
    (lineCells tx ty hx hy).getLast? = some (hx - 1, hy - 1) ∧
    (hx - 1, hy - 1) ∉ (lineCells tx ty hx hy).dropLast := by
  obtain ⟨⟨a1, a2⟩, ⟨b1, b2⟩, ⟨c1, c2⟩, ⟨d1, d2⟩⟩ := h.inputs hN
  have hlast := gridPath_last (lineExtent tx hx) (lineExtent ty hy)
  have hext := cellAt_extent tx ty hx hy a1 b1 c1 d1
  unfold lineCells
  refine ⟨?_, ?_, ?_⟩
  · rw [List.head?_map, gridPath_head, Option.map_some', cellAt_origin]
  · rw [List.getLast?_map, hlast.1, Option.map_some', hext]
  · rw [← List.map_dropLast, List.mem_map]
    rintro ⟨q, hq, hcell⟩
    have hq2 := List.mem_of_mem_dropLast hq
    rw [mem_gridPath] at hq2
    by_cases hAB : lineExtent tx hx ≠ 0 ∨ lineExtent ty hy ≠ 0
    · have hon : OnSegment (lineExtent tx hx) (lineExtent ty hy) q := by
        rcases hq2 with hq2 | hq2
        · rw [hq2]
          exact onSegment_origin _ _ hAB
        · exact hq2
      have T := lineTraversal hN h hAB
      rw [← hext] at hcell
      rw [(cellAt_eq_head T q hon).1 hcell] at hq
      exact hlast.2 hq
    · have h0 : lineExtent tx hx = 0 ∧ lineExtent ty hy = 0 := by omega
      unfold gridPath at hq
      rw [if_pos h0] at hq
      simp at hq

/-- C2.  For every board of `N` rows of `N` cells and every move whose tail
and head cells lie on the board, under exact arithmetic, `PlotLine` (given
fuel for `2 N` iterations) returns, and a cell is among the cells it passes to
`SetCell` if and only if the straight segment from the centre of the tail cell
to the centre of the head cell passes through the interior of the unit square
of that cell; afterwards these cells hold the colour and every other cell,
also one that the segment only touches at a corner, holds what it held. -/
theorem PlotLine_colours_iff_segment_crosses_interior (N tx ty hx hy : Nat)
    (hN : N < 4294967296) (hmove : OnBoard N tx ty hx hy) (board : Board)
    (hsq : board.IsSquare N) (color : Char) (fuel : Nat) (hfuel : 2 * N ≤ fuel) :
    ∃ board1 cells,
      board.PlotLine fuel (ParametricLine.construct tx ty hx hy) color = .ok (board1, cells) ∧
      (∀ r c, (r, c) ∈ cells ↔
        CrossesInterior (ParametricLine.construct tx ty hx hy).tail_cell_
          (ParametricLine.construct tx ty hx hy).head_cell_ r c) ∧
      (∀ r c, CrossesInterior (ParametricLine.construct tx ty hx hy).tail_cell_
          (ParametricLine.construct tx ty hx hy).head_cell_ r c →
        board1.GetCell r c = .ok color) ∧
      (∀ r c, ¬ CrossesInterior (ParametricLine.construct tx ty hx hy).tail_cell_
          (ParametricLine.construct tx ty hx hy).head_cell_ r c →
        board1.GetCell r c = board.GetCell r c) := by
  obtain ⟨⟨a1, a2⟩, ⟨b1, b2⟩, ⟨c1, c2⟩, ⟨d1, d2⟩⟩ := hmove.inputs hN
  obtain ⟨ftail, fhead, _⟩ := construct_fields tx ty hx hy a1 b1 c1 d1 hmove.tail_x_uint
    hmove.tail_y_uint hmove.head_x_uint hmove.head_y_uint
  obtain ⟨board1, hplot, _, hget⟩ := PlotLine_on_board hN hmove board hsq color fuel
    (hmove.fuel_bound hN fuel hfuel)
  rw [ftail, fhead]
  refine ⟨board1, lineCells tx ty hx hy, hplot, ?_, ?_, ?_⟩
  · intro r c
    exact mem_lineCells_iff hN hmove r c
  · intro r c hcross
    rw [hget r c, if_pos ((mem_lineCells_iff hN hmove r c).2 hcross)]
  · intro r c hcross
    rw [hget r c, if_neg (fun hm => hcross ((mem_lineCells_iff hN hmove r c).1 hm))]

/-- C7.  For every board of `N` rows of `N` cells and every move whose tail
and head cells lie on the board, under exact arithmetic, `PlotLine`
terminates: with fuel for `2 N` iterations or more it returns one and the same
result; the first cell it colours is the tail cell, the last cell it colours
is the head cell, and the head cell is not among the cells coloured before the
last one (the loop stops the first time the current cell is the head cell). -/
theorem PlotLine_terminates_tail_first_head_last (N tx ty hx hy : Nat)
    (hN : N < 4294967296) (hmove : OnBoard N tx ty hx hy) (board : Board)
    (hsq : board.IsSquare N) (color : Char) :
    ∃ board1 cells,
      (∀ fuel, 2 * N ≤ fuel →
        board.PlotLine fuel (ParametricLine.construct tx ty hx hy) color =
          .ok (board1, cells)) ∧
      cells.head? = some (ParametricLine.construct tx ty hx hy).tail_cell_ ∧
      cells.getLast? = some (ParametricLine.construct tx ty hx hy).head_cell_ ∧
      (ParametricLine.construct tx ty hx hy).head_cell_ ∉ cells.dropLast := by
  obtain ⟨⟨a1, a2⟩, ⟨b1, b2⟩, ⟨c1, c2⟩, ⟨d1, d2⟩⟩ := hmove.inputs hN
  obtain ⟨ftail, fhead, _⟩ := construct_fields tx ty hx hy a1 b1 c1 d1 hmove.tail_x_uint
    hmove.tail_y_uint hmove.head_x_uint hmove.head_y_uint
  obtain ⟨board1, _, hsq1, hget1⟩ := PlotLine_on_board hN hmove board hsq color (2 * N)
    (hmove.fuel_bound hN (2 * N) (le_refl _))
  obtain ⟨e1, e2, e3⟩ := lineCells_ends hN hmove
  rw [ftail, fhead]
  refine ⟨board1, lineCells tx ty hx hy, ?_, e1, e2, e3⟩
  intro fuel hfuel
  obtain ⟨board2, hplot2, hsq2, hget2⟩ := PlotLine_on_board hN hmove board hsq color fuel
    (hmove.fuel_bound hN fuel hfuel)
  have : board2 = board1 := by
    apply Board.ext_of_getCell N board2 board1 hsq2 hsq1
    intro r c
    rw [hget1 r c, hget2 r c]
  rw [hplot2, this]

/-! ## The empty board -/

theorem foldl_range_push {α : Type} (x : α) : ∀ (n : Nat) (init : List α),
    (List.range n).foldl (fun row _ => row ++ [x]) init = init ++ List.replicate n x := by
  intro n
  induction n with
  | zero =>
    intro init
    simp
  | succ n ih =>
    intro init
    rw [List.range_succ, List.foldl_append, ih, List.replicate_succ']
    simp

theorem CreateGrid_grid (width : Nat) :
    (Board.empty.CreateGrid width).grid_ =
      List.replicate width (List.replicate width kEmptyCell) := by
  unfold Board.CreateGrid Board.empty
  simp only [foldl_range_push, List.nil_append]

theorem CreateGrid_square (width : Nat) : (Board.empty.CreateGrid width).IsSquare width := by
  unfold Board.IsSquare
  rw [CreateGrid_grid]
  refine ⟨List.length_replicate _ _, ?_⟩
  intro row hrow
  rw [List.eq_of_mem_replicate hrow, List.length_replicate]

theorem CreateGrid_getCell (width r c : Nat) (hr : r < width) (hc : c < width) :
    (Board.empty.CreateGrid width).GetCell r c = .ok kEmptyCell := by
  unfold Board.GetCell
  rw [CreateGrid_grid]
  simp only [List.getElem?_replicate, if_pos hr, if_pos hc]

/-- C2, at the diagonal move `1 1 3 3` on the empty board of width 3: the
cells coloured are the three cells of the diagonal; the cells `(0, 1)` and
`(1, 0)`, which the segment touches at a corner only, are not coloured. -/
theorem PlotLine_colours_iff_segment_crosses_interior_witness :
    (∃ board1 cells,
      (Board.empty.CreateGrid 3).PlotLine 6 (ParametricLine.construct 1 1 3 3) 'X' =
        .ok (board1, cells) ∧
      (∀ r c, (r, c) ∈ cells ↔
        CrossesInterior (ParametricLine.construct 1 1 3 3).tail_cell_
          (ParametricLine.construct 1 1 3 3).head_cell_ r c) ∧
      (∀ r c, CrossesInterior (ParametricLine.construct 1 1 3 3).tail_cell_
          (ParametricLine.construct 1 1 3 3).head_cell_ r c →
        board1.GetCell r c = .ok 'X') ∧
      (∀ r c, ¬ CrossesInterior (ParametricLine.construct 1 1 3 3).tail_cell_
          (ParametricLine.construct 1 1 3 3).head_cell_ r c →
        board1.GetCell r c = (Board.empty.CreateGrid 3).GetCell r c)) ∧
    (Board.empty.CreateGrid 3).PlotLine 6 (ParametricLine.construct 1 1 3 3) 'X' =
      .ok ({ grid_ := [['X', '.', '.'], ['.', 'X', '.'], ['.', '.', 'X']] },
        [(0, 0), (1, 1), (2, 2)]) :=
  ⟨PlotLine_colours_iff_segment_crosses_interior 3 1 1 3 3 (by decide)
    ⟨by decide, by decide, by decide, by decide, by decide, by decide, by decide, by decide⟩
    (Board.empty.CreateGrid 3) (CreateGrid_square 3) 'X' 6 (by decide), by decide!⟩

/-- C7, at the move `1 1 3 4` on the empty board of width 5: the cells
coloured go from the tail cell `(0, 0)` to the head cell `(2, 3)`. -/
theorem PlotLine_terminates_tail_first_head_last_witness :
    (∃ board1 cells,
      (∀ fuel, 2 * 5 ≤ fuel →
        (Board.empty.CreateGrid 5).PlotLine fuel (ParametricLine.construct 1 1 3 4) 'X' =
          .ok (board1, cells)) ∧
      cells.head? = some (ParametricLine.construct 1 1 3 4).tail_cell_ ∧
      cells.getLast? = some (ParametricLine.construct 1 1 3 4).head_cell_ ∧
      (ParametricLine.construct 1 1 3 4).head_cell_ ∉ cells.dropLast) ∧
    ((Board.empty.CreateGrid 5).PlotLine 10 (ParametricLine.construct 1 1 3 4) 'X').toOption.map
      Prod.snd = some [(0, 0), (0, 1), (1, 1), (1, 2), (2, 2), (2, 3)] :=
  ⟨PlotLine_terminates_tail_first_head_last 5 1 1 3 4 (by decide)
    ⟨by decide, by decide, by decide, by decide, by decide, by decide, by decide, by decide⟩
    (Board.empty.CreateGrid 5) (CreateGrid_square 5) 'X', by decide!⟩

/-! ## The board after `Play` -/

theorem IsPlayValid_some (g : Game) (i : Nat) (hi : i < g.plays_.length) :
    ∃ b, g.IsPlayValid i = some b := by
  by_cases hw : 0 < g.prev_plays_checked_
  · rw [IsPlayValid_eq_loop g i g.plays_[i] hw (List.getElem?_eq_getElem hi)]
    by_cases hf : Game.FirstPlayChecked g.prev_plays_checked_ i ≤ i
    · obtain ⟨b, hb, _⟩ := IsPlayValidLoop_spec g.plays_ g.plays_[i]
        (i - Game.FirstPlayChecked g.prev_plays_checked_ i)
        (Game.FirstPlayChecked g.prev_plays_checked_ i) (by omega)
      exact ⟨b, hb⟩
    · rw [show i - Game.FirstPlayChecked g.prev_plays_checked_ i = 0 by omega]
      exact ⟨true, rfl⟩
  · refine ⟨true, ?_⟩
    unfold Game.IsPlayValid
    rw [if_neg hw]

theorem PlotLineCells_on_board {N tx ty hx hy : Nat} (hN : N < 4294967296)
    (h : OnBoard N tx ty hx hy) (board : Board) (hsq : board.IsSquare N)
    (fuel : Nat) (hfuel : 2 * N ≤ fuel) :
    board.PlotLineCells fuel (ParametricLine.construct tx ty hx hy) = lineCells tx ty hx hy := by
  obtain ⟨board1, hplot, _, _⟩ := PlotLine_on_board hN h board hsq kBlackCell fuel
    (h.fuel_bound hN fuel hfuel)
  unfold Board.PlotLineCells
  rw [hplot]

theorem PlayIteration_invariant (g : Game) (fuel N : Nat) (hN : N < 4294967296)
    (hsq0 : g.board_.IsSquare N) (hfuel : 2 * N ≤ fuel) (hmoves : g.ValidPlaysOnBoard N)
    (k : Nat) (gk : Game) (hk : k < g.plays_.length) (hp : gk.plays_ = g.plays_)
    (hw : gk.prev_plays_checked_ = g.prev_plays_checked_)
    (hinv : g.PlayInvariant fuel N k gk.board_) :
    ∃ g1, Game.PlayIteration fuel gk k = .ok g1 ∧ g1.plays_ = g.plays_ ∧
      g1.prev_plays_checked_ = g.prev_plays_checked_ ∧
      g.PlayInvariant fuel N (k + 1) g1.board_ := by
  have hvalid : gk.IsPlayValid k = g.IsPlayValid k := IsPlayValid_congr gk g hp hw k
  have hget : g.plays_[k]? = some g.plays_[k] := List.getElem?_eq_getElem hk
  obtain ⟨b, hb⟩ := IsPlayValid_some g k hk
  obtain ⟨hsqk, hcells⟩ := hinv
  cases b with
  | false =>
    refine ⟨gk, ?_, hp, hw, hsqk, ?_⟩
    · unfold Game.PlayIteration
      simp only [hvalid, hb]
    · intro r c
      rcases hcells r c with ⟨i, ⟨hik, play, h1, h2, h3, h4⟩, hcell⟩ | ⟨hno, hcell⟩
      · left
        refine ⟨i, ⟨by omega, play, h1, h2, h3, ?_⟩, hcell⟩
        intro j q hij hjk hvj hq
        by_cases hjk2 : j = k
        · subst hjk2
          rw [hb] at hvj
          cases hvj
        · exact h4 j q hij (by omega) hvj hq
      · right
        refine ⟨?_, hcell⟩
        intro i play hik hvi hpi
        by_cases hik2 : i = k
        · subst hik2
          rw [hb] at hvi
          cases hvi
        · exact hno i play (by omega) hvi hpi
  | true =>
    obtain ⟨tx, ty, hx, hy, hplay, hon⟩ := hmoves k g.plays_[k] hget hb
    obtain ⟨board1, hplot, hsq1, hget1⟩ := PlotLine_on_board hN hon gk.board_ hsqk
      (Game.CurrColor k) fuel (hon.fuel_bound hN fuel hfuel)
    have hpath : g.board_.PlotLineCells fuel g.plays_[k] = lineCells tx ty hx hy := by
      rw [hplay]
      exact PlotLineCells_on_board hN hon g.board_ hsq0 fuel hfuel
    refine ⟨{ gk with board_ := board1 }, ?_, hp, hw, hsq1, ?_⟩
    · unfold Game.PlayIteration
      simp only [hvalid, hb, hp, hget, hplay, hplot]
    · intro r c
      simp only
      rw [hget1 r c]
      by_cases hmem : (r, c) ∈ lineCells tx ty hx hy
      · left
        rw [if_pos hmem]
        refine ⟨k, ⟨by omega, g.plays_[k], hb, hget, by rw [hpath]; exact hmem, ?_⟩, rfl⟩
        intro j q hkj hjk
        omega
      · rw [if_neg hmem]
        rcases hcells r c with ⟨i, ⟨hik, play, h1, h2, h3, h4⟩, hcell⟩ | ⟨hno, hcell⟩
        · left
          refine ⟨i, ⟨by omega, play, h1, h2, h3, ?_⟩, hcell⟩
          intro j q hij hjk hvj hq
          by_cases hjk2 : j = k
          · subst hjk2
            rw [hget] at hq
            cases hq
            rw [hpath]
            exact hmem
          · exact h4 j q hij (by omega) hvj hq
        · right
          refine ⟨?_, hcell⟩
          intro i play hik hvi hpi
          by_cases hik2 : i = k
          · subst hik2
            rw [hget] at hpi
            cases hpi
            rw [hpath]
            exact hmem
          · exact hno i play (by omega) hvi hpi

theorem PlayLoop_invariant (g : Game) (fuel N : Nat) (hN : N < 4294967296)
    (hsq0 : g.board_.IsSquare N) (hfuel : 2 * N ≤ fuel) (hmoves : g.ValidPlaysOnBoard N) :
    ∀ (n k : Nat) (gk : Game), k + n = g.plays_.length → gk.plays_ = g.plays_ →
      gk.prev_plays_checked_ = g.prev_plays_checked_ →
      g.PlayInvariant fuel N k gk.board_ →
      ∃ g1, Game.PlayLoop fuel n gk k = .ok g1 ∧ g1.plays_ = g.plays_ ∧
        g1.prev_plays_checked_ = g.prev_plays_checked_ ∧
        g.PlayInvariant fuel N (k + n) g1.board_ := by
  intro n
  induction n with
  | zero =>
    intro k gk _ hp hw hinv
    exact ⟨gk, rfl, hp, hw, hinv⟩
  | succ n ih =>
    intro k gk hlen hp hw hinv
    obtain ⟨g1, hit, hp1, hw1, hinv1⟩ := PlayIteration_invariant g fuel N hN hsq0 hfuel hmoves
      k gk (by omega) hp hw hinv
    obtain ⟨g2, hloop, hp2, hw2, hinv2⟩ := ih (k + 1) g1 (by omega) hp1 hw1 hinv1
    refine ⟨g2, ?_, hp2, hw2, ?_⟩
    · rw [PlayLoop_succ, hit]
      exact hloop
    · rw [show k + (n + 1) = k + 1 + n by omega]
      exact hinv2

/-- `Play` returns, and after it each cell holds the colour of the last valid
play whose path contains it, or what it held at the start. -/
theorem Play_invariant (g : Game) (fuel N : Nat) (hN : N < 4294967296)
    (hsq0 : g.board_.IsSquare N) (hfuel : 2 * N ≤ fuel) (hmoves : g.ValidPlaysOnBoard N) :
    ∃ g1, Game.Play fuel g = .ok g1 ∧ g1.plays_ = g.plays_ ∧
      g1.prev_plays_checked_ = g.prev_plays_checked_ ∧
      g.PlayInvariant fuel N g.plays_.length g1.board_ := by
  have h0 : g.PlayInvariant fuel N 0 g.board_ := by
    refine ⟨hsq0, fun r c => Or.inr ⟨?_, rfl⟩⟩
    intro i play hi
    omega
  obtain ⟨g1, h1, h2, h3, h4⟩ := PlayLoop_invariant g fuel N hN hsq0 hfuel hmoves
    g.plays_.length 0 g (by omega) rfl rfl h0
  rw [Nat.zero_add] at h4
  exact ⟨g1, h1, h2, h3, h4⟩

/-! ## Counting cells -/

theorem countRow_fold (color : Char) : ∀ (row : List Char) (count : Nat), count < kUIntSize →
    row.foldl (fun count cell => if cell = color then (count + 1) % kUIntSize else count) count =
      (count + row.count color) % kUIntSize := by
  intro row
  induction row with
  | nil =>
    intro count hc
    simp only [List.foldl_nil, List.count_nil, Nat.add_zero]
    exact (Nat.mod_eq_of_lt hc).symm
  | cons x xs ih =>
    intro count hc
    rw [List.foldl_cons, List.count_cons]
    by_cases hx : x = color
    · rw [if_pos hx, ih _ (Nat.mod_lt _ (by decide))]
      simp only [hx, beq_self_eq_true, if_true]
      unfold kUIntSize
      omega
    · rw [if_neg hx, ih _ hc]
      have : (x == color) = false := by simpa using hx
      simp only [this, Bool.false_eq_true, if_false, Nat.add_zero]

theorem countGrid_fold (color : Char) : ∀ (grid : List (List Char)) (count : Nat),
    count < kUIntSize →
    grid.foldl (fun count row => row.foldl
      (fun count cell => if cell = color then (count + 1) % kUIntSize else count) count) count =
      (count + (grid.map (List.count color)).sum) % kUIntSize := by
  intro grid
  induction grid with
  | nil =>
    intro count hc
    simp only [List.foldl_nil, List.map_nil, List.sum_nil, Nat.add_zero]
    exact (Nat.mod_eq_of_lt hc).symm
  | cons row rows ih =>
    intro count hc
    rw [List.foldl_cons, countRow_fold color row count hc, ih _ (Nat.mod_lt _ (by decide))]
    simp only [List.map_cons, List.sum_cons]
    unfold kUIntSize
    omega

/-- `CountColor` is the number of cells of the colour modulo `2^32`. -/
theorem CountColor_eq (b : Board) (color : Char) :
    b.CountColor color = ((b.grid_.map (List.count color)).sum) % kUIntSize := by
  unfold Board.CountColor
  rw [countGrid_fold color b.grid_ 0 (by decide), Nat.zero_add]

theorem sum_range_getElem? {α : Type} (f : Option α → Nat) : ∀ (l : List α),
    (Finset.range l.length).sum (fun i => f l[i]?) = (l.map (fun a => f (some a))).sum := by
  intro l
  induction l with
  | nil => simp
  | cons x xs ih =>
    rw [List.length_cons, Finset.sum_range_succ']
    simp only [List.getElem?_cons_succ, List.getElem?_cons_zero, List.map_cons, List.sum_cons]
    rw [ih]
    omega

theorem sum_indicator_count (color : Char) : ∀ (row : List Char),
    (row.map (fun a => if some a = some color then 1 else 0)).sum = row.count color := by
  intro row
  induction row with
  | nil => simp
  | cons x xs ih =>
    rw [List.map_cons, List.sum_cons, ih, List.count_cons]
    by_cases hx : x = color
    · simp [hx]
      omega
    · have : (x == color) = false := by simpa using hx
      simp [hx, this]

theorem ncard_cells_eq (N : Nat) (b : Board) (hsq : b.IsSquare N) (color : Char) :
    Set.ncard {rc : Nat × Nat | rc.1 < N ∧ rc.2 < N ∧ b.GetCell rc.1 rc.2 = .ok color} =
      (b.grid_.map (List.count color)).sum := by
  obtain ⟨hlen, hrows⟩ := hsq
  have hset : {rc : Nat × Nat | rc.1 < N ∧ rc.2 < N ∧ b.GetCell rc.1 rc.2 = .ok color} =
      ↑((Finset.range N ×ˢ Finset.range N).filter
        (fun rc => b.GetCell rc.1 rc.2 = .ok color)) := by
    ext rc
    simp only [Set.mem_setOf_eq, Finset.coe_filter, Finset.mem_product, Finset.mem_range]
    tauto
  rw [hset, Set.ncard_coe_Finset, Finset.card_filter, Finset.sum_product]
  have hinner : ∀ r ∈ Finset.range N,
      (Finset.range N).sum (fun c => if b.GetCell (r, c).1 (r, c).2 = .ok color then 1 else 0) =
      (match b.grid_[r]? with
        | some row => row.count color
        | none => 0) := by
    intro r hr
    rw [Finset.mem_range] at hr
    have hr2 : r < b.grid_.length := by omega
    have hrow : (b.grid_[r]).length = N := hrows _ (List.getElem_mem hr2)
    simp only [List.getElem?_eq_getElem hr2]
    rw [← sum_indicator_count color b.grid_[r], ← sum_range_getElem?
      (fun o => if o = some color then 1 else 0) b.grid_[r], hrow]
    apply Finset.sum_congr rfl
    intro c hc
    rw [Finset.mem_range] at hc
    have hc2 : c < (b.grid_[r]).length := by omega
    unfold Board.GetCell
    simp only [List.getElem?_eq_getElem hr2, List.getElem?_eq_getElem hc2]
    by_cases hcell : (b.grid_[r])[c] = color
    · simp [hcell]
    · have : ¬ (Except.ok ((b.grid_[r])[c]) : Except Fault Char) = .ok color :=
        fun h => hcell (Except.ok.inj h)
      simp [hcell, this]
  rw [Finset.sum_congr rfl hinner, ← hlen]
  exact sum_range_getElem? (fun o => match o with
    | some row => row.count color
    | none => 0) b.grid_

theorem lastValidPlay_lt (g : Game) (fuel r c i : Nat) (h : g.LastValidPlay fuel r c i) :
    i < g.plays_.length := by
  obtain ⟨play, _, h2, _⟩ := h
  by_contra hc
  rw [List.getElem?_eq_none (by omega)] at h2
  cases h2

theorem final_cell_cases (g : Game) (fuel N : Nat) (board : Board)
    (hinv : g.PlayInvariant fuel N g.plays_.length board) (r c : Nat) :
    (∃ i, g.LastValidPlay fuel r c i ∧ board.GetCell r c = .ok (Game.CurrColor i)) ∨
    ((∀ i play, g.IsPlayValid i = some true → g.plays_[i]? = some play →
        (r, c) ∉ g.board_.PlotLineCells fuel play) ∧
      board.GetCell r c = g.board_.GetCell r c) := by
  rcases hinv.2 r c with ⟨i, ⟨hik, play, h1, h2, h3, h4⟩, hcell⟩ | ⟨hno, hcell⟩
  · left
    refine ⟨i, ⟨play, h1, h2, h3, ?_⟩, hcell⟩
    intro j q hij hvj hq
    have hj : j < g.plays_.length := by
      by_contra hc
      rw [List.getElem?_eq_none (by omega)] at hq
      cases hq
    exact h4 j q hij hj hvj hq
  · right
    refine ⟨?_, hcell⟩
    intro i play hvi hpi
    have hi : i < g.plays_.length := by
      by_contra hc
      rw [List.getElem?_eq_none (by omega)] at hpi
      cases hpi
    exact hno i play hi hvi hpi

theorem lastValidPlay_unique (g : Game) (fuel r c i j : Nat)
    (hi : g.LastValidPlay fuel r c i) (hj : g.LastValidPlay fuel r c j) : i = j := by
  obtain ⟨p, a1, a2, a3, a4⟩ := hi
  obtain ⟨q, b1, b2, b3, b4⟩ := hj
  by_contra hne
  rcases Nat.lt_or_gt_of_ne hne with h | h
  · exact a4 j q h b1 b2 b3
  · exact b4 i p h a1 a2 a3

theorem final_cell_of_last (g : Game) (fuel N : Nat) (board : Board)
    (hinv : g.PlayInvariant fuel N g.plays_.length board) (r c i : Nat)
    (hlast : g.LastValidPlay fuel r c i) :
    board.GetCell r c = .ok (Game.CurrColor i) := by
  rcases final_cell_cases g fuel N board hinv r c with ⟨j, hj, hcell⟩ | ⟨hno, _⟩
  · rw [lastValidPlay_unique g fuel r c i j hlast hj]
    exact hcell
  · obtain ⟨p, a1, a2, a3, _⟩ := hlast
    exact absurd a3 (hno i p a1 a2)

theorem final_cell_of_none (g : Game) (fuel N : Nat) (board : Board)
    (hinv : g.PlayInvariant fuel N g.plays_.length board) (r c : Nat)
    (hnone : ∀ i play, g.IsPlayValid i = some true → g.plays_[i]? = some play →
        (r, c) ∉ g.board_.PlotLineCells fuel play) :
    board.GetCell r c = g.board_.GetCell r c := by
  rcases final_cell_cases g fuel N board hinv r c with ⟨j, ⟨p, a1, a2, a3, _⟩, _⟩ | ⟨_, hcell⟩
  · exact absurd a3 (hnone j p a1 a2)
  · exact hcell

theorem final_count (g : Game) (fuel N : Nat) (board : Board)
    (hinv : g.PlayInvariant fuel N g.plays_.length board) (color : Char)
    (hstart : ∀ r c, g.board_.GetCell r c ≠ .ok color) :
    board.CountColor color =
      Set.ncard {rc : Nat × Nat | rc.1 < N ∧ rc.2 < N ∧
        ∃ i, g.LastValidPlay fuel rc.1 rc.2 i ∧ Game.CurrColor i = color} % kUIntSize := by
  rw [CountColor_eq, ← ncard_cells_eq N board hinv.1 color]
  congr 2
  ext rc
  simp only [Set.mem_setOf_eq]
  constructor
  · rintro ⟨h1, h2, hcell⟩
    refine ⟨h1, h2, ?_⟩
    rcases final_cell_cases g fuel N board hinv rc.1 rc.2 with ⟨i, hi, hc⟩ | ⟨_, hc⟩
    · refine ⟨i, hi, ?_⟩
      rw [hc] at hcell
      exact Except.ok.inj hcell
    · rw [hc] at hcell
      exact absurd hcell (hstart rc.1 rc.2)
  · rintro ⟨h1, h2, i, hi, hcolor⟩
    refine ⟨h1, h2, ?_⟩
    rw [final_cell_of_last g fuel N board hinv rc.1 rc.2 i hi, hcolor]

theorem CurrColor_black_iff (i : Nat) : Game.CurrColor i = 'X' ↔ i % 2 = 0 := by
  unfold Game.CurrColor kBlackCell kWhiteCell
  by_cases h : i % 2 = 0
  · simp [h]
  · simp [h]

theorem CurrColor_white_iff (i : Nat) : Game.CurrColor i = 'O' ↔ i % 2 = 1 := by
  unfold Game.CurrColor kBlackCell kWhiteCell
  by_cases h : i % 2 = 0
  · simp [h]
  · simp [h]
    omega

/-- The statement of C3 for the boards where the counter of `CountColor` does
not wrap.  After `Play` on an initially all-Empty board of width `N` in which
every valid move lies on the board, each cell holds the colour of the
highest-index valid move whose rasterised path contains that cell (Black `X`
for an even index, White `O` for an odd index) and is Empty if no valid move's
path contains it; the count reported for each colour equals the number of such
cells whenever that number is below `2^32`. -/
theorem Play_final_board_and_counts (N fuel : Nat) (g : Game) (hN : N < 4294967296)
    (hboard : g.board_ = Board.empty.CreateGrid N) (hfuel : 2 * N ≤ fuel)
    (hmoves : g.ValidPlaysOnBoard N) :
    ∃ g1, Game.Play fuel g = .ok g1 ∧
      (∀ r c, r < N → c < N →
        (∀ i, g.LastValidPlay fuel r c i →
          g1.board_.GetCell r c = .ok (if i % 2 = 0 then 'X' else 'O')) ∧
        ((∀ i play, g.IsPlayValid i = some true → g.plays_[i]? = some play →
            (r, c) ∉ g.board_.PlotLineCells fuel play) →
          g1.board_.GetCell r c = .ok '.')) ∧
      (Set.ncard {rc : Nat × Nat | rc.1 < N ∧ rc.2 < N ∧
          ∃ i, g.LastValidPlay fuel rc.1 rc.2 i ∧ i % 2 = 0} < 4294967296 →
        g1.board_.CountColor 'X' =
          Set.ncard {rc : Nat × Nat | rc.1 < N ∧ rc.2 < N ∧
            ∃ i, g.LastValidPlay fuel rc.1 rc.2 i ∧ i % 2 = 0}) ∧
      (Set.ncard {rc : Nat × Nat | rc.1 < N ∧ rc.2 < N ∧
          ∃ i, g.LastValidPlay fuel rc.1 rc.2 i ∧ i % 2 = 1} < 4294967296 →
        g1.board_.CountColor 'O' =
          Set.ncard {rc : Nat × Nat | rc.1 < N ∧ rc.2 < N ∧
            ∃ i, g.LastValidPlay fuel rc.1 rc.2 i ∧ i % 2 = 1}) := by
  have hsq0 : g.board_.IsSquare N := by
    rw [hboard]
    exact CreateGrid_square N
  obtain ⟨g1, hplay, _, _, hinv⟩ := Play_invariant g fuel N hN hsq0 hfuel hmoves
  have hstart : ∀ (color : Char), color ≠ '.' → ∀ r c, g.board_.GetCell r c ≠ .ok color := by
    intro color hcolor r c hcell
    rw [hboard] at hcell
    unfold Board.GetCell at hcell
    rw [CreateGrid_grid] at hcell
    simp only [List.getElem?_replicate] at hcell
    split at hcell
    · cases hcell
    · rename_i row hrow
      split at hrow
      · cases hrow
        simp only [List.getElem?_replicate] at hcell
        split at hcell
        · cases hcell
        · rename_i cell hc
          split at hc
          · cases hc
            exact hcolor (Except.ok.inj hcell).symm
          · cases hc
      · cases hrow
  refine ⟨g1, hplay, ?_, ?_, ?_⟩
  · intro r c hr hc
    constructor
    · intro i hi
      exact final_cell_of_last g fuel N g1.board_ hinv r c i hi
    · intro hnone
      rw [final_cell_of_none g fuel N g1.board_ hinv r c hnone, hboard]
      exact CreateGrid_getCell N r c hr hc
  · intro hlt
    have h := final_count g fuel N g1.board_ hinv 'X' (hstart 'X' (by decide))
    simp only [CurrColor_black_iff] at h
    rw [h]
    exact Nat.mod_eq_of_lt hlt
  · intro hlt
    have h := final_count g fuel N g1.board_ hinv 'O' (hstart 'O' (by decide))
    simp only [CurrColor_white_iff] at h
    rw [h]
    exact Nat.mod_eq_of_lt hlt

theorem gameOneRow_moves : gameOneRow.ValidPlaysOnBoard 3 := by
  intro i play hplay _
  cases i with
  | zero =>
    refine ⟨1, 1, 1, 3, ?_, by decide, by decide, by decide, by decide, by decide, by decide,
      by decide, by decide⟩
    simp only [gameOneRow, List.getElem?_cons_zero] at hplay
    exact (Option.some.inj hplay).symm
  | succ i =>
    simp [gameOneRow] at hplay

/-- The statement of C3 at its own example, the game `N = 3`, window 0, with
the single move `1 1 1 3`: the row 0 is all Black, the rows 1 and 2 are Empty,
the counts are 3 Black and 0 White. -/
theorem Play_final_board_and_counts_witness :
    (∃ g1, Game.Play 6 gameOneRow = .ok g1 ∧
      (∀ r c, r < 3 → c < 3 →
        (∀ i, gameOneRow.LastValidPlay 6 r c i →
          g1.board_.GetCell r c = .ok (if i % 2 = 0 then 'X' else 'O')) ∧
        ((∀ i play, gameOneRow.IsPlayValid i = some true → gameOneRow.plays_[i]? = some play →
            (r, c) ∉ gameOneRow.board_.PlotLineCells 6 play) →
          g1.board_.GetCell r c = .ok '.')) ∧
      (Set.ncard {rc : Nat × Nat | rc.1 < 3 ∧ rc.2 < 3 ∧
          ∃ i, gameOneRow.LastValidPlay 6 rc.1 rc.2 i ∧ i % 2 = 0} < 4294967296 →
        g1.board_.CountColor 'X' =
          Set.ncard {rc : Nat × Nat | rc.1 < 3 ∧ rc.2 < 3 ∧
            ∃ i, gameOneRow.LastValidPlay 6 rc.1 rc.2 i ∧ i % 2 = 0}) ∧
      (Set.ncard {rc : Nat × Nat | rc.1 < 3 ∧ rc.2 < 3 ∧
          ∃ i, gameOneRow.LastValidPlay 6 rc.1 rc.2 i ∧ i % 2 = 1} < 4294967296 →
        g1.board_.CountColor 'O' =
          Set.ncard {rc : Nat × Nat | rc.1 < 3 ∧ rc.2 < 3 ∧
            ∃ i, gameOneRow.LastValidPlay 6 rc.1 rc.2 i ∧ i % 2 = 1})) ∧
    Game.Play 6 gameOneRow =
      .ok { gameOneRow with
        board_ := { grid_ := [['X', 'X', 'X'], ['.', '.', '.'], ['.', '.', '.']] } } ∧
    Board.CountColor { grid_ := [['X', 'X', 'X'], ['.', '.', '.'], ['.', '.', '.']] } 'X' = 3 ∧
    Board.CountColor { grid_ := [['X', 'X', 'X'], ['.', '.', '.'], ['.', '.', '.']] } 'O' = 0 :=
  ⟨Play_final_board_and_counts 3 6 gameOneRow (by decide) rfl (by decide) gameOneRow_moves,
    by decide!, by decide, by decide⟩

/-! ## A board of `2^32` cells -/

theorem wideGame_plays : wideGame.plays_ = (List.range 131071).map rowPlay := by
  have h1 : wideGame.plays_ = widePlays := by
    simp only [wideGame]
  rw [h1]
  unfold widePlays
  rfl

theorem wideGame_board : wideGame.board_ = Board.empty.CreateGrid 65536 := by
  have h1 : wideGame.board_ = wideBoard := by
    simp only [wideGame]
  rw [h1]
  unfold wideBoard
  rfl

theorem wideGame_get (k : Nat) (play : ParametricLine) :
    wideGame.plays_[k]? = some play ↔ k < 131071 ∧ play = rowPlay k := by
  rw [wideGame_plays, List.getElem?_map]
  by_cases hk : k < 131071
  · rw [List.getElem?_range hk, Option.map_some', Option.some.injEq]
    constructor
    · intro h
      exact ⟨hk, h.symm⟩
    · rintro ⟨_, h⟩
      exact h.symm
  · rw [List.getElem?_eq_none (by rw [List.length_range]; omega), Option.map_none']
    constructor
    · intro h
      cases h
    · rintro ⟨h, _⟩
      exact absurd h hk

theorem wideGame_valid (k : Nat) : wideGame.IsPlayValid k = some true := by
  unfold Game.IsPlayValid
  have : wideGame.prev_plays_checked_ = 0 := rfl
  rw [this]
  rfl

theorem rowPlay_onBoard (k : Nat) (hk : k < 131071) :
    OnBoard 65536 ((k + 1) / 2 + 1) 1 ((k + 1) / 2 + 1) 65536 := by
  refine ⟨by omega, by omega, by omega, by omega, ?_, ?_, ?_, ?_⟩ <;>
    simp only [ParametricLine.construct, usub32, kUIntSize] <;> omega

theorem wideGame_moves : wideGame.ValidPlaysOnBoard 65536 := by
  intro i play hplay _
  obtain ⟨hi, rfl⟩ := (wideGame_get i play).1 hplay
  exact ⟨_, _, _, _, rfl, rowPlay_onBoard i hi⟩

theorem mem_rowCells (ρ r c : Nat) :
    (r, c) ∈ lineCells (ρ + 1) 1 (ρ + 1) 65536 ↔ r = ρ ∧ c < 65536 := by
  have e1 : lineExtent (ρ + 1) (ρ + 1) = 0 := by simp [lineExtent]
  have e2 : lineExtent 1 65536 = 65535 := by decide
  have e3 : lineStep (ρ + 1) (ρ + 1) = 0 := by simp [lineStep]
  have e4 : lineStep 1 65536 = 1 := by decide
  unfold lineCells
  rw [e1, e2, e3, e4, List.mem_map]
  constructor
  · rintro ⟨⟨i, j⟩, hq, hcell⟩
    rw [mem_gridPath] at hq
    unfold cellAt at hcell
    rw [Prod.mk.injEq] at hcell
    simp only at hcell
    rcases hq with hq | ⟨_, hq, _, _⟩
    · rw [Prod.mk.injEq] at hq
      omega
    · simp only at hq
      omega
  · rintro ⟨rfl, hc⟩
    refine ⟨(0, c), ?_, ?_⟩
    · rw [mem_gridPath]
      right
      refine ⟨le_refl _, ?_, ?_, ?_⟩ <;> simp only <;> omega
    · unfold cellAt
      rw [Prod.mk.injEq]
      simp only
      omega

theorem wideGame_path (k : Nat) (hk : k < 131071) (r c : Nat) :
    (r, c) ∈ wideGame.board_.PlotLineCells 131072 (rowPlay k) ↔
      r = (k + 1) / 2 ∧ c < 65536 := by
  have hb := wideGame_board
  unfold rowPlay
  rw [PlotLineCells_on_board (by decide) (rowPlay_onBoard k hk) wideGame.board_
    (by rw [hb]; exact CreateGrid_square 65536) 131072 (by decide)]
  exact mem_rowCells ((k + 1) / 2) r c

theorem wideGame_last (r c : Nat) (hr : r < 65536) (hc : c < 65536) :
    wideGame.LastValidPlay 131072 r c (2 * r) := by
  refine ⟨rowPlay (2 * r), wideGame_valid _, (wideGame_get _ _).2 ⟨by omega, rfl⟩, ?_, ?_⟩
  · rw [wideGame_path (2 * r) (by omega) r c]
    omega
  · intro j q hj _ hq
    obtain ⟨hj2, rfl⟩ := (wideGame_get j q).1 hq
    rw [wideGame_path j hj2 r c]
    omega

theorem ncard_square (N : Nat) :
    Set.ncard {rc : Nat × Nat | rc.1 < N ∧ rc.2 < N} = N * N := by
  have hset : {rc : Nat × Nat | rc.1 < N ∧ rc.2 < N} =
      ↑(Finset.range N ×ˢ Finset.range N) := by
    ext rc
    simp only [Set.mem_setOf_eq, Finset.coe_product, Finset.coe_range, Set.mem_prod,
      Set.mem_Iio]
  rw [hset, Set.ncard_coe_Finset, Finset.card_product, Finset.card_range]

theorem wideGame_square : wideGame.board_.IsSquare 65536 := by
  rw [wideGame_board]
  exact CreateGrid_square 65536

theorem CreateGrid_getCell_ne (width : Nat) (color : Char) (hcolor : color ≠ kEmptyCell)
    (r c : Nat) : (Board.empty.CreateGrid width).GetCell r c ≠ .ok color := by
  intro hcell
  by_cases hr : r < width
  · by_cases hc : c < width
    · rw [CreateGrid_getCell width r c hr hc] at hcell
      exact hcolor (Except.ok.inj hcell).symm
    · unfold Board.GetCell at hcell
      rw [CreateGrid_grid] at hcell
      simp only [List.getElem?_replicate, if_pos hr, if_neg hc] at hcell
      cases hcell
  · unfold Board.GetCell at hcell
    rw [CreateGrid_grid] at hcell
    simp only [List.getElem?_replicate, if_neg hr] at hcell
    cases hcell

theorem wideGame_start (r c : Nat) : wideGame.board_.GetCell r c ≠ .ok 'X' := by
  rw [wideGame_board]
  exact CreateGrid_getCell_ne 65536 'X' (by decide) r c

theorem wideGame_black_cells :
    {rc : Nat × Nat | rc.1 < 65536 ∧ rc.2 < 65536 ∧
      ∃ i, wideGame.LastValidPlay 131072 rc.1 rc.2 i ∧ i % 2 = 0} =
      {rc : Nat × Nat | rc.1 < 65536 ∧ rc.2 < 65536} := by
  ext rc
  simp only [Set.mem_setOf_eq]
  constructor
  · rintro ⟨h1, h2, _⟩
    exact ⟨h1, h2⟩
  · rintro ⟨h1, h2⟩
    exact ⟨h1, h2, 2 * rc.1, wideGame_last rc.1 rc.2 h1 h2, by omega⟩

theorem wideGame_play :
    ∃ g1, Game.Play 131072 wideGame = .ok g1 ∧
      wideGame.PlayInvariant 131072 65536 wideGame.plays_.length g1.board_ := by
  obtain ⟨g1, hplay, _, _, hinv⟩ := Play_invariant wideGame 131072 65536 (by decide)
    wideGame_square (by decide) wideGame_moves
  exact ⟨g1, hplay, hinv⟩

/-- C3.  The input file of width 65536, window 0 and 131071 moves that draw
the rows one after the other gives `wideGame`: it starts from the all-Empty
board and every move of it is valid and lies on the board.  After `Play` every
one of the `2^32` cells has an even move as the last valid move over it, so
the claim has the count `2^32` for Black; the `unsigned int` counter of
`CountColor` has wrapped and the count reported for Black is 0. -/
theorem Play_count_wraps :
    wideGame.board_ = Board.empty.CreateGrid 65536 ∧ wideGame.ValidPlaysOnBoard 65536 ∧
    ∃ g1, Game.Play 131072 wideGame = .ok g1 ∧
      g1.board_.CountColor 'X' = 0 ∧
      Set.ncard {rc : Nat × Nat | rc.1 < 65536 ∧ rc.2 < 65536 ∧
        ∃ i, wideGame.LastValidPlay 131072 rc.1 rc.2 i ∧ i % 2 = 0} = 4294967296 := by
  obtain ⟨g1, hplay, hinv⟩ := wideGame_play
  have hcount := final_count wideGame 131072 65536 g1.board_ hinv 'X' wideGame_start
  simp only [CurrColor_black_iff] at hcount
  rw [wideGame_black_cells, ncard_square] at hcount
  refine ⟨wideGame_board, wideGame_moves, g1, hplay, ?_, ?_⟩
  · rw [hcount]
    decide
  · rw [wideGame_black_cells, ncard_square]

/-! ## The tolerance tests in real numbers -/

/-- The two conditions of the tolerance tests on rationals say that the
difference `d * ‖v‖` of two traversal values is above the tolerance, with
`‖v‖` the real square root of `n`. -/
theorem tol_test_real (n d : ℚ) (hn : 0 ≤ n) :
    (0 < d ∧ kFloatErrorTolerance ^ 2 < d ^ 2 * n) ↔
      (kFloatErrorTolerance : ℝ) < (d : ℝ) * Real.sqrt (n : ℝ) := by
  have hnr : (0 : ℝ) ≤ (n : ℝ) := by exact_mod_cast hn
  have hs0 : 0 ≤ Real.sqrt (n : ℝ) := Real.sqrt_nonneg _
  have hs2 : Real.sqrt (n : ℝ) ^ 2 = (n : ℝ) := Real.sq_sqrt hnr
  have htol : (0 : ℝ) < (kFloatErrorTolerance : ℝ) := by
    unfold kFloatErrorTolerance
    norm_num
  constructor
  · rintro ⟨hd, hsq⟩
    have hdr : (0 : ℝ) < (d : ℝ) := by exact_mod_cast hd
    have hsqr : (kFloatErrorTolerance : ℝ) ^ 2 < (d : ℝ) ^ 2 * (n : ℝ) := by
      exact_mod_cast hsq
    have h2 : (kFloatErrorTolerance : ℝ) ^ 2 < ((d : ℝ) * Real.sqrt (n : ℝ)) ^ 2 := by
      rw [mul_pow, hs2]
      exact hsqr
    exact lt_of_pow_lt_pow_left₀ 2 (mul_nonneg hdr.le hs0) h2
  · intro h
    have hpos : 0 < (d : ℝ) * Real.sqrt (n : ℝ) := lt_trans htol h
    have hdr : (0 : ℝ) < (d : ℝ) := by
      by_contra hc
      push_neg at hc
      have : (d : ℝ) * Real.sqrt (n : ℝ) ≤ 0 := mul_nonpos_of_nonpos_of_nonneg hc hs0
      linarith
    have h2 : (kFloatErrorTolerance : ℝ) ^ 2 < ((d : ℝ) * Real.sqrt (n : ℝ)) ^ 2 :=
      pow_lt_pow_left₀ h htol.le (by decide)
    rw [mul_pow, hs2] at h2
    exact ⟨by exact_mod_cast hdr, by exact_mod_cast h2⟩

/-- `ltMinusTol` on finite values is the test `a < b - kFloatErrorTolerance`
on the real numbers `p * ‖v‖` and `q * ‖v‖`. -/
theorem ltMinusTol_finite_real (n p q : ℚ) (hn : 0 ≤ n) :
    TValue.ltMinusTol n (TValue.finite p) (TValue.finite q) = true ↔
      (p : ℝ) * Real.sqrt (n : ℝ) <
        (q : ℝ) * Real.sqrt (n : ℝ) - (kFloatErrorTolerance : ℝ) := by
  simp only [TValue.ltMinusTol, decide_eq_true_eq]
  rw [tol_test_real n (q - p) hn]
  push_cast
  constructor <;> intro h <;> linarith

/-- `gtPlusTol` on finite values is the test `a > b + kFloatErrorTolerance`
on the real numbers `p * ‖v‖` and `q * ‖v‖`. -/
theorem gtPlusTol_finite_real (n p q : ℚ) (hn : 0 ≤ n) :
    TValue.gtPlusTol n (TValue.finite p) (TValue.finite q) = true ↔
      (p : ℝ) * Real.sqrt (n : ℝ) >
        (q : ℝ) * Real.sqrt (n : ℝ) + (kFloatErrorTolerance : ℝ) := by
  simp only [TValue.gtPlusTol, decide_eq_true_eq]
  rw [tol_test_real n (p - q) hn]
  push_cast
  constructor <;> intro h <;> linarith

/-! ## Straight traversals: rows, columns and diagonals -/

/-- A traversal whose every step is the same: when the step counts `f k`
(`k < d`) are followed by `f (k + 1)` and `f d` is the head, the traversal from
`f k` visits `f (k + 1)`, ..., `f d` in this order. -/
theorem gridWalk_straight (A B d : Nat) (f : Nat → Nat × Nat)
    (hstep : ∀ k, k < d → gridStep A B (f k) = f (k + 1))
    (hend : f d = (A, B)) (hne : ∀ k, k < d → f k ≠ (A, B)) :
    ∀ (fuel k : Nat), k < d → d - k ≤ fuel →
      gridWalk A B fuel (f k) = (List.range' (k + 1) (d - k)).map f := by
  intro fuel
  induction fuel with
  | zero =>
    intro k hk hfuel
    omega
  | succ fuel ih =>
    intro k hk hfuel
    unfold gridWalk
    rw [hstep k hk]
    by_cases hlast : k + 1 = d
    · rw [if_pos (by rw [hlast]; exact hend)]
      rw [show d - k = 1 by omega]
      rfl
    · have hk1 : k + 1 < d := by omega
      rw [if_neg (hne (k + 1) hk1), ih (k + 1) hk1 (by omega)]
      rw [show d - k = (d - (k + 1)) + 1 by omega, List.range'_succ]
      rfl

theorem gridPath_straight (A B d : Nat) (f : Nat → Nat × Nat) (hd : 0 < d)
    (hAB : A + B = d ∨ (A = d ∧ B = d))
    (h0 : f 0 = (0, 0))
    (hstep : ∀ k, k < d → gridStep A B (f k) = f (k + 1))
    (hend : f d = (A, B)) (hne : ∀ k, k < d → f k ≠ (A, B)) :
    gridPath A B = (List.range (d + 1)).map f := by
  unfold gridPath
  rw [if_neg (by omega)]
  have h := gridWalk_straight A B d f hstep hend hne (A + B) 0 hd (by omega)
  rw [h0] at h
  rw [h, List.range_eq_range', show d + 1 = (d - 0) + 1 by omega, List.range'_succ,
    List.map_cons, h0]

theorem gridPath_column_axis (B : Nat) (hB : 0 < B) :
    gridPath 0 B = (List.range (B + 1)).map (fun k => (0, k)) := by
  apply gridPath_straight 0 B B (fun k => (0, k)) hB (Or.inl (by omega)) rfl
  · intro k hk
    unfold gridStep
    simp only
    rw [if_neg (by omega), if_pos (by
      have : 0 < (2 * 0 + 1) * B := by omega
      omega)]
  · rfl
  · intro k hk h
    rw [Prod.mk.injEq] at h
    omega

theorem gridPath_row_axis (A : Nat) (hA : 0 < A) :
    gridPath A 0 = (List.range (A + 1)).map (fun k => (k, 0)) := by
  apply gridPath_straight A 0 A (fun k => (k, 0)) hA (Or.inl (by omega)) rfl
  · intro k hk
    unfold gridStep
    simp only
    rw [if_pos (by
      have : 0 < (2 * 0 + 1) * A := by omega
      omega)]
  · rfl
  · intro k hk h
    rw [Prod.mk.injEq] at h
    omega

theorem gridPath_diagonal (d : Nat) (hd : 0 < d) :
    gridPath d d = (List.range (d + 1)).map (fun k => (k, k)) := by
  apply gridPath_straight d d d (fun k => (k, k)) hd (Or.inr ⟨rfl, rfl⟩) rfl
  · intro k hk
    unfold gridStep
    simp only
    rw [if_neg (by omega), if_neg (by omega)]
  · rfl
  · intro k hk h
    rw [Prod.mk.injEq] at h
    omega

theorem lineExtent_self (t : Nat) : lineExtent t t = 0 := by simp [lineExtent]

theorem lineStep_self (t : Nat) : lineStep t t = 0 := by simp [lineStep]

theorem lineExtent_pos (t h : Nat) (hne : t ≠ h) : 0 < lineExtent t h := by
  unfold lineExtent
  omega

theorem lineCells_row (tx ty hy : Nat) (hne : ty ≠ hy) :
    lineCells tx ty tx hy = (List.range (lineExtent ty hy + 1)).map
      (fun (k : Nat) => (tx - 1, (((ty - 1 : Nat) : Int) + lineStep ty hy * (k : Int)).toNat)) := by
  unfold lineCells
  rw [lineExtent_self, lineStep_self, gridPath_column_axis _ (lineExtent_pos ty hy hne),
    List.map_map]
  apply List.map_congr_left
  intro k _
  simp [cellAt]

theorem lineCells_column (tx ty hx : Nat) (hne : tx ≠ hx) :
    lineCells tx ty hx ty = (List.range (lineExtent tx hx + 1)).map
      (fun (k : Nat) => ((((tx - 1 : Nat) : Int) + lineStep tx hx * (k : Int)).toNat, ty - 1)) := by
  unfold lineCells
  rw [lineExtent_self, lineStep_self, gridPath_row_axis _ (lineExtent_pos tx hx hne),
    List.map_map]
  apply List.map_congr_left
  intro k _
  simp [cellAt]

theorem lineCells_diagonal (tx ty hx hy d : Nat) (hd : 0 < d) (h1 : lineExtent tx hx = d)
    (h2 : lineExtent ty hy = d) :
    lineCells tx ty hx hy = (List.range (d + 1)).map
      (fun (k : Nat) => ((((tx - 1 : Nat) : Int) + lineStep tx hx * (k : Int)).toNat,
        (((ty - 1 : Nat) : Int) + lineStep ty hy * (k : Int)).toNat)) := by
  unfold lineCells
  rw [h1, h2, gridPath_diagonal d hd, List.map_map]
  apply List.map_congr_left
  intro k _
  simp [cellAt]

theorem lineExtent_dist (t h : Nat) (ht : 1 ≤ t) (hh : 1 ≤ h) :
    lineExtent t h = Nat.dist (t - 1) (h - 1) := by
  unfold lineExtent Nat.dist
  omega

theorem axis_cell (t h k : Nat) (ht : 1 ≤ t) (hh : 1 ≤ h) (hk : k ≤ lineExtent t h) :
    (((t - 1 : Nat) : Int) + lineStep t h * (k : Int)).toNat =
      if t - 1 < h - 1 then t - 1 + k else t - 1 - k := by
  unfold lineExtent at hk
  by_cases h1 : t < h
  · have hs : lineStep t h = 1 := by unfold lineStep; rw [if_pos h1]
    rw [hs, if_pos (show t - 1 < h - 1 by omega)]
    omega
  · have h3 : ¬ t - 1 < h - 1 := by omega
    by_cases h2 : h < t
    · have hs : lineStep t h = -1 := by unfold lineStep; rw [if_neg h1, if_pos h2]
      rw [hs, if_neg h3]
      omega
    · have hs : lineStep t h = 0 := by unfold lineStep; rw [if_neg h1, if_neg h2]
      rw [hs, if_neg h3]
      omega

theorem mem_axis_range (t h c : Nat) :
    (∃ k, k < Nat.dist t h + 1 ∧ (if t < h then t + k else t - k) = c) ↔
      min t h ≤ c ∧ c ≤ max t h := by
  unfold Nat.dist
  constructor
  · rintro ⟨k, hk, rfl⟩
    by_cases h1 : t < h
    · rw [if_pos h1]
      omega
    · rw [if_neg h1]
      omega
  · intro hc
    by_cases h1 : t < h
    · exact ⟨c - t, by omega, by rw [if_pos h1]; omega⟩
    · exact ⟨t - c, by omega, by rw [if_neg h1]; omega⟩

/-! ## Moves along a row, a column or a diagonal -/

/-- C11: for a move on a board of width `N` whose tail and head cells are
distinct cells of one row, `PlotLine` returns, the cells it colours are, in
the order of the traversal, the cells of that row from the tail to the head,
one column at a time (so the row never changes), and these are exactly the
cells of the row between the two columns; the other cells keep their value.
The same holds with rows and columns exchanged for two cells of one column. -/
theorem PlotLine_row_or_column_move (N tx ty hx hy : Nat) (hN : N < 4294967296)
    (hmove : OnBoard N tx ty hx hy) (board : Board) (hsq : board.IsSquare N) (color : Char)
    (fuel : Nat) (hfuel : 2 * N ≤ fuel) (tail head : Nat × Nat)
    (htail : (ParametricLine.construct tx ty hx hy).tail_cell_ = tail)
    (hhead : (ParametricLine.construct tx ty hx hy).head_cell_ = head) :
    ∃ board1 cells,
      board.PlotLine fuel (ParametricLine.construct tx ty hx hy) color = .ok (board1, cells) ∧
      (∀ r c, board1.GetCell r c = if (r, c) ∈ cells then .ok color else board.GetCell r c) ∧
      (tail.1 = head.1 → tail.2 ≠ head.2 →
        cells = (List.range (Nat.dist tail.2 head.2 + 1)).map
          (fun (k : Nat) => (tail.1, if tail.2 < head.2 then tail.2 + k else tail.2 - k)) ∧
        ∀ r c, (r, c) ∈ cells ↔ r = tail.1 ∧ min tail.2 head.2 ≤ c ∧ c ≤ max tail.2 head.2) ∧
      (tail.2 = head.2 → tail.1 ≠ head.1 →
        cells = (List.range (Nat.dist tail.1 head.1 + 1)).map
          (fun (k : Nat) => (if tail.1 < head.1 then tail.1 + k else tail.1 - k, tail.2)) ∧
        ∀ r c, (r, c) ∈ cells ↔ c = tail.2 ∧ min tail.1 head.1 ≤ r ∧ r ≤ max tail.1 head.1) := by
  obtain ⟨⟨a1, a2⟩, ⟨b1, b2⟩, ⟨c1, c2⟩, ⟨d1, d2⟩⟩ := hmove.inputs hN
  obtain ⟨ftail, fhead, _⟩ := construct_fields tx ty hx hy a1 b1 c1 d1 hmove.tail_x_uint
    hmove.tail_y_uint hmove.head_x_uint hmove.head_y_uint
  obtain ⟨board1, hplot, _, hget⟩ := PlotLine_on_board hN hmove board hsq color fuel
    (hmove.fuel_bound hN fuel hfuel)
  rw [ftail] at htail
  rw [fhead] at hhead
  subst htail hhead
  refine ⟨board1, lineCells tx ty hx hy, hplot, hget, ?_, ?_⟩
  · intro hrow hcol
    simp only at hrow hcol
    have hx_eq : hx = tx := by omega
    subst hx_eq
    have hne : ty ≠ hy := by omega
    have hlist : lineCells hx ty hx hy = (List.range (Nat.dist (ty - 1) (hy - 1) + 1)).map
        (fun (k : Nat) => (hx - 1, if ty - 1 < hy - 1 then ty - 1 + k else ty - 1 - k)) := by
      rw [lineCells_row hx ty hy hne, lineExtent_dist ty hy b1 d1]
      apply List.map_congr_left
      intro k hk
      rw [List.mem_range] at hk
      rw [axis_cell ty hy k b1 d1 (by rw [lineExtent_dist ty hy b1 d1]; omega)]
    refine ⟨hlist, ?_⟩
    intro r c
    rw [hlist, List.mem_map, ← mem_axis_range]
    constructor
    · rintro ⟨k, hk, hkc⟩
      rw [List.mem_range] at hk
      rw [Prod.mk.injEq] at hkc
      exact ⟨hkc.1.symm, k, hk, hkc.2⟩
    · rintro ⟨hr, k, hk, hkc⟩
      exact ⟨k, List.mem_range.mpr hk, by rw [hr, ← hkc]⟩
  · intro hcol hrow
    simp only at hrow hcol
    have hy_eq : hy = ty := by omega
    subst hy_eq
    have hne : tx ≠ hx := by omega
    have hlist : lineCells tx hy hx hy = (List.range (Nat.dist (tx - 1) (hx - 1) + 1)).map
        (fun (k : Nat) => (if tx - 1 < hx - 1 then tx - 1 + k else tx - 1 - k, hy - 1)) := by
      rw [lineCells_column tx hy hx hne, lineExtent_dist tx hx a1 c1]
      apply List.map_congr_left
      intro k hk
      rw [List.mem_range] at hk
      rw [axis_cell tx hx k a1 c1 (by rw [lineExtent_dist tx hx a1 c1]; omega)]
    refine ⟨hlist, ?_⟩
    intro r c
    rw [hlist, List.mem_map, ← mem_axis_range]
    constructor
    · rintro ⟨k, hk, hkc⟩
      rw [List.mem_range] at hk
      rw [Prod.mk.injEq] at hkc
      exact ⟨hkc.2.symm, k, hk, hkc.1⟩
    · rintro ⟨hr, k, hk, hkc⟩
      exact ⟨k, List.mem_range.mpr hk, by rw [hr, ← hkc]⟩

/-- C11, at the move `1 1 1 4` on the empty board of width 4: from the cell
`(0, 0)` to the cell `(0, 3)` the cells coloured are `(0, 0)`, `(0, 1)`,
`(0, 2)`, `(0, 3)` in that order. -/
theorem PlotLine_row_or_column_move_witness :
    (∃ board1 cells,
      (Board.empty.CreateGrid 4).PlotLine 8 (ParametricLine.construct 1 1 1 4) 'X' =
        .ok (board1, cells) ∧
      (∀ r c, board1.GetCell r c =
        if (r, c) ∈ cells then .ok 'X' else (Board.empty.CreateGrid 4).GetCell r c) ∧
      (((0, 0) : Nat × Nat).1 = ((0, 3) : Nat × Nat).1 →
        ((0, 0) : Nat × Nat).2 ≠ ((0, 3) : Nat × Nat).2 →
        cells = (List.range (Nat.dist ((0, 0) : Nat × Nat).2 ((0, 3) : Nat × Nat).2 + 1)).map
          (fun (k : Nat) => (((0, 0) : Nat × Nat).1,
            if ((0, 0) : Nat × Nat).2 < ((0, 3) : Nat × Nat).2 then ((0, 0) : Nat × Nat).2 + k
            else ((0, 0) : Nat × Nat).2 - k)) ∧
        ∀ r c, (r, c) ∈ cells ↔ r = ((0, 0) : Nat × Nat).1 ∧
          min ((0, 0) : Nat × Nat).2 ((0, 3) : Nat × Nat).2 ≤ c ∧
          c ≤ max ((0, 0) : Nat × Nat).2 ((0, 3) : Nat × Nat).2) ∧
      (((0, 0) : Nat × Nat).2 = ((0, 3) : Nat × Nat).2 →
        ((0, 0) : Nat × Nat).1 ≠ ((0, 3) : Nat × Nat).1 →
        cells = (List.range (Nat.dist ((0, 0) : Nat × Nat).1 ((0, 3) : Nat × Nat).1 + 1)).map
          (fun (k : Nat) => (if ((0, 0) : Nat × Nat).1 < ((0, 3) : Nat × Nat).1
            then ((0, 0) : Nat × Nat).1 + k else ((0, 0) : Nat × Nat).1 - k,
            ((0, 0) : Nat × Nat).2)) ∧
        ∀ r c, (r, c) ∈ cells ↔ c = ((0, 0) : Nat × Nat).2 ∧
          min ((0, 0) : Nat × Nat).1 ((0, 3) : Nat × Nat).1 ≤ r ∧
          r ≤ max ((0, 0) : Nat × Nat).1 ((0, 3) : Nat × Nat).1)) ∧
    (Board.empty.CreateGrid 4).PlotLine 8 (ParametricLine.construct 1 1 1 4) 'X' =
      .ok ({ grid_ := [['X', 'X', 'X', 'X'], ['.', '.', '.', '.'], ['.', '.', '.', '.'],
        ['.', '.', '.', '.']] }, [(0, 0), (0, 1), (0, 2), (0, 3)]) :=
  ⟨PlotLine_row_or_column_move 4 1 1 1 4 (by decide)
    ⟨by decide, by decide, by decide, by decide, by decide, by decide, by decide, by decide⟩
    (Board.empty.CreateGrid 4) (CreateGrid_square 4) 'X' 8 (by decide) (0, 0) (0, 3)
    (by decide) (by decide), by decide!⟩

theorem axis_cell_injective (t h d : Nat) (hd : Nat.dist t h = d) (j k : Nat) (hj : j < d + 1)
    (hk : k < d + 1)
    (hjk : (if t < h then t + j else t - j) = (if t < h then t + k else t - k)) : j = k := by
  unfold Nat.dist at hd
  by_cases h1 : t < h
  · rw [if_pos h1, if_pos h1] at hjk
    omega
  · rw [if_neg h1, if_neg h1] at hjk
    omega

/-- C12: for a move on a board of width `N` whose tail and head cells are `d`
rows and `d` columns apart, `d > 0`, `PlotLine` returns and the cells it
colours are, in the order of the traversal, the `d + 1` distinct cells
`tail + k * (sign of the row difference, sign of the column difference)` for
`k = 0, ..., d`: every step changes the row and the column together.  The
other cells keep their value. -/
theorem PlotLine_diagonal_move (N tx ty hx hy : Nat) (hN : N < 4294967296)
    (hmove : OnBoard N tx ty hx hy) (board : Board) (hsq : board.IsSquare N) (color : Char)
    (fuel : Nat) (hfuel : 2 * N ≤ fuel) (tail head : Nat × Nat)
    (htail : (ParametricLine.construct tx ty hx hy).tail_cell_ = tail)
    (hhead : (ParametricLine.construct tx ty hx hy).head_cell_ = head)
    (d : Nat) (hd : 0 < d) (hrows : Nat.dist tail.1 head.1 = d)
    (hcols : Nat.dist tail.2 head.2 = d) :
    ∃ board1 cells,
      board.PlotLine fuel (ParametricLine.construct tx ty hx hy) color = .ok (board1, cells) ∧
      (∀ r c, board1.GetCell r c = if (r, c) ∈ cells then .ok color else board.GetCell r c) ∧
      cells = (List.range (d + 1)).map
        (fun (k : Nat) => (if tail.1 < head.1 then tail.1 + k else tail.1 - k,
          if tail.2 < head.2 then tail.2 + k else tail.2 - k)) ∧
      cells.length = d + 1 ∧ cells.Nodup := by
  obtain ⟨⟨a1, a2⟩, ⟨b1, b2⟩, ⟨c1, c2⟩, ⟨d1, d2⟩⟩ := hmove.inputs hN
  obtain ⟨ftail, fhead, _⟩ := construct_fields tx ty hx hy a1 b1 c1 d1 hmove.tail_x_uint
    hmove.tail_y_uint hmove.head_x_uint hmove.head_y_uint
  obtain ⟨board1, hplot, _, hget⟩ := PlotLine_on_board hN hmove board hsq color fuel
    (hmove.fuel_bound hN fuel hfuel)
  rw [ftail] at htail
  rw [fhead] at hhead
  subst htail hhead
  simp only at hrows hcols
  have hlist : lineCells tx ty hx hy = (List.range (d + 1)).map
      (fun (k : Nat) => (if tx - 1 < hx - 1 then tx - 1 + k else tx - 1 - k,
        if ty - 1 < hy - 1 then ty - 1 + k else ty - 1 - k)) := by
    rw [lineCells_diagonal tx ty hx hy d hd (by rw [lineExtent_dist tx hx a1 c1, hrows])
      (by rw [lineExtent_dist ty hy b1 d1, hcols])]
    apply List.map_congr_left
    intro k hk
    rw [List.mem_range] at hk
    rw [axis_cell tx hx k a1 c1 (by rw [lineExtent_dist tx hx a1 c1]; omega),
      axis_cell ty hy k b1 d1 (by rw [lineExtent_dist ty hy b1 d1]; omega)]
  refine ⟨board1, lineCells tx ty hx hy, hplot, hget, hlist, ?_, ?_⟩
  · rw [hlist, List.length_map, List.length_range]
  · rw [hlist]
    refine List.Nodup.map_on ?_ (List.nodup_range (d + 1))
    intro j hj k hk hjk
    rw [List.mem_range] at hj hk
    rw [Prod.mk.injEq] at hjk
    exact axis_cell_injective (tx - 1) (hx - 1) d hrows j k hj hk hjk.1

/-- C12, at the move `1 1 3 3` on the empty board of width 3: from the cell
`(0, 0)` to the cell `(2, 2)` the cells coloured are `(0, 0)`, `(1, 1)`,
`(2, 2)`. -/
theorem PlotLine_diagonal_move_witness :
    (∃ board1 cells,
      (Board.empty.CreateGrid 3).PlotLine 6 (ParametricLine.construct 1 1 3 3) 'X' =
        .ok (board1, cells) ∧
      (∀ r c, board1.GetCell r c =
        if (r, c) ∈ cells then .ok 'X' else (Board.empty.CreateGrid 3).GetCell r c) ∧
      cells = (List.range (2 + 1)).map
        (fun (k : Nat) => (if ((0, 0) : Nat × Nat).1 < ((2, 2) : Nat × Nat).1
            then ((0, 0) : Nat × Nat).1 + k else ((0, 0) : Nat × Nat).1 - k,
          if ((0, 0) : Nat × Nat).2 < ((2, 2) : Nat × Nat).2
            then ((0, 0) : Nat × Nat).2 + k else ((0, 0) : Nat × Nat).2 - k)) ∧
      cells.length = 2 + 1 ∧ cells.Nodup) ∧
    ((Board.empty.CreateGrid 3).PlotLine 6 (ParametricLine.construct 1 1 3 3) 'X').toOption.map
      Prod.snd = some [(0, 0), (1, 1), (2, 2)] :=
  ⟨PlotLine_diagonal_move 3 1 1 3 3 (by decide)
    ⟨by decide, by decide, by decide, by decide, by decide, by decide, by decide, by decide⟩
    (Board.empty.CreateGrid 3) (CreateGrid_square 3) 'X' 6 (by decide) (0, 0) (2, 2)
    (by decide) (by decide) 2 (by decide) (by decide) (by decide), by decide!⟩

/-! ## Degenerate moves -/

theorem usub32_one_injective (t h : Nat) (ht : t < 4294967296) (hh : h < 4294967296)
    (heq : usub32 t 1 = usub32 h 1) : t = h := by
  unfold usub32 kUIntSize at heq
  omega

/-- C13: for a move of `unsigned int` coordinates whose tail cell is its head
cell, `PlotLine` on any board is one call of `SetCell` at that cell and
nothing else: the traversal loop is not entered (the result is the same with
no fuel for the loop).  On a board of width `N` with the cell on the board it
returns, the cell is set to the colour and every other cell keeps its value. -/
theorem PlotLine_degenerate_move (tx ty hx hy : Nat) (htx : tx < 4294967296)
    (hty : ty < 4294967296) (hhx : hx < 4294967296) (hhy : hy < 4294967296)
    (hcell : (ParametricLine.construct tx ty hx hy).tail_cell_ =
      (ParametricLine.construct tx ty hx hy).head_cell_)
    (board : Board) (color : Char) (fuel : Nat) :
    board.PlotLine fuel (ParametricLine.construct tx ty hx hy) color =
      (board.SetCell color (ParametricLine.construct tx ty hx hy).tail_cell_.1
        (ParametricLine.construct tx ty hx hy).tail_cell_.2).map
        (fun board1 => (board1, [(ParametricLine.construct tx ty hx hy).tail_cell_])) ∧
    ∀ N, board.IsSquare N → (ParametricLine.construct tx ty hx hy).tail_cell_.1 < N →
      (ParametricLine.construct tx ty hx hy).tail_cell_.2 < N →
      ∃ board1, board.PlotLine 0 (ParametricLine.construct tx ty hx hy) color =
          .ok (board1, [(ParametricLine.construct tx ty hx hy).tail_cell_]) ∧
        board1.IsSquare N ∧
        ∀ r c, board1.GetCell r c =
          if (r, c) = (ParametricLine.construct tx ty hx hy).tail_cell_ then .ok color
          else board.GetCell r c := by
  have hx_eq : tx = hx := by
    have h := congrArg Prod.fst hcell
    exact usub32_one_injective tx hx htx hhx h
  have hy_eq : ty = hy := by
    have h := congrArg Prod.snd hcell
    exact usub32_one_injective ty hy hty hhy h
  subst hx_eq hy_eq
  have hvec : (ParametricLine.construct tx ty tx ty).vector_ = (0, 0) := by
    unfold ParametricLine.construct
    ext <;> simp
  have hplot : ∀ fuel1, board.PlotLine fuel1 (ParametricLine.construct tx ty tx ty) color =
      (board.SetCell color (ParametricLine.construct tx ty tx ty).tail_cell_.1
        (ParametricLine.construct tx ty tx ty).tail_cell_.2).map
        (fun board1 => (board1, [(ParametricLine.construct tx ty tx ty).tail_cell_])) := by
    intro fuel1
    unfold Board.PlotLine
    simp only [hvec]
    cases board.SetCell color (ParametricLine.construct tx ty tx ty).tail_cell_.1
      (ParametricLine.construct tx ty tx ty).tail_cell_.2 with
    | error e => rfl
    | ok board1 => simp [Except.map]
  refine ⟨hplot fuel, ?_⟩
  intro N hsq hr hc
  obtain ⟨board1, hset, hsq1, hget⟩ := SetCell_square N board color _ _ hsq hr hc
  refine ⟨board1, ?_, hsq1, ?_⟩
  · rw [hplot 0, hset]
    rfl
  · intro r c
    rw [hget r c]

/-- C13, at the move `2 2 2 2` on the empty board of width 3: with no fuel
for the loop, the cell `(1, 1)` alone is coloured. -/
theorem PlotLine_degenerate_move_witness :
    ((Board.empty.CreateGrid 3).PlotLine 0 (ParametricLine.construct 2 2 2 2) 'X' =
        ((Board.empty.CreateGrid 3).SetCell 'X' (ParametricLine.construct 2 2 2 2).tail_cell_.1
          (ParametricLine.construct 2 2 2 2).tail_cell_.2).map
          (fun board1 => (board1, [(ParametricLine.construct 2 2 2 2).tail_cell_])) ∧
      ∀ N, (Board.empty.CreateGrid 3).IsSquare N →
        (ParametricLine.construct 2 2 2 2).tail_cell_.1 < N →
        (ParametricLine.construct 2 2 2 2).tail_cell_.2 < N →
        ∃ board1, (Board.empty.CreateGrid 3).PlotLine 0 (ParametricLine.construct 2 2 2 2) 'X' =
            .ok (board1, [(ParametricLine.construct 2 2 2 2).tail_cell_]) ∧
          board1.IsSquare N ∧
          ∀ r c, board1.GetCell r c =
            if (r, c) = (ParametricLine.construct 2 2 2 2).tail_cell_ then .ok 'X'
            else (Board.empty.CreateGrid 3).GetCell r c) ∧
    (Board.empty.CreateGrid 3).PlotLine 0 (ParametricLine.construct 2 2 2 2) 'X' =
      .ok ({ grid_ := [['.', '.', '.'], ['.', 'X', '.'], ['.', '.', '.']] }, [(1, 1)]) :=
  ⟨PlotLine_degenerate_move 2 2 2 2 (by decide) (by decide) (by decide) (by decide) (by decide)
    (Board.empty.CreateGrid 3) 'X' 0, by decide!⟩

/-! ## The cells and the grid of a board -/

theorem SetCellEffect_fst (b : Board) (color : Char) (row col : Nat) :
    (b.SetCellEffect color row col).1 = (b.SetCell color row col).map (fun _ => ()) := by
  unfold Board.SetCellEffect Board.SetCell
  cases b.grid_[row]? with
  | none => rfl
  | some r =>
    by_cases hc : col < r.length
    · simp only [if_pos hc]
      rfl
    · simp only [if_neg hc]
      rfl

/-- C14: on a board of width `N`, `GetCell` and `SetCell` at `(row, col)`
return when `row < N` and `col < N`, and for any other indices they end with
the out-of-range error (so they return exactly when `row < N` and `col < N`);
the board after a `SetCell` that returns is the board it returns, and the
board after a `SetCell` that fails is the board before the call. -/
theorem GetCell_SetCell_bounds_checked (N : Nat) (board : Board) (hsq : board.IsSquare N)
    (color : Char) (row col : Nat) :
    (row < N ∧ col < N →
      (∃ cell, board.GetCell row col = .ok cell) ∧
      ∃ board1, board.SetCell color row col = .ok board1 ∧
        board.SetCellEffect color row col = (.ok (), board1) ∧
        board1.GetCell row col = .ok color) ∧
    (¬ (row < N ∧ col < N) →
      board.GetCell row col = .error .out_of_range ∧
      board.SetCell color row col = .error .out_of_range ∧
      board.SetCellEffect color row col = (.error .out_of_range, board)) := by
  obtain ⟨hlen, hrows⟩ := hsq
  constructor
  · rintro ⟨hr, hc⟩
    have hr2 : row < board.grid_.length := by omega
    have hget : board.grid_[row]? = some board.grid_[row] := List.getElem?_eq_getElem hr2
    have hrow : (board.grid_[row]).length = N := hrows _ (List.getElem_mem hr2)
    have hc2 : col < (board.grid_[row]).length := by omega
    obtain ⟨board1, hset, _, hget1⟩ := SetCell_square N board color row col ⟨hlen, hrows⟩ hr hc
    refine ⟨⟨(board.grid_[row])[col], ?_⟩, board1, hset, ?_, ?_⟩
    · unfold Board.GetCell
      simp only [hget, List.getElem?_eq_getElem hc2]
    · unfold Board.SetCell at hset
      simp only [hget, if_pos hc2] at hset
      unfold Board.SetCellEffect
      simp only [hget, if_pos hc2]
      rw [Except.ok.injEq] at hset
      rw [hset]
    · rw [hget1 row col, if_pos rfl]
  · intro hout
    by_cases hr : row < N
    · have hc : ¬ col < N := fun hc => hout ⟨hr, hc⟩
      have hr2 : row < board.grid_.length := by omega
      have hget : board.grid_[row]? = some board.grid_[row] := List.getElem?_eq_getElem hr2
      have hrow : (board.grid_[row]).length = N := hrows _ (List.getElem_mem hr2)
      have hc2 : ¬ col < (board.grid_[row]).length := by omega
      have hnone : (board.grid_[row])[col]? = none := List.getElem?_eq_none (by omega)
      refine ⟨?_, ?_, ?_⟩
      · unfold Board.GetCell
        simp only [hget, hnone]
      · unfold Board.SetCell
        simp only [hget, if_neg hc2]
      · unfold Board.SetCellEffect
        simp only [hget, if_neg hc2]
    · have hnone : board.grid_[row]? = none := List.getElem?_eq_none (by omega)
      refine ⟨?_, ?_, ?_⟩
      · unfold Board.GetCell
        simp only [hnone]
      · unfold Board.SetCell
        simp only [hnone]
      · unfold Board.SetCellEffect
        simp only [hnone]

/-- C14, on the empty board of width 2: the cell `(1, 1)` is read and written,
the indices `(1, 2)` and `(2, 0)` fail with the out-of-range error. -/
theorem GetCell_SetCell_bounds_checked_witness :
    ((1 < 2 ∧ 2 < 2 →
      (∃ cell, (Board.empty.CreateGrid 2).GetCell 1 2 = .ok cell) ∧
      ∃ board1, (Board.empty.CreateGrid 2).SetCell 'X' 1 2 = .ok board1 ∧
        (Board.empty.CreateGrid 2).SetCellEffect 'X' 1 2 = (.ok (), board1) ∧
        board1.GetCell 1 2 = .ok 'X') ∧
    (¬ (1 < 2 ∧ 2 < 2) →
      (Board.empty.CreateGrid 2).GetCell 1 2 = .error .out_of_range ∧
      (Board.empty.CreateGrid 2).SetCell 'X' 1 2 = .error .out_of_range ∧
      (Board.empty.CreateGrid 2).SetCellEffect 'X' 1 2 =
        (.error .out_of_range, Board.empty.CreateGrid 2))) ∧
    (Board.empty.CreateGrid 2).SetCellEffect 'X' 1 1 =
      (.ok (), { grid_ := [['.', '.'], ['.', 'X']] }) ∧
    (Board.empty.CreateGrid 2).SetCellEffect 'X' 2 0 =
      (.error .out_of_range, { grid_ := [['.', '.'], ['.', '.']] }) :=
  ⟨GetCell_SetCell_bounds_checked 2 (Board.empty.CreateGrid 2) (CreateGrid_square 2) 'X' 1 2,
    by decide, by decide⟩

/-- C15: for every width `w`, so for every `w > 0`, `CreateGrid(w)` on a newly
constructed board gives a grid of `w` rows, each row has `w` cells and every
cell is the empty cell `'.'`. -/
theorem CreateGrid_rows_of_empty_cells (w : Nat) :
    (Board.empty.CreateGrid w).grid_.length = w ∧
    (∀ row ∈ (Board.empty.CreateGrid w).grid_, row.length = w ∧ ∀ cell ∈ row, cell = '.') ∧
    (∀ r c, r < w → c < w → (Board.empty.CreateGrid w).GetCell r c = .ok '.') := by
  refine ⟨(CreateGrid_square w).1, ?_, ?_⟩
  · intro row hrow
    refine ⟨(CreateGrid_square w).2 row hrow, ?_⟩
    intro cell hcell
    rw [CreateGrid_grid] at hrow
    rw [List.eq_of_mem_replicate hrow] at hcell
    exact List.eq_of_mem_replicate hcell
  · intro r c hr hc
    exact CreateGrid_getCell w r c hr hc

/-- C15, at the width 2: the grid is two rows of two empty cells. -/
theorem CreateGrid_rows_of_empty_cells_witness :
    ((Board.empty.CreateGrid 2).grid_.length = 2 ∧
      (∀ row ∈ (Board.empty.CreateGrid 2).grid_, row.length = 2 ∧ ∀ cell ∈ row, cell = '.') ∧
      (∀ r c, r < 2 → c < 2 → (Board.empty.CreateGrid 2).GetCell r c = .ok '.')) ∧
    Board.empty.CreateGrid 2 = { grid_ := [['.', '.'], ['.', '.']] } :=
  ⟨CreateGrid_rows_of_empty_cells 2, by decide⟩

/-- C16, the claim fails: `CreateGrid(0)` returns, and the constructor of
`Game` with the board width 0 returns a game; its board has no row. -/
theorem CreateGrid_zero_width_counterexample :
    Board.empty.CreateGrid 0 = { grid_ := [] } ∧
    (Game.construct 0 1 [(1, 1, 1, 1)]).board_ = { grid_ := [] } ∧
    (Game.construct 0 1 [(1, 1, 1, 1)]).board_.IsSquare 0 :=
  ⟨rfl, rfl, CreateGrid_square 0⟩

/-- C16, amended: creating a board of width 0 is not rejected.  `CreateGrid(0)`
returns the board with no row, a board of width `N = 0`, and so does the
constructor of `Game`; a board made by `CreateGrid(w)` has `N = w`, which is
positive exactly when `w` is.  On the board of width 0 every `GetCell`,
`SetCell` and `PlotLine` ends with the out-of-range error. -/
theorem CreateGrid_zero_width_not_rejected :
    Board.empty.CreateGrid 0 = { grid_ := [] } ∧
    (∀ w, (Board.empty.CreateGrid w).IsSquare w) ∧
    (∀ prev_plays_checked plays,
      (Game.construct 0 prev_plays_checked plays).board_ = { grid_ := [] }) ∧
    (∀ r c, (Board.empty.CreateGrid 0).GetCell r c = .error .out_of_range) ∧
    (∀ color r c, (Board.empty.CreateGrid 0).SetCell color r c = .error .out_of_range) ∧
    (∀ fuel line color,
      (Board.empty.CreateGrid 0).PlotLine fuel line color = .error .out_of_range) :=
  ⟨rfl, CreateGrid_square, fun _ _ => rfl, fun _ _ => rfl, fun _ _ _ => rfl,
    fun _ _ _ => rfl⟩

/-! ## The text of `Write` -/

theorem rowLine_foldl (row : List Char) : ∀ out : List Char,
    row.foldl (fun out cell => out ++ [cell, ' ']) out = out ++ rowLine row := by
  induction row with
  | nil =>
    intro out
    simp [rowLine]
  | cons cell row ih =>
    intro out
    rw [List.foldl_cons, ih]
    simp [rowLine]

theorem gridText_foldl (grid : List (List Char)) : ∀ out : List Char,
    grid.foldl (fun out row => row.foldl (fun out cell => out ++ [cell, ' ']) out ++ ['\n']) out =
      out ++ (grid.map (fun row => rowLine row ++ ['\n'])).flatten := by
  induction grid with
  | nil =>
    intro out
    simp
  | cons row grid ih =>
    intro out
    rw [List.foldl_cons, ih, rowLine_foldl]
    simp

theorem Write_eq (b : Board) :
    b.Write = ((b.grid_.map rowLine ++
      [scoreLine (b.CountColor kBlackCell) (b.CountColor kWhiteCell)]).map
        (fun line => line ++ ['\n'])).flatten := by
  unfold Board.Write
  simp only [gridText_foldl, List.nil_append, List.map_append, List.map_map, List.flatten_append,
    List.map_cons, List.map_nil, List.flatten_cons, List.flatten_nil, List.append_nil, scoreLine]
  have h1 : "Player ".toList ++ [kBlackCell] ++ ": ".toList = "Player X: ".toList := by decide
  have h2 : " cells; Player ".toList ++ [kWhiteCell] ++ ": ".toList =
      " cells; Player O: ".toList := by decide
  have h3 : " cells\n".toList = " cells".toList ++ ['\n'] := by decide
  rw [h3]
  simp only [List.append_assoc] at h1 h2 ⊢
  rw [← h2]
  simp only [List.append_assoc]
  rw [← List.append_assoc "Player ".toList, ← List.append_assoc ("Player ".toList ++ _)]
  simp only [List.append_assoc] at h1 ⊢
  rfl

theorem digitChar_ne_newline (n : Nat) (hn : n < 10) : Nat.digitChar n ≠ '\n' := by
  interval_cases n <;> decide

theorem toDigitsCore_no_newline : ∀ (fuel n : Nat) (ds : List Char), '\n' ∉ ds →
    '\n' ∉ Nat.toDigitsCore 10 fuel n ds := by
  intro fuel
  induction fuel with
  | zero =>
    intro n ds hds
    simpa [Nat.toDigitsCore] using hds
  | succ fuel ih =>
    intro n ds hds
    have hcons : '\n' ∉ Nat.digitChar (n % 10) :: ds := by
      rw [List.mem_cons, not_or]
      exact ⟨fun h => digitChar_ne_newline _ (Nat.mod_lt n (by decide)) h.symm, hds⟩
    unfold Nat.toDigitsCore
    simp only
    split_ifs
    · exact hcons
    · exact ih _ _ hcons

theorem toDigits_no_newline (n : Nat) : '\n' ∉ Nat.toDigits 10 n := by
  unfold Nat.toDigits
  exact toDigitsCore_no_newline _ _ _ (List.not_mem_nil _)

theorem scoreLine_no_newline (black white : Nat) : '\n' ∉ scoreLine black white := by
  unfold scoreLine
  simp only [List.mem_append, not_or]
  exact ⟨⟨⟨⟨by decide, toDigits_no_newline black⟩, by decide⟩, toDigits_no_newline white⟩,
    by decide⟩

theorem rowLine_length (row : List Char) : (rowLine row).length = 2 * row.length := by
  induction row with
  | nil => rfl
  | cons cell row ih =>
    have h : rowLine (cell :: row) = cell :: ' ' :: rowLine row := rfl
    rw [h, List.length_cons, List.length_cons, ih, List.length_cons]
    omega

theorem rowLine_getElem (row : List Char) : ∀ c, c < row.length →
    (rowLine row)[2 * c]? = row[c]? ∧ (rowLine row)[2 * c + 1]? = some ' ' := by
  induction row with
  | nil =>
    intro c hc
    simp at hc
  | cons cell row ih =>
    intro c hc
    have h : rowLine (cell :: row) = cell :: ' ' :: rowLine row := rfl
    rw [h]
    cases c with
    | zero => simp
    | succ c =>
      rw [List.length_cons] at hc
      obtain ⟨h1, h2⟩ := ih c (by omega)
      rw [show 2 * (c + 1) = 2 * c + 1 + 1 by ring, List.getElem?_cons_succ,
        List.getElem?_cons_succ, List.getElem?_cons_succ, List.getElem?_cons_succ,
        List.getElem?_cons_succ, h1]
      exact ⟨rfl, h2⟩

theorem rowLine_no_newline (row : List Char)
    (hrow : ∀ cell ∈ row, cell = '.' ∨ cell = 'X' ∨ cell = 'O') : '\n' ∉ rowLine row := by
  unfold rowLine
  rw [List.mem_flatMap]
  rintro ⟨cell, hcell, hmem⟩
  rw [List.mem_cons, List.mem_singleton] at hmem
  rcases hmem with h | h
  · rcases hrow cell hcell with h1 | h1 | h1 <;> rw [h1] at h <;> revert h <;> decide
  · revert h
    decide

theorem blackBoard_square : blackBoard.IsSquare 65536 := by
  unfold Board.IsSquare blackBoard
  refine ⟨List.length_replicate _ _, ?_⟩
  intro row hrow
  rw [List.eq_of_mem_replicate hrow, List.length_replicate]

theorem blackBoard_cells : (blackBoard.grid_.map (List.count 'X')).sum = 4294967296 ∧
    (blackBoard.grid_.map (List.count 'O')).sum = 0 := by
  unfold blackBoard
  simp only [List.map_replicate, List.count_replicate, List.sum_replicate, smul_eq_mul]
  constructor
  · rw [if_pos (by decide)]
  · rw [if_neg (by decide)]

theorem blackBoard_counts : blackBoard.CountColor kBlackCell = 0 ∧
    blackBoard.CountColor kWhiteCell = 0 := by
  have h := blackBoard_cells
  rw [CountColor_eq, CountColor_eq]
  have hb : kBlackCell = 'X' := rfl
  have hw : kWhiteCell = 'O' := rfl
  rw [hb, hw, h.1, h.2]
  exact ⟨by decide, by decide⟩

/-- C17, the claim fails.  On the board of the one cell `'X'` the line of the
row is `"X "`, the cell followed by a space, and not `"X"`. -/
theorem Write_text_counterexample :
    ({ grid_ := [['X']] } : Board).Write =
      "X \nPlayer X: 1 cells; Player O: 0 cells\n".toList ∧
    (({ grid_ := [['X']] } : Board).Write).takeWhile (fun c => c != '\n') = "X ".toList ∧
    (["X".toList, "Player X: 1 cells; Player O: 0 cells".toList].map
      (fun line => line ++ ['\n'])).flatten ≠ ({ grid_ := [['X']] } : Board).Write := by
  decide

/-- C17, amended: for a board of width `N` whose cells are from `'.'`, `'X'`,
`'O'`, the text of `Write` is `N + 1` lines, each ended by a newline and with
no other newline.  The line `r < N` is the `N` cells of the row `r` in column
order, each cell followed by one space (the line ends with a space, it has
`2 * N` chars).  When the numbers `a` and `b` of `'X'` and `'O'` cells of the
board are below `2^32`, the last line is `Player X: a cells; Player O: b cells`
with `a` and `b` printed in decimal. -/
theorem Write_text (N : Nat) (board : Board) (hsq : board.IsSquare N)
    (hcells : ∀ row ∈ board.grid_, ∀ cell ∈ row, cell = '.' ∨ cell = 'X' ∨ cell = 'O') :
    ∃ lines : List (List Char),
      board.Write = (lines.map (fun line => line ++ ['\n'])).flatten ∧
      lines.length = N + 1 ∧
      (∀ line ∈ lines, '\n' ∉ line) ∧
      (∀ r, r < N → lines[r]? = (board.grid_[r]?).map rowLine) ∧
      (∀ row ∈ board.grid_, (rowLine row).length = 2 * N ∧
        ∀ c, c < N → (rowLine row)[2 * c]? = row[c]? ∧ (rowLine row)[2 * c + 1]? = some ' ') ∧
      ((board.grid_.map (List.count 'X')).sum < 4294967296 →
        (board.grid_.map (List.count 'O')).sum < 4294967296 →
        lines[N]? = some (scoreLine (board.grid_.map (List.count 'X')).sum
          (board.grid_.map (List.count 'O')).sum)) := by
  obtain ⟨hlen, hrows⟩ := hsq
  have hb : board.CountColor kBlackCell = (board.grid_.map (List.count 'X')).sum % 4294967296 :=
    CountColor_eq board kBlackCell
  have hw : board.CountColor kWhiteCell = (board.grid_.map (List.count 'O')).sum % 4294967296 :=
    CountColor_eq board kWhiteCell
  have hmaplen : (board.grid_.map rowLine).length = N := by rw [List.length_map, hlen]
  have hlast : (board.grid_.map rowLine ++
      [scoreLine (board.CountColor kBlackCell) (board.CountColor kWhiteCell)])[N]? =
      some (scoreLine ((board.grid_.map (List.count 'X')).sum % 4294967296)
        ((board.grid_.map (List.count 'O')).sum % 4294967296)) := by
    rw [List.getElem?_append_right (by omega), hmaplen, Nat.sub_self, hb, hw]
    rfl
  refine ⟨board.grid_.map rowLine ++
    [scoreLine (board.CountColor kBlackCell) (board.CountColor kWhiteCell)], Write_eq board,
    ?_, ?_, ?_, ?_, ?_⟩
  · rw [List.length_append, hmaplen]
    rfl
  · intro line hline
    rw [List.mem_append, List.mem_singleton] at hline
    rcases hline with h | h
    · obtain ⟨row, hrow, rfl⟩ := List.mem_map.1 h
      exact rowLine_no_newline row (hcells row hrow)
    · rw [h]
      exact scoreLine_no_newline _ _
  · intro r hr
    rw [List.getElem?_append_left (by omega), List.getElem?_map]
  · intro row hrow
    have hrl := hrows row hrow
    refine ⟨by rw [rowLine_length, hrl], ?_⟩
    intro c hc
    exact rowLine_getElem row c (by omega)
  · intro h1 h2
    rw [hlast, Nat.mod_eq_of_lt h1, Nat.mod_eq_of_lt h2]

/-- C17, amended, on the board of the rows `X .` and `. O`: the text is the
three lines `"X . "`, `". O "` and `"Player X: 1 cells; Player O: 1 cells"`. -/
theorem Write_text_witness :
    (∃ lines : List (List Char),
      ({ grid_ := [['X', '.'], ['.', 'O']] } : Board).Write =
        (lines.map (fun line => line ++ ['\n'])).flatten ∧
      lines.length = 2 + 1 ∧
      (∀ line ∈ lines, '\n' ∉ line) ∧
      (∀ r, r < 2 → lines[r]? =
        ((({ grid_ := [['X', '.'], ['.', 'O']] } : Board).grid_)[r]?).map rowLine) ∧
      (∀ row ∈ ({ grid_ := [['X', '.'], ['.', 'O']] } : Board).grid_,
        (rowLine row).length = 2 * 2 ∧
        ∀ c, c < 2 → (rowLine row)[2 * c]? = row[c]? ∧ (rowLine row)[2 * c + 1]? = some ' ') ∧
      ((({ grid_ := [['X', '.'], ['.', 'O']] } : Board).grid_.map (List.count 'X')).sum
          < 4294967296 →
        (({ grid_ := [['X', '.'], ['.', 'O']] } : Board).grid_.map (List.count 'O')).sum
          < 4294967296 →
        lines[2]? = some (scoreLine
          (({ grid_ := [['X', '.'], ['.', 'O']] } : Board).grid_.map (List.count 'X')).sum
          (({ grid_ := [['X', '.'], ['.', 'O']] } : Board).grid_.map (List.count 'O')).sum))) ∧
    (({ grid_ := [['X', '.'], ['.', 'O']] } : Board).grid_.map (List.count 'X')).sum = 1 ∧
    (({ grid_ := [['X', '.'], ['.', 'O']] } : Board).grid_.map (List.count 'O')).sum = 1 ∧
    ({ grid_ := [['X', '.'], ['.', 'O']] } : Board).Write =
      "X . \n. O \nPlayer X: 1 cells; Player O: 1 cells\n".toList :=
  ⟨Write_text 2 { grid_ := [['X', '.'], ['.', 'O']] } ⟨rfl, by decide⟩ (by decide), by decide,
    by decide, by decide⟩

/-! ## The constructor of `ParametricLine` -/

/-- C18, the claim fails at an input coordinate 0: for the input `0 1 1 1`
the tail cell is `(4294967295, 0)` and the tail point is `(-1/2, 1/2)`, which
is not the stored cell plus `(1/2, 1/2)`, and the direction is `(1, 0)`, which
is not the head cell minus the tail cell. -/
theorem construct_zero_input_counterexample :
    (ParametricLine.construct 0 1 1 1).tail_cell_ = (4294967295, 0) ∧
    (ParametricLine.construct 0 1 1 1).head_cell_ = (0, 0) ∧
    (ParametricLine.construct 0 1 1 1).tail_point_ = (-1 / 2, 1 / 2) ∧
    (ParametricLine.construct 0 1 1 1).tail_point_.1 ≠
      ((ParametricLine.construct 0 1 1 1).tail_cell_.1 : ℚ) + 1 / 2 ∧
    (ParametricLine.construct 0 1 1 1).vector_ = (1, 0) ∧
    (ParametricLine.construct 0 1 1 1).vector_.1 ≠
      ((ParametricLine.construct 0 1 1 1).head_cell_.1 : ℚ) -
        ((ParametricLine.construct 0 1 1 1).tail_cell_.1 : ℚ) := by
  decide!

/-- C18, amended: for four `unsigned int` input coordinates the constructed
line has its cells equal to the inputs minus 1 modulo `2^32`, its points equal
to the inputs minus 1 plus `(1/2, 1/2)`, its direction equal to the head
inputs minus the tail inputs and its midpoint equal to the average of the two
points.  When the four inputs are at least 1 the cells are the inputs minus 1,
each point is the stored cell plus `(1/2, 1/2)` and the direction is the head
cell minus the tail cell. -/
theorem construct_cells_points_direction (tx ty hx hy : Nat) (htx : tx < 4294967296)
    (hty : ty < 4294967296) (hhx : hx < 4294967296) (hhy : hy < 4294967296)
    (line : ParametricLine) (hline : line = ParametricLine.construct tx ty hx hy) :
    line.tail_cell_ = ((tx + 4294967295) % 4294967296, (ty + 4294967295) % 4294967296) ∧
    line.head_cell_ = ((hx + 4294967295) % 4294967296, (hy + 4294967295) % 4294967296) ∧
    line.tail_point_ = ((tx : ℚ) - 1 + 1 / 2, (ty : ℚ) - 1 + 1 / 2) ∧
    line.head_point_ = ((hx : ℚ) - 1 + 1 / 2, (hy : ℚ) - 1 + 1 / 2) ∧
    line.vector_ = ((hx : ℚ) - (tx : ℚ), (hy : ℚ) - (ty : ℚ)) ∧
    line.midpoint_ = ((line.tail_point_.1 + line.head_point_.1) / 2,
      (line.tail_point_.2 + line.head_point_.2) / 2) ∧
    (1 ≤ tx → 1 ≤ ty → 1 ≤ hx → 1 ≤ hy →
      line.tail_cell_ = (tx - 1, ty - 1) ∧ line.head_cell_ = (hx - 1, hy - 1) ∧
      line.tail_point_ = ((line.tail_cell_.1 : ℚ) + 1 / 2, (line.tail_cell_.2 : ℚ) + 1 / 2) ∧
      line.head_point_ = ((line.head_cell_.1 : ℚ) + 1 / 2, (line.head_cell_.2 : ℚ) + 1 / 2) ∧
      line.vector_ = ((line.head_cell_.1 : ℚ) - (line.tail_cell_.1 : ℚ),
        (line.head_cell_.2 : ℚ) - (line.tail_cell_.2 : ℚ))) := by
  subst hline
  have hcell : ∀ t, t < 4294967296 → usub32 t 1 = (t + 4294967295) % 4294967296 := by
    intro t ht
    unfold usub32 kUIntSize
    omega
  have htail : (ParametricLine.construct tx ty hx hy).tail_cell_ =
      (usub32 tx 1, usub32 ty 1) := rfl
  have hhead : (ParametricLine.construct tx ty hx hy).head_cell_ =
      (usub32 hx 1, usub32 hy 1) := rfl
  have htp : (ParametricLine.construct tx ty hx hy).tail_point_ =
      ((tx : ℚ) - 1 + 1 / 2, (ty : ℚ) - 1 + 1 / 2) := rfl
  have hhp : (ParametricLine.construct tx ty hx hy).head_point_ =
      ((hx : ℚ) - 1 + 1 / 2, (hy : ℚ) - 1 + 1 / 2) := rfl
  have hvec : (ParametricLine.construct tx ty hx hy).vector_ =
      ((hx : ℚ) - (tx : ℚ), (hy : ℚ) - (ty : ℚ)) := by
    unfold ParametricLine.construct
    ext <;> simp only [kCellMidpointX, kCellMidpointY] <;> ring
  have hmid : (ParametricLine.construct tx ty hx hy).midpoint_ =
      (((ParametricLine.construct tx ty hx hy).tail_point_.1 +
          (ParametricLine.construct tx ty hx hy).head_point_.1) / 2,
        ((ParametricLine.construct tx ty hx hy).tail_point_.2 +
          (ParametricLine.construct tx ty hx hy).head_point_.2) / 2) := by
    unfold ParametricLine.construct ParametricLine.BarycentricCombination
    ext <;> simp only [kBarycentricMidpoint] <;> ring
  refine ⟨?_, ?_, htp, hhp, hvec, hmid, ?_⟩
  · rw [htail, hcell tx htx, hcell ty hty]
  · rw [hhead, hcell hx hhx, hcell hy hhy]
  · intro h1 h2 h3 h4
    rw [htail, hhead, htp, hhp, hvec, usub32_one tx h1 htx, usub32_one ty h2 hty,
      usub32_one hx h3 hhx, usub32_one hy h4 hhy]
    refine ⟨rfl, rfl, ?_, ?_, ?_⟩
    · ext <;> simp only <;> push_cast [Nat.cast_sub h1, Nat.cast_sub h2] <;> ring
    · ext <;> simp only <;> push_cast [Nat.cast_sub h3, Nat.cast_sub h4] <;> ring
    · ext <;> simp only <;>
        push_cast [Nat.cast_sub h1, Nat.cast_sub h2, Nat.cast_sub h3, Nat.cast_sub h4] <;> ring

/-- C18, amended, at the input `1 1 3 4`: the cells are `(0, 0)` and `(2, 3)`,
the points `(1/2, 1/2)` and `(5/2, 7/2)`, the direction `(2, 3)` and the
midpoint `(3/2, 2)`. -/
theorem construct_cells_points_direction_witness :
    ((ParametricLine.construct 1 1 3 4).tail_cell_ =
        ((1 + 4294967295) % 4294967296, (1 + 4294967295) % 4294967296) ∧
      (ParametricLine.construct 1 1 3 4).head_cell_ =
        ((3 + 4294967295) % 4294967296, (4 + 4294967295) % 4294967296) ∧
      (ParametricLine.construct 1 1 3 4).tail_point_ =
        (((1 : Nat) : ℚ) - 1 + 1 / 2, ((1 : Nat) : ℚ) - 1 + 1 / 2) ∧
      (ParametricLine.construct 1 1 3 4).head_point_ =
        (((3 : Nat) : ℚ) - 1 + 1 / 2, ((4 : Nat) : ℚ) - 1 + 1 / 2) ∧
      (ParametricLine.construct 1 1 3 4).vector_ =
        (((3 : Nat) : ℚ) - ((1 : Nat) : ℚ), ((4 : Nat) : ℚ) - ((1 : Nat) : ℚ)) ∧
      (ParametricLine.construct 1 1 3 4).midpoint_ =
        (((ParametricLine.construct 1 1 3 4).tail_point_.1 +
            (ParametricLine.construct 1 1 3 4).head_point_.1) / 2,
          ((ParametricLine.construct 1 1 3 4).tail_point_.2 +
            (ParametricLine.construct 1 1 3 4).head_point_.2) / 2) ∧
      (1 ≤ 1 → 1 ≤ 1 → 1 ≤ 3 → 1 ≤ 4 →
        (ParametricLine.construct 1 1 3 4).tail_cell_ = (1 - 1, 1 - 1) ∧
        (ParametricLine.construct 1 1 3 4).head_cell_ = (3 - 1, 4 - 1) ∧
        (ParametricLine.construct 1 1 3 4).tail_point_ =
          (((ParametricLine.construct 1 1 3 4).tail_cell_.1 : ℚ) + 1 / 2,
            ((ParametricLine.construct 1 1 3 4).tail_cell_.2 : ℚ) + 1 / 2) ∧
        (ParametricLine.construct 1 1 3 4).head_point_ =
          (((ParametricLine.construct 1 1 3 4).head_cell_.1 : ℚ) + 1 / 2,
            ((ParametricLine.construct 1 1 3 4).head_cell_.2 : ℚ) + 1 / 2) ∧
        (ParametricLine.construct 1 1 3 4).vector_ =
          (((ParametricLine.construct 1 1 3 4).head_cell_.1 : ℚ) -
              ((ParametricLine.construct 1 1 3 4).tail_cell_.1 : ℚ),
            ((ParametricLine.construct 1 1 3 4).head_cell_.2 : ℚ) -
              ((ParametricLine.construct 1 1 3 4).tail_cell_.2 : ℚ)))) ∧
    ParametricLine.construct 1 1 3 4 =
      { vector_ := (2, 3), tail_cell_ := (0, 0), head_cell_ := (2, 3),
        tail_point_ := (1 / 2, 1 / 2), head_point_ := (5 / 2, 7 / 2), midpoint_ := (3 / 2, 2) } :=
  ⟨construct_cells_points_direction 1 1 3 4 (by decide) (by decide) (by decide) (by decide)
    (ParametricLine.construct 1 1 3 4) rfl, by decide!⟩

/-! ## The matrix product of PA1 -/

/-- C19, the code diverges from the claim: every entry of the matrix returned
by `MatProductCustom` is a whole number, because the sum is kept in an `int`.
For the 1 x 1 matrices `(0.5)` and `(1)` it returns the matrix `(0)`, and
`MatProductEigen` returns the product `(0.5)`. -/
theorem MatProductCustom_truncates_entries :
    (∀ input_1 input_2 product, MatProductCustom input_1 input_2 = some product →
      product.rows = input_1.rows ∧ product.cols = input_2.cols ∧
      ∀ row col, ∃ z : Int, product.coeff row col = (z : ℚ)) ∧
    (MatProductCustom matHalf matOne).map
      (fun product => (product.rows, product.cols, product.coeff 0 0)) = some (1, 1, 0) ∧
    ((MatProductEigen matHalf matOne).rows, (MatProductEigen matHalf matOne).cols,
      (MatProductEigen matHalf matOne).coeff 0 0) = (1, 1, 1 / 2) ∧
    matHalf.coeff 0 0 * matOne.coeff 0 0 = 1 / 2 := by
  refine ⟨?_, by decide!, by decide!, by decide!⟩
  intro input_1 input_2 product h
  unfold MatProductCustom at h
  split_ifs at h
  rw [Option.some.injEq] at h
  subst h
  exact ⟨rfl, rfl, fun row col => ⟨_, rfl⟩⟩

/-! ## The homogeneous systems of PA3 -/

theorem normalized_unit (a b : ℝ) (h : 0 < a ^ 2 + b ^ 2) :
    (a / Real.sqrt (a ^ 2 + b ^ 2)) ^ 2 + (b / Real.sqrt (a ^ 2 + b ^ 2)) ^ 2 = 1 := by
  have hs : Real.sqrt (a ^ 2 + b ^ 2) ^ 2 = a ^ 2 + b ^ 2 := Real.sq_sqrt h.le
  have hne : Real.sqrt (a ^ 2 + b ^ 2) ≠ 0 := (Real.sqrt_pos.2 h).ne'
  rw [div_pow, div_pow, ← add_div, hs]
  exact div_self h.ne'

theorem EqualsWithinTolerance_zero (x : ℚ) :
    EqualsWithinTolerance x 0 = true ↔ |x| < kTolerance := by
  unfold EqualsWithinTolerance
  simp only [decide_eq_true_eq]
  by_cases hx : x > 0
  · rw [if_pos hx, sub_zero, abs_of_pos hx]
  · rw [if_neg hx, zero_sub, abs_of_nonpos (not_lt.1 hx)]

theorem SolveHomogeneousSystem_some (mat : Matrix2d) (w : ℚ × ℚ)
    (h : SolveHomogeneousSystem mat = some w) :
    |mat.determinant| < kTolerance ∧ 0 < w.1 ^ 2 + w.2 ^ 2 ∧
    mat.m00 * w.1 + mat.m01 * w.2 = 0 ∧ mat.m10 * w.1 + mat.m11 * w.2 = mat.determinant := by
  unfold SolveHomogeneousSystem at h
  by_cases htol : EqualsWithinTolerance mat.determinant 0 = true
  · rw [htol] at h
    simp only [Bool.not_true, Bool.false_eq_true, if_false, Option.some.injEq] at h
    refine ⟨(EqualsWithinTolerance_zero _).1 htol, ?_⟩
    have hdet := (EqualsWithinTolerance_zero _).1 htol
    unfold Matrix2d.determinant at hdet ⊢
    by_cases h0 : mat.m00 = 0 ∧ mat.m01 = 0
    · rw [if_pos h0] at h
      by_cases h1 : mat.m10 = 0 ∧ mat.m11 = 0
      · rw [if_pos h1] at h
        subst h
        rw [h0.1, h0.2, h1.1, h1.2]
        norm_num
      · rw [if_neg h1] at h
        subst h
        rw [h0.1, h0.2]
        refine ⟨?_, by ring, by ring⟩
        simp only
        by_contra hle
        have ha : mat.m11 ^ 2 = 0 := by nlinarith [sq_nonneg mat.m11, sq_nonneg mat.m10]
        have hb : mat.m10 ^ 2 = 0 := by nlinarith [sq_nonneg mat.m11, sq_nonneg mat.m10]
        exact h1 ⟨pow_eq_zero_iff (by decide) |>.1 hb, pow_eq_zero_iff (by decide) |>.1 ha⟩
    · rw [if_neg h0] at h
      subst h
      refine ⟨?_, by ring, by ring⟩
      simp only
      by_contra hle
      have ha : mat.m01 ^ 2 = 0 := by nlinarith [sq_nonneg mat.m01, sq_nonneg mat.m00]
      have hb : mat.m00 ^ 2 = 0 := by nlinarith [sq_nonneg mat.m01, sq_nonneg mat.m00]
      exact h0 ⟨pow_eq_zero_iff (by decide) |>.1 hb, pow_eq_zero_iff (by decide) |>.1 ha⟩
  · rw [Bool.not_eq_true] at htol
    rw [htol] at h
    simp at h

/-- C20, the claim fails: for the matrix of the rows `(1, 0)` and
`(0, 10^-15)` the function returns `true` with the solution `(0, 1)`, whose
norm is 1; the product of the matrix and the solution is `(0, 10^-15)`, which
is not 0, and the system has the trivial solution only. -/
theorem SolveHomogeneousSystem_counterexample :
    SolveHomogeneousSystem matNearSingular = some (0, 1) ∧
    Real.sqrt (((0 : ℚ) : ℝ) ^ 2 + ((1 : ℚ) : ℝ) ^ 2) = 1 ∧
    matNearSingular.m00 * 0 + matNearSingular.m01 * 1 = 0 ∧
    matNearSingular.m10 * 0 + matNearSingular.m11 * 1 = 1 / 1000000000000000 ∧
    matNearSingular.m10 * 0 + matNearSingular.m11 * 1 ≠ 0 ∧
    (∀ x y : ℚ, matNearSingular.m00 * x + matNearSingular.m01 * y = 0 →
      matNearSingular.m10 * x + matNearSingular.m11 * y = 0 → x = 0 ∧ y = 0) := by
  refine ⟨by decide!, by norm_num, by decide!, by decide!, by decide!, ?_⟩
  intro x y h1 h2
  have e1 : matNearSingular.m00 * x + matNearSingular.m01 * y = x := by
    simp only [matNearSingular]
    ring
  have e2 : matNearSingular.m10 * x + matNearSingular.m11 * y = y / 1000000000000000 := by
    simp only [matNearSingular]
    ring
  rw [e1] at h1
  rw [e2] at h2
  refine ⟨h1, ?_⟩
  linarith

/-- C20, amended: whenever `SolveHomogeneousSystem` returns `true`, the
determinant of the matrix is within `kTolerance = 10^-14` of 0 and the
solution returned, `v = w / ‖w‖`, is a vector of length 1 such that the first
component of `M * v` is 0 and the second is `det M / ‖w‖`; so `M * v = 0`, and
`v` is a non-trivial solution of the system, when `det M = 0`.  The function
returns `true` for every matrix of determinant 0. -/
theorem SolveHomogeneousSystem_unit_solution (mat : Matrix2d) :
    (mat.determinant = 0 → ∃ w, SolveHomogeneousSystem mat = some w) ∧
    ∀ w, SolveHomogeneousSystem mat = some w →
      |mat.determinant| < 1 / 100000000000000 ∧
      ((w.1 : ℝ) / Real.sqrt ((w.1 : ℝ) ^ 2 + (w.2 : ℝ) ^ 2)) ^ 2 +
        ((w.2 : ℝ) / Real.sqrt ((w.1 : ℝ) ^ 2 + (w.2 : ℝ) ^ 2)) ^ 2 = 1 ∧
      (mat.m00 : ℝ) * ((w.1 : ℝ) / Real.sqrt ((w.1 : ℝ) ^ 2 + (w.2 : ℝ) ^ 2)) +
        (mat.m01 : ℝ) * ((w.2 : ℝ) / Real.sqrt ((w.1 : ℝ) ^ 2 + (w.2 : ℝ) ^ 2)) = 0 ∧
      (mat.m10 : ℝ) * ((w.1 : ℝ) / Real.sqrt ((w.1 : ℝ) ^ 2 + (w.2 : ℝ) ^ 2)) +
        (mat.m11 : ℝ) * ((w.2 : ℝ) / Real.sqrt ((w.1 : ℝ) ^ 2 + (w.2 : ℝ) ^ 2)) =
          (mat.determinant : ℝ) / Real.sqrt ((w.1 : ℝ) ^ 2 + (w.2 : ℝ) ^ 2) ∧
      (mat.determinant = 0 →
        (mat.m10 : ℝ) * ((w.1 : ℝ) / Real.sqrt ((w.1 : ℝ) ^ 2 + (w.2 : ℝ) ^ 2)) +
          (mat.m11 : ℝ) * ((w.2 : ℝ) / Real.sqrt ((w.1 : ℝ) ^ 2 + (w.2 : ℝ) ^ 2)) = 0) := by
  constructor
  · intro hdet
    have htol : EqualsWithinTolerance mat.determinant 0 = true := by
      rw [EqualsWithinTolerance_zero, hdet]
      decide!
    unfold SolveHomogeneousSystem
    rw [htol]
    exact ⟨_, rfl⟩
  · intro w h
    obtain ⟨hdet, hpos, hrow0, hrow1⟩ := SolveHomogeneousSystem_some mat w h
    have hposR : (0 : ℝ) < (w.1 : ℝ) ^ 2 + (w.2 : ℝ) ^ 2 := by exact_mod_cast hpos
    have hrow0R : (mat.m00 : ℝ) * (w.1 : ℝ) + (mat.m01 : ℝ) * (w.2 : ℝ) = 0 := by
      exact_mod_cast hrow0
    have hrow1R : (mat.m10 : ℝ) * (w.1 : ℝ) + (mat.m11 : ℝ) * (w.2 : ℝ) =
        (mat.determinant : ℝ) := by exact_mod_cast hrow1
    have hprod : ∀ a b : ℝ, a * ((w.1 : ℝ) / Real.sqrt ((w.1 : ℝ) ^ 2 + (w.2 : ℝ) ^ 2)) +
        b * ((w.2 : ℝ) / Real.sqrt ((w.1 : ℝ) ^ 2 + (w.2 : ℝ) ^ 2)) =
        (a * (w.1 : ℝ) + b * (w.2 : ℝ)) / Real.sqrt ((w.1 : ℝ) ^ 2 + (w.2 : ℝ) ^ 2) := by
      intro a b
      ring
    refine ⟨hdet, normalized_unit _ _ hposR, ?_, ?_, ?_⟩
    · rw [hprod, hrow0R, zero_div]
    · rw [hprod, hrow1R]
    · intro hzero
      rw [hprod, hrow1R, hzero, Rat.cast_zero, zero_div]

/-- C20, amended, at the matrix of the rows `(1, 2)` and `(2, 4)`: the
function returns `true` with `w = (-2, 1)`, and the matrix sends `w` to 0. -/
theorem SolveHomogeneousSystem_unit_solution_witness :
    ((matSingular.determinant = 0 → ∃ w, SolveHomogeneousSystem matSingular = some w) ∧
      ∀ w, SolveHomogeneousSystem matSingular = some w →
        |matSingular.determinant| < 1 / 100000000000000 ∧
        ((w.1 : ℝ) / Real.sqrt ((w.1 : ℝ) ^ 2 + (w.2 : ℝ) ^ 2)) ^ 2 +
          ((w.2 : ℝ) / Real.sqrt ((w.1 : ℝ) ^ 2 + (w.2 : ℝ) ^ 2)) ^ 2 = 1 ∧
        (matSingular.m00 : ℝ) * ((w.1 : ℝ) / Real.sqrt ((w.1 : ℝ) ^ 2 + (w.2 : ℝ) ^ 2)) +
          (matSingular.m01 : ℝ) * ((w.2 : ℝ) / Real.sqrt ((w.1 : ℝ) ^ 2 + (w.2 : ℝ) ^ 2)) = 0 ∧
        (matSingular.m10 : ℝ) * ((w.1 : ℝ) / Real.sqrt ((w.1 : ℝ) ^ 2 + (w.2 : ℝ) ^ 2)) +
          (matSingular.m11 : ℝ) * ((w.2 : ℝ) / Real.sqrt ((w.1 : ℝ) ^ 2 + (w.2 : ℝ) ^ 2)) =
            (matSingular.determinant : ℝ) / Real.sqrt ((w.1 : ℝ) ^ 2 + (w.2 : ℝ) ^ 2) ∧
        (matSingular.determinant = 0 →
          (matSingular.m10 : ℝ) * ((w.1 : ℝ) / Real.sqrt ((w.1 : ℝ) ^ 2 + (w.2 : ℝ) ^ 2)) +
            (matSingular.m11 : ℝ) * ((w.2 : ℝ) / Real.sqrt ((w.1 : ℝ) ^ 2 + (w.2 : ℝ) ^ 2)) =
              0)) ∧
    matSingular.determinant = 0 ∧
    SolveHomogeneousSystem matSingular = some (-2, 1) ∧
    (matSingular.m00 * (-2) + matSingular.m01 * 1, matSingular.m10 * (-2) + matSingular.m11 * 1) =
      (0, 0) :=
  ⟨SolveHomogeneousSystem_unit_solution matSingular, by decide!, by decide!, by decide!⟩

/-! ## The first play checked -/

/-- C22.  The input file `3 4294967295`, `1 1 1 2`, `1 1 1 2` gives
`gameHugeWindow`, with the window `2^32 - 1`.  For the index 1 the claim has
the first play checked at `max(0, 1 - w) = 0`; the code computes the
`unsigned int` difference `1 - w = 2`, which as an `int` is not negative, so
the clamp at 0 does not apply and the first play checked is 2.  The play 1
repeats the play 0, the play 0 is not compared with it, `IsPlayValid(1)`
returns true and `Play` draws the play 1 over the play 0. -/
theorem FirstPlayChecked_huge_window :
    Game.FirstPlayChecked 4294967295 1 = 2 ∧
    max 0 ((1 : Int) - 4294967295) = 0 ∧
    gameHugeWindow.prev_plays_checked_ = 4294967295 ∧
    gameHugeWindow.plays_[0]? = gameHugeWindow.plays_[1]? ∧
    Conflicts (ParametricLine.construct 1 1 1 2) (ParametricLine.construct 1 1 1 2) ∧
    gameHugeWindow.IsPlayValid 1 = some true ∧
    Game.Play 6 gameHugeWindow =
      .ok { gameHugeWindow with
        board_ := { grid_ := [['O', 'O', '.'], ['.', '.', '.'], ['.', '.', '.']] } } := by
  decide!

/-- The first play checked, for every window `w` and index `i` that fit an
`unsigned int`.  With `w ≤ i + 2^31` and `i < w + 2^31` (so for all `w` and
`i` below `2^31`) it is `max(0, i - w)`, and it is 0 when `w > i`.  With
`w > i + 2^31` the `unsigned int` difference `i - w` is `i + 2^32 - w`, a
non-negative `int` that is more than `i`: no play is compared with the play
`i`. -/
theorem FirstPlayChecked_eq_max (w i : Nat) (hw : w < 4294967296) (hi : i < 4294967296) :
    (w ≤ i + 2147483648 → i < w + 2147483648 →
      (Game.FirstPlayChecked w i : Int) = max 0 ((i : Int) - (w : Int)) ∧
      (i < w → Game.FirstPlayChecked w i = 0)) ∧
    (i + 2147483648 < w →
      Game.FirstPlayChecked w i = i + 4294967296 - w ∧ i < Game.FirstPlayChecked w i ∧
      ∀ g : Game, g.prev_plays_checked_ = w → i < g.plays_.length →
        g.IsPlayValid i = some true) := by
  constructor
  · intro h1 h2
    unfold Game.FirstPlayChecked toInt32 usub32 kUIntSize
    simp only []
    split_ifs <;> omega
  · intro h1
    have hfirst : Game.FirstPlayChecked w i = i + 4294967296 - w := by
      unfold Game.FirstPlayChecked toInt32 usub32 kUIntSize
      simp only []
      split_ifs <;> omega
    refine ⟨hfirst, by omega, ?_⟩
    intro g hg hlen
    rw [IsPlayValid_eq_loop g i g.plays_[i] (by omega) (List.getElem?_eq_getElem hlen), hg,
      show i - Game.FirstPlayChecked w i = 0 by omega]
    rfl

/-- The first play checked at the window 5: for the index 2 it is 0 and for
the index 7 it is 2. -/
theorem FirstPlayChecked_eq_max_witness :
    ((5 ≤ 2 + 2147483648 → 2 < 5 + 2147483648 →
      (Game.FirstPlayChecked 5 2 : Int) = max 0 (((2 : Nat) : Int) - ((5 : Nat) : Int)) ∧
      (2 < 5 → Game.FirstPlayChecked 5 2 = 0)) ∧
    (2 + 2147483648 < 5 →
      Game.FirstPlayChecked 5 2 = 2 + 4294967296 - 5 ∧ 2 < Game.FirstPlayChecked 5 2 ∧
      ∀ g : Game, g.prev_plays_checked_ = 5 → 2 < g.plays_.length →
        g.IsPlayValid 2 = some true)) ∧
    Game.FirstPlayChecked 5 2 = 0 ∧ Game.FirstPlayChecked 5 7 = 2 :=
  ⟨FirstPlayChecked_eq_max 5 2 (by decide) (by decide), by decide, by decide⟩

/-! ## Degenerate moves in the history -/

theorem construct_degenerate_vector (tx ty hx hy : Nat) (htx : tx < 4294967296)
    (hty : ty < 4294967296) (hhx : hx < 4294967296) (hhy : hy < 4294967296)
    (hcell : (ParametricLine.construct tx ty hx hy).tail_cell_ =
      (ParametricLine.construct tx ty hx hy).head_cell_) :
    (ParametricLine.construct tx ty hx hy).vector_ = (0, 0) := by
  have hx_eq : tx = hx := by
    have h := congrArg Prod.fst hcell
    exact usub32_one_injective tx hx htx hhx h
  have hy_eq : ty = hy := by
    have h := congrArg Prod.snd hcell
    exact usub32_one_injective ty hy hty hhy h
  subst hx_eq hy_eq
  unfold ParametricLine.construct
  ext <;> simp

theorem conflicts_of_zero_left (play curr_play : ParametricLine) (h : play.vector_ = (0, 0)) :
    Conflicts play curr_play := by
  unfold Conflicts
  rw [h]
  right; right; right
  simp

theorem conflicts_of_zero_right (play curr_play : ParametricLine)
    (h : curr_play.vector_ = (0, 0)) : Conflicts play curr_play := by
  unfold Conflicts
  rw [h]
  right; right; right
  simp

/-- C23: a zero direction has a zero dot product with every direction.  In a
game whose window `w` is positive and below `2^31`, a degenerate move (a line
built from `unsigned int` coordinates whose tail cell is its head cell) at an
index `i ≥ 1` is invalid, and a move `i` with a degenerate move at an index
`j` of its window, `max(0, i - w) ≤ j < i`, is invalid. -/
theorem IsPlayValid_false_of_degenerate (g : Game) (i : Nat)
    (hw0 : 0 < g.prev_plays_checked_) (hw : g.prev_plays_checked_ < 2147483648)
    (hi : i < g.plays_.length) (tx ty hx hy : Nat) (htx : tx < 4294967296)
    (hty : ty < 4294967296) (hhx : hx < 4294967296) (hhy : hy < 4294967296)
    (hcell : (ParametricLine.construct tx ty hx hy).tail_cell_ =
      (ParametricLine.construct tx ty hx hy).head_cell_) :
    (∀ line : ParametricLine,
      (ParametricLine.construct tx ty hx hy).vector_.1 * line.vector_.1 +
        (ParametricLine.construct tx ty hx hy).vector_.2 * line.vector_.2 = 0 ∧
      (ParametricLine.construct tx ty hx hy).IsPerpendicular line = true ∧
      line.IsPerpendicular (ParametricLine.construct tx ty hx hy) = true) ∧
    (1 ≤ i → g.plays_[i]? = some (ParametricLine.construct tx ty hx hy) →
      g.IsPlayValid i = some false) ∧
    (∀ j : Nat, max 0 ((i : Int) - g.prev_plays_checked_) ≤ (j : Int) → j < i →
      g.plays_[j]? = some (ParametricLine.construct tx ty hx hy) →
      g.IsPlayValid i = some false) := by
  have hvec := construct_degenerate_vector tx ty hx hy htx hty hhx hhy hcell
  refine ⟨?_, ?_, ?_⟩
  · intro line
    unfold ParametricLine.IsPerpendicular dot
    rw [hvec]
    simp [roundDouble_zero]
  · intro h1 hplay
    have hprev : i - 1 < g.plays_.length := by omega
    exact IsPlayValid_false_of_conflict g i (i - 1) _ g.plays_[i - 1] hw0 hw (by omega)
      (by omega) hplay (List.getElem?_eq_getElem hprev) (conflicts_of_zero_left _ _ hvec)
  · intro j hwin hji hplay
    rw [max_le_iff] at hwin
    exact IsPlayValid_false_of_conflict g i j g.plays_[i] _ hw0 hw hji (by omega)
      (List.getElem?_eq_getElem hi) hplay (conflicts_of_zero_right _ _ hvec)

/-- C23, in the game of the plays `1 1 1 2`, `2 2 2 2` and `3 1 2 3` with the
window 1: the degenerate play 1 is invalid, and so is the play 2 that follows
it. -/
theorem IsPlayValid_false_of_degenerate_witness :
    ((∀ line : ParametricLine,
      (ParametricLine.construct 2 2 2 2).vector_.1 * line.vector_.1 +
        (ParametricLine.construct 2 2 2 2).vector_.2 * line.vector_.2 = 0 ∧
      (ParametricLine.construct 2 2 2 2).IsPerpendicular line = true ∧
      line.IsPerpendicular (ParametricLine.construct 2 2 2 2) = true) ∧
    (1 ≤ 1 → gameDegenerate.plays_[1]? = some (ParametricLine.construct 2 2 2 2) →
      gameDegenerate.IsPlayValid 1 = some false) ∧
    (∀ j : Nat, max 0 (((1 : Nat) : Int) - gameDegenerate.prev_plays_checked_) ≤ (j : Int) →
      j < 1 → gameDegenerate.plays_[j]? = some (ParametricLine.construct 2 2 2 2) →
      gameDegenerate.IsPlayValid 1 = some false)) ∧
    gameDegenerate.IsPlayValid 0 = some true ∧
    gameDegenerate.IsPlayValid 1 = some false ∧
    gameDegenerate.IsPlayValid 2 = some false :=
  ⟨IsPlayValid_false_of_degenerate gameDegenerate 1 (by decide) (by decide) (by decide)
    2 2 2 2 (by decide) (by decide) (by decide) (by decide) (by decide),
    by decide!, by decide!, by decide!⟩

/-! ## The cells of a traversal are on the board -/

theorem gridPath_le (A B : Nat) (q : Nat × Nat) (hq : q ∈ gridPath A B) :
    q.1 ≤ A ∧ q.2 ≤ B := by
  rcases (mem_gridPath A B q).1 hq with h | h
  · rw [h]
    exact ⟨Nat.zero_le _, Nat.zero_le _⟩
  · exact ⟨h.1, h.2.1⟩

theorem axis_cell_between (t h k : Nat) (ht : 1 ≤ t) (hh : 1 ≤ h) (hk : k ≤ lineExtent t h) :
    min (t - 1) (h - 1) ≤ (((t - 1 : Nat) : Int) + lineStep t h * (k : Int)).toNat ∧
    (((t - 1 : Nat) : Int) + lineStep t h * (k : Int)).toNat ≤ max (t - 1) (h - 1) := by
  rw [axis_cell t h k ht hh hk]
  unfold lineExtent at hk
  by_cases h1 : t - 1 < h - 1
  · rw [if_pos h1]
    omega
  · rw [if_neg h1]
    omega

theorem lineCells_between (tx ty hx hy : Nat) (a1 : 1 ≤ tx) (b1 : 1 ≤ ty) (c1 : 1 ≤ hx)
    (d1 : 1 ≤ hy) (cell : Nat × Nat) (hcell : cell ∈ lineCells tx ty hx hy) :
    (min (tx - 1) (hx - 1) ≤ cell.1 ∧ cell.1 ≤ max (tx - 1) (hx - 1)) ∧
    (min (ty - 1) (hy - 1) ≤ cell.2 ∧ cell.2 ≤ max (ty - 1) (hy - 1)) := by
  unfold lineCells at hcell
  obtain ⟨q, hq, rfl⟩ := List.mem_map.1 hcell
  obtain ⟨hq1, hq2⟩ := gridPath_le _ _ q hq
  exact ⟨axis_cell_between tx hx q.1 a1 c1 hq1, axis_cell_between ty hy q.2 b1 d1 hq2⟩

/-- C21: for a move whose tail and head cells are on a board of width `N`,
`PlotLine` returns: none of its calls of `SetCell` raises the out-of-range
error (an error of `SetCell` is the result of `PlotLine`).  Every
cell it passes to `SetCell` has its row between the tail row and the head row
and its column between the tail column and the head column, so it is a cell of
the board; the counters `x` and `y` never take the value `2^32 - 1` that a
step below 0 would give. -/
theorem PlotLine_cells_inside_board (N tx ty hx hy : Nat) (hN : N < 4294967296)
    (hmove : OnBoard N tx ty hx hy) (board : Board) (hsq : board.IsSquare N) (color : Char)
    (fuel : Nat) (hfuel : 2 * N ≤ fuel) (tail head : Nat × Nat)
    (htail : (ParametricLine.construct tx ty hx hy).tail_cell_ = tail)
    (hhead : (ParametricLine.construct tx ty hx hy).head_cell_ = head) :
    0 < N ∧
    ∃ board1 cells,
      board.PlotLine fuel (ParametricLine.construct tx ty hx hy) color = .ok (board1, cells) ∧
      ∀ cell ∈ cells,
        (min tail.1 head.1 ≤ cell.1 ∧ cell.1 ≤ max tail.1 head.1) ∧
        (min tail.2 head.2 ≤ cell.2 ∧ cell.2 ≤ max tail.2 head.2) ∧
        cell.1 < N ∧ cell.2 < N ∧ cell.1 ≠ 4294967295 ∧ cell.2 ≠ 4294967295 := by
  obtain ⟨⟨a1, a2⟩, ⟨b1, b2⟩, ⟨c1, c2⟩, ⟨d1, d2⟩⟩ := hmove.inputs hN
  obtain ⟨ftail, fhead, _⟩ := construct_fields tx ty hx hy a1 b1 c1 d1 hmove.tail_x_uint
    hmove.tail_y_uint hmove.head_x_uint hmove.head_y_uint
  obtain ⟨board1, hplot, _, _⟩ := PlotLine_on_board hN hmove board hsq color fuel
    (hmove.fuel_bound hN fuel hfuel)
  rw [ftail] at htail
  rw [fhead] at hhead
  subst htail hhead
  refine ⟨by omega, board1, lineCells tx ty hx hy, hplot, ?_⟩
  intro cell hcell
  obtain ⟨hrow, hcol⟩ := lineCells_between tx ty hx hy a1 b1 c1 d1 cell hcell
  have hr : cell.1 < N := by
    have := hrow.2
    simp only at this
    omega
  have hc : cell.2 < N := by
    have := hcol.2
    simp only at this
    omega
  exact ⟨hrow, hcol, hr, hc, by omega, by omega⟩

/-- C21, at the move `3 1 1 2` on the empty board of width 3: the cells
passed to `SetCell` are `(2, 0)`, `(1, 0)`, `(1, 1)` and `(0, 1)`. -/
theorem PlotLine_cells_inside_board_witness :
    (0 < 3 ∧
    ∃ board1 cells,
      (Board.empty.CreateGrid 3).PlotLine 6 (ParametricLine.construct 3 1 1 2) 'X' =
        .ok (board1, cells) ∧
      ∀ cell ∈ cells,
        (min ((2, 0) : Nat × Nat).1 ((0, 1) : Nat × Nat).1 ≤ cell.1 ∧
          cell.1 ≤ max ((2, 0) : Nat × Nat).1 ((0, 1) : Nat × Nat).1) ∧
        (min ((2, 0) : Nat × Nat).2 ((0, 1) : Nat × Nat).2 ≤ cell.2 ∧
          cell.2 ≤ max ((2, 0) : Nat × Nat).2 ((0, 1) : Nat × Nat).2) ∧
        cell.1 < 3 ∧ cell.2 < 3 ∧ cell.1 ≠ 4294967295 ∧ cell.2 ≠ 4294967295) ∧
    ((Board.empty.CreateGrid 3).PlotLine 6 (ParametricLine.construct 3 1 1 2) 'X').toOption.map
      Prod.snd = some [(2, 0), (1, 0), (1, 1), (0, 1)] :=
  ⟨PlotLine_cells_inside_board 3 3 1 1 2 (by decide)
    ⟨by decide, by decide, by decide, by decide, by decide, by decide, by decide, by decide⟩
    (Board.empty.CreateGrid 3) (CreateGrid_square 3) 'X' 6 (by decide) (2, 0) (0, 1)
    (by decide) (by decide), by decide!⟩

/-! ## The frame of `PlotLine` -/

/-- C27: for a board of width `N`, a colour and a move on the board,
`PlotLine` returns; afterwards every cell it visited (passed to `SetCell`)
holds the colour, every cell of the board it did not visit holds the value it
had before, no cell off the board appears, and the grid is `N` rows of `N`
cells. -/
theorem PlotLine_changes_only_visited_cells (N tx ty hx hy : Nat) (hN : N < 4294967296)
    (hmove : OnBoard N tx ty hx hy) (board : Board) (hsq : board.IsSquare N) (color : Char)
    (fuel : Nat) (hfuel : 2 * N ≤ fuel) :
    ∃ board1 cells,
      board.PlotLine fuel (ParametricLine.construct tx ty hx hy) color = .ok (board1, cells) ∧
      (∀ r c, (r, c) ∈ cells → board1.GetCell r c = .ok color) ∧
      (∀ r c, (r, c) ∉ cells → board1.GetCell r c = board.GetCell r c) ∧
      board1.grid_.length = N ∧ (∀ row ∈ board1.grid_, row.length = N) ∧
      board1.grid_.length = board.grid_.length := by
  obtain ⟨board1, hplot, hsq1, hget⟩ := PlotLine_on_board hN hmove board hsq color fuel
    (hmove.fuel_bound hN fuel hfuel)
  refine ⟨board1, lineCells tx ty hx hy, hplot, ?_, ?_, hsq1.1, hsq1.2, ?_⟩
  · intro r c hmem
    rw [hget r c, if_pos hmem]
  · intro r c hmem
    rw [hget r c, if_neg hmem]
  · rw [hsq1.1, hsq.1]

/-- C27, at the move `1 1 2 3` in the colour `'O'` on a board of width 3 with
cells of the three kinds: the four visited cells hold `'O'`, the others are
as before. -/
theorem PlotLine_changes_only_visited_cells_witness :
    (∃ board1 cells,
      ({ grid_ := [['X', 'X', '.'], ['.', 'X', '.'], ['O', '.', 'X']] } : Board).PlotLine 6
        (ParametricLine.construct 1 1 2 3) 'O' = .ok (board1, cells) ∧
      (∀ r c, (r, c) ∈ cells → board1.GetCell r c = .ok 'O') ∧
      (∀ r c, (r, c) ∉ cells → board1.GetCell r c =
        ({ grid_ := [['X', 'X', '.'], ['.', 'X', '.'], ['O', '.', 'X']] } : Board).GetCell r c) ∧
      board1.grid_.length = 3 ∧ (∀ row ∈ board1.grid_, row.length = 3) ∧
      board1.grid_.length =
        ({ grid_ := [['X', 'X', '.'], ['.', 'X', '.'], ['O', '.', 'X']] } : Board).grid_.length) ∧
    ({ grid_ := [['X', 'X', '.'], ['.', 'X', '.'], ['O', '.', 'X']] } : Board).PlotLine 6
      (ParametricLine.construct 1 1 2 3) 'O' =
      .ok ({ grid_ := [['O', 'O', '.'], ['.', 'O', 'O'], ['O', '.', 'X']] },
        [(0, 0), (0, 1), (1, 1), (1, 2)]) :=
  ⟨PlotLine_changes_only_visited_cells 3 1 1 2 3 (by decide)
    ⟨by decide, by decide, by decide, by decide, by decide, by decide, by decide, by decide⟩
    { grid_ := [['X', 'X', '.'], ['.', 'X', '.'], ['O', '.', 'X']] } ⟨rfl, by decide⟩ 'O' 6
    (by decide), by decide!⟩

/-! ## The order of the cells in a traversal -/

/-- Two consecutive pairs of step counts of a traversal: the first is a pair
of the segment other than the last pair `(A, B)`, and the second is its
`gridStep`. -/
theorem gridWalk_chain (A B : Nat) : ∀ (fuel : Nat) (p : Nat × Nat), OnSegment A B p →
    p ≠ (A, B) →
    List.Chain (fun a b => OnSegment A B a ∧ a ≠ (A, B) ∧ b = gridStep A B a) p
      (gridWalk A B fuel p) := by
  intro fuel
  induction fuel with
  | zero =>
    intro p _ _
    exact List.Chain.nil
  | succ fuel ih =>
    intro p hseg hp
    unfold gridWalk
    by_cases hlast : gridStep A B p = (A, B)
    · rw [if_pos hlast]
      exact List.Chain.cons ⟨hseg, hp, rfl⟩ List.Chain.nil
    · rw [if_neg hlast]
      exact List.Chain.cons ⟨hseg, hp, rfl⟩ (ih _ (gridStep_onSegment A B p hseg hp) hlast)

theorem gridPath_chain (A B : Nat) :
    List.Chain' (fun a b => OnSegment A B a ∧ a ≠ (A, B) ∧ b = gridStep A B a)
      (gridPath A B) := by
  unfold gridPath
  by_cases h0 : A = 0 ∧ B = 0
  · rw [if_pos h0]
    exact List.chain'_singleton _
  · rw [if_neg h0]
    refine gridWalk_chain A B (A + B) (0, 0) (onSegment_origin A B (by omega)) ?_
    intro hc
    rw [Prod.mk.injEq] at hc
    omega

theorem gridStep_lt (A B : Nat) (p : Nat × Nat) : p < gridStep A B p := by
  obtain ⟨h1, h2, _, _, h5⟩ := gridStep_ge A B p
  rw [Prod.lt_iff]
  omega

theorem gridPath_sorted (A B : Nat) : List.Sorted (fun a b : Nat × Nat => a < b) (gridPath A B) := by
  unfold List.Sorted
  rw [← List.chain'_iff_pairwise]
  refine (gridPath_chain A B).imp ?_
  rintro a b ⟨_, _, rfl⟩
  exact gridStep_lt A B a

theorem gridPath_nodup (A B : Nat) : (gridPath A B).Nodup := (gridPath_sorted A B).nodup

theorem onSegment_head (A B : Nat) (hAB : A ≠ 0 ∨ B ≠ 0) : OnSegment A B (A, B) := by
  have e1 : (2 * B + 1) * A = 2 * (A * B) + A := by ring
  have e2 : (2 * A + 1) * B = 2 * (A * B) + B := by ring
  have e3 : 2 * A * B = 2 * (A * B) := Nat.mul_assoc _ _ _
  have e4 : 2 * B * A = 2 * (A * B) := by ring
  refine ⟨le_refl _, le_refl _, ?_, ?_⟩ <;> simp only <;> omega

theorem mem_gridPath_iff (A B : Nat) (hAB : A ≠ 0 ∨ B ≠ 0) (q : Nat × Nat) :
    q ∈ gridPath A B ↔ OnSegment A B q := by
  rw [mem_gridPath]
  constructor
  · rintro (h | h)
    · rw [h]
      exact onSegment_origin A B hAB
    · exact h
  · exact Or.inr

theorem onSegment_flip (A B : Nat) (p : Nat × Nat) (h : OnSegment A B p) :
    OnSegment A B (A - p.1, B - p.2) := by
  obtain ⟨h1, h2, h3, h4⟩ := h
  refine ⟨Nat.sub_le _ _, Nat.sub_le _ _, ?_, ?_⟩
  · simp only
    have e1 : (A - p.1) * B = A * B - p.1 * B := Nat.sub_mul _ _ _
    have e2 : (B - p.2) * A = B * A - p.2 * A := Nat.sub_mul _ _ _
    have e3 : p.1 * B ≤ A * B := Nat.mul_le_mul_right _ h1
    have e4 : p.2 * A ≤ B * A := Nat.mul_le_mul_right _ h2
    have e5 : A * B = B * A := Nat.mul_comm _ _
    have e6 : 2 * (A - p.1) * B = 2 * ((A - p.1) * B) := Nat.mul_assoc _ _ _
    have e7 : (2 * (B - p.2) + 1) * A = 2 * ((B - p.2) * A) + A := by ring
    have e8 : 2 * p.1 * B = 2 * (p.1 * B) := Nat.mul_assoc _ _ _
    have e9 : (2 * p.2 + 1) * A = 2 * (p.2 * A) + A := by ring
    have e10 : 2 * p.2 * A = 2 * (p.2 * A) := Nat.mul_assoc _ _ _
    have e11 : (2 * p.1 + 1) * B = 2 * (p.1 * B) + B := by ring
    omega
  · simp only
    have e1 : (A - p.1) * B = A * B - p.1 * B := Nat.sub_mul _ _ _
    have e2 : (B - p.2) * A = B * A - p.2 * A := Nat.sub_mul _ _ _
    have e3 : p.1 * B ≤ A * B := Nat.mul_le_mul_right _ h1
    have e4 : p.2 * A ≤ B * A := Nat.mul_le_mul_right _ h2
    have e5 : A * B = B * A := Nat.mul_comm _ _
    have e6 : 2 * (B - p.2) * A = 2 * ((B - p.2) * A) := Nat.mul_assoc _ _ _
    have e7 : (2 * (A - p.1) + 1) * B = 2 * ((A - p.1) * B) + B := by ring
    have e8 : 2 * p.1 * B = 2 * (p.1 * B) := Nat.mul_assoc _ _ _
    have e9 : (2 * p.2 + 1) * A = 2 * (p.2 * A) + A := by ring
    have e10 : 2 * p.2 * A = 2 * (p.2 * A) := Nat.mul_assoc _ _ _
    have e11 : (2 * p.1 + 1) * B = 2 * (p.1 * B) + B := by ring
    omega

/-- The traversal of the reversed line in step counts: the step counts of the
traversal, counted from the head, in the opposite order. -/
theorem gridPath_reverse (A B : Nat) :
    (gridPath A B).map (fun p => (A - p.1, B - p.2)) = (gridPath A B).reverse := by
  by_cases hAB : A ≠ 0 ∨ B ≠ 0
  · have hsorted : List.Sorted (fun a b : Nat × Nat => a < b)
        ((gridPath A B).map (fun p => (A - p.1, B - p.2))).reverse := by
      unfold List.Sorted
      rw [List.pairwise_reverse, List.pairwise_map]
      refine List.Pairwise.imp_of_mem ?_ (gridPath_sorted A B)
      intro a b ha hb hab
      obtain ⟨ha1, ha2⟩ := gridPath_le A B a ha
      obtain ⟨hb1, hb2⟩ := gridPath_le A B b hb
      rw [Prod.lt_iff] at hab ⊢
      simp only
      omega
    have hperm : (((gridPath A B).map (fun p => (A - p.1, B - p.2))).reverse).Perm
        (gridPath A B) := by
      rw [List.perm_ext_iff_of_nodup hsorted.nodup (gridPath_nodup A B)]
      intro q
      rw [List.mem_reverse, List.mem_map, mem_gridPath_iff A B hAB]
      constructor
      · rintro ⟨p, hp, rfl⟩
        exact onSegment_flip A B p ((mem_gridPath_iff A B hAB p).1 hp)
      · intro hq
        refine ⟨(A - q.1, B - q.2), (mem_gridPath_iff A B hAB _).2 (onSegment_flip A B q hq), ?_⟩
        obtain ⟨h1, h2, _, _⟩ := hq
        ext <;> simp only <;> omega
    have heq := List.eq_of_perm_of_sorted hperm hsorted (gridPath_sorted A B)
    have hrev := congrArg List.reverse heq
    rw [List.reverse_reverse] at hrev
    exact hrev
  · have hA : A = 0 := by omega
    have hB : B = 0 := by omega
    subst hA hB
    rfl

theorem lineExtent_comm (t h : Nat) : lineExtent h t = lineExtent t h := by
  unfold lineExtent
  omega

theorem OnBoard.reversed {N tx ty hx hy : Nat} (h : OnBoard N tx ty hx hy) :
    OnBoard N hx hy tx ty :=
  ⟨h.head_x_uint, h.head_y_uint, h.tail_x_uint, h.tail_y_uint, h.head_row, h.head_col,
    h.tail_row, h.tail_col⟩

theorem axis_cell_reversed (t h k : Nat) (ht : 1 ≤ t) (hh : 1 ≤ h) (hk : k ≤ lineExtent t h) :
    (((h - 1 : Nat) : Int) + lineStep h t * (k : Int)).toNat =
      (((t - 1 : Nat) : Int) + lineStep t h * ((lineExtent t h - k : Nat) : Int)).toNat := by
  rw [axis_cell h t k hh ht (by rw [lineExtent_comm]; exact hk),
    axis_cell t h (lineExtent t h - k) ht hh (Nat.sub_le _ _)]
  unfold lineExtent at hk ⊢
  by_cases h1 : h - 1 < t - 1
  · rw [if_pos h1, if_neg (by omega)]
    omega
  · rw [if_neg h1]
    by_cases h2 : t - 1 < h - 1
    · rw [if_pos h2]
      omega
    · rw [if_neg h2]
      omega

/-- The cells of the reversed line: the cells of the line in the opposite
order. -/
theorem lineCells_reversed (tx ty hx hy : Nat) (a1 : 1 ≤ tx) (b1 : 1 ≤ ty) (c1 : 1 ≤ hx)
    (d1 : 1 ≤ hy) : lineCells hx hy tx ty = (lineCells tx ty hx hy).reverse := by
  unfold lineCells
  rw [← List.map_reverse, ← gridPath_reverse, List.map_map, lineExtent_comm tx hx,
    lineExtent_comm ty hy]
  apply List.map_congr_left
  intro p hp
  obtain ⟨hp1, hp2⟩ := gridPath_le _ _ p hp
  simp only [Function.comp, cellAt]
  rw [axis_cell_reversed tx hx p.1 a1 c1 hp1, axis_cell_reversed ty hy p.2 b1 d1 hp2]

/-! ## The reversed move -/

/-- C25: for two cells `a` and `b` of a board of width `N`, `PlotLine` for the
move from `a` to `b` and `PlotLine` for the reversed move from `b` to `a`, on
the same board with the same colour, both return; the cells visited by the
second are the cells visited by the first in the opposite order, so the two
colour the same set of cells, and the two boards are equal. -/
theorem PlotLine_reversed_move (N tx ty hx hy : Nat) (hN : N < 4294967296)
    (hmove : OnBoard N tx ty hx hy) (board : Board) (hsq : board.IsSquare N) (color : Char)
    (fuel : Nat) (hfuel : 2 * N ≤ fuel) :
    OnBoard N hx hy tx ty ∧
    (ParametricLine.construct hx hy tx ty).tail_cell_ =
      (ParametricLine.construct tx ty hx hy).head_cell_ ∧
    (ParametricLine.construct hx hy tx ty).head_cell_ =
      (ParametricLine.construct tx ty hx hy).tail_cell_ ∧
    ∃ board1 cells,
      board.PlotLine fuel (ParametricLine.construct tx ty hx hy) color = .ok (board1, cells) ∧
      board.PlotLine fuel (ParametricLine.construct hx hy tx ty) color =
        .ok (board1, cells.reverse) ∧
      ∀ cell, cell ∈ cells ↔ cell ∈ cells.reverse := by
  obtain ⟨⟨a1, a2⟩, ⟨b1, b2⟩, ⟨c1, c2⟩, ⟨d1, d2⟩⟩ := hmove.inputs hN
  obtain ⟨board1, hplot1, hsq1, hget1⟩ := PlotLine_on_board hN hmove board hsq color fuel
    (hmove.fuel_bound hN fuel hfuel)
  obtain ⟨board2, hplot2, hsq2, hget2⟩ := PlotLine_on_board hN hmove.reversed board hsq color
    fuel (hmove.reversed.fuel_bound hN fuel hfuel)
  have hcells := lineCells_reversed tx ty hx hy a1 b1 c1 d1
  have hboard : board2 = board1 := by
    refine Board.ext_of_getCell N board2 board1 hsq2 hsq1 ?_
    intro r c
    rw [hget1 r c, hget2 r c, hcells]
    simp only [List.mem_reverse]
  refine ⟨hmove.reversed, rfl, rfl, board1, lineCells tx ty hx hy, hplot1, ?_, ?_⟩
  · rw [hplot2, hboard, hcells]
  · intro cell
    rw [List.mem_reverse]

/-- C25, at the cells `(0, 0)` and `(2, 3)` of the empty board of width 5:
the move `1 1 3 4` and the reversed move `3 4 1 1` visit the same six cells,
in opposite orders. -/
theorem PlotLine_reversed_move_witness :
    (OnBoard 5 3 4 1 1 ∧
    (ParametricLine.construct 3 4 1 1).tail_cell_ =
      (ParametricLine.construct 1 1 3 4).head_cell_ ∧
    (ParametricLine.construct 3 4 1 1).head_cell_ =
      (ParametricLine.construct 1 1 3 4).tail_cell_ ∧
    ∃ board1 cells,
      (Board.empty.CreateGrid 5).PlotLine 10 (ParametricLine.construct 1 1 3 4) 'X' =
        .ok (board1, cells) ∧
      (Board.empty.CreateGrid 5).PlotLine 10 (ParametricLine.construct 3 4 1 1) 'X' =
        .ok (board1, cells.reverse) ∧
      ∀ cell, cell ∈ cells ↔ cell ∈ cells.reverse) ∧
    ((Board.empty.CreateGrid 5).PlotLine 10 (ParametricLine.construct 1 1 3 4) 'X').toOption.map
      Prod.snd = some [(0, 0), (0, 1), (1, 1), (1, 2), (2, 2), (2, 3)] ∧
    ((Board.empty.CreateGrid 5).PlotLine 10 (ParametricLine.construct 3 4 1 1) 'X').toOption.map
      Prod.snd = some [(2, 3), (2, 2), (1, 2), (1, 1), (0, 1), (0, 0)] :=
  ⟨PlotLine_reversed_move 5 1 1 3 4 (by decide)
    ⟨by decide, by decide, by decide, by decide, by decide, by decide, by decide, by decide⟩
    (Board.empty.CreateGrid 5) (CreateGrid_square 5) 'X' 10 (by decide), by decide!, by decide!⟩

/-! ## The number of cells of a traversal -/

theorem gridStep_cases (A B : Nat) (p : Nat × Nat) :
    (tieAt A B p = false ∧
      (gridStep A B p = (p.1 + 1, p.2) ∨ gridStep A B p = (p.1, p.2 + 1))) ∨
    (tieAt A B p = true ∧ gridStep A B p = (p.1 + 1, p.2 + 1)) := by
  unfold gridStep tieAt
  by_cases h1 : (2 * p.1 + 1) * B < (2 * p.2 + 1) * A
  · rw [if_pos h1]
    exact Or.inl ⟨decide_eq_false (by omega), Or.inl rfl⟩
  · rw [if_neg h1]
    by_cases h2 : (2 * p.2 + 1) * A < (2 * p.1 + 1) * B
    · rw [if_pos h2]
      exact Or.inl ⟨decide_eq_false (by omega), Or.inr rfl⟩
    · rw [if_neg h2]
      exact Or.inr ⟨decide_eq_true (by omega), rfl⟩

theorem gridWalk_count (A B : Nat) : ∀ (fuel : Nat) (p : Nat × Nat), OnSegment A B p →
    p ≠ (A, B) → (A - p.1) + (B - p.2) ≤ fuel →
    (gridWalk A B fuel p).length + ((p :: gridWalk A B fuel p).dropLast).countP (tieAt A B) =
      (A - p.1) + (B - p.2) ∧
    A - p.1 ≤ (gridWalk A B fuel p).length ∧ B - p.2 ≤ (gridWalk A B fuel p).length := by
  intro fuel
  induction fuel with
  | zero =>
    intro p hp hne hfuel
    exfalso
    apply hne
    obtain ⟨h1, h2, _, _⟩ := hp
    ext <;> simp only <;> omega
  | succ fuel ih =>
    intro p hp hne hfuel
    have hs := gridStep_onSegment A B p hp hne
    obtain ⟨hp1, hp2, _, _⟩ := hp
    obtain ⟨hs1, hs2, _, _⟩ := hs
    have hcases := gridStep_cases A B p
    unfold gridWalk
    by_cases hend : gridStep A B p = (A, B)
    · rw [if_pos hend]
      rw [hend] at hcases
      simp only [List.dropLast_cons₂, List.dropLast_single, List.countP_cons, List.countP_nil,
        List.length_singleton]
      rcases hcases with ⟨ht, hc | hc⟩ | ⟨ht, hc⟩ <;> rw [Prod.mk.injEq] at hc <;> rw [ht] <;>
        simp <;> omega
    · rw [if_neg hend]
      have hs' := gridStep_onSegment A B p ⟨hp1, hp2, by assumption, by assumption⟩ hne
      have hm : (A - (gridStep A B p).1) + (B - (gridStep A B p).2) ≤ fuel := by
        have hge := gridStep_ge A B p
        omega
      obtain ⟨ih1, ih2, ih3⟩ := ih (gridStep A B p) hs' hend hm
      simp only [List.dropLast_cons₂, List.countP_cons, List.length_cons] at ih1 ⊢
      rcases hcases with ⟨ht, hc | hc⟩ | ⟨ht, hc⟩ <;> rw [hc] at ih1 ih2 ih3 hs1 hs2 ⊢ <;>
        rw [ht] <;> simp only at ih1 ih2 ih3 hs1 hs2 ⊢ <;> simp <;> omega

theorem gridPath_count (A B : Nat) :
    (gridPath A B).length + ((gridPath A B).dropLast).countP (tieAt A B) = A + B + 1 ∧
    A + 1 ≤ (gridPath A B).length ∧ B + 1 ≤ (gridPath A B).length := by
  unfold gridPath
  by_cases h0 : A = 0 ∧ B = 0
  · rw [if_pos h0, h0.1, h0.2]
    simp
  · rw [if_neg h0]
    have hne : ((0 : Nat), (0 : Nat)) ≠ (A, B) := by
      intro hc
      rw [Prod.mk.injEq] at hc
      omega
    obtain ⟨h1, h2, h3⟩ := gridWalk_count A B (A + B) (0, 0) (onSegment_origin A B (by omega))
      hne (by simp only; omega)
    simp only [List.length_cons, Nat.sub_zero] at h1 h2 h3 ⊢
    omega

theorem mem_dropLast_gridPath (A B : Nat) (hAB : A ≠ 0 ∨ B ≠ 0) (p : Nat × Nat) :
    p ∈ (gridPath A B).dropLast ↔ OnSegment A B p ∧ p ≠ (A, B) := by
  obtain ⟨hlast, hnot⟩ := gridPath_last A B
  have happ := List.dropLast_append_getLast? (A, B) hlast
  constructor
  · intro hp
    refine ⟨(mem_gridPath_iff A B hAB p).1 (List.mem_of_mem_dropLast hp), ?_⟩
    intro hc
    rw [hc] at hp
    exact hnot hp
  · rintro ⟨hseg, hne⟩
    have hmem := (mem_gridPath_iff A B hAB p).2 hseg
    rw [← happ, List.mem_append, List.mem_singleton] at hmem
    rcases hmem with h | h
    · exact h
    · exact absurd h hne

theorem tie_interior (A B : Nat) (p : Nat × Nat) :
    (OnSegment A B p ∧ p ≠ (A, B)) ∧ (2 * p.1 + 1) * B = (2 * p.2 + 1) * A ↔
      p.1 < A ∧ p.2 < B ∧ (2 * p.1 + 1) * B = (2 * p.2 + 1) * A := by
  have e1 : (2 * p.1 + 1) * B = 2 * (p.1 * B) + B := by ring
  have e2 : (2 * p.2 + 1) * A = 2 * (p.2 * A) + A := by ring
  have e3 : 2 * p.1 * B = 2 * (p.1 * B) := Nat.mul_assoc _ _ _
  have e4 : 2 * p.2 * A = 2 * (p.2 * A) := Nat.mul_assoc _ _ _
  constructor
  · rintro ⟨⟨⟨h1, h2, h3, h4⟩, hne⟩, htie⟩
    have hne2 : p.1 ≠ A ∨ p.2 ≠ B := by
      by_contra hc
      push_neg at hc
      exact hne (Prod.ext hc.1 hc.2)
    have m1 : p.1 * B ≤ A * B := Nat.mul_le_mul_right _ h1
    have m2 : p.2 * A ≤ B * A := Nat.mul_le_mul_right _ h2
    have m3 : B * A = A * B := Nat.mul_comm _ _
    refine ⟨?_, ?_, htie⟩
    · by_contra hc
      have hA : p.1 = A := by omega
      have hB : p.2 < B := by omega
      have m4 : (p.2 + 1) * A ≤ B * A := Nat.mul_le_mul_right _ hB
      have m5 : (p.2 + 1) * A = p.2 * A + A := by ring
      rw [hA] at e1 htie
      omega
    · by_contra hc
      have hB : p.2 = B := by omega
      have hA : p.1 < A := by omega
      have m4 : (p.1 + 1) * B ≤ A * B := Nat.mul_le_mul_right _ hA
      have m5 : (p.1 + 1) * B = p.1 * B + B := by ring
      rw [hB] at e2 htie
      omega
  · rintro ⟨h1, h2, htie⟩
    refine ⟨⟨⟨by omega, by omega, ?_, ?_⟩, ?_⟩, htie⟩
    · omega
    · omega
    · intro hc
      rw [hc] at h1
      simp only at h1
      omega

theorem tie_param (a b g i j : Nat) (hg : 0 < g) (ha : 0 < a) (hcop : Nat.Coprime a b) :
    (2 * i + 1) * (g * b) = (2 * j + 1) * (g * a) ↔
      ∃ m, 2 * i + 1 = a * (2 * m + 1) ∧ 2 * j + 1 = b * (2 * m + 1) := by
  constructor
  · intro h
    have h1 : (2 * i + 1) * b = (2 * j + 1) * a := by
      apply Nat.eq_of_mul_eq_mul_left hg
      calc g * ((2 * i + 1) * b) = (2 * i + 1) * (g * b) := by ring
        _ = (2 * j + 1) * (g * a) := h
        _ = g * ((2 * j + 1) * a) := by ring
    have hdvd : a ∣ (2 * i + 1) * b := ⟨2 * j + 1, by rw [h1]; ring⟩
    obtain ⟨k, hk⟩ := hcop.dvd_of_dvd_mul_right hdvd
    have hodd : Odd (a * k) := by
      rw [← hk]
      exact ⟨i, rfl⟩
    obtain ⟨m, hm⟩ := (Nat.odd_mul.1 hodd).2
    refine ⟨m, by rw [hk, hm], ?_⟩
    apply Nat.eq_of_mul_eq_mul_left ha
    calc a * (2 * j + 1) = (2 * j + 1) * a := by ring
      _ = (2 * i + 1) * b := h1.symm
      _ = a * (b * (2 * m + 1)) := by rw [hk, hm]; ring
  · rintro ⟨m, h1, h2⟩
    rw [h1, h2]
    ring

theorem half_odd_injective (a m n : Nat) (ha : 0 < a)
    (h : (a * (2 * m + 1) - 1) / 2 = (a * (2 * n + 1) - 1) / 2) : m = n := by
  by_contra hne
  rcases Nat.lt_or_gt_of_ne hne with hlt | hlt
  · have h1 : a * (2 * m + 1) + 2 * a ≤ a * (2 * n + 1) := by
      have : a * (2 * (m + 1) + 1) ≤ a * (2 * n + 1) := Nat.mul_le_mul_left _ (by omega)
      have e : a * (2 * (m + 1) + 1) = a * (2 * m + 1) + 2 * a := by ring
      omega
    have h2 : 1 ≤ a * (2 * m + 1) := Nat.mul_pos ha (by omega)
    omega
  · have h1 : a * (2 * n + 1) + 2 * a ≤ a * (2 * m + 1) := by
      have : a * (2 * (n + 1) + 1) ≤ a * (2 * m + 1) := Nat.mul_le_mul_left _ (by omega)
      have e : a * (2 * (n + 1) + 1) = a * (2 * n + 1) + 2 * a := by ring
      omega
    have h2 : 1 ≤ a * (2 * n + 1) := Nat.mul_pos ha (by omega)
    omega

/-- The number of pairs of step counts of a traversal, the last apart, at
which `t_max_x = t_max_y`: `gcd(A, B)` when `A / gcd(A, B)` and
`B / gcd(A, B)` are odd, and 0 otherwise. -/
theorem gridPath_ties (A B : Nat) :
    ((gridPath A B).dropLast).countP (tieAt A B) =
      if (A / Nat.gcd A B) % 2 = 1 ∧ (B / Nat.gcd A B) % 2 = 1 then Nat.gcd A B else 0 := by
  by_cases hAB : A ≠ 0 ∨ B ≠ 0
  · have hg : 0 < Nat.gcd A B := by
      rcases hAB with h | h
      · exact Nat.gcd_pos_of_pos_left _ (Nat.pos_of_ne_zero h)
      · exact Nat.gcd_pos_of_pos_right _ (Nat.pos_of_ne_zero h)
    have hcop := Nat.coprime_div_gcd_div_gcd hg
    have hA : A = Nat.gcd A B * (A / Nat.gcd A B) :=
      (Nat.mul_div_cancel' (Nat.gcd_dvd_left A B)).symm
    have hB : B = Nat.gcd A B * (B / Nat.gcd A B) :=
      (Nat.mul_div_cancel' (Nat.gcd_dvd_right A B)).symm
    generalize Nat.gcd A B = g at hg hcop hA hB ⊢
    generalize A / g = a at hcop hA ⊢
    generalize B / g = b at hcop hB ⊢
    have hnodup : (((gridPath A B).dropLast).filter (tieAt A B)).Nodup :=
      ((gridPath_nodup A B).sublist (List.dropLast_sublist _)).filter _
    rw [List.countP_eq_length_filter, ← List.toFinset_card_of_nodup hnodup]
    have hmem : ∀ p : Nat × Nat, p ∈ (((gridPath A B).dropLast).filter (tieAt A B)).toFinset ↔
        p.1 < A ∧ p.2 < B ∧ (2 * p.1 + 1) * B = (2 * p.2 + 1) * A := by
      intro p
      rw [List.mem_toFinset, List.mem_filter, mem_dropLast_gridPath A B hAB, ← tie_interior A B]
      unfold tieAt
      rw [decide_eq_true_eq]
    by_cases hodd : a % 2 = 1 ∧ b % 2 = 1
    · rw [if_pos hodd]
      have ha : 0 < a := by omega
      have himage : (((gridPath A B).dropLast).filter (tieAt A B)).toFinset =
          (Finset.range g).image
            (fun m => ((a * (2 * m + 1) - 1) / 2, (b * (2 * m + 1) - 1) / 2)) := by
        ext p
        rw [hmem p, Finset.mem_image]
        constructor
        · rintro ⟨h1, h2, htie⟩
          rw [hA, hB] at htie
          obtain ⟨m, hm1, hm2⟩ := (tie_param a b g p.1 p.2 hg ha hcop).1 htie
          refine ⟨m, ?_, ?_⟩
          · rw [Finset.mem_range]
            by_contra hc
            have h3 : a * (2 * g) ≤ a * (2 * m + 1) := Nat.mul_le_mul_left _ (by omega)
            have h4 : a * (2 * g) = 2 * (g * a) := by ring
            omega
          · ext <;> simp only <;> omega
        · rintro ⟨m, hm, rfl⟩
          rw [Finset.mem_range] at hm
          simp only
          obtain ⟨u, hu⟩ : ∃ u, a * (2 * m + 1) = 2 * u + 1 := by
            have : Odd (a * (2 * m + 1)) := Nat.odd_mul.2 ⟨Nat.odd_iff.2 hodd.1, ⟨m, rfl⟩⟩
            exact this
          obtain ⟨v, hv⟩ : ∃ v, b * (2 * m + 1) = 2 * v + 1 := by
            have : Odd (b * (2 * m + 1)) := Nat.odd_mul.2 ⟨Nat.odd_iff.2 hodd.2, ⟨m, rfl⟩⟩
            exact this
          have eu : (a * (2 * m + 1) - 1) / 2 = u := by omega
          have ev : (b * (2 * m + 1) - 1) / 2 = v := by omega
          rw [eu, ev]
          have htie : (2 * u + 1) * (g * b) = (2 * v + 1) * (g * a) :=
            (tie_param a b g u v hg ha hcop).2 ⟨m, hu.symm, hv.symm⟩
          have h3 : a * (2 * m + 1) + a ≤ a * (2 * g) := by
            have : a * (2 * (m + 1)) ≤ a * (2 * g) := Nat.mul_le_mul_left _ (by omega)
            have e : a * (2 * (m + 1)) = a * (2 * m + 1) + a := by ring
            omega
          have h4 : a * (2 * g) = 2 * (g * a) := by ring
          have h5 : b * (2 * m + 1) + b ≤ b * (2 * g) := by
            have : b * (2 * (m + 1)) ≤ b * (2 * g) := Nat.mul_le_mul_left _ (by omega)
            have e : b * (2 * (m + 1)) = b * (2 * m + 1) + b := by ring
            omega
          have h6 : b * (2 * g) = 2 * (g * b) := by ring
          rw [← hA, ← hB] at htie
          refine ⟨by omega, by omega, htie⟩
      rw [himage, Finset.card_image_of_injective, Finset.card_range]
      intro m n hmn
      rw [Prod.mk.injEq] at hmn
      exact half_odd_injective a m n ha hmn.1
    · rw [if_neg hodd]
      have hempty : (((gridPath A B).dropLast).filter (tieAt A B)).toFinset = ∅ := by
        ext p
        rw [hmem p]
        simp only [Finset.not_mem_empty, iff_false]
        rintro ⟨h1, h2, htie⟩
        have ha : 0 < a := by
          rcases Nat.eq_zero_or_pos a with h0 | h0
          · rw [h0] at hA
            omega
          · exact h0
        rw [hA, hB] at htie
        obtain ⟨m, hm1, hm2⟩ := (tie_param a b g p.1 p.2 hg ha hcop).1 htie
        have o1 : Odd (a * (2 * m + 1)) := ⟨p.1, hm1.symm⟩
        have o2 : Odd (b * (2 * m + 1)) := ⟨p.2, hm2.symm⟩
        exact hodd ⟨Nat.odd_iff.1 (Nat.odd_mul.1 o1).1, Nat.odd_iff.1 (Nat.odd_mul.1 o2).1⟩
      rw [hempty, Finset.card_empty]
  · have hA : A = 0 := by omega
    have hB : B = 0 := by omega
    subst hA hB
    rfl

/-! ## The steps of a traversal -/

theorem axis_toward (a0 h0 i n : Nat) (hn : n ≤ Nat.dist a0 h0) (hi : i ≤ n)
    (hi1 : n ≤ i + 1) :
    Nat.dist (if a0 < h0 then a0 + i else a0 - i) (if a0 < h0 then a0 + n else a0 - n) ≤ 1 ∧
    Nat.dist (if a0 < h0 then a0 + i else a0 - i) h0 =
      Nat.dist (if a0 < h0 then a0 + i else a0 - i) (if a0 < h0 then a0 + n else a0 - n) +
        Nat.dist (if a0 < h0 then a0 + n else a0 - n) h0 ∧
    ((if a0 < h0 then a0 + i else a0 - i) = (if a0 < h0 then a0 + n else a0 - n) ↔ i = n) := by
  unfold Nat.dist at hn ⊢
  by_cases h1 : a0 < h0
  · simp only [if_pos h1]
    omega
  · simp only [if_neg h1]
    omega

theorem cell_step (tx ty hx hy : Nat) (a1 : 1 ≤ tx) (b1 : 1 ≤ ty) (c1 : 1 ≤ hx) (d1 : 1 ≤ hy)
    (a : Nat × Nat) (hseg : OnSegment (lineExtent tx hx) (lineExtent ty hy) a)
    (hne : a ≠ (lineExtent tx hx, lineExtent ty hy)) :
    StepsToward (hx - 1, hy - 1)
      (cellAt (tx - 1) (ty - 1) (lineStep tx hx) (lineStep ty hy) a)
      (cellAt (tx - 1) (ty - 1) (lineStep tx hx) (lineStep ty hy)
        (gridStep (lineExtent tx hx) (lineExtent ty hy) a)) ∧
    (((cellAt (tx - 1) (ty - 1) (lineStep tx hx) (lineStep ty hy) a).1 ≠
        (cellAt (tx - 1) (ty - 1) (lineStep tx hx) (lineStep ty hy)
          (gridStep (lineExtent tx hx) (lineExtent ty hy) a)).1 ∧
      (cellAt (tx - 1) (ty - 1) (lineStep tx hx) (lineStep ty hy) a).2 ≠
        (cellAt (tx - 1) (ty - 1) (lineStep tx hx) (lineStep ty hy)
          (gridStep (lineExtent tx hx) (lineExtent ty hy) a)).2) ↔
      tieAt (lineExtent tx hx) (lineExtent ty hy) a = true) := by
  have hs := gridStep_onSegment _ _ a hseg hne
  have hcases := gridStep_cases (lineExtent tx hx) (lineExtent ty hy) a
  generalize gridStep (lineExtent tx hx) (lineExtent ty hy) a = b at hs hcases ⊢
  generalize tieAt (lineExtent tx hx) (lineExtent ty hy) a = tie at hcases ⊢
  obtain ⟨hs1, hs2, _, _⟩ := hs
  obtain ⟨ha1, ha2, _, _⟩ := hseg
  unfold StepsToward cellAt
  simp only
  rw [axis_cell tx hx a.1 a1 c1 ha1, axis_cell ty hy a.2 b1 d1 ha2,
    axis_cell tx hx b.1 a1 c1 hs1, axis_cell ty hy b.2 b1 d1 hs2]
  rw [lineExtent_dist tx hx a1 c1] at hs1
  rw [lineExtent_dist ty hy b1 d1] at hs2
  have hrel : (tie = false ∧ ((b.1 = a.1 + 1 ∧ b.2 = a.2) ∨ (b.1 = a.1 ∧ b.2 = a.2 + 1))) ∨
      (tie = true ∧ b.1 = a.1 + 1 ∧ b.2 = a.2 + 1) := by
    rcases hcases with ⟨ht, hc | hc⟩ | ⟨ht, hc⟩
    · rw [hc]
      exact Or.inl ⟨ht, Or.inl ⟨rfl, rfl⟩⟩
    · rw [hc]
      exact Or.inl ⟨ht, Or.inr ⟨rfl, rfl⟩⟩
    · rw [hc]
      exact Or.inr ⟨ht, rfl, rfl⟩
  have hle : a.1 ≤ b.1 ∧ b.1 ≤ a.1 + 1 ∧ a.2 ≤ b.2 ∧ b.2 ≤ a.2 + 1 := by
    rcases hrel with ⟨_, h | h⟩ | ⟨_, h⟩ <;> omega
  obtain ⟨x1, x2, x3⟩ := axis_toward (tx - 1) (hx - 1) a.1 b.1 hs1 hle.1 hle.2.1
  obtain ⟨y1, y2, y3⟩ := axis_toward (ty - 1) (hy - 1) a.2 b.2 hs2 hle.2.2.1 hle.2.2.2
  refine ⟨⟨?_, x1, y1, x2, y2⟩, ?_⟩
  · intro hc
    rw [Prod.mk.injEq] at hc
    have e1 := x3.1 hc.1
    have e2 := y3.1 hc.2
    rcases hrel with ⟨_, h | h⟩ | ⟨_, h⟩ <;> omega
  · constructor
    · rintro ⟨n1, n2⟩
      rcases hrel with ⟨_, h | h⟩ | ⟨ht, _⟩
      · exact absurd (y3.2 h.2.symm) n2
      · exact absurd (x3.2 h.1.symm) n1
      · exact ht
    · intro ht
      rcases hrel with ⟨hf, _⟩ | ⟨_, h⟩
      · rw [hf] at ht
        cases ht
      · exact ⟨fun hc => by have := x3.1 hc; omega, fun hc => by have := y3.1 hc; omega⟩

theorem lineCells_chain (tx ty hx hy : Nat) (a1 : 1 ≤ tx) (b1 : 1 ≤ ty) (c1 : 1 ≤ hx)
    (d1 : 1 ≤ hy) : List.Chain' (StepsToward (hx - 1, hy - 1)) (lineCells tx ty hx hy) := by
  unfold lineCells
  rw [List.chain'_map]
  refine (gridPath_chain _ _).imp ?_
  rintro a b ⟨hseg, hne, rfl⟩
  exact (cell_step tx ty hx hy a1 b1 c1 d1 a hseg hne).1

theorem bothAxesSteps_map (tx ty hx hy : Nat) (a1 : 1 ≤ tx) (b1 : 1 ≤ ty) (c1 : 1 ≤ hx)
    (d1 : 1 ≤ hy) : ∀ l : List (Nat × Nat),
    List.Chain' (fun a b => OnSegment (lineExtent tx hx) (lineExtent ty hy) a ∧
      a ≠ (lineExtent tx hx, lineExtent ty hy) ∧
      b = gridStep (lineExtent tx hx) (lineExtent ty hy) a) l →
    bothAxesSteps (l.map (cellAt (tx - 1) (ty - 1) (lineStep tx hx) (lineStep ty hy))) =
      (l.dropLast).countP (tieAt (lineExtent tx hx) (lineExtent ty hy)) := by
  intro l
  induction l with
  | nil =>
    intro _
    rfl
  | cons a rest ih =>
    intro hchain
    cases rest with
    | nil => rfl
    | cons b rest =>
      rw [List.chain'_cons] at hchain
      obtain ⟨⟨hseg, hne, hb⟩, hrest⟩ := hchain
      have hstep := (cell_step tx ty hx hy a1 b1 c1 d1 a hseg hne).2
      rw [← hb] at hstep
      have ih2 := ih hrest
      simp only [List.map_cons, bothAxesSteps, List.dropLast_cons₂, List.countP_cons] at ih2 ⊢
      rw [ih2]
      by_cases ht : tieAt (lineExtent tx hx) (lineExtent ty hy) a = true
      · rw [if_pos (hstep.2 ht), if_pos ht]
        omega
      · rw [if_neg (fun hc => ht (hstep.1 hc)), if_neg ht]
        omega

/-- The cells of a traversal: there are `A + B + 1` of them less the number
of steps along both axes, and that number is `gcd(A, B)` or 0. -/
theorem lineCells_count (tx ty hx hy : Nat) (a1 : 1 ≤ tx) (b1 : 1 ≤ ty) (c1 : 1 ≤ hx)
    (d1 : 1 ≤ hy) :
    (lineCells tx ty hx hy).length + bothAxesSteps (lineCells tx ty hx hy) =
      lineExtent tx hx + lineExtent ty hy + 1 ∧
    lineExtent tx hx + 1 ≤ (lineCells tx ty hx hy).length ∧
    lineExtent ty hy + 1 ≤ (lineCells tx ty hx hy).length ∧
    bothAxesSteps (lineCells tx ty hx hy) =
      (if (lineExtent tx hx / Nat.gcd (lineExtent tx hx) (lineExtent ty hy)) % 2 = 1 ∧
          (lineExtent ty hy / Nat.gcd (lineExtent tx hx) (lineExtent ty hy)) % 2 = 1
        then Nat.gcd (lineExtent tx hx) (lineExtent ty hy) else 0) := by
  have hb : bothAxesSteps (lineCells tx ty hx hy) =
      ((gridPath (lineExtent tx hx) (lineExtent ty hy)).dropLast).countP
        (tieAt (lineExtent tx hx) (lineExtent ty hy)) :=
    bothAxesSteps_map tx ty hx hy a1 b1 c1 d1 _ (gridPath_chain _ _)
  have hlen : (lineCells tx ty hx hy).length =
      (gridPath (lineExtent tx hx) (lineExtent ty hy)).length := by
    unfold lineCells
    rw [List.length_map]
  obtain ⟨h1, h2, h3⟩ := gridPath_count (lineExtent tx hx) (lineExtent ty hy)
  rw [hb, hlen]
  exact ⟨h1, h2, h3, gridPath_ties _ _⟩

theorem lineCells_nodup (tx ty hx hy : Nat) (a1 : 1 ≤ tx) (b1 : 1 ≤ ty) (c1 : 1 ≤ hx)
    (d1 : 1 ≤ hy) : (lineCells tx ty hx hy).Nodup := by
  unfold lineCells
  refine List.Nodup.map_on ?_ (gridPath_nodup _ _)
  intro p hp q hq hpq
  obtain ⟨hp1, hp2⟩ := gridPath_le _ _ p hp
  obtain ⟨hq1, hq2⟩ := gridPath_le _ _ q hq
  unfold cellAt at hpq
  rw [Prod.mk.injEq, axis_cell tx hx p.1 a1 c1 hp1, axis_cell ty hy p.2 b1 d1 hp2,
    axis_cell tx hx q.1 a1 c1 hq1, axis_cell ty hy q.2 b1 d1 hq2] at hpq
  unfold lineExtent at hp1 hp2 hq1 hq2
  obtain ⟨e1, e2⟩ := hpq
  ext
  · by_cases h1 : tx - 1 < hx - 1
    · rw [if_pos h1, if_pos h1] at e1
      omega
    · rw [if_neg h1, if_neg h1] at e1
      omega
  · by_cases h2 : ty - 1 < hy - 1
    · rw [if_pos h2, if_pos h2] at e2
      omega
    · rw [if_neg h2, if_neg h2] at e2
      omega

/-! ## The number of iterations of the loop of `PlotLine` -/

theorem gridWalk_unfold (A B : Nat) (p : Nat × Nat) (hp : OnSegment A B p) (hne : p ≠ (A, B)) :
    gridWalk A B ((A - p.1) + (B - p.2)) p =
      if gridStep A B p = (A, B) then [gridStep A B p]
      else gridStep A B p ::
        gridWalk A B ((A - (gridStep A B p).1) + (B - (gridStep A B p).2)) (gridStep A B p) := by
  have hs := gridStep_onSegment A B p hp hne
  have hge := gridStep_ge A B p
  obtain ⟨h1, h2, _, _⟩ := hp
  have hpos : 0 < (A - p.1) + (B - p.2) := by
    by_contra hc
    apply hne
    ext <;> simp only <;> omega
  obtain ⟨F, hF⟩ : ∃ F, (A - p.1) + (B - p.2) = F + 1 := ⟨(A - p.1) + (B - p.2) - 1, by omega⟩
  rw [hF]
  show (if gridStep A B p = (A, B) then [gridStep A B p]
    else gridStep A B p :: gridWalk A B F (gridStep A B p)) = _
  by_cases hend : gridStep A B p = (A, B)
  · rw [if_pos hend, if_pos hend]
  · rw [if_neg hend, if_neg hend]
    obtain ⟨hs1, hs2, _, _⟩ := hs
    rw [gridWalk_fuel A B F _ (gridStep A B p) ⟨hs1, hs2, by assumption, by assumption⟩ hend
      (by omega) (le_refl _)]

theorem PlotLineLoop_no_fuel {N a0 b0 : Nat} {sx sy : Int} {A B : Nat}
    (T : Traversal N a0 b0 sx sy A B) (color : Char) :
    ∀ (fuel : Nat) (p : Nat × Nat) (board : Board), OnSegment A B p → p ≠ (A, B) →
      board.IsSquare N → fuel < (gridWalk A B ((A - p.1) + (B - p.2)) p).length →
      PlotLineLoop color (cellAt a0 b0 sx sy (A, B)) ((A : ℚ) ^ 2 + (B : ℚ) ^ 2)
        sx sy (tdeltaAt A) (tdeltaAt B) fuel board (plotStateAt a0 b0 sx sy A B p) =
        .error .no_fuel := by
  intro fuel
  induction fuel with
  | zero =>
    intro p board _ _ _ _
    rfl
  | succ fuel ih =>
    intro p board hp hne hsq hfuel
    have hs := gridStep_onSegment A B p hp hne
    have hlt := cellAt_lt T (gridStep A B p) hs
    obtain ⟨b1, hset, hsq1, _⟩ := SetCell_square N board color
      (cellAt a0 b0 sx sy (gridStep A B p)).1 (cellAt a0 b0 sx sy (gridStep A B p)).2
      hsq hlt.1 hlt.2
    have hstep := PlotLineStep_at T p hp hne
    have hx : (plotStateAt a0 b0 sx sy A B (gridStep A B p)).x =
        (cellAt a0 b0 sx sy (gridStep A B p)).1 := rfl
    have hy : (plotStateAt a0 b0 sx sy A B (gridStep A B p)).y =
        (cellAt a0 b0 sx sy (gridStep A B p)).2 := rfl
    rw [gridWalk_unfold A B p hp hne] at hfuel
    have hend : gridStep A B p ≠ (A, B) := by
      intro hc
      rw [if_pos hc, List.length_singleton] at hfuel
      omega
    rw [if_neg hend, List.length_cons] at hfuel
    have hcond : (cellAt a0 b0 sx sy (A, B)).1 ≠ (cellAt a0 b0 sx sy (gridStep A B p)).1 ∨
        (cellAt a0 b0 sx sy (A, B)).2 ≠ (cellAt a0 b0 sx sy (gridStep A B p)).2 := by
      by_contra hc
      push_neg at hc
      exact hend ((cellAt_eq_head T (gridStep A B p) hs).1 (Prod.ext hc.1.symm hc.2.symm))
    unfold PlotLineLoop
    simp only [hstep, hx, hy, hset]
    rw [if_pos hcond, ih (gridStep A B p) b1 hs hend hsq1 (by omega)]

/-- With fewer iterations than cells after the tail cell, the loop of
`PlotLine` is cut off before the head cell is reached. -/
theorem PlotLine_no_fuel {N tx ty hx hy : Nat} (hN : N < 4294967296)
    (h : OnBoard N tx ty hx hy) (board : Board) (hsq : board.IsSquare N) (color : Char)
    (fuel : Nat) (hfuel : fuel + 1 < (lineCells tx ty hx hy).length) :
    board.PlotLine fuel (ParametricLine.construct tx ty hx hy) color = .error .no_fuel := by
  obtain ⟨⟨a1, a2⟩, ⟨b1, b2⟩, ⟨c1, c2⟩, ⟨d1, d2⟩⟩ := h.inputs hN
  obtain ⟨ftail, fhead, fvec⟩ := construct_fields tx ty hx hy a1 b1 c1 d1 h.tail_x_uint
    h.tail_y_uint h.head_x_uint h.head_y_uint
  obtain ⟨bd0, hset0, hsq0, _⟩ := SetCell_square N board color (tx - 1) (ty - 1) hsq
    (by omega) (by omega)
  have hAB : lineExtent tx hx ≠ 0 ∨ lineExtent ty hy ≠ 0 := by
    by_contra hc
    unfold lineCells gridPath at hfuel
    rw [if_pos (by omega)] at hfuel
    simp at hfuel
  have hv : (hx : ℚ) - (tx : ℚ) ≠ 0 ∨ (hy : ℚ) - (ty : ℚ) ≠ 0 := by
    rcases hAB with h1 | h1
    · exact Or.inl (fun hc => h1 ((axis_zero_iff tx hx).1 hc))
    · exact Or.inr (fun hc => h1 ((axis_zero_iff ty hy).1 hc))
  have T := lineTraversal hN h hAB
  have hne : ((0 : Nat), (0 : Nat)) ≠ (lineExtent tx hx, lineExtent ty hy) := by
    intro hc
    rw [Prod.mk.injEq] at hc
    omega
  have hlen : fuel < (gridWalk (lineExtent tx hx) (lineExtent ty hy)
      ((lineExtent tx hx - ((0 : Nat), (0 : Nat)).1) +
        (lineExtent ty hy - ((0 : Nat), (0 : Nat)).2)) (0, 0)).length := by
    unfold lineCells gridPath at hfuel
    rw [if_neg (by omega), List.length_map, List.length_cons] at hfuel
    simp only [Nat.sub_zero]
    omega
  have hloop := PlotLineLoop_no_fuel T color fuel (0, 0) bd0 (onSegment_origin _ _ hAB) hne
    hsq0 hlen
  have hhead : (hx - 1, hy - 1) = cellAt (tx - 1) (ty - 1) (lineStep tx hx) (lineStep ty hy)
      (lineExtent tx hx, lineExtent ty hy) := by
    unfold cellAt
    simp only
    rw [axis_head tx hx a1 c1, axis_head ty hy b1 d1]
    simp
  have hstate : PlotState.mk (tx - 1) (ty - 1)
      (TValue.scale kCellMidpointX (tdeltaAt (lineExtent tx hx)))
      (TValue.scale kCellMidpointX (tdeltaAt (lineExtent ty hy))) =
      plotStateAt (tx - 1) (ty - 1) (lineStep tx hx) (lineStep ty hy)
        (lineExtent tx hx) (lineExtent ty hy) (0, 0) := by
    unfold plotStateAt
    rw [cellAt_origin, axis_tmax, axis_tmax]
  unfold Board.PlotLine
  simp only [ftail, fhead, fvec, hset0]
  rw [if_pos hv, axis_step, axis_step, axis_delta, axis_delta, axis_sq, axis_sq, hstate,
    hhead, hloop]

theorem PlotLineLoop_exact {N a0 b0 : Nat} {sx sy : Int} {A B : Nat}
    (T : Traversal N a0 b0 sx sy A B) (color : Char) :
    ∀ (fuel : Nat) (p : Nat × Nat) (board : Board), OnSegment A B p → p ≠ (A, B) →
      board.IsSquare N → (gridWalk A B ((A - p.1) + (B - p.2)) p).length ≤ fuel →
      ∀ fuel2, (A - p.1) + (B - p.2) ≤ fuel2 →
        PlotLineLoop color (cellAt a0 b0 sx sy (A, B)) ((A : ℚ) ^ 2 + (B : ℚ) ^ 2)
          sx sy (tdeltaAt A) (tdeltaAt B) fuel board (plotStateAt a0 b0 sx sy A B p) =
        PlotLineLoop color (cellAt a0 b0 sx sy (A, B)) ((A : ℚ) ^ 2 + (B : ℚ) ^ 2)
          sx sy (tdeltaAt A) (tdeltaAt B) fuel2 board (plotStateAt a0 b0 sx sy A B p) := by
  intro fuel
  induction fuel with
  | zero =>
    intro p board hp hne _ hfuel
    exfalso
    rw [gridWalk_unfold A B p hp hne] at hfuel
    by_cases hend : gridStep A B p = (A, B)
    · rw [if_pos hend] at hfuel
      simp at hfuel
    · rw [if_neg hend] at hfuel
      simp at hfuel
  | succ fuel ih =>
    intro p board hp hne hsq hfuel fuel2 hfuel2
    have hs := gridStep_onSegment A B p hp hne
    have hge := gridStep_ge A B p
    have hlt := cellAt_lt T (gridStep A B p) hs
    obtain ⟨b1, hset, hsq1, _⟩ := SetCell_square N board color
      (cellAt a0 b0 sx sy (gridStep A B p)).1 (cellAt a0 b0 sx sy (gridStep A B p)).2
      hsq hlt.1 hlt.2
    have hstep := PlotLineStep_at T p hp hne
    have hx : (plotStateAt a0 b0 sx sy A B (gridStep A B p)).x =
        (cellAt a0 b0 sx sy (gridStep A B p)).1 := rfl
    have hy : (plotStateAt a0 b0 sx sy A B (gridStep A B p)).y =
        (cellAt a0 b0 sx sy (gridStep A B p)).2 := rfl
    have hpos : 0 < (A - p.1) + (B - p.2) := by
      obtain ⟨h1, h2, _, _⟩ := hp
      by_contra hc
      apply hne
      ext <;> simp only <;> omega
    obtain ⟨F, hF⟩ : ∃ F, fuel2 = F + 1 := ⟨fuel2 - 1, by omega⟩
    subst hF
    rw [gridWalk_unfold A B p hp hne] at hfuel
    unfold PlotLineLoop
    simp only [hstep, hx, hy, hset]
    by_cases hcond : (cellAt a0 b0 sx sy (A, B)).1 ≠ (cellAt a0 b0 sx sy (gridStep A B p)).1 ∨
        (cellAt a0 b0 sx sy (A, B)).2 ≠ (cellAt a0 b0 sx sy (gridStep A B p)).2
    · have hend : gridStep A B p ≠ (A, B) := by
        intro hc
        rw [hc] at hcond
        rcases hcond with h | h <;> exact h rfl
      rw [if_neg hend, List.length_cons] at hfuel
      obtain ⟨hs1, hs2, _, _⟩ := hs
      rw [if_pos hcond, if_pos hcond,
        ih (gridStep A B p) b1 ⟨hs1, hs2, by assumption, by assumption⟩ hend hsq1 (by omega) F
          (by omega)]
    · rw [if_neg hcond, if_neg hcond]

/-- `PlotLine` for a move on the board returns as soon as the fuel is the
number of cells after the tail cell. -/
theorem PlotLine_exact_fuel {N tx ty hx hy : Nat} (hN : N < 4294967296)
    (h : OnBoard N tx ty hx hy) (board : Board) (hsq : board.IsSquare N) (color : Char)
    (fuel : Nat) (hfuel : (lineCells tx ty hx hy).length ≤ fuel + 1) :
    board.PlotLine fuel (ParametricLine.construct tx ty hx hy) color =
      board.PlotLine (lineExtent tx hx + lineExtent ty hy)
        (ParametricLine.construct tx ty hx hy) color := by
  obtain ⟨⟨a1, a2⟩, ⟨b1, b2⟩, ⟨c1, c2⟩, ⟨d1, d2⟩⟩ := h.inputs hN
  obtain ⟨ftail, fhead, fvec⟩ := construct_fields tx ty hx hy a1 b1 c1 d1 h.tail_x_uint
    h.tail_y_uint h.head_x_uint h.head_y_uint
  obtain ⟨bd0, hset0, hsq0, _⟩ := SetCell_square N board color (tx - 1) (ty - 1) hsq
    (by omega) (by omega)
  by_cases hAB : lineExtent tx hx ≠ 0 ∨ lineExtent ty hy ≠ 0
  · have hv : (hx : ℚ) - (tx : ℚ) ≠ 0 ∨ (hy : ℚ) - (ty : ℚ) ≠ 0 := by
      rcases hAB with h1 | h1
      · exact Or.inl (fun hc => h1 ((axis_zero_iff tx hx).1 hc))
      · exact Or.inr (fun hc => h1 ((axis_zero_iff ty hy).1 hc))
    have T := lineTraversal hN h hAB
    have hne : ((0 : Nat), (0 : Nat)) ≠ (lineExtent tx hx, lineExtent ty hy) := by
      intro hc
      rw [Prod.mk.injEq] at hc
      omega
    have hlen : (gridWalk (lineExtent tx hx) (lineExtent ty hy)
        ((lineExtent tx hx - ((0 : Nat), (0 : Nat)).1) +
          (lineExtent ty hy - ((0 : Nat), (0 : Nat)).2)) (0, 0)).length ≤ fuel := by
      unfold lineCells gridPath at hfuel
      rw [if_neg (by omega), List.length_map, List.length_cons] at hfuel
      simp only [Nat.sub_zero]
      omega
    have hloop := PlotLineLoop_exact T color fuel (0, 0) bd0 (onSegment_origin _ _ hAB) hne
      hsq0 hlen (lineExtent tx hx + lineExtent ty hy) (by simp only; omega)
    have hhead : (hx - 1, hy - 1) = cellAt (tx - 1) (ty - 1) (lineStep tx hx) (lineStep ty hy)
        (lineExtent tx hx, lineExtent ty hy) := by
      unfold cellAt
      simp only
      rw [axis_head tx hx a1 c1, axis_head ty hy b1 d1]
      simp
    have hstate : PlotState.mk (tx - 1) (ty - 1)
        (TValue.scale kCellMidpointX (tdeltaAt (lineExtent tx hx)))
        (TValue.scale kCellMidpointX (tdeltaAt (lineExtent ty hy))) =
        plotStateAt (tx - 1) (ty - 1) (lineStep tx hx) (lineStep ty hy)
          (lineExtent tx hx) (lineExtent ty hy) (0, 0) := by
      unfold plotStateAt
      rw [cellAt_origin, axis_tmax, axis_tmax]
    unfold Board.PlotLine
    simp only [ftail, fhead, fvec, hset0]
    rw [if_pos hv, if_pos hv, axis_step, axis_step, axis_delta, axis_delta, axis_sq, axis_sq,
      hstate, hhead, hloop]
  · have hv : ¬ ((hx : ℚ) - (tx : ℚ) ≠ 0 ∨ (hy : ℚ) - (ty : ℚ) ≠ 0) := by
      rintro (h1 | h1)
      · exact hAB (Or.inl (fun hc => h1 ((axis_zero_iff tx hx).2 hc)))
      · exact hAB (Or.inr (fun hc => h1 ((axis_zero_iff ty hy).2 hc)))
    unfold Board.PlotLine
    simp only [ftail, fhead, fvec, hset0]
    rw [if_neg hv, if_neg hv]

theorem chain'_getElem? {α : Type} (R : α → α → Prop) : ∀ (l : List α), List.Chain' R l →
    ∀ (k : Nat) (a b : α), l[k]? = some a → l[k + 1]? = some b → R a b := by
  intro l
  induction l with
  | nil =>
    intro _ k a b ha _
    simp at ha
  | cons x rest ih =>
    intro hchain k a b ha hb
    cases rest with
    | nil => simp at hb
    | cons y rest =>
      rw [List.chain'_cons] at hchain
      cases k with
      | zero =>
        simp only [List.getElem?_cons_zero, List.getElem?_cons_succ, Option.some.injEq] at ha hb
        rw [← ha, ← hb]
        exact hchain.1
      | succ k =>
        rw [List.getElem?_cons_succ] at ha hb
        exact ih hchain.2 k a b ha hb

/-- C28: in the traversal of a move on a board of width `N`, `cells` being the
cells passed to `SetCell` in order (the tail cell, then one cell for each
iteration of the loop), every step from a cell to the next changes the row,
the column or both by one unit toward the head cell; it is never a step away
from the head and never a step to the same cell.  No cell is visited twice.
The loop makes `cells.length - 1` iterations (`PlotLine` returns when its loop
is given that many iterations and is cut off with fewer), a number between
`max(|dr|, |dc|)` and `|dr| + |dc|`. -/
theorem PlotLine_steps_toward_head (N tx ty hx hy : Nat) (hN : N < 4294967296)
    (hmove : OnBoard N tx ty hx hy) (board : Board) (hsq : board.IsSquare N) (color : Char)
    (tail head : Nat × Nat)
    (htail : (ParametricLine.construct tx ty hx hy).tail_cell_ = tail)
    (hhead : (ParametricLine.construct tx ty hx hy).head_cell_ = head) :
    ∃ board1 cells,
      (∀ fuel, cells.length - 1 ≤ fuel →
        board.PlotLine fuel (ParametricLine.construct tx ty hx hy) color =
          .ok (board1, cells)) ∧
      (∀ fuel, fuel < cells.length - 1 →
        board.PlotLine fuel (ParametricLine.construct tx ty hx hy) color =
          .error .no_fuel) ∧
      (∀ (k : Nat) (c n : Nat × Nat), cells[k]? = some c → cells[k + 1]? = some n →
        StepsToward head c n) ∧
      cells.Nodup ∧
      max (Nat.dist tail.1 head.1) (Nat.dist tail.2 head.2) ≤ cells.length - 1 ∧
      cells.length - 1 ≤ Nat.dist tail.1 head.1 + Nat.dist tail.2 head.2 := by
  obtain ⟨⟨a1, a2⟩, ⟨b1, b2⟩, ⟨c1, c2⟩, ⟨d1, d2⟩⟩ := hmove.inputs hN
  obtain ⟨ftail, fhead, _⟩ := construct_fields tx ty hx hy a1 b1 c1 d1 hmove.tail_x_uint
    hmove.tail_y_uint hmove.head_x_uint hmove.head_y_uint
  obtain ⟨board1, hplot, _, _⟩ := PlotLine_on_board hN hmove board hsq color
    (lineExtent tx hx + lineExtent ty hy) (le_refl _)
  obtain ⟨hcount, hA, hB, _⟩ := lineCells_count tx ty hx hy a1 b1 c1 d1
  rw [ftail] at htail
  rw [fhead] at hhead
  subst htail hhead
  simp only
  rw [← lineExtent_dist tx hx a1 c1, ← lineExtent_dist ty hy b1 d1]
  refine ⟨board1, lineCells tx ty hx hy, ?_, ?_, ?_, lineCells_nodup tx ty hx hy a1 b1 c1 d1,
    ?_, ?_⟩
  · intro fuel hfuel
    rw [PlotLine_exact_fuel hN hmove board hsq color fuel (by omega), hplot]
  · intro fuel hfuel
    exact PlotLine_no_fuel hN hmove board hsq color fuel (by omega)
  · exact chain'_getElem? _ _ (lineCells_chain tx ty hx hy a1 b1 c1 d1)
  · rw [max_le_iff]
    omega
  · omega

/-- C28, at the move `1 1 3 4` on the empty board of width 5: the loop makes 5
iterations, it returns with the fuel 5 and is cut off with the fuel 4. -/
theorem PlotLine_steps_toward_head_witness :
    (∃ board1 cells,
      (∀ fuel, cells.length - 1 ≤ fuel →
        (Board.empty.CreateGrid 5).PlotLine fuel (ParametricLine.construct 1 1 3 4) 'X' =
          .ok (board1, cells)) ∧
      (∀ fuel, fuel < cells.length - 1 →
        (Board.empty.CreateGrid 5).PlotLine fuel (ParametricLine.construct 1 1 3 4) 'X' =
          .error .no_fuel) ∧
      (∀ (k : Nat) (c n : Nat × Nat), cells[k]? = some c → cells[k + 1]? = some n →
        StepsToward (2, 3) c n) ∧
      cells.Nodup ∧
      max (Nat.dist ((0, 0) : Nat × Nat).1 ((2, 3) : Nat × Nat).1)
        (Nat.dist ((0, 0) : Nat × Nat).2 ((2, 3) : Nat × Nat).2) ≤ cells.length - 1 ∧
      cells.length - 1 ≤ Nat.dist ((0, 0) : Nat × Nat).1 ((2, 3) : Nat × Nat).1 +
        Nat.dist ((0, 0) : Nat × Nat).2 ((2, 3) : Nat × Nat).2) ∧
    ((Board.empty.CreateGrid 5).PlotLine 5 (ParametricLine.construct 1 1 3 4) 'X').toOption.map
      Prod.snd = some [(0, 0), (0, 1), (1, 1), (1, 2), (2, 2), (2, 3)] ∧
    (Board.empty.CreateGrid 5).PlotLine 4 (ParametricLine.construct 1 1 3 4) 'X' =
      .error .no_fuel :=
  ⟨PlotLine_steps_toward_head 5 1 1 3 4 (by decide)
    ⟨by decide, by decide, by decide, by decide, by decide, by decide, by decide, by decide⟩
    (Board.empty.CreateGrid 5) (CreateGrid_square 5) 'X' (0, 0) (2, 3) (by decide) (by decide),
    by decide!, by decide!⟩

/-! ## The number of cells of a move -/

/-- C26: for a move on a board of width `N` whose tail and head cells are
`dr` rows and `dc` columns apart, with `g = gcd(dr, dc)`: the cells that
`PlotLine` colours are distinct, and when `dr / g` and `dc / g` are both odd
there are `dr + dc + 1 - g` of them and `g` steps change the row and the column
together; otherwise there are `dr + dc + 1` of them and no step changes both. -/
theorem PlotLine_cell_count (N tx ty hx hy : Nat) (hN : N < 4294967296)
    (hmove : OnBoard N tx ty hx hy) (board : Board) (hsq : board.IsSquare N) (color : Char)
    (fuel : Nat) (hfuel : 2 * N ≤ fuel) (tail head : Nat × Nat)
    (htail : (ParametricLine.construct tx ty hx hy).tail_cell_ = tail)
    (hhead : (ParametricLine.construct tx ty hx hy).head_cell_ = head)
    (dr dc : Nat) (hdr : Nat.dist tail.1 head.1 = dr) (hdc : Nat.dist tail.2 head.2 = dc) :
    ∃ board1 cells,
      board.PlotLine fuel (ParametricLine.construct tx ty hx hy) color = .ok (board1, cells) ∧
      cells.Nodup ∧ cells.toFinset.card = cells.length ∧
      ((dr / Nat.gcd dr dc) % 2 = 1 ∧ (dc / Nat.gcd dr dc) % 2 = 1 →
        cells.length = dr + dc + 1 - Nat.gcd dr dc ∧ bothAxesSteps cells = Nat.gcd dr dc) ∧
      (¬ ((dr / Nat.gcd dr dc) % 2 = 1 ∧ (dc / Nat.gcd dr dc) % 2 = 1) →
        cells.length = dr + dc + 1 ∧ bothAxesSteps cells = 0) := by
  obtain ⟨⟨a1, a2⟩, ⟨b1, b2⟩, ⟨c1, c2⟩, ⟨d1, d2⟩⟩ := hmove.inputs hN
  obtain ⟨ftail, fhead, _⟩ := construct_fields tx ty hx hy a1 b1 c1 d1 hmove.tail_x_uint
    hmove.tail_y_uint hmove.head_x_uint hmove.head_y_uint
  obtain ⟨board1, hplot, _, _⟩ := PlotLine_on_board hN hmove board hsq color fuel
    (hmove.fuel_bound hN fuel hfuel)
  obtain ⟨hcount, _, _, hboth⟩ := lineCells_count tx ty hx hy a1 b1 c1 d1
  have hnodup := lineCells_nodup tx ty hx hy a1 b1 c1 d1
  rw [ftail] at htail
  rw [fhead] at hhead
  subst htail hhead
  simp only at hdr hdc
  rw [lineExtent_dist tx hx a1 c1, lineExtent_dist ty hy b1 d1, hdr, hdc] at hcount hboth
  refine ⟨board1, lineCells tx ty hx hy, hplot, hnodup, List.toFinset_card_of_nodup hnodup,
    ?_, ?_⟩
  · intro hodd
    rw [if_pos hodd] at hboth
    exact ⟨by omega, hboth⟩
  · intro hodd
    rw [if_neg hodd] at hboth
    exact ⟨by omega, hboth⟩

/-- C26, at the move `1 1 2 4` on the empty board of width 4 (`dr = 1`,
`dc = 3`, `g = 1`): four cells, and one step along both axes. -/
theorem PlotLine_cell_count_witness :
    (∃ board1 cells,
      (Board.empty.CreateGrid 4).PlotLine 8 (ParametricLine.construct 1 1 2 4) 'X' =
        .ok (board1, cells) ∧
      cells.Nodup ∧ cells.toFinset.card = cells.length ∧
      ((1 / Nat.gcd 1 3) % 2 = 1 ∧ (3 / Nat.gcd 1 3) % 2 = 1 →
        cells.length = 1 + 3 + 1 - Nat.gcd 1 3 ∧ bothAxesSteps cells = Nat.gcd 1 3) ∧
      (¬ ((1 / Nat.gcd 1 3) % 2 = 1 ∧ (3 / Nat.gcd 1 3) % 2 = 1) →
        cells.length = 1 + 3 + 1 ∧ bothAxesSteps cells = 0)) ∧
    ((Board.empty.CreateGrid 4).PlotLine 8 (ParametricLine.construct 1 1 2 4) 'X').toOption.map
      Prod.snd = some [(0, 0), (0, 1), (1, 2), (1, 3)] ∧
    bothAxesSteps [(0, 0), (0, 1), (1, 2), (1, 3)] = 1 :=
  ⟨PlotLine_cell_count 4 1 1 2 4 (by decide)
    ⟨by decide, by decide, by decide, by decide, by decide, by decide, by decide, by decide⟩
    (Board.empty.CreateGrid 4) (CreateGrid_square 4) 'X' 8 (by decide) (0, 0) (1, 3)
    (by decide) (by decide) 1 3 (by decide) (by decide), by decide!, by decide⟩

/-! ## The boards reached by `Play` -/

theorem count_set_le (a color : Char) (hne : color ≠ a) : ∀ (l : List Char) (i : Nat),
    List.count a (l.set i color) ≤ List.count a l := by
  intro l
  induction l with
  | nil =>
    intro i
    simp
  | cons x rest ih =>
    intro i
    cases i with
    | zero =>
      rw [List.set_cons_zero, List.count_cons, List.count_cons]
      have : (color == a) = false := by simpa using hne
      rw [this]
      simp
    | succ i =>
      rw [List.set_cons_succ, List.count_cons, List.count_cons]
      have := ih i
      omega

theorem sum_map_set_le {α : Type} (f : α → Nat) : ∀ (l : List α) (i : Nat) (x : α),
    (∀ old, l[i]? = some old → f x ≤ f old) → ((l.set i x).map f).sum ≤ (l.map f).sum := by
  intro l
  induction l with
  | nil =>
    intro i x _
    simp
  | cons y rest ih =>
    intro i x h
    cases i with
    | zero =>
      have := h y (List.getElem?_cons_zero)
      simp only [List.set_cons_zero, List.map_cons, List.sum_cons]
      omega
    | succ i =>
      have := ih i x (fun old hold => h old (by rw [List.getElem?_cons_succ]; exact hold))
      simp only [List.set_cons_succ, List.map_cons, List.sum_cons]
      omega

theorem colouredFrom_refl (b : Board) : b.ColouredFrom b :=
  ⟨fun _ h => h, fun _ _ => Or.inl rfl, le_refl _⟩

theorem colouredFrom_trans {b b1 b2 : Board} (h1 : b.ColouredFrom b1)
    (h2 : b1.ColouredFrom b2) : b.ColouredFrom b2 := by
  refine ⟨fun N h => h2.1 N (h1.1 N h), ?_, le_trans h2.2.2 h1.2.2⟩
  intro r c
  rcases h2.2.1 r c with h | h | h
  · rw [h]
    exact h1.2.1 r c
  · exact Or.inr (Or.inl h)
  · exact Or.inr (Or.inr h)

theorem SetCell_colouredFrom (b b1 : Board) (color : Char) (r c : Nat)
    (hcolor : color = kBlackCell ∨ color = kWhiteCell) (h : b.SetCell color r c = .ok b1) :
    b.ColouredFrom b1 := by
  unfold Board.SetCell at h
  cases hrow : b.grid_[r]? with
  | none =>
    rw [hrow] at h
    cases h
  | some row =>
    rw [hrow] at h
    simp only at h
    by_cases hc : c < row.length
    · rw [if_pos hc, Except.ok.injEq] at h
      subst h
      have hne : color ≠ kEmptyCell := by
        rcases hcolor with h | h <;> rw [h] <;> decide
      refine ⟨?_, ?_, ?_⟩
      · rintro N ⟨hlen, hrows⟩
        refine ⟨by simp only [List.length_set]; exact hlen, ?_⟩
        intro row1 hmem
        rcases List.mem_or_eq_of_mem_set hmem with h | h
        · exact hrows row1 h
        · rw [h, List.length_set]
          exact hrows row (List.mem_iff_getElem?.2 ⟨r, hrow⟩)
      · intro r1 c1
        unfold Board.GetCell
        simp only [List.getElem?_set]
        by_cases h1 : r = r1
        · subst h1
          have hr2 : r < b.grid_.length := by
            by_contra hcon
            rw [List.getElem?_eq_none (by omega)] at hrow
            cases hrow
          simp only [if_true, if_pos hr2, hrow, List.getElem?_set]
          by_cases h2 : c = c1
          · subst h2
            simp only [if_true, if_pos hc]
            rcases hcolor with h | h
            · exact Or.inr (Or.inl (by rw [h]))
            · exact Or.inr (Or.inr (by rw [h]))
          · simp only [if_neg h2]
            exact Or.inl trivial
        · simp only [if_neg h1]
          exact Or.inl trivial
      · unfold Board.CellCount
        refine sum_map_set_le _ _ _ _ ?_
        intro old hold
        rw [hrow, Option.some.injEq] at hold
        rw [← hold]
        exact count_set_le kEmptyCell color hne row c
    · rw [if_neg hc] at h
      cases h

theorem PlotLineLoop_colouredFrom (color : Char)
    (hcolor : color = kBlackCell ∨ color = kWhiteCell) (line_head_cell : Nat × Nat)
    (norm_sq : ℚ) (x_step y_step : Int) (t_delta_x t_delta_y : TValue) :
    ∀ (fuel : Nat) (board : Board) (s : PlotState) (board1 : Board) (cells : List (Nat × Nat)),
      PlotLineLoop color line_head_cell norm_sq x_step y_step t_delta_x t_delta_y fuel board s =
        .ok (board1, cells) → board.ColouredFrom board1 := by
  intro fuel
  induction fuel with
  | zero =>
    intro board s board1 cells h
    cases h
  | succ fuel ih =>
    intro board s board1 cells h
    unfold PlotLineLoop at h
    simp only at h
    split at h
    · cases h
    · rename_i b1 hset
      have hstep := SetCell_colouredFrom board b1 color _ _ hcolor hset
      split at h
      · split at h
        · cases h
        · rename_i b2 cells2 hloop
          rw [Except.ok.injEq, Prod.mk.injEq] at h
          rw [← h.1]
          exact colouredFrom_trans hstep (ih b1 _ b2 cells2 hloop)
      · rw [Except.ok.injEq, Prod.mk.injEq] at h
        rw [← h.1]
        exact hstep

theorem PlotLine_colouredFrom (fuel : Nat) (board board1 : Board) (line : ParametricLine)
    (color : Char) (hcolor : color = kBlackCell ∨ color = kWhiteCell)
    (cells : List (Nat × Nat)) (h : board.PlotLine fuel line color = .ok (board1, cells)) :
    board.ColouredFrom board1 := by
  unfold Board.PlotLine at h
  simp only at h
  split at h
  · cases h
  · rename_i b0 hset
    have hstep := SetCell_colouredFrom board b0 color _ _ hcolor hset
    split at h
    · split at h
      · cases h
      · rename_i b2 cells2 hloop
        rw [Except.ok.injEq, Prod.mk.injEq] at h
        rw [← h.1]
        exact colouredFrom_trans hstep
          (PlotLineLoop_colouredFrom color hcolor _ _ _ _ _ _ _ _ _ _ _ hloop)
    · rw [Except.ok.injEq, Prod.mk.injEq] at h
      rw [← h.1]
      exact hstep

theorem CurrColor_cases (k : Nat) :
    Game.CurrColor k = kBlackCell ∨ Game.CurrColor k = kWhiteCell := by
  unfold Game.CurrColor
  by_cases h : k % 2 = 0
  · rw [if_pos h]
    exact Or.inl rfl
  · rw [if_neg h]
    exact Or.inr rfl

theorem PlayIteration_colouredFrom (fuel : Nat) (g g1 : Game) (k : Nat)
    (h : Game.PlayIteration fuel g k = .ok g1) : g.board_.ColouredFrom g1.board_ := by
  unfold Game.PlayIteration at h
  simp only [] at h
  split at h
  · cases h
  · split at h
    · cases h
    · split at h
      · cases h
      · rename_i board cells hplot
        cases h
        exact PlotLine_colouredFrom fuel _ _ _ _ (CurrColor_cases k) cells hplot
  · cases h
    exact colouredFrom_refl _

theorem PlayLoop_colouredFrom (fuel : Nat) : ∀ (n : Nat) (g g1 : Game) (k : Nat),
    Game.PlayLoop fuel n g k = .ok g1 → g.board_.ColouredFrom g1.board_ := by
  intro n
  induction n with
  | zero =>
    intro g g1 k h
    cases h
    exact colouredFrom_refl _
  | succ n ih =>
    intro g g1 k h
    unfold Game.PlayLoop at h
    split at h
    · cases h
    · rename_i g2 hg2
      exact colouredFrom_trans (PlayIteration_colouredFrom fuel g g2 k hg2) (ih g2 g1 (k + 1) h)

theorem CreateGrid_getCell_ok (width r c : Nat) (cell : Char)
    (h : (Board.empty.CreateGrid width).GetCell r c = .ok cell) : cell = kEmptyCell := by
  unfold Board.GetCell at h
  rw [CreateGrid_grid] at h
  simp only [List.getElem?_replicate] at h
  by_cases hr : r < width
  · rw [if_pos hr] at h
    simp only [List.getElem?_replicate] at h
    by_cases hc : c < width
    · rw [if_pos hc, Except.ok.injEq] at h
      exact h.symm
    · rw [if_neg hc] at h
      cases h
  · rw [if_neg hr] at h
    cases h

theorem count_add_count_le (a b : Char) (hab : a ≠ b) : ∀ l : List Char,
    List.count a l + List.count b l ≤ l.length := by
  intro l
  induction l with
  | nil => simp
  | cons x rest ih =>
    rw [List.count_cons, List.count_cons, List.length_cons]
    simp only [beq_iff_eq]
    split_ifs with h1 h2
    · exact absurd (h1.symm.trans h2) hab
    · omega
    · omega
    · omega

theorem cellCount_le (N : Nat) (a b : Char) (hab : a ≠ b) : ∀ grid : List (List Char),
    (∀ row ∈ grid, row.length = N) →
    (grid.map (List.count a)).sum + (grid.map (List.count b)).sum ≤ grid.length * N := by
  intro grid
  induction grid with
  | nil =>
    intro _
    simp
  | cons row rest ih =>
    intro h
    have h1 := count_add_count_le a b hab row
    have h2 := ih (fun r hr => h r (List.mem_cons_of_mem _ hr))
    have h3 := h row (List.mem_cons_self _ _)
    simp only [List.map_cons, List.sum_cons, List.length_cons]
    have e : (rest.length + 1) * N = rest.length * N + N := by ring
    omega

theorem CountColor_black_white_le (N : Nat) (b : Board) (hsq : b.IsSquare N) :
    b.CountColor kBlackCell + b.CountColor kWhiteCell ≤ N * N := by
  rw [CountColor_eq, CountColor_eq]
  have h := cellCount_le N kBlackCell kWhiteCell (by decide) b.grid_ hsq.2
  rw [hsq.1] at h
  have h1 := Nat.mod_le ((b.grid_.map (List.count kBlackCell)).sum) kUIntSize
  have h2 := Nat.mod_le ((b.grid_.map (List.count kWhiteCell)).sum) kUIntSize
  omega

/-- C29: in a run of `Play` from the all-empty board of width `N`, after any
number `k` of iterations of its loop the board is `N` rows of `N` cells, every
cell is one of `'.'`, `'X'`, `'O'`, and `CountColor('X') + CountColor('O')` is
at most `N * N`.  From that board to the board after the next iteration, a
cell that holds `'X'` or `'O'` still holds one of the two (it does not go back
to `'.'`) and the number of empty cells does not increase. -/
theorem Play_cells_never_emptied (N fuel : Nat) (g : Game)
    (hboard : g.board_ = Board.empty.CreateGrid N) (k : Nat) (gk : Game)
    (hk : Game.PlayLoop fuel k g 0 = .ok gk) :
    gk.board_.IsSquare N ∧
    (∀ r c cell, gk.board_.GetCell r c = .ok cell → cell = '.' ∨ cell = 'X' ∨ cell = 'O') ∧
    gk.board_.CountColor 'X' + gk.board_.CountColor 'O' ≤ N * N ∧
    ∀ gk1, Game.PlayLoop fuel (k + 1) g 0 = .ok gk1 →
      (∀ r c, gk.board_.GetCell r c = .ok 'X' ∨ gk.board_.GetCell r c = .ok 'O' →
        gk1.board_.GetCell r c = .ok 'X' ∨ gk1.board_.GetCell r c = .ok 'O') ∧
      gk1.board_.CellCount '.' ≤ gk.board_.CellCount '.' := by
  have hfrom := PlayLoop_colouredFrom fuel k g gk 0 hk
  rw [hboard] at hfrom
  have hsq := hfrom.1 N (CreateGrid_square N)
  refine ⟨hsq, ?_, CountColor_black_white_le N gk.board_ hsq, ?_⟩
  · intro r c cell hcell
    rcases hfrom.2.1 r c with h | h | h
    · rw [hcell] at h
      exact Or.inl (CreateGrid_getCell_ok N r c cell h.symm)
    · rw [hcell, Except.ok.injEq] at h
      exact Or.inr (Or.inl h)
    · rw [hcell, Except.ok.injEq] at h
      exact Or.inr (Or.inr h)
  · intro gk1 hk1
    rw [PlayLoop_add fuel k 1 g 0, hk] at hk1
    have hnext := PlayLoop_colouredFrom fuel 1 gk gk1 (0 + k) hk1
    refine ⟨?_, hnext.2.2⟩
    intro r c hcell
    rcases hnext.2.1 r c with h | h | h
    · rw [h]
      exact hcell
    · exact Or.inl h
    · exact Or.inr h

/-- C29, in the game of width 3 with the plays `1 1 1 2`, `1 1 2 1` (invalid)
and `3 1 2 3`: the board after two iterations has two cells `'X'`, the board
after three has four more. -/
theorem Play_cells_never_emptied_witness :
    (({ gameSkippedTurn with
        board_ := { grid_ := [['X', 'X', '.'], ['.', '.', '.'], ['.', '.', '.']] } } :
        Game).board_.IsSquare 3 ∧
    (∀ r c cell, ({ gameSkippedTurn with
        board_ := { grid_ := [['X', 'X', '.'], ['.', '.', '.'], ['.', '.', '.']] } } :
        Game).board_.GetCell r c = .ok cell → cell = '.' ∨ cell = 'X' ∨ cell = 'O') ∧
    ({ gameSkippedTurn with
        board_ := { grid_ := [['X', 'X', '.'], ['.', '.', '.'], ['.', '.', '.']] } } :
        Game).board_.CountColor 'X' +
      ({ gameSkippedTurn with
        board_ := { grid_ := [['X', 'X', '.'], ['.', '.', '.'], ['.', '.', '.']] } } :
        Game).board_.CountColor 'O' ≤ 3 * 3 ∧
    ∀ gk1, Game.PlayLoop 6 (2 + 1) gameSkippedTurn 0 = .ok gk1 →
      (∀ r c, ({ gameSkippedTurn with
          board_ := { grid_ := [['X', 'X', '.'], ['.', '.', '.'], ['.', '.', '.']] } } :
          Game).board_.GetCell r c = .ok 'X' ∨
        ({ gameSkippedTurn with
          board_ := { grid_ := [['X', 'X', '.'], ['.', '.', '.'], ['.', '.', '.']] } } :
          Game).board_.GetCell r c = .ok 'O' →
        gk1.board_.GetCell r c = .ok 'X' ∨ gk1.board_.GetCell r c = .ok 'O') ∧
      gk1.board_.CellCount '.' ≤ ({ gameSkippedTurn with
        board_ := { grid_ := [['X', 'X', '.'], ['.', '.', '.'], ['.', '.', '.']] } } :
        Game).board_.CellCount '.') ∧
    Game.PlayLoop 6 2 gameSkippedTurn 0 = .ok { gameSkippedTurn with
      board_ := { grid_ := [['X', 'X', '.'], ['.', '.', '.'], ['.', '.', '.']] } } ∧
    Game.PlayLoop 6 3 gameSkippedTurn 0 = .ok { gameSkippedTurn with
      board_ := { grid_ := [['X', 'X', '.'], ['.', 'X', 'X'], ['X', 'X', '.']] } } :=
  ⟨Play_cells_never_emptied 3 6 gameSkippedTurn rfl 2
    { gameSkippedTurn with
      board_ := { grid_ := [['X', 'X', '.'], ['.', '.', '.'], ['.', '.', '.']] } } (by decide!),
    by decide!, by decide!⟩

/-! ## Loading the plays -/

theorem ReadPlays_cons (a b c d : Nat) (rest : List (Option Nat)) :
    Game.ReadPlays (some a :: some b :: some c :: some d :: rest) =
      (a, b, c, d) :: Game.ReadPlays rest := by
  rw [Game.ReadPlays]

theorem ReadPlays_tokens : ∀ (s : List (Option Nat)) (k : Nat) (p : Nat × Nat × Nat × Nat),
    (Game.ReadPlays s)[k]? = some p →
      s[4 * k]? = some (some p.1) ∧ s[4 * k + 1]? = some (some p.2.1) ∧
      s[4 * k + 2]? = some (some p.2.2.1) ∧ s[4 * k + 3]? = some (some p.2.2.2) := by
  intro s
  induction s using Game.ReadPlays.induct with
  | case1 a b c d rest ih =>
    intro k p h
    rw [ReadPlays_cons] at h
    cases k with
    | zero =>
      simp at h
      subst h
      simp
    | succ k =>
      rw [List.getElem?_cons_succ] at h
      obtain ⟨h1, h2, h3, h4⟩ := ih k p h
      rw [show 4 * (k + 1) = 4 * k + 1 + 1 + 1 + 1 by ring]
      simp only [List.getElem?_cons_succ]
      exact ⟨h1, h2, h3, h4⟩
  | case2 s hs =>
    intro k p h
    rw [Game.ReadPlays] at h
    · simp at h
    · exact hs

theorem ReadPlays_stop : ∀ (s : List (Option Nat)) (a b c d : Nat),
    ¬ (s[4 * (Game.ReadPlays s).length]? = some (some a) ∧
      s[4 * (Game.ReadPlays s).length + 1]? = some (some b) ∧
      s[4 * (Game.ReadPlays s).length + 2]? = some (some c) ∧
      s[4 * (Game.ReadPlays s).length + 3]? = some (some d)) := by
  intro s
  induction s using Game.ReadPlays.induct with
  | case1 a0 b0 c0 d0 rest ih =>
    intro a b c d h
    rw [ReadPlays_cons, List.length_cons,
      show 4 * ((Game.ReadPlays rest).length + 1) =
        4 * (Game.ReadPlays rest).length + 1 + 1 + 1 + 1 by ring] at h
    simp only [List.getElem?_cons_succ] at h
    exact ih a b c d h
  | case2 s hs =>
    intro a b c d h
    rw [Game.ReadPlays] at h
    · simp only [List.length_nil, Nat.mul_zero, Nat.zero_add] at h
      obtain ⟨h0, h1, h2, h3⟩ := h
      match s, hs, h0, h1, h2, h3 with
      | [], _, h0, _, _, _ => simp at h0
      | [_], _, _, h1, _, _ => simp at h1
      | [_, _], _, _, _, h2, _ => simp at h2
      | [_, _, _], _, _, _, _, h3 => simp at h3
      | x0 :: x1 :: x2 :: x3 :: rest, hs, h0, h1, h2, h3 =>
        simp only [List.getElem?_cons_zero, List.getElem?_cons_succ, Option.some.injEq]
          at h0 h1 h2 h3
        subst h0 h1 h2 h3
        exact hs a b c d rest rfl
    · exact hs

theorem ReadPlays_lines (s : List (Option Nat)) : ∀ good : List (Nat × Nat × Nat × Nat),
    Game.ReadPlays
      ((good.map (fun q => [some q.1, some q.2.1, some q.2.2.1, some q.2.2.2])).flatten ++ s) =
      good ++ Game.ReadPlays s := by
  intro good
  induction good with
  | nil => rfl
  | cons q rest ih =>
    simp only [List.map_cons, List.flatten_cons, List.cons_append, List.nil_append,
      List.append_assoc]
    rw [ReadPlays_cons, ih]

/-- C24, the claim fails: the plays are not read line by line.  The two lines
`1 1` and `2 2`, neither of them four integers, load the play `1 1 2 2`; and
after the line `1 1 1 2` the lines `3` and `1 2 3` load a second play
`3 1 2 3` instead of ending the loading. -/
theorem Load_plays_counterexample :
    (Game.Load 3 1 [[some 1, some 1], [some 2, some 2]]).plays_ =
      [ParametricLine.construct 1 1 2 2] ∧
    (Game.Load 3 1 [[some 1, some 1, some 1, some 2], [some 3], [some 1, some 2, some 3]]).plays_ =
      [ParametricLine.construct 1 1 1 2, ParametricLine.construct 3 1 2 3] := by
  decide!

/-- C24, amended: the constructor builds the list of plays from the tokens
that follow the first two integers, one play for every four consecutive
integers, whatever the line breaks, in the order of the input (the play `k` is
made of the tokens `4 k`, ..., `4 k + 3`).  It stops at the first group of four
tokens that are not four integers: at the end of the input, at a token that is
not an integer, or at a last group of fewer than four integers, which is
dropped.  When the input is lines of four integers each, followed by nothing
or by text that begins with such a group, the plays are these lines, one play
for each line.  `Play` does not change the list of plays. -/
theorem Load_plays_in_input_order (board_width prev_plays_checked : Nat)
    (lines : List (List (Option Nat))) :
    (Game.Load board_width prev_plays_checked lines).plays_ =
      (Game.ReadPlays lines.flatten).map
        (fun p => ParametricLine.construct p.1 p.2.1 p.2.2.1 p.2.2.2) ∧
    (∀ (k : Nat) (p : Nat × Nat × Nat × Nat), (Game.ReadPlays lines.flatten)[k]? = some p →
      lines.flatten[4 * k]? = some (some p.1) ∧ lines.flatten[4 * k + 1]? = some (some p.2.1) ∧
      lines.flatten[4 * k + 2]? = some (some p.2.2.1) ∧
      lines.flatten[4 * k + 3]? = some (some p.2.2.2)) ∧
    (∀ a b c d : Nat,
      ¬ (lines.flatten[4 * (Game.ReadPlays lines.flatten).length]? = some (some a) ∧
        lines.flatten[4 * (Game.ReadPlays lines.flatten).length + 1]? = some (some b) ∧
        lines.flatten[4 * (Game.ReadPlays lines.flatten).length + 2]? = some (some c) ∧
        lines.flatten[4 * (Game.ReadPlays lines.flatten).length + 3]? = some (some d))) ∧
    (∀ (good : List (Nat × Nat × Nat × Nat)) (rest : List (List (Option Nat))),
      lines = good.map (fun q => [some q.1, some q.2.1, some q.2.2.1, some q.2.2.2]) ++ rest →
      Game.ReadPlays rest.flatten = [] →
      (Game.Load board_width prev_plays_checked lines).plays_ =
        good.map (fun p => ParametricLine.construct p.1 p.2.1 p.2.2.1 p.2.2.2)) ∧
    (∀ (fuel : Nat) (g1 : Game),
      (Game.Load board_width prev_plays_checked lines).Play fuel = .ok g1 →
      g1.plays_ = (Game.Load board_width prev_plays_checked lines).plays_) := by
  refine ⟨rfl, ReadPlays_tokens _, ReadPlays_stop _, ?_, ?_⟩
  · intro good rest hlines hrest
    unfold Game.Load Game.construct
    simp only
    rw [hlines, List.flatten_append, ReadPlays_lines, hrest, List.append_nil]
  · intro fuel g1 h
    exact (PlayLoop_plays fuel _ _ g1 0 h).1

/-- C24, amended, on the lines `1 1 1 2`, `3 1 2 3`, `x`: two plays, one for
each of the first two lines. -/
theorem Load_plays_in_input_order_witness :
    ((Game.Load 3 1 inputTwoPlays).plays_ =
      (Game.ReadPlays inputTwoPlays.flatten).map
        (fun p => ParametricLine.construct p.1 p.2.1 p.2.2.1 p.2.2.2) ∧
    (∀ (k : Nat) (p : Nat × Nat × Nat × Nat),
      (Game.ReadPlays inputTwoPlays.flatten)[k]? = some p →
      inputTwoPlays.flatten[4 * k]? = some (some p.1) ∧
      inputTwoPlays.flatten[4 * k + 1]? = some (some p.2.1) ∧
      inputTwoPlays.flatten[4 * k + 2]? = some (some p.2.2.1) ∧
      inputTwoPlays.flatten[4 * k + 3]? = some (some p.2.2.2)) ∧
    (∀ a b c d : Nat,
      ¬ (inputTwoPlays.flatten[4 * (Game.ReadPlays inputTwoPlays.flatten).length]? = some (some a) ∧
        inputTwoPlays.flatten[4 * (Game.ReadPlays inputTwoPlays.flatten).length + 1]? = some (some b) ∧
        inputTwoPlays.flatten[4 * (Game.ReadPlays inputTwoPlays.flatten).length + 2]? = some (some c) ∧
        inputTwoPlays.flatten[4 * (Game.ReadPlays inputTwoPlays.flatten).length + 3]? = some (some d))) ∧
    (∀ (good : List (Nat × Nat × Nat × Nat)) (rest : List (List (Option Nat))),
      inputTwoPlays =
        good.map (fun q => [some q.1, some q.2.1, some q.2.2.1, some q.2.2.2]) ++ rest →
      Game.ReadPlays rest.flatten = [] →
      (Game.Load 3 1 inputTwoPlays).plays_ =
        good.map (fun p => ParametricLine.construct p.1 p.2.1 p.2.2.1 p.2.2.2)) ∧
    (∀ (fuel : Nat) (g1 : Game),
      (Game.Load 3 1 inputTwoPlays).Play fuel = .ok g1 →
      g1.plays_ = (Game.Load 3 1 inputTwoPlays).plays_)) ∧
    (Game.Load 3 1 inputTwoPlays).plays_ =
      [ParametricLine.construct 1 1 1 2, ParametricLine.construct 3 1 2 3] :=
  ⟨Load_plays_in_input_order 3 1 inputTwoPlays, by decide!⟩

/-! ## The tolerance of the comparisons -/

theorem tmaxAt_less (A B i j : Nat) (hAB : A ≠ 0 ∨ B ≠ 0) :
    ((tmaxAt A i).Less (tmaxAt B j) ↔ (2 * i + 1) * B < (2 * j + 1) * A) ∧
    (tmaxAt A i = tmaxAt B j ↔ (2 * i + 1) * B = (2 * j + 1) * A) := by
  unfold tmaxAt
  by_cases hA : A = 0
  · have hB : B ≠ 0 := by omega
    have hB2 : 0 < B := Nat.pos_of_ne_zero hB
    rw [if_pos hA, if_neg hB, hA]
    simp only [TValue.Less, Nat.mul_zero, Nat.not_lt_zero, false_iff, not_false_eq_true,
      true_and]
    constructor
    · intro h
      cases h
    · intro h
      have : 0 < (2 * i + 1) * B := Nat.mul_pos (by omega) hB2
      omega
  · have hA2 : (0 : ℚ) < (A : ℚ) := by exact_mod_cast Nat.pos_of_ne_zero hA
    by_cases hB : B = 0
    · rw [if_neg hA, if_pos hB, hB]
      simp only [TValue.Less, Nat.mul_zero, true_iff]
      constructor
      · exact Nat.mul_pos (by omega) (Nat.pos_of_ne_zero hA)
      · constructor
        · intro h
          cases h
        · intro h
          have : 0 < (2 * j + 1) * A := Nat.mul_pos (by omega) (Nat.pos_of_ne_zero hA)
          omega
    · have hB2 : (0 : ℚ) < (B : ℚ) := by exact_mod_cast Nat.pos_of_ne_zero hB
      rw [if_neg hA, if_neg hB]
      simp only [TValue.Less, TValue.finite.injEq]
      constructor
      · rw [div_lt_div_iff₀ (by linarith) (by linarith)]
        constructor
        · intro h
          have h2 : ((2 * i + 1 : Nat) : ℚ) * (B : ℚ) < ((2 * j + 1 : Nat) : ℚ) * (A : ℚ) := by
            push_cast
            linarith
          exact_mod_cast h2
        · intro h
          have h2 : ((2 * i + 1 : Nat) : ℚ) * (B : ℚ) < ((2 * j + 1 : Nat) : ℚ) * (A : ℚ) := by
            exact_mod_cast h
          push_cast at h2
          linarith
      · rw [div_eq_div_iff (by linarith) (by linarith)]
        constructor
        · intro h
          have h2 : ((2 * i + 1 : Nat) : ℚ) * (B : ℚ) = ((2 * j + 1 : Nat) : ℚ) * (A : ℚ) := by
            push_cast
            linarith
          exact_mod_cast h2
        · intro h
          have h2 : ((2 * i + 1 : Nat) : ℚ) * (B : ℚ) = ((2 * j + 1 : Nat) : ℚ) * (A : ℚ) := by
            exact_mod_cast h
          push_cast at h2
          linarith

/-- The tests of `PlotLine` at the step counts `(i, j)`: with the tolerance
they are the exact comparisons of `t_max_x` and `t_max_y`. -/
theorem tolerance_exact_at (A B i j : Nat) (hAB : A ≠ 0 ∨ B ≠ 0) (hA32 : A < 4294967296)
    (hB32 : B < 4294967296) :
    (TValue.ltMinusTol ((A : ℚ) ^ 2 + (B : ℚ) ^ 2) (tmaxAt A i) (tmaxAt B j) = true ↔
      (tmaxAt A i).Less (tmaxAt B j)) ∧
    (TValue.gtPlusTol ((A : ℚ) ^ 2 + (B : ℚ) ^ 2) (tmaxAt A i) (tmaxAt B j) = true ↔
      (tmaxAt B j).Less (tmaxAt A i)) ∧
    ((TValue.ltMinusTol ((A : ℚ) ^ 2 + (B : ℚ) ^ 2) (tmaxAt A i) (tmaxAt B j) = false ∧
      TValue.gtPlusTol ((A : ℚ) ^ 2 + (B : ℚ) ^ 2) (tmaxAt A i) (tmaxAt B j) = false) ↔
      tmaxAt A i = tmaxAt B j) := by
  obtain ⟨l1, e1⟩ := tmaxAt_less A B i j hAB
  obtain ⟨l2, _⟩ := tmaxAt_less B A j i (by omega)
  rw [ltMinusTol_at A B i j hAB hA32, gtPlusTol_at A B i j hAB hB32, l1, l2, e1]
  simp only [decide_eq_true_eq, decide_eq_false_iff_not]
  refine ⟨trivial, trivial, ?_⟩
  omega

theorem PlotLineStateAt_path {N tx ty hx hy : Nat} (hN : N < 4294967296)
    (h : OnBoard N tx ty hx hy) : ∀ (k : Nat) (p : Nat × Nat),
    (gridPath (lineExtent tx hx) (lineExtent ty hy))[k]? = some p →
    PlotLineStateAt (ParametricLine.construct tx ty hx hy) k =
      plotStateAt (tx - 1) (ty - 1) (lineStep tx hx) (lineStep ty hy)
        (lineExtent tx hx) (lineExtent ty hy) p := by
  obtain ⟨⟨a1, a2⟩, ⟨b1, b2⟩, ⟨c1, c2⟩, ⟨d1, d2⟩⟩ := h.inputs hN
  obtain ⟨ftail, fhead, fvec⟩ := construct_fields tx ty hx hy a1 b1 c1 d1 h.tail_x_uint
    h.tail_y_uint h.head_x_uint h.head_y_uint
  intro k
  induction k with
  | zero =>
    intro p hp
    have h0 : (gridPath (lineExtent tx hx) (lineExtent ty hy))[0]? = some (0, 0) := by
      unfold gridPath
      rw [List.getElem?_cons_zero]
    rw [h0, Option.some.injEq] at hp
    subst hp
    unfold PlotLineStateAt plotStateAt
    simp only [ftail, fvec]
    rw [cellAt_origin, axis_delta, axis_delta, axis_tmax, axis_tmax]
  | succ k ih =>
    intro q hq
    have hlen : k + 1 < (gridPath (lineExtent tx hx) (lineExtent ty hy)).length := by
      by_contra hc
      rw [List.getElem?_eq_none (by omega)] at hq
      cases hq
    have hk : k < (gridPath (lineExtent tx hx) (lineExtent ty hy)).length := by omega
    have hp := List.getElem?_eq_getElem hk
    obtain ⟨hseg, hne, hstep⟩ := chain'_getElem? _ _ (gridPath_chain _ _) k _ q hp hq
    have hAB : lineExtent tx hx ≠ 0 ∨ lineExtent ty hy ≠ 0 := by
      by_contra hc
      unfold gridPath at hlen
      rw [if_pos (by omega)] at hlen
      simp at hlen
    have T := lineTraversal hN h hAB
    rw [hstep]
    unfold PlotLineStateAt
    rw [ih _ hp]
    unfold PlotLineStepOf
    simp only [fvec]
    rw [axis_step, axis_step, axis_delta, axis_delta, axis_sq, axis_sq]
    exact PlotLineStep_at T _ hseg hne

/-- C30: for a move on a board of width `N < 2^32`, `cells` being the cells
passed to `SetCell`, the loop variables after `k` iterations are
`PlotLineStateAt line k` (its cell is `cells[k]`).  At every state from which
the loop takes a step, the test `t_max_x < t_max_y - tolerance` holds exactly
when `t_max_x < t_max_y`, the test `t_max_x > t_max_y + tolerance` holds
exactly when `t_max_x > t_max_y`, and the both-axes branch is taken exactly
when `t_max_x = t_max_y`; two finite values that differ, differ by more than
the tolerance.  An axis whose direction component is 0 is never stepped. -/
theorem PlotLine_tolerance_is_exact (N tx ty hx hy : Nat) (hN : N < 4294967296)
    (hmove : OnBoard N tx ty hx hy) (board : Board) (hsq : board.IsSquare N) (color : Char)
    (fuel : Nat) (hfuel : 2 * N ≤ fuel) (line : ParametricLine)
    (hline : line = ParametricLine.construct tx ty hx hy) :
    ∃ board1 cells,
      board.PlotLine fuel line color = .ok (board1, cells) ∧
      (∀ k, k < cells.length →
        cells[k]? = some ((PlotLineStateAt line k).x, (PlotLineStateAt line k).y)) ∧
      (∀ (k : Nat) (s : PlotState), k + 1 < cells.length → s = PlotLineStateAt line k →
        (TValue.ltMinusTol (line.vector_.1 ^ 2 + line.vector_.2 ^ 2) s.t_max_x s.t_max_y = true ↔
          s.t_max_x.Less s.t_max_y) ∧
        (TValue.gtPlusTol (line.vector_.1 ^ 2 + line.vector_.2 ^ 2) s.t_max_x s.t_max_y = true ↔
          s.t_max_y.Less s.t_max_x) ∧
        ((TValue.ltMinusTol (line.vector_.1 ^ 2 + line.vector_.2 ^ 2) s.t_max_x s.t_max_y =
            false ∧
          TValue.gtPlusTol (line.vector_.1 ^ 2 + line.vector_.2 ^ 2) s.t_max_x s.t_max_y =
            false) ↔ s.t_max_x = s.t_max_y) ∧
        (∀ p q : ℚ, s.t_max_x = TValue.finite p → s.t_max_y = TValue.finite q → p ≠ q →
          kFloatErrorTolerance ^ 2 < (p - q) ^ 2 * (line.vector_.1 ^ 2 + line.vector_.2 ^ 2))) ∧
      (line.vector_.1 = 0 → ∀ k, k < cells.length →
        (PlotLineStateAt line k).x = line.tail_cell_.1) ∧
      (line.vector_.2 = 0 → ∀ k, k < cells.length →
        (PlotLineStateAt line k).y = line.tail_cell_.2) := by
  subst hline
  obtain ⟨⟨a1, a2⟩, ⟨b1, b2⟩, ⟨c1, c2⟩, ⟨d1, d2⟩⟩ := hmove.inputs hN
  obtain ⟨ftail, fhead, fvec⟩ := construct_fields tx ty hx hy a1 b1 c1 d1 hmove.tail_x_uint
    hmove.tail_y_uint hmove.head_x_uint hmove.head_y_uint
  obtain ⟨board1, hplot, _, _⟩ := PlotLine_on_board hN hmove board hsq color fuel
    (hmove.fuel_bound hN fuel hfuel)
  have hlen : (lineCells tx ty hx hy).length =
      (gridPath (lineExtent tx hx) (lineExtent ty hy)).length := by
    unfold lineCells
    rw [List.length_map]
  have hstate : ∀ k, k < (lineCells tx ty hx hy).length →
      ∃ p, (gridPath (lineExtent tx hx) (lineExtent ty hy))[k]? = some p ∧
        p ∈ gridPath (lineExtent tx hx) (lineExtent ty hy) ∧
        PlotLineStateAt (ParametricLine.construct tx ty hx hy) k =
          plotStateAt (tx - 1) (ty - 1) (lineStep tx hx) (lineStep ty hy)
            (lineExtent tx hx) (lineExtent ty hy) p := by
    intro k hk
    have hk2 : k < (gridPath (lineExtent tx hx) (lineExtent ty hy)).length := by omega
    exact ⟨_, List.getElem?_eq_getElem hk2, List.getElem_mem hk2,
      PlotLineStateAt_path hN hmove k _ (List.getElem?_eq_getElem hk2)⟩
  rw [fvec, ftail]
  simp only
  refine ⟨board1, lineCells tx ty hx hy, hplot, ?_, ?_, ?_, ?_⟩
  · intro k hk
    obtain ⟨p, hp, _, hs⟩ := hstate k hk
    rw [hs]
    unfold lineCells
    rw [List.getElem?_map, hp]
    rfl
  · intro k s hk hs
    obtain ⟨p, hp, _, hsp⟩ := hstate k (by omega)
    have hAB : lineExtent tx hx ≠ 0 ∨ lineExtent ty hy ≠ 0 := by
      by_contra hc
      unfold gridPath at hlen
      rw [if_pos (by omega)] at hlen
      simp at hlen
      omega
    have T := lineTraversal hN hmove hAB
    obtain ⟨hA32, hB32⟩ := T.extent_lt
    obtain ⟨t1, t2, t3⟩ := tolerance_exact_at (lineExtent tx hx) (lineExtent ty hy) p.1 p.2
      hAB hA32 hB32
    rw [hs, hsp, axis_sq, axis_sq]
    simp only [plotStateAt]
    refine ⟨t1, t2, t3, ?_⟩
    intro u v hu hv huv
    rw [hu, hv] at t1 t2
    rcases lt_or_gt_of_ne huv with hlt | hgt
    · have h1 := t1.2 hlt
      unfold TValue.ltMinusTol at h1
      rw [decide_eq_true_eq] at h1
      have e : (u - v) ^ 2 = (v - u) ^ 2 := by ring
      rw [e]
      exact h1.2
    · have h1 := t2.2 hgt
      unfold TValue.gtPlusTol at h1
      rw [decide_eq_true_eq] at h1
      exact h1.2
  · intro hzero k hk
    obtain ⟨p, _, hmem, hsp⟩ := hstate k hk
    have hA : lineExtent tx hx = 0 := (axis_zero_iff tx hx).1 hzero
    have hp1 := (gridPath_le _ _ p hmem).1
    rw [hsp]
    simp only [plotStateAt, cellAt]
    rw [show p.1 = 0 by omega]
    simp
  · intro hzero k hk
    obtain ⟨p, _, hmem, hsp⟩ := hstate k hk
    have hB : lineExtent ty hy = 0 := (axis_zero_iff ty hy).1 hzero
    have hp2 := (gridPath_le _ _ p hmem).2
    rw [hsp]
    simp only [plotStateAt, cellAt]
    rw [show p.2 = 0 by omega]
    simp

/-- C30, at the move `1 1 2 4` on the empty board of width 4: after one
iteration `t_max_x = t_max_y = 1/2 ‖v‖`, neither test with the tolerance holds
and the loop steps along both axes, from the cell `(0, 1)` to the cell
`(1, 2)`. -/
theorem PlotLine_tolerance_is_exact_witness :
    (∃ board1 cells,
      (Board.empty.CreateGrid 4).PlotLine 8 (ParametricLine.construct 1 1 2 4) 'X' =
        .ok (board1, cells) ∧
      (∀ k, k < cells.length →
        cells[k]? = some ((PlotLineStateAt (ParametricLine.construct 1 1 2 4) k).x,
          (PlotLineStateAt (ParametricLine.construct 1 1 2 4) k).y)) ∧
      (∀ (k : Nat) (s : PlotState), k + 1 < cells.length →
        s = PlotLineStateAt (ParametricLine.construct 1 1 2 4) k →
        (TValue.ltMinusTol ((ParametricLine.construct 1 1 2 4).vector_.1 ^ 2 +
            (ParametricLine.construct 1 1 2 4).vector_.2 ^ 2) s.t_max_x s.t_max_y = true ↔
          s.t_max_x.Less s.t_max_y) ∧
        (TValue.gtPlusTol ((ParametricLine.construct 1 1 2 4).vector_.1 ^ 2 +
            (ParametricLine.construct 1 1 2 4).vector_.2 ^ 2) s.t_max_x s.t_max_y = true ↔
          s.t_max_y.Less s.t_max_x) ∧
        ((TValue.ltMinusTol ((ParametricLine.construct 1 1 2 4).vector_.1 ^ 2 +
            (ParametricLine.construct 1 1 2 4).vector_.2 ^ 2) s.t_max_x s.t_max_y = false ∧
          TValue.gtPlusTol ((ParametricLine.construct 1 1 2 4).vector_.1 ^ 2 +
            (ParametricLine.construct 1 1 2 4).vector_.2 ^ 2) s.t_max_x s.t_max_y = false) ↔
          s.t_max_x = s.t_max_y) ∧
        (∀ p q : ℚ, s.t_max_x = TValue.finite p → s.t_max_y = TValue.finite q → p ≠ q →
          kFloatErrorTolerance ^ 2 < (p - q) ^ 2 *
            ((ParametricLine.construct 1 1 2 4).vector_.1 ^ 2 +
              (ParametricLine.construct 1 1 2 4).vector_.2 ^ 2))) ∧
      ((ParametricLine.construct 1 1 2 4).vector_.1 = 0 → ∀ k, k < cells.length →
        (PlotLineStateAt (ParametricLine.construct 1 1 2 4) k).x =
          (ParametricLine.construct 1 1 2 4).tail_cell_.1) ∧
      ((ParametricLine.construct 1 1 2 4).vector_.2 = 0 → ∀ k, k < cells.length →
        (PlotLineStateAt (ParametricLine.construct 1 1 2 4) k).y =
          (ParametricLine.construct 1 1 2 4).tail_cell_.2)) ∧
    PlotLineStateAt (ParametricLine.construct 1 1 2 4) 0 =
      { x := 0, y := 0, t_max_x := TValue.finite (1 / 2), t_max_y := TValue.finite (1 / 6) } ∧
    PlotLineStateAt (ParametricLine.construct 1 1 2 4) 1 =
      { x := 0, y := 1, t_max_x := TValue.finite (1 / 2), t_max_y := TValue.finite (1 / 2) } ∧
    PlotLineStateAt (ParametricLine.construct 1 1 2 4) 2 =
      { x := 1, y := 2, t_max_x := TValue.finite (3 / 2), t_max_y := TValue.finite (5 / 6) } ∧
    TValue.ltMinusTol 10 (TValue.finite (1 / 2)) (TValue.finite (1 / 2)) = false ∧
    TValue.gtPlusTol 10 (TValue.finite (1 / 2)) (TValue.finite (1 / 2)) = false :=
  ⟨PlotLine_tolerance_is_exact 4 1 1 2 4 (by decide)
    ⟨by decide, by decide, by decide, by decide, by decide, by decide, by decide, by decide⟩
    (Board.empty.CreateGrid 4) (CreateGrid_square 4) 'X' 8 (by decide)
    (ParametricLine.construct 1 1 2 4) rfl, by decide!, by decide!, by decide!, by decide!,
    by decide!⟩

end LinearDomination
